import Mathlib

/-!
# RAM migration stream (migration/ram_xbzrle.c): a shallow embedding

Machine integers are natural numbers, reduced modulo a power of two where the
source truncates.  A byte stream is a list of naturals below 256.  A
`RAMBlock *` is the index of the block in the RAM list (`none` is NULL); a host
pointer is a natural number (0 is NULL) into one flat host memory.
-/

namespace Migration

/-! ## Constants -/

/-- Modelled from the spec: `TARGET_PAGE_BITS` comes from the target's cpu.h, which
is not part of the sources; the spec fixes the target page at 4 KiB. -/
def TARGET_PAGE_BITS : Nat := 12

/-- Modelled from the spec: `TARGET_PAGE_SIZE`, the smallest transmission unit (4 KiB). -/
def TARGET_PAGE_SIZE : Nat := 4096

/-- Modelled from the spec: `TARGET_PAGE_MASK` is `~(TARGET_PAGE_SIZE - 1)` as a 64-bit word. -/
def TARGET_PAGE_MASK : Nat := 2 ^ 64 - 4096

/-- Complement of `TARGET_PAGE_MASK` within a 64-bit word, written `~TARGET_PAGE_MASK` in the source. -/
def NOT_TARGET_PAGE_MASK : Nat := 4095

def RAM_SAVE_FLAG_FULL : Nat := 0x01
def RAM_SAVE_FLAG_ZERO : Nat := 0x02
def RAM_SAVE_FLAG_MEM_SIZE : Nat := 0x04
def RAM_SAVE_FLAG_PAGE : Nat := 0x08
def RAM_SAVE_FLAG_EOS : Nat := 0x10
def RAM_SAVE_FLAG_CONTINUE : Nat := 0x20
def RAM_SAVE_FLAG_XBZRLE : Nat := 0x40
/-- Flag 0x80 is reserved in migration.h for the control hook. -/
def RAM_SAVE_FLAG_HOOK : Nat := 0x80
def RAM_SAVE_FLAG_COMPRESS_PAGE : Nat := 0x100

def ENCODING_FLAG_XBZRLE : Nat := 0x1

/-- Value of errno `EINVAL`. -/
def EINVAL : Int := 22

/-- Value of errno EIO. -/
def EIO_CODE : Int := 5

/-! ## Transport (QEMUFile) -/

/-- Modelled from the spec: the transport (qemu-file.c) is not part of the sources.  A
byte sink/source with an error flag: `buf` holds the bytes written so far (when the
file is written) or the bytes still to be read (when it is read). -/
structure QEMUFile where
  buf : List Nat
  last_error : Int

/-- The eight bytes of a 64-bit word, most significant first. -/
def be64_bytes (v : Nat) : List Nat :=
  [v / 2 ^ 56 % 256, v / 2 ^ 48 % 256, v / 2 ^ 40 % 256, v / 2 ^ 32 % 256,
   v / 2 ^ 24 % 256, v / 2 ^ 16 % 256, v / 2 ^ 8 % 256, v % 256]

/-- Modelled from the spec: `qemu_put_byte` appends the low eight bits of its argument. -/
def qemu_put_byte (f : QEMUFile) (v : Nat) : QEMUFile :=
  { f with buf := f.buf ++ [v % 256] }

/-- Modelled from the spec: `qemu_put_be64` appends the word big-endian. -/
def qemu_put_be64 (f : QEMUFile) (v : Nat) : QEMUFile :=
  { f with buf := f.buf ++ be64_bytes v }

/-- Modelled from the spec: `qemu_put_buffer` appends the given bytes. -/
def qemu_put_buffer (f : QEMUFile) (bytes : List Nat) : QEMUFile :=
  { f with buf := f.buf ++ bytes }

/-- Modelled from the spec: `qemu_file_get_error`. -/
def qemu_file_get_error (f : QEMUFile) : Int := f.last_error

/-- Modelled from the spec: `qemu_file_set_error` keeps the first error. -/
def qemu_file_set_error (f : QEMUFile) (e : Int) : QEMUFile :=
  if f.last_error = 0 then { f with last_error := e } else f

/-- Modelled from the spec: `qemu_get_byte` returns the next byte; at the end of the
stream it returns 0 and flags the error EIO. -/
def qemu_get_byte (f : QEMUFile) : Nat × QEMUFile :=
  match f.buf with
  | [] => (0, qemu_file_set_error f (-EIO_CODE))
  | b :: rest => (b, { f with buf := rest })

/-- Modelled from the spec: `qemu_get_buffer` reads up to `size` bytes; a short read
flags the error EIO. -/
def qemu_get_buffer (f : QEMUFile) (size : Nat) : List Nat × QEMUFile :=
  let got := f.buf.take size
  let f1 : QEMUFile := { f with buf := f.buf.drop size }
  (got, if got.length < size then qemu_file_set_error f1 (-EIO_CODE) else f1)

/-- Big-endian value of a byte list. -/
def be_value (bytes : List Nat) : Nat :=
  bytes.foldl (fun acc b => acc * 256 + b) 0

/-- Modelled from the spec: reads `n` bytes big-endian, missing bytes reading as 0. -/
def qemu_get_be (f : QEMUFile) (n : Nat) : Nat × QEMUFile :=
  let r := qemu_get_buffer f n
  (be_value (r.1 ++ List.replicate (n - r.1.length) 0), r.2)

/-- Modelled from the spec: `qemu_get_be64`. -/
def qemu_get_be64 (f : QEMUFile) : Nat × QEMUFile := qemu_get_be f 8

/-- Modelled from the spec: `qemu_get_be32`. -/
def qemu_get_be32 (f : QEMUFile) : Nat × QEMUFile := qemu_get_be f 4

/-- Modelled from the spec: `qemu_get_be16`. -/
def qemu_get_be16 (f : QEMUFile) : Nat × QEMUFile := qemu_get_be f 2

/-! ## Data model -/

/-- A RAM block (`RAMBlock`): the fields the migration code reads.  `idstr` is the
C string without its terminator, `host` the host address of the first byte (0 is
NULL), `unsentmap` is `none` when the pointer is NULL. -/
structure RAMBlock where
  idstr : List Nat
  host : Nat
  offset : Nat
  used_length : Nat
  max_length : Nat
  page_size : Nat
  migratable : Bool
  bmap : Nat → Bool
  unsentmap : Option (Nat → Bool)
  receivedmap : Nat → Bool

/-- An outstanding page request (`RAMSrcPageRequest`). -/
structure RAMSrcPageRequest where
  rb : Nat
  offset : Nat
  len : Nat

/-- State of RAM for migration (`RAMState`), without its mutexes. -/
structure RAMState where
  f : QEMUFile
  last_seen_block : Option Nat
  last_sent_block : Option Nat
  last_page : Nat
  last_version : Nat
  ram_bulk_stage : Bool
  dirty_rate_high_cnt : Int
  time_last_bitmap_sync : Int
  bytes_xfer_prev : Nat
  num_dirty_pages_period : Nat
  xbzrle_cache_miss_prev : Nat
  iterations_prev : Nat
  iterations : Nat
  migration_dirty_pages : Nat
  last_req_rb : Option Nat
  src_page_requests : List RAMSrcPageRequest

/-- The id string of the block a `RAMBlock *` points to. -/
def idstr_of (ram_list : List RAMBlock) (block : Nat) : List Nat :=
  match ram_list[block]? with
  | some b => b.idstr
  | none => []

/-- Embedding of `save_page_header`: returns the state, the file and the number of
bytes written. -/
def save_page_header (ram_list : List RAMBlock) (rs : RAMState) (f : QEMUFile)
    (block : Nat) (offset : Nat) : RAMState × QEMUFile × Nat :=
  let offset := if some block = rs.last_sent_block then offset ||| RAM_SAVE_FLAG_CONTINUE else offset
  let f := qemu_put_be64 f offset
  let size := 8
  if offset &&& RAM_SAVE_FLAG_CONTINUE = 0 then
    let len := (idstr_of ram_list block).length
    let f := qemu_put_byte f len
    let f := qemu_put_buffer f (idstr_of ram_list block)
    ({ rs with last_sent_block := some block }, f, size + (1 + len))
  else
    (rs, f, size)

/-! ## Sender state -/

/-- Counters exported for status queries (`ram_counters`); unbounded naturals. -/
structure MigrationStats where
  transferred : Nat
  duplicate : Nat
  normal : Nat
  dirty_sync_count : Nat
  dirty_pages_rate : Nat
  remaining : Nat
  postcopy_requests : Nat

/-- Counters of the delta encoder (`xbzrle_counters`); the floating-point
`cache_miss_rate` is left out. -/
structure XBZRLECacheStats where
  pages : Nat
  bytes : Nat
  cache_miss : Nat
  overflow : Nat

/-- Result of the memory subsystem's fetch-and-clear of the dirty log for one block. -/
structure DirtySyncResult where
  bmap : Nat → Bool
  num_dirty : Nat
  real_dirty : Nat

/-- An entry of the delta store: a page snapshot tagged with the sync epoch at which
it was inserted. -/
structure CacheEntry where
  data : List Nat
  epoch : Nat

/-- Modelled from the spec: the page cache (page_cache.c, not part of the sources) maps
an absolute address to a snapshot with an epoch tag. -/
structure PageCache where
  entries : Nat → Option CacheEntry

/-- What the sender reports to collaborators outside the sources, in call order. -/
inductive SaveEvent where
  | discard (idstr : List Nat) (offset length : Nat)
  | multifd (block offset : Nat)
  | compress (block offset : Nat)
  | unref (block : Nat)
  | ref (block : Nat)
  | consume_urgent
  | make_urgent
  deriving DecidableEq

/-- Configuration and external collaborators of the sender, none of which is part of
the sources: capability flags, the host page size, the results of the allocation
steps of setup, the memory subsystem's dirty-log sync and the real-time clock; and,
for sending pages, the control hook with its two special return codes, the delta
encoder (returned length and encoded buffer), the eviction policy of the page cache
(`none`: the insert is rejected; otherwise the addresses dropped to make room) and
the compressor (returned length and bytes written); and, for the iteration step, the
transport's rate limiter (0: below the limit), the real-time clock in nanoseconds by
number of reads, and the constant `DIRTY_SYNC_MAX_WAIT`, which is defined outside the
sources. -/
structure SaveEnv where
  migrate_use_xbzrle : Bool
  migrate_use_compression : Bool
  migrate_postcopy_ram : Bool
  migration_in_postcopy : Bool
  migration_in_colo_state : Bool
  migrate_auto_converge : Bool
  blk_mig_bulk_active : Bool
  migrate_use_events : Bool
  migrate_release_ram : Bool
  qemu_host_page_size : Nat
  compress_threads_save_setup_ret : Int
  ram_state_alloc_ok : Bool
  xbzrle_init_ret : Int
  cpu_physical_memory_sync_dirty_bitmap : RAMBlock → Nat → Nat → DirtySyncResult
  clock_ms : Nat → Int
  migrate_use_multifd : Bool
  RAM_SAVE_CONTROL_NOT_SUPP : Int
  RAM_SAVE_CONTROL_DELAYED : Int
  ram_control_save_page : QEMUFile → Nat → Nat → Nat → Int × Nat × QEMUFile
  xbzrle_encode_buffer : List Nat → List Nat → Int × List Nat
  cache_insert_victims : PageCache → Nat → Option (List Nat)
  qemu_put_compression_data : List Nat → Int × List Nat
  qemu_file_rate_limit : QEMUFile → Int
  clock_ns : Nat → Int
  DIRTY_SYNC_MAX_WAIT : Nat

/-- The sender's global state: `ram_state`, `ram_counters`, `xbzrle_counters`, the RAM
list with its version, host memory, and ghost counters for clock reads, throttle
requests and migration-pass events; further `XBZRLE.cache`, the output buffered by
the compression worker, and the calls made to outside collaborators. -/
structure SaveState where
  rs : RAMState
  ram_counters : MigrationStats
  xbzrle_counters : XBZRLECacheStats
  ram_list : List RAMBlock
  ram_list_version : Nat
  mem : Nat → Nat
  clock_reads : Nat
  throttle_calls : Nat
  pass_events : List Nat
  xbzrle_cache : PageCache
  comp_file : List Nat
  save_events : List SaveEvent

/-- The `size` bytes at host address `p`. -/
def read_buffer (mem : Nat → Nat) (p size : Nat) : List Nat :=
  (List.range size).map (fun i => mem (p + i) % 256)

/-- Modelled from the spec: `buffer_is_zero` (util/bufferiszero.c): every byte is 0. -/
def buffer_is_zero (bytes : List Nat) : Bool := bytes.all (fun b => b == 0)

/-- The host address of the block a `RAMBlock *` points to. -/
def host_of (ram_list : List RAMBlock) (block : Nat) : Nat :=
  match ram_list[block]? with
  | some b => b.host
  | none => 0

/-- Embedding of `save_zero_page`: returns the number of pages written, -1 when the
page is not zero. -/
def save_zero_page (s : SaveState) (block offset : Nat) : SaveState × Int :=
  let p := host_of s.ram_list block + offset
  if buffer_is_zero (read_buffer s.mem p TARGET_PAGE_SIZE) then
    let c := { s.ram_counters with duplicate := s.ram_counters.duplicate + 1 }
    let r := save_page_header s.ram_list s.rs s.rs.f block (offset ||| RAM_SAVE_FLAG_ZERO)
    let c := { c with transferred := c.transferred + r.2.2 }
    let f := qemu_put_byte r.2.1 0
    let c := { c with transferred := c.transferred + 1 }
    ({ s with rs := { r.1 with f := f }, ram_counters := c }, 1)
  else
    (s, -1)

/-- Embedding of `save_normal_page`; `buf` is the TARGET_PAGE_SIZE bytes the pointer
`buf` points to.  The asynchronous put is a hint and writes the same bytes. -/
def save_normal_page (s : SaveState) (block offset : Nat) (buf : List Nat) (_async : Bool) :
    SaveState × Int :=
  let r := save_page_header s.ram_list s.rs s.rs.f block (offset ||| RAM_SAVE_FLAG_PAGE)
  let c := { s.ram_counters with transferred := s.ram_counters.transferred + r.2.2 }
  let f := qemu_put_buffer r.2.1 buf
  let c := { c with transferred := c.transferred + TARGET_PAGE_SIZE }
  let c := { c with normal := c.normal + 1 }
  ({ s with rs := { r.1 with f := f }, ram_counters := c }, 1)

/-! ## Sender setup -/

/-- Modelled from the spec: `ram_bytes_total` (ram.c) is the total RAM bytes, the sum of
`used_length` over the migratable blocks, as a 64-bit word. -/
def ram_bytes_total (ram_list : List RAMBlock) : Nat :=
  ((ram_list.filter (fun b => b.migratable)).map (fun b => b.used_length)).sum % 2 ^ 64

/-- Embedding of `ram_state_reset`. -/
def ram_state_reset (rs : RAMState) (version : Nat) : RAMState :=
  { rs with last_seen_block := none, last_sent_block := none, last_page := 0,
            last_version := version, ram_bulk_stage := true }

/-- A zero-filled `RAMState` (`g_try_new0`). -/
def RAMState.zeroed : RAMState :=
  { f := { buf := [], last_error := 0 }, last_seen_block := none, last_sent_block := none,
    last_page := 0, last_version := 0, ram_bulk_stage := false, dirty_rate_high_cnt := 0,
    time_last_bitmap_sync := 0, bytes_xfer_prev := 0, num_dirty_pages_period := 0,
    xbzrle_cache_miss_prev := 0, iterations_prev := 0, iterations := 0,
    migration_dirty_pages := 0, last_req_rb := none, src_page_requests := [] }

/-- Embedding of `ram_state_init`: -1 when the allocation fails. -/
def ram_state_init (env : SaveEnv) (s : SaveState) : SaveState × Int :=
  if !env.ram_state_alloc_ok then (s, -1)
  else
    let rs := { RAMState.zeroed with
      migration_dirty_pages := ram_bytes_total s.ram_list >>> TARGET_PAGE_BITS }
    ({ s with rs := ram_state_reset rs s.ram_list_version }, 0)

/-- Embedding of `ram_list_init_bitmaps`: all bits of the first `pages` set. -/
def ram_list_init_bitmaps (env : SaveEnv) (ram_list : List RAMBlock) : List RAMBlock :=
  if ram_bytes_total ram_list ≠ 0 then
    ram_list.map (fun block =>
      if block.migratable then
        let pages := block.max_length >>> TARGET_PAGE_BITS
        let block := { block with bmap := fun i => decide (i < pages) }
        if env.migrate_postcopy_ram then
          { block with unsentmap := some (fun i => decide (i < pages)) }
        else block
      else block)
  else ram_list

/-- Embedding of `migration_bitmap_sync_range` for the block at index `rb`. -/
def migration_bitmap_sync_range (env : SaveEnv) (s : SaveState) (rb start length : Nat) :
    SaveState :=
  match s.ram_list[rb]? with
  | none => s
  | some b =>
    let r := env.cpu_physical_memory_sync_dirty_bitmap b start length
    { s with
      ram_list := s.ram_list.set rb { b with bmap := r.bmap },
      rs := { s.rs with
        migration_dirty_pages := s.rs.migration_dirty_pages + r.num_dirty,
        num_dirty_pages_period := s.rs.num_dirty_pages_period + r.real_dirty } }

/-- Reads the real-time clock. -/
def qemu_clock_get_ms (env : SaveEnv) (s : SaveState) : Int × SaveState :=
  (env.clock_ms s.clock_reads, { s with clock_reads := s.clock_reads + 1 })

/-- Embedding of `migration_update_rates`, without the floating-point miss rate. -/
def migration_update_rates (env : SaveEnv) (s : SaveState) (end_time : Int) : SaveState :=
  let iter_count := s.rs.iterations - s.rs.iterations_prev
  let c := { s.ram_counters with
    dirty_pages_rate :=
      s.rs.num_dirty_pages_period * 1000 / (end_time - s.rs.time_last_bitmap_sync).toNat }
  let s := { s with ram_counters := c }
  if iter_count = 0 then s
  else if env.migrate_use_xbzrle then
    { s with rs := { s.rs with xbzrle_cache_miss_prev := s.xbzrle_counters.cache_miss } }
  else s

/-- The loop over the migratable blocks in `migration_bitmap_sync`. -/
def migration_bitmap_sync_blocks (env : SaveEnv) (s : SaveState) : SaveState :=
  (List.range s.ram_list.length).foldl (fun s i =>
    match s.ram_list[i]? with
    | some block =>
      if block.migratable then migration_bitmap_sync_range env s i 0 block.used_length else s
    | none => s) s

/-- The auto-converge check in `migration_bitmap_sync`: a throttle request is counted
in `throttle_calls`.  The comparison is made on 64-bit words. -/
def migration_bitmap_sync_throttle (env : SaveEnv) (s : SaveState) (bytes_xfer_now : Nat) :
    SaveState :=
  if env.migrate_auto_converge && !env.blk_mig_bulk_active then
    if (s.rs.num_dirty_pages_period * TARGET_PAGE_SIZE) % 2 ^ 64 >
        ((bytes_xfer_now % 2 ^ 64 + 2 ^ 64 - s.rs.bytes_xfer_prev % 2 ^ 64) % 2 ^ 64) / 2 then
      let s : SaveState := { s with rs :=
        { s.rs with dirty_rate_high_cnt := s.rs.dirty_rate_high_cnt + 1 } }
      if s.rs.dirty_rate_high_cnt ≥ 2 then
        { s with rs := { s.rs with dirty_rate_high_cnt := 0 },
                 throttle_calls := s.throttle_calls + 1 }
      else s
    else s
  else s

/-- The end of a sync window in `migration_bitmap_sync` (more than one second since
the last one). -/
def migration_bitmap_sync_period (env : SaveEnv) (s : SaveState) (end_time : Int) : SaveState :=
  if end_time > s.rs.time_last_bitmap_sync + 1000 then
    let bytes_xfer_now := s.ram_counters.transferred
    let s := migration_bitmap_sync_throttle env s bytes_xfer_now
    let s := migration_update_rates env s end_time
    { s with rs := { s.rs with
        iterations_prev := s.rs.iterations,
        time_last_bitmap_sync := end_time,
        num_dirty_pages_period := 0,
        bytes_xfer_prev := bytes_xfer_now } }
  else s

/-- Embedding of `migration_bitmap_sync`. -/
def migration_bitmap_sync (env : SaveEnv) (s : SaveState) : SaveState :=
  let s := { s with ram_counters :=
    { s.ram_counters with dirty_sync_count := s.ram_counters.dirty_sync_count + 1 } }
  let s :=
    if s.rs.time_last_bitmap_sync = 0 then
      let r := qemu_clock_get_ms env s
      { r.2 with rs := { r.2.rs with time_last_bitmap_sync := r.1 } }
    else s
  let s := migration_bitmap_sync_blocks env s
  let s := { s with ram_counters :=
    { s.ram_counters with remaining := s.rs.migration_dirty_pages * TARGET_PAGE_SIZE } }
  let r := qemu_clock_get_ms env s
  let s := migration_bitmap_sync_period env r.2 r.1
  if env.migrate_use_events then
    { s with pass_events := s.pass_events ++ [s.ram_counters.dirty_sync_count] }
  else s

/-- Embedding of `ram_init_bitmaps`. -/
def ram_init_bitmaps (env : SaveEnv) (s : SaveState) : SaveState :=
  migration_bitmap_sync env { s with ram_list := ram_list_init_bitmaps env s.ram_list }

/-- Embedding of `ram_init_all`; the result of `xbzrle_init` is external. -/
def ram_init_all (env : SaveEnv) (s : SaveState) : SaveState × Int :=
  let r := ram_state_init env s
  if r.2 ≠ 0 then (r.1, -1)
  else if env.xbzrle_init_ret ≠ 0 then (s, -1)
  else (ram_init_bitmaps env r.1, 0)

/-- The record `ram_save_setup` writes for one block. -/
def put_block_record (env : SaveEnv) (f : QEMUFile) (block : RAMBlock) : QEMUFile :=
  let f := qemu_put_byte f block.idstr.length
  let f := qemu_put_buffer f block.idstr
  let f := qemu_put_be64 f block.used_length
  if env.migrate_postcopy_ram && block.page_size != env.qemu_host_page_size then
    qemu_put_be64 f block.page_size
  else f

/-- Embedding of `ram_save_setup`, writing to the file `f`, which becomes `rs->f`.
The control hooks and the multifd synchronisation do not write to `f`. -/
def ram_save_setup (env : SaveEnv) (s : SaveState) (f : QEMUFile) : SaveState × Int :=
  if env.compress_threads_save_setup_ret ≠ 0 then (s, -1)
  else
    let r := if !env.migration_in_colo_state then ram_init_all env s else (s, 0)
    if r.2 ≠ 0 then (r.1, -1)
    else
      let s := r.1
      let f := qemu_put_be64 f (ram_bytes_total s.ram_list ||| RAM_SAVE_FLAG_MEM_SIZE)
      let f := (s.ram_list.filter (fun b => b.migratable)).foldl (put_block_record env) f
      let f := qemu_put_be64 f RAM_SAVE_FLAG_EOS
      ({ s with rs := { s.rs with f := f } }, 0)

/-! ## Receiver state -/

/-- Result of the memory subsystem's `qemu_ram_resize`: its return code and the
block's `used_length` afterwards. -/
structure ResizeResult where
  ret : Int
  used_length : Nat

/-- Configuration and external collaborators of the receiver, none of which is part
of the sources: capability and post-copy state flags, the host page size, the region
resize, zlib, the delta decoder (given the encoded bytes and the old page it yields
the new page and a return code), and the return codes of page placement. -/
structure LoadEnv where
  migrate_use_compression : Bool
  postcopy_running : Bool
  postcopy_advised : Bool
  decompress_error_check : Bool
  qemu_host_page_size : Nat
  qemu_ram_resize : RAMBlock → Nat → ResizeResult
  compressBound : Nat → Nat
  qemu_uncompress_data : List Nat → List Nat × Int
  xbzrle_decode_buffer : List Nat → List Nat → List Nat × Int
  postcopy_place_page : Nat → List Nat → Nat → Int
  postcopy_place_page_zero : Nat → Nat → Int

/-- Calls the receiver makes that leave no other mark in the state, in order:
`frame` records a post-copy frame at the statement `last_host = host`, `place` and
`place_zero` the page placements (destination, source bytes, block), `resize` a
`qemu_ram_resize` request, `block_reg` and `hook` the calls of `ram_control_load_hook`. -/
inductive LoadEvent where
  | frame (block : Option Nat) (host : Nat) (flags : Nat)
  | place (dest : Nat) (source : List Nat) (block : Option Nat)
  | place_zero (dest : Nat) (block : Option Nat)
  | resize (block : Nat) (length : Nat)
  | block_reg (block : Nat)
  | hook
  deriving DecidableEq, Repr

/-- The receiver's global state: the input file, the RAM list, host memory, the
static `block` of `ram_block_from_stream`, `seq_iter`, the content of the post-copy
temporary page, and the record of external calls. -/
structure LoadState where
  f : QEMUFile
  ram_list : List RAMBlock
  mem : Nat → Nat
  block : Option Nat
  seq_iter : Nat
  tmp_page : Nat → Nat
  events : List LoadEvent

/-- Writes `bytes` to memory at address `p`. -/
def mem_write (mem : Nat → Nat) (p : Nat) (bytes : List Nat) : Nat → Nat :=
  fun a => if p ≤ a ∧ a < p + bytes.length then bytes.getD (a - p) 0 else mem a

/-- The C function `memset`. -/
def memset (mem : Nat → Nat) (p c size : Nat) : Nat → Nat :=
  mem_write mem p (List.replicate size (c % 256))

/-- The C string held in a buffer: the bytes before the first NUL. -/
def cstring (bytes : List Nat) : List Nat := bytes.takeWhile (fun c => c != 0)

/-- Index of the first block from position `i` on whose id string is `id`. -/
def block_by_name_from (id : List Nat) : List RAMBlock → Nat → Option Nat
  | [], _ => none
  | b :: rest, i => if b.idstr = id then some i else block_by_name_from id rest (i + 1)

/-- Modelled from the spec: `qemu_ram_block_by_name` (the region registry is not part of
the sources) finds the region with the given id, comparing C strings. -/
def qemu_ram_block_by_name (ram_list : List RAMBlock) (id : List Nat) : Option Nat :=
  block_by_name_from (cstring id) ram_list 0

/-- Modelled from the spec: `qemu_ram_is_migratable` for a possibly NULL block pointer
that the caller has checked. -/
def is_migratable (ram_list : List RAMBlock) (block : Nat) : Bool :=
  match ram_list[block]? with
  | some b => b.migratable
  | none => false

/-- Embedding of `ram_block_from_stream`; the static variable `block` lives in the
state. -/
def ram_block_from_stream (s : LoadState) (flags : Nat) : Option Nat × LoadState :=
  if flags &&& RAM_SAVE_FLAG_CONTINUE ≠ 0 then
    match s.block with
    | none => (none, s)
    | some b => (some b, s)
  else
    let r1 := qemu_get_byte s.f
    let r2 := qemu_get_buffer r1.2 r1.1
    let block := qemu_ram_block_by_name s.ram_list r2.1
    let s := { s with f := r2.2, block := block }
    match block with
    | none => (none, s)
    | some b => if !is_migratable s.ram_list b then (none, s) else (some b, s)

/-- Modelled from the spec: `offset_in_ramblock` (exec/ram_addr.h): the block exists, has
host memory, and the offset is below its used length. -/
def offset_in_ramblock (ram_list : List RAMBlock) (block : Option Nat) (offset : Nat) : Bool :=
  match block with
  | none => false
  | some i =>
    match ram_list[i]? with
    | none => false
    | some b => b.host != 0 && decide (offset < b.used_length)

/-- Embedding of `host_from_ram_block_offset`; 0 is NULL. -/
def host_from_ram_block_offset (ram_list : List RAMBlock) (block : Option Nat) (offset : Nat) :
    Nat :=
  if !offset_in_ramblock ram_list block offset then 0
  else
    match block with
    | none => 0
    | some i => host_of ram_list i + offset

/-- Modelled from the spec: `ramblock_recv_bitmap_set` (ram.c) marks the received bit of
the target page at `host_addr`. -/
def ramblock_recv_bitmap_set (ram_list : List RAMBlock) (block : Option Nat) (host_addr : Nat) :
    List RAMBlock :=
  match block with
  | none => ram_list
  | some i =>
    match ram_list[i]? with
    | none => ram_list
    | some b =>
      let bit := (host_addr - b.host) >>> TARGET_PAGE_BITS
      ram_list.set i { b with receivedmap := fun j => if j = bit then true else b.receivedmap j }

/-- Modelled from the spec: `ram_handle_zero_page` (ram.c): the ZERO handler memsets. -/
def ram_handle_zero_page (mem : Nat → Nat) (host ch size : Nat) : Nat → Nat :=
  memset mem host ch size

/-- The value of a 32-bit word read as a C `int`. -/
def to_int32 (v : Nat) : Int :=
  if v % 2 ^ 32 < 2 ^ 31 then (v % 2 ^ 32 : Nat) else (v % 2 ^ 32 : Nat) - 2 ^ 32

/-- The C expression `a | b` on `int`; spelled out where an operand is 0. -/
def int_or (a b : Int) : Int :=
  if b = 0 then a else if a = 0 then b else Int.lor a b

/-- The `int` value `~RAM_SAVE_FLAG_CONTINUE` as a 32-bit pattern. -/
def NOT_RAM_SAVE_FLAG_CONTINUE : Nat := 2 ^ 32 - 1 - 0x20

/-- Embedding of `load_xbzrle`: returns the return code. -/
def load_xbzrle (env : LoadEnv) (s : LoadState) (host : Nat) : Int × LoadState :=
  let r1 := qemu_get_byte s.f
  let r2 := qemu_get_be16 r1.2
  let s := { s with f := r2.2 }
  if r1.1 ≠ ENCODING_FLAG_XBZRLE then (-1, s)
  else if r2.1 > TARGET_PAGE_SIZE then (-1, s)
  else
    let r3 := qemu_get_buffer s.f r2.1
    let s := { s with f := r3.2 }
    let d := env.xbzrle_decode_buffer r3.1 (read_buffer s.mem host TARGET_PAGE_SIZE)
    let s := { s with mem := mem_write s.mem host (d.1.take TARGET_PAGE_SIZE) }
    if d.2 = -1 then (-1, s) else (0, s)

/-- Embedding of `decompress_data_with_multi_threads` followed by the worker's
`do_data_decompress` for the frame, run in sequence. -/
def decompress_data_with_multi_threads (env : LoadEnv) (s : LoadState) (host len : Nat) :
    LoadState :=
  let r := qemu_get_buffer s.f len
  let d := env.qemu_uncompress_data r.1
  let f := if d.2 < 0 && env.decompress_error_check then qemu_file_set_error r.2 d.2 else r.2
  { s with f := f, mem := mem_write s.mem host (d.1.take TARGET_PAGE_SIZE) }

/-- Embedding of `wait_for_decompress_done`; `decomp_file` is the input file. -/
def wait_for_decompress_done (env : LoadEnv) (s : LoadState) : Int :=
  if !env.migrate_use_compression then 0 else qemu_file_get_error s.f

/-- One record of the RAM block list in `ram_load` (the body of the inner loop of
case `RAM_SAVE_FLAG_MEM_SIZE`): returns `ret` and the record's length field. -/
def ram_load_block_record (env : LoadEnv) (s : LoadState) : LoadState × Int × Nat :=
  let r1 := qemu_get_byte s.f
  let r2 := qemu_get_buffer r1.2 r1.1
  let r3 := qemu_get_be64 r2.2
  let length := r3.1
  let s := { s with f := r3.2 }
  match qemu_ram_block_by_name s.ram_list r2.1 with
  | none => (s, -EINVAL, length)
  | some i =>
    match s.ram_list[i]? with
    | none => (s, -EINVAL, length)
    | some block =>
      if !block.migratable then (s, -EINVAL, length)
      else
        let rr := env.qemu_ram_resize block length
        let resized := decide (length ≠ block.used_length)
        let ret : Int := if resized then rr.ret else 0
        let block := if resized then { block with used_length := rr.used_length } else block
        let s :=
          if resized then
            { s with ram_list := s.ram_list.set i block,
                     events := s.events ++ [LoadEvent.resize i length] }
          else s
        let check := env.postcopy_advised && block.page_size != env.qemu_host_page_size
        let r4 := qemu_get_be64 s.f
        let s := if check then { s with f := r4.2 } else s
        let ret : Int := if check && r4.1 != block.page_size then -EINVAL else ret
        ({ s with events := s.events ++ [LoadEvent.block_reg i] }, ret, length)

/-- The inner loop of case `RAM_SAVE_FLAG_MEM_SIZE` in `ram_load`,
`while (!ret && total_ram_bytes)`; `none` when it does not exit within the fuel. -/
def ram_load_mem_size (env : LoadEnv) : Nat → LoadState → Int → Nat → Option (LoadState × Int)
  | fuel, s, ret, total_ram_bytes =>
    if ret ≠ 0 ∨ total_ram_bytes = 0 then some (s, ret)
    else
      match fuel with
      | 0 => none
      | fuel + 1 =>
        let r := ram_load_block_record env s
        ram_load_mem_size env fuel r.1 r.2.1 ((total_ram_bytes + 2 ^ 64 - r.2.2) % 2 ^ 64)

/-- The body of the pre-copy loop of `ram_load`: returns `flags` and `ret`; `none`
when the inner loop does not exit within the fuel. -/
def ram_load_iter (env : LoadEnv) (invalid_flags fuel : Nat) (s : LoadState) :
    Option (Nat × Int × LoadState) :=
  let r := qemu_get_be64 s.f
  let flags := r.1 &&& NOT_TARGET_PAGE_MASK
  let addr := r.1 &&& TARGET_PAGE_MASK
  let s := { s with f := r.2 }
  if flags &&& invalid_flags ≠ 0 then some (flags, -EINVAL, s)
  else
    let data := decide (flags &&& (RAM_SAVE_FLAG_ZERO ||| RAM_SAVE_FLAG_PAGE |||
      RAM_SAVE_FLAG_COMPRESS_PAGE ||| RAM_SAVE_FLAG_XBZRLE) ≠ 0)
    let rb := ram_block_from_stream s flags
    let s := if data then rb.2 else s
    let host := if data then host_from_ram_block_offset s.ram_list rb.1 addr else 0
    if data && host == 0 then some (flags, -EINVAL, s)
    else
      let s := if data then { s with ram_list := ramblock_recv_bitmap_set s.ram_list rb.1 host }
               else s
      let sw := flags &&& NOT_RAM_SAVE_FLAG_CONTINUE
      let after : Option (Int × LoadState) :=
        if sw = RAM_SAVE_FLAG_MEM_SIZE then
          (ram_load_mem_size env fuel s 0 addr).map (fun p => (p.2, p.1))
        else if sw = RAM_SAVE_FLAG_ZERO then
          let c := qemu_get_byte s.f
          some (0, { s with f := c.2, mem := ram_handle_zero_page s.mem host c.1 TARGET_PAGE_SIZE })
        else if sw = RAM_SAVE_FLAG_PAGE then
          let b := qemu_get_buffer s.f TARGET_PAGE_SIZE
          some (0, { s with f := b.2, mem := mem_write s.mem host b.1 })
        else if sw = RAM_SAVE_FLAG_COMPRESS_PAGE then
          let l := qemu_get_be32 s.f
          let s := { s with f := l.2 }
          if to_int32 l.1 < 0 ∨ to_int32 l.1 > env.compressBound TARGET_PAGE_SIZE then
            some (-EINVAL, s)
          else some (0, decompress_data_with_multi_threads env s host l.1)
        else if sw = RAM_SAVE_FLAG_XBZRLE then
          let x := load_xbzrle env s host
          if x.1 < 0 then some (-EINVAL, x.2) else some (0, x.2)
        else if sw = RAM_SAVE_FLAG_EOS then some (0, s)
        else if flags &&& RAM_SAVE_FLAG_HOOK ≠ 0 then
          some (0, { s with events := s.events ++ [LoadEvent.hook] })
        else some (-EINVAL, s)
      after.map (fun p =>
        (flags, if p.1 = 0 then qemu_file_get_error p.2.f else p.1, p.2))

/-- The pre-copy loop of `ram_load`,
`while (!postcopy_running && !ret && !(flags & RAM_SAVE_FLAG_EOS))`; `none` when it
does not exit within the fuel. -/
def ram_load_loop (env : LoadEnv) (invalid_flags : Nat) :
    Nat → LoadState → Nat → Int → Option (Int × LoadState)
  | fuel, s, flags, ret =>
    if ret ≠ 0 ∨ flags &&& RAM_SAVE_FLAG_EOS ≠ 0 then some (ret, s)
    else
      match fuel with
      | 0 => none
      | fuel + 1 =>
        match ram_load_iter env invalid_flags (fuel + 1) s with
        | none => none
        | some r => ram_load_loop env invalid_flags fuel r.2.2 r.1 r.2.1

/-! ## Post-copy receive -/

/-- The local variables of `ram_load_postcopy` that live across loop iterations. -/
structure PostcopyLocals where
  flags : Nat
  ret : Int
  place_needed : Bool
  matches_target_page_size : Bool
  last_host : Nat
  all_zero : Bool

/-- The page size of the block a `RAMBlock *` points to. -/
def page_size_of (ram_list : List RAMBlock) (block : Option Nat) : Nat :=
  match block with
  | none => 0
  | some i =>
    match ram_list[i]? with
    | some b => b.page_size
    | none => 0

/-- The `size_t` value `page_size - 1`, used as the host-page mask. -/
def host_page_mask (page_size : Nat) : Nat := (page_size + 2 ^ 64 - 1) % 2 ^ 64

/-- The body of the loop of `ram_load_postcopy`. -/
def ram_load_postcopy_iter (env : LoadEnv) (s : LoadState) (l : PostcopyLocals) :
    LoadState × PostcopyLocals :=
  let r := qemu_get_be64 s.f
  let s := { s with f := r.2 }
  let ret := qemu_file_get_error s.f
  if ret ≠ 0 then (s, { l with ret := ret })
  else
    let flags := r.1 &&& NOT_TARGET_PAGE_MASK
    let addr := r.1 &&& TARGET_PAGE_MASK
    let l := { l with flags := flags, place_needed := false }
    let data := decide (flags &&& (RAM_SAVE_FLAG_ZERO ||| RAM_SAVE_FLAG_PAGE) ≠ 0)
    let rb := ram_block_from_stream s flags
    let s := if data then rb.2 else s
    let block := if data then rb.1 else none
    let host := if data then host_from_ram_block_offset s.ram_list block addr else 0
    if data && host == 0 then (s, { l with ret := -EINVAL })
    else
      let page_size := page_size_of s.ram_list block
      let page_buffer := host &&& host_page_mask page_size
      let l := if data then { l with matches_target_page_size := page_size == TARGET_PAGE_SIZE }
               else l
      let l := if data && page_buffer == 0 then { l with all_zero := true } else l
      if data && page_buffer != 0 && host != (l.last_host + TARGET_PAGE_SIZE) % 2 ^ 64 then
        (s, { l with ret := -EINVAL })
      else
        let l := if data then
            { l with place_needed :=
                ((host + TARGET_PAGE_SIZE) % 2 ^ 64) &&& host_page_mask page_size == 0 }
          else l
        let l := { l with last_host := host }
        let s := { s with events := s.events ++ [LoadEvent.frame block host flags] }
        let sw := flags &&& NOT_RAM_SAVE_FLAG_CONTINUE
        let c := qemu_get_byte s.f
        let b := qemu_get_buffer s.f TARGET_PAGE_SIZE
        let after : LoadState × PostcopyLocals × Option (List Nat) :=
          if sw = RAM_SAVE_FLAG_ZERO then
            ({ s with f := c.2, tmp_page := memset s.tmp_page page_buffer c.1 TARGET_PAGE_SIZE },
             (if c.1 ≠ 0 then { l with all_zero := false } else l), none)
          else if sw = RAM_SAVE_FLAG_PAGE then
            if !l.matches_target_page_size then
              ({ s with f := b.2, tmp_page := mem_write s.tmp_page page_buffer b.1 },
               { l with all_zero := false }, none)
            else
              ({ s with f := b.2 }, { l with all_zero := false }, some b.1)
          else if sw = RAM_SAVE_FLAG_EOS then (s, l, none)
          else (s, { l with ret := -EINVAL }, none)
        let s := after.1
        let l := after.2.1
        let place_source := after.2.2
        let l := if l.ret = 0 ∧ qemu_file_get_error s.f ≠ 0 then
            { l with ret := qemu_file_get_error s.f } else l
        if l.ret = 0 ∧ l.place_needed = true then
          let place_dest := (host + TARGET_PAGE_SIZE + 2 ^ 64 - page_size % 2 ^ 64) % 2 ^ 64
          if l.all_zero then
            ({ s with events := s.events ++ [LoadEvent.place_zero place_dest block] },
             { l with ret := env.postcopy_place_page_zero place_dest (block.getD 0) })
          else
            let source := match place_source with
              | some bytes => bytes
              | none => (List.range page_size).map s.tmp_page
            ({ s with events := s.events ++ [LoadEvent.place place_dest source block] },
             { l with ret := env.postcopy_place_page place_dest source (block.getD 0) })
        else (s, l)

/-- The loop of `ram_load_postcopy`, `while (!ret && !(flags & RAM_SAVE_FLAG_EOS))`;
`none` when it does not exit within the fuel. -/
def ram_load_postcopy_loop (env : LoadEnv) :
    Nat → LoadState → PostcopyLocals → Option (Int × LoadState)
  | fuel, s, l =>
    if l.ret ≠ 0 ∨ l.flags &&& RAM_SAVE_FLAG_EOS ≠ 0 then some (l.ret, s)
    else
      match fuel with
      | 0 => none
      | fuel + 1 =>
        let r := ram_load_postcopy_iter env s l
        ram_load_postcopy_loop env fuel r.1 r.2

/-- Initial values of the locals of `ram_load_postcopy`. -/
def PostcopyLocals.init : PostcopyLocals :=
  { flags := 0, ret := 0, place_needed := false, matches_target_page_size := false,
    last_host := 0, all_zero := false }

/-- Embedding of `ram_load_postcopy`. -/
def ram_load_postcopy (env : LoadEnv) (fuel : Nat) (s : LoadState) : Option (Int × LoadState) :=
  ram_load_postcopy_loop env fuel s PostcopyLocals.init

/-- Embedding of `ram_load`; `none` when a loop does not exit within the fuel. -/
def ram_load (env : LoadEnv) (fuel : Nat) (s : LoadState) (version_id : Int) :
    Option (Int × LoadState) :=
  let s := { s with seq_iter := s.seq_iter + 1 }
  let ret : Int := if version_id ≠ 4 then -EINVAL else 0
  let invalid_flags := if !env.migrate_use_compression then RAM_SAVE_FLAG_COMPRESS_PAGE else 0
  let r :=
    if env.postcopy_running then ram_load_postcopy env fuel s
    else ram_load_loop env invalid_flags fuel s 0 ret
  r.map (fun p => (int_or p.1 (wait_for_decompress_done env p.2), p.2))

/-! ## Host-page canonicalisation -/

/-- Search helper: the first index from `i` on, below `size`, where `p` holds, else
`size`; `fuel` bounds the number of steps. -/
def find_next_from (p : Nat → Bool) (size : Nat) : Nat → Nat → Nat
  | 0, _ => size
  | fuel + 1, i => if i ≥ size then size else if p i then i else find_next_from p size fuel (i + 1)

/-- Modelled from the spec: `find_next_bit` (qemu/bitops.h): the first set bit at or after
`offset` and below `size`, else `size`. -/
def find_next_bit (bitmap : Nat → Bool) (size offset : Nat) : Nat :=
  find_next_from bitmap size (size - offset) offset

/-- Modelled from the spec: `find_next_zero_bit` (qemu/bitops.h): the first clear bit at or
after `offset` and below `size`, else `size`. -/
def find_next_zero_bit (bitmap : Nat → Bool) (size offset : Nat) : Nat :=
  find_next_from (fun i => !bitmap i) size (size - offset) offset

/-- The C function `set_bit`. -/
def set_bit (nr : Nat) (bitmap : Nat → Bool) : Nat → Bool :=
  fun i => if i = nr then true else bitmap i

/-- What `ram_xbzrle_postcopy_chunk_hostpages_pass` reads and writes: the block's
dirty bitmap and unsent map, `ram_state->migration_dirty_pages`, and the ranges
passed to `postcopy_discard_send_range`. -/
structure ChunkState where
  bitmap : Nat → Bool
  unsentmap : Nat → Bool
  migration_dirty_pages : Nat
  discards : List (Nat × Nat)

/-- The clean-up loop of the pass: pages `page` to `fixup_start_addr + host_ratio - 1`
are marked unsent and dirty, counting the newly dirty ones. -/
def chunk_fixup_loop : Nat → Nat → ChunkState → ChunkState
  | 0, _, c => c
  | n + 1, page, c =>
    chunk_fixup_loop n (page + 1)
      { c with
        unsentmap := set_bit page c.unsentmap,
        migration_dirty_pages := c.migration_dirty_pages + (if c.bitmap page then 0 else 1),
        bitmap := set_bit page c.bitmap }

/-- The body of the `while (run_start < pages)` loop of the pass: returns the state
and the next `run_start`. -/
def chunk_hostpages_iter (unsent_pass : Bool) (host_ratio pages run_start : Nat)
    (c : ChunkState) : ChunkState × Nat :=
  let host_offset := run_start % host_ratio
  let run_end :=
    if unsent_pass then find_next_bit c.unsentmap pages (run_start + 1)
    else find_next_zero_bit c.bitmap pages (run_start + 1)
  let r : Bool × Nat × Nat :=
    if host_offset ≠ 0 then
      (true, run_start - host_offset, run_start - host_offset + host_ratio)
    else if run_end % host_ratio ≠ 0 then
      (true, run_end - run_end % host_ratio, run_end - run_end % host_ratio + host_ratio)
    else
      (false, 0, run_end + 1)
  let do_fixup := r.1
  let fixup_start_addr := r.2.1
  let run_start := r.2.2
  let c :=
    if do_fixup then
      let c :=
        if unsent_pass || !c.unsentmap fixup_start_addr then
          { c with discards := c.discards ++ [(fixup_start_addr, host_ratio)] }
        else c
      chunk_fixup_loop host_ratio fixup_start_addr c
    else c
  (c, if unsent_pass then find_next_zero_bit c.unsentmap pages run_start
      else find_next_bit c.bitmap pages run_start)

/-- The `while (run_start < pages)` loop of the pass; `none` when it does not exit
within the fuel. -/
def chunk_hostpages_loop (unsent_pass : Bool) (host_ratio pages : Nat) :
    Nat → Nat → ChunkState → Option ChunkState
  | fuel, run_start, c =>
    if run_start < pages then
      match fuel with
      | 0 => none
      | fuel + 1 =>
        let r := chunk_hostpages_iter unsent_pass host_ratio pages run_start c
        chunk_hostpages_loop unsent_pass host_ratio pages fuel r.2 r.1
    else some c

/-- Embedding of `ram_xbzrle_postcopy_chunk_hostpages_pass` for a block with the given
`page_size` and `used_length`; the loop gets `pages + 1` units of fuel. -/
def ram_xbzrle_postcopy_chunk_hostpages_pass (unsent_pass : Bool) (page_size used_length : Nat)
    (c : ChunkState) : Option ChunkState :=
  let host_ratio := (page_size / TARGET_PAGE_SIZE) % 2 ^ 32
  let pages := used_length >>> TARGET_PAGE_BITS
  if page_size = TARGET_PAGE_SIZE then some c
  else
    let run_start :=
      if unsent_pass then find_next_zero_bit c.unsentmap pages 0
      else find_next_bit c.bitmap pages 0
    chunk_hostpages_loop unsent_pass host_ratio pages (pages + 1) run_start c

/-! ## Sending pages -/

/-- The two bytes of a 16-bit word, most significant first. -/
def be16_bytes (v : Nat) : List Nat := [v / 2 ^ 8 % 256, v % 256]

/-- Modelled from the spec: `qemu_put_be16` appends the low sixteen bits big-endian. -/
def qemu_put_be16 (f : QEMUFile) (v : Nat) : QEMUFile :=
  { f with buf := f.buf ++ be16_bytes v }

/-- Modelled from the spec: `qemu_put_qemu_file` moves the bytes buffered in `src` to
`des` and returns their number. -/
def qemu_put_qemu_file (des : QEMUFile) (src : List Nat) : QEMUFile × Nat :=
  (qemu_put_buffer des src, src.length)

/-- What reading through a block pointer that does not point into the RAM list
yields: an empty block without bitmaps. -/
def RAMBlock.null : RAMBlock :=
  { idstr := [], host := 0, offset := 0, used_length := 0, max_length := 0, page_size := 0,
    migratable := false, bmap := fun _ => false, unsentmap := none,
    receivedmap := fun _ => false }

/-- The block a `RAMBlock *` points to. -/
def ramblock (ram_list : List RAMBlock) (block : Nat) : RAMBlock :=
  match ram_list[block]? with
  | some b => b
  | none => RAMBlock.null

/-- The C function `clear_bit`. -/
def clear_bit (nr : Nat) (bitmap : Nat → Bool) : Nat → Bool :=
  fun i => if i = nr then false else bitmap i

/-- Modelled from the spec: `cache_is_cached` is a hit iff an entry is present at the
address and its epoch equals the current one. -/
def cache_is_cached (c : PageCache) (addr epoch : Nat) : Bool :=
  match c.entries addr with
  | some e => e.epoch == epoch
  | none => false

/-- Modelled from the spec: `get_cached_data` is the snapshot stored at the address. -/
def get_cached_data (c : PageCache) (addr : Nat) : List Nat :=
  match c.entries addr with
  | some e => e.data
  | none => []

/-- Modelled from the spec: `cache_insert` stores a copy of the page with the epoch,
unless the store cannot make room, and then returns -1 and changes nothing. -/
def cache_insert (env : SaveEnv) (c : PageCache) (addr : Nat) (pdata : List Nat) (epoch : Nat) :
    PageCache × Int :=
  match env.cache_insert_victims c addr with
  | none => (c, -1)
  | some victims =>
    ({ entries := fun a =>
        if a = addr then some { data := pdata, epoch := epoch }
        else if victims.contains a then none else c.entries a }, 0)

/-- A `memcpy` of a page into the snapshot stored at the address. -/
def cache_write_data (c : PageCache) (addr : Nat) (data : List Nat) : PageCache :=
  { entries := fun a =>
      if a = addr then (c.entries addr).map (fun e => { e with data := data })
      else c.entries a }

/-- Embedding of `xbzrle_cache_zero_page`. -/
def xbzrle_cache_zero_page (env : SaveEnv) (s : SaveState) (current_addr : Nat) : SaveState :=
  if s.rs.ram_bulk_stage || !env.migrate_use_xbzrle then s
  else
    { s with xbzrle_cache :=
        (cache_insert env s.xbzrle_cache current_addr (List.replicate TARGET_PAGE_SIZE 0)
          s.ram_counters.dirty_sync_count).1 }

/-- Embedding of `save_xbzrle_page`.  `current_data` is the page `*current_data`
points to; the third component of the result is the page it points to afterwards.
The lengths the encoder returns are -1, 0 or positive. -/
def save_xbzrle_page (env : SaveEnv) (s : SaveState) (current_data : List Nat)
    (current_addr block offset : Nat) (last_stage : Bool) : SaveState × Int × List Nat :=
  if !cache_is_cached s.xbzrle_cache current_addr s.ram_counters.dirty_sync_count then
    let s := { s with xbzrle_counters :=
      { s.xbzrle_counters with cache_miss := s.xbzrle_counters.cache_miss + 1 } }
    if !last_stage then
      let r := cache_insert env s.xbzrle_cache current_addr current_data
        s.ram_counters.dirty_sync_count
      if r.2 = -1 then (s, -1, current_data)
      else ({ s with xbzrle_cache := r.1 }, -1, get_cached_data r.1 current_addr)
    else (s, -1, current_data)
  else
    let prev_cached_page := get_cached_data s.xbzrle_cache current_addr
    let current_buf := current_data
    let e := env.xbzrle_encode_buffer prev_cached_page current_buf
    let encoded_len := e.1
    if encoded_len = 0 then (s, 0, current_data)
    else if encoded_len = -1 then
      let s := { s with xbzrle_counters :=
        { s.xbzrle_counters with overflow := s.xbzrle_counters.overflow + 1 } }
      if !last_stage then
        let c := cache_write_data s.xbzrle_cache current_addr current_data
        ({ s with xbzrle_cache := c }, -1, get_cached_data c current_addr)
      else (s, -1, current_data)
    else
      let s :=
        if !last_stage then
          { s with xbzrle_cache := cache_write_data s.xbzrle_cache current_addr current_buf }
        else s
      let r := save_page_header s.ram_list s.rs s.rs.f block (offset ||| RAM_SAVE_FLAG_XBZRLE)
      let f := qemu_put_byte r.2.1 ENCODING_FLAG_XBZRLE
      let f := qemu_put_be16 f encoded_len.toNat
      let f := qemu_put_buffer f (e.2.take encoded_len.toNat)
      let bytes_xbzrle := r.2.2 + encoded_len.toNat + 1 + 2
      ({ s with
          rs := { r.1 with f := f },
          xbzrle_counters := { s.xbzrle_counters with
            pages := s.xbzrle_counters.pages + 1,
            bytes := s.xbzrle_counters.bytes + bytes_xbzrle },
          ram_counters := { s.ram_counters with
            transferred := s.ram_counters.transferred + bytes_xbzrle } }, 1, current_data)

/-- Embedding of `migration_bitmap_find_dirty`. -/
def migration_bitmap_find_dirty (s : SaveState) (rb : Nat) (start : Nat) : Nat :=
  let b := ramblock s.ram_list rb
  let size := b.used_length >>> TARGET_PAGE_BITS
  if !b.migratable then size
  else if s.rs.ram_bulk_stage && decide (start > 0) then (start + 1) % 2 ^ 64
  else find_next_bit b.bmap size start

/-- The decrement of a 64-bit counter, `(x - 1) mod 2^64`: it wraps from 0 to
2^64 - 1. -/
def dec64 (x : Nat) : Nat := if x % 2 ^ 64 = 0 then 2 ^ 64 - 1 else x % 2 ^ 64 - 1

/-- Embedding of `migration_bitmap_clear_dirty`: `test_and_clear_bit` on the block's
dirty bitmap (a clear bit stays as it is), and the 64-bit decrement of
`migration_dirty_pages`. -/
def migration_bitmap_clear_dirty (s : SaveState) (rb : Nat) (page : Nat) : SaveState × Bool :=
  let b := ramblock s.ram_list rb
  let ret := b.bmap page
  if ret then
    ({ s with
        ram_list := s.ram_list.set rb { b with bmap := clear_bit page b.bmap },
        rs := { s.rs with
          migration_dirty_pages := dec64 s.rs.migration_dirty_pages } }, ret)
  else (s, ret)

/-- Embedding of `ram_release_pages`; `ram_discard_range` is recorded. -/
def ram_release_pages (env : SaveEnv) (s : SaveState) (rbname : List Nat) (offset : Nat)
    (pages : Int) : SaveState :=
  if !env.migrate_release_ram || !env.migration_in_postcopy then s
  else
    { s with save_events := s.save_events ++
        [SaveEvent.discard rbname offset ((pages.toNat <<< TARGET_PAGE_BITS) % 2 ^ 64)] }

/-- Embedding of `control_save_page`: whether the page was saved, and `*pages`. -/
def control_save_page (env : SaveEnv) (s : SaveState) (block offset : Nat) :
    SaveState × Bool × Int :=
  let r := env.ram_control_save_page s.rs.f (ramblock s.ram_list block).offset offset
    TARGET_PAGE_SIZE
  let ret := r.1
  let bytes_xmit := r.2.1
  let s := { s with rs := { s.rs with f := r.2.2 } }
  if ret = env.RAM_SAVE_CONTROL_NOT_SUPP then (s, false, -1)
  else
    let sp : SaveState × Int :=
      if bytes_xmit ≠ 0 then
        ({ s with ram_counters := { s.ram_counters with
            transferred := s.ram_counters.transferred + bytes_xmit } }, 1)
      else (s, -1)
    if ret = env.RAM_SAVE_CONTROL_DELAYED then (sp.1, true, sp.2)
    else if bytes_xmit > 0 then
      ({ sp.1 with ram_counters := { sp.1.ram_counters with
          normal := sp.1.ram_counters.normal + 1 } }, true, sp.2)
    else
      ({ sp.1 with ram_counters := { sp.1.ram_counters with
          duplicate := sp.1.ram_counters.duplicate + 1 } }, true, sp.2)

/-- Embedding of `ram_save_page` for the page `page` of `block`. -/
def ram_save_page (env : SaveEnv) (s : SaveState) (block page : Nat) (last_stage : Bool) :
    SaveState × Int :=
  let b := ramblock s.ram_list block
  let offset := (page <<< TARGET_PAGE_BITS) % 2 ^ 64
  let current_addr := (b.offset + offset) % 2 ^ 64
  let p := read_buffer s.mem (b.host + offset) TARGET_PAGE_SIZE
  let r : SaveState × Int × List Nat × Bool :=
    if !s.rs.ram_bulk_stage && !env.migration_in_postcopy && env.migrate_use_xbzrle then
      let x := save_xbzrle_page env s p current_addr block offset last_stage
      (x.1, x.2.1, x.2.2, last_stage)
    else (s, -1, p, true)
  if r.2.1 = -1 then save_normal_page r.1 block offset r.2.2.1 r.2.2.2
  else (r.1, r.2.1)

/-- Embedding of `ram_save_multifd_page`; `multifd_queue_page` is recorded. -/
def ram_save_multifd_page (s : SaveState) (block offset : Nat) : SaveState × Int :=
  ({ s with
      save_events := s.save_events ++ [SaveEvent.multifd block offset],
      ram_counters := { s.ram_counters with normal := s.ram_counters.normal + 1 } }, 1)

/-- Embedding of `do_compress_ram_page`, writing to the worker's file. -/
def do_compress_ram_page (env : SaveEnv) (s : SaveState) (block offset : Nat) :
    SaveState × Nat :=
  let b := ramblock s.ram_list block
  let p := read_buffer s.mem (b.host + (offset &&& TARGET_PAGE_MASK)) TARGET_PAGE_SIZE
  let r := save_page_header s.ram_list s.rs { buf := s.comp_file, last_error := 0 } block
    (offset ||| RAM_SAVE_FLAG_COMPRESS_PAGE)
  let c := env.qemu_put_compression_data p
  let s := { s with rs := r.1 }
  if c.1 < 0 then
    ({ s with comp_file := r.2.1.buf,
              rs := { s.rs with f := qemu_file_set_error s.rs.f c.1 } }, 0)
  else
    (ram_release_pages env { s with comp_file := r.2.1.buf ++ c.2 } b.idstr
      (offset &&& TARGET_PAGE_MASK) 1, r.2.2 + c.1.toNat)

/-- Embedding of `flush_compressed_data`, with one compression worker that has
finished its page. -/
def flush_compressed_data (env : SaveEnv) (s : SaveState) : SaveState :=
  if !env.migrate_use_compression then s
  else
    let r := qemu_put_qemu_file s.rs.f s.comp_file
    { s with rs := { s.rs with f := r.1 }, comp_file := [],
             ram_counters := { s.ram_counters with
               transferred := s.ram_counters.transferred + r.2 } }

/-- Embedding of `compress_page_with_multi_thread`, with one compression worker
that compresses the page it is handed before the call returns. -/
def compress_page_with_multi_thread (env : SaveEnv) (s : SaveState) (block offset : Nat) :
    SaveState × Int :=
  let r := qemu_put_qemu_file s.rs.f s.comp_file
  let s := { s with rs := { s.rs with f := r.1 }, comp_file := [],
                    save_events := s.save_events ++ [SaveEvent.compress block offset],
                    ram_counters := { s.ram_counters with
                      normal := s.ram_counters.normal + 1,
                      transferred := s.ram_counters.transferred + r.2 } }
  ((do_compress_ram_page env s block offset).1, 1)

/-- Embedding of `save_page_use_compression`. -/
def save_page_use_compression (env : SaveEnv) (s : SaveState) : Bool :=
  if !env.migrate_use_compression then false
  else if s.rs.ram_bulk_stage || !env.migrate_use_xbzrle then true
  else false

/-- Embedding of `ram_save_target_page` for the page `page` of `block`. -/
def ram_save_target_page (env : SaveEnv) (s : SaveState) (block page : Nat)
    (last_stage : Bool) : SaveState × Int :=
  let offset := (page <<< TARGET_PAGE_BITS) % 2 ^ 64
  let c := control_save_page env s block offset
  if c.2.1 then (c.1, c.2.2)
  else
    let s := c.1
    let s :=
      if some block ≠ s.rs.last_sent_block && save_page_use_compression env s then
        flush_compressed_data env s
      else s
    let z := save_zero_page s block offset
    if z.2 > 0 then
      let s := z.1
      let s :=
        if !save_page_use_compression env s then
          xbzrle_cache_zero_page env s (((ramblock s.ram_list block).offset + offset) % 2 ^ 64)
        else s
      (ram_release_pages env s (ramblock s.ram_list block).idstr offset z.2, z.2)
    else
      let s := z.1
      if some block = s.rs.last_sent_block && save_page_use_compression env s then
        compress_page_with_multi_thread env s block offset
      else if env.migrate_use_multifd then ram_save_multifd_page s block offset
      else ram_save_page env s block page last_stage

/-- The scan cursor (`PageSearchStatus`); `wraps` is a ghost counter of the times the
end of the RAM list was hit. -/
structure PageSearchStatus where
  block : Option Nat
  page : Nat
  complete_round : Bool
  wraps : Nat

/-- The successor of a block in the RAM list (`QLIST_NEXT_RCU`), `none` at the end. -/
def QLIST_NEXT (ram_list : List RAMBlock) (block : Nat) : Option Nat :=
  if block + 1 < ram_list.length then some (block + 1) else none

/-- The first block of the RAM list (`QLIST_FIRST_RCU`), `none` when it is empty. -/
def QLIST_FIRST (ram_list : List RAMBlock) : Option Nat :=
  if 0 < ram_list.length then some 0 else none

/-- The index behind a block pointer; a NULL pointer reads as a pointer outside the
RAM list. -/
def block_index (ram_list : List RAMBlock) (block : Option Nat) : Nat :=
  match block with
  | some b => b
  | none => ram_list.length

/-- Embedding of `find_dirty_block`: the state, the cursor, `*again` and whether a
page was found. -/
def find_dirty_block (env : SaveEnv) (s : SaveState) (pss : PageSearchStatus) :
    SaveState × PageSearchStatus × Bool × Bool :=
  let b := block_index s.ram_list pss.block
  let pss := { pss with page := migration_bitmap_find_dirty s b pss.page }
  if pss.complete_round && pss.block == s.rs.last_seen_block &&
      decide (pss.page ≥ s.rs.last_page) then
    (s, pss, false, false)
  else if (pss.page <<< TARGET_PAGE_BITS) % 2 ^ 64 ≥ (ramblock s.ram_list b).used_length then
    let pss := { pss with page := 0, block := QLIST_NEXT s.ram_list b }
    match pss.block with
    | none =>
      let pss := { pss with block := QLIST_FIRST s.ram_list, complete_round := true,
                            wraps := pss.wraps + 1 }
      let s := { s with rs := { s.rs with ram_bulk_stage := false } }
      let s := if env.migrate_use_xbzrle then flush_compressed_data env s else s
      (s, pss, true, false)
    | some _ => (s, pss, true, false)
  else
    (s, pss, true, true)

/-- Embedding of `unqueue_page`: the block (none is NULL), `*offset` (unchanged when
the queue is empty) and the state. -/
def unqueue_page (s : SaveState) (offset : Nat) : Option Nat × Nat × SaveState :=
  match s.rs.src_page_requests with
  | [] => (none, offset, s)
  | entry :: rest =>
    if entry.len > TARGET_PAGE_SIZE then
      (some entry.rb, entry.offset,
        { s with rs := { s.rs with src_page_requests :=
            { entry with len := entry.len - TARGET_PAGE_SIZE,
                         offset := (entry.offset + TARGET_PAGE_SIZE) % 2 ^ 64 } :: rest } })
    else
      (some entry.rb, entry.offset,
        { s with rs := { s.rs with src_page_requests := rest },
                 save_events := s.save_events ++
                   [SaveEvent.unref entry.rb, SaveEvent.consume_urgent] })

/-- The loop of `get_queued_page`: the block, the offset and the state when it is
left. -/
def get_queued_page_loop : Nat → SaveState → Nat → Option (Option Nat × Nat × SaveState)
  | 0, _, _ => none
  | fuel + 1, s, offset =>
    let r := unqueue_page s offset
    match r.1 with
    | none => some (none, r.2.1, r.2.2)
    | some block =>
      let page := r.2.1 >>> TARGET_PAGE_BITS
      let dirty := (ramblock r.2.2.ram_list block).bmap page
      if !dirty then get_queued_page_loop fuel r.2.2 r.2.1
      else some (some block, r.2.1, r.2.2)

/-- The number of `unqueue_page` calls that empty the queue, plus one. -/
def queue_fuel (q : List RAMSrcPageRequest) : Nat :=
  (q.map (fun e => e.len / TARGET_PAGE_SIZE + 1)).sum + 1

/-- Embedding of `get_queued_page`: the state, the cursor and whether a queued page
was found; `none` if the loop is not left. -/
def get_queued_page (s : SaveState) (pss : PageSearchStatus) :
    Option (SaveState × PageSearchStatus × Bool) :=
  match get_queued_page_loop (queue_fuel s.rs.src_page_requests) s 0 with
  | none => none
  | some (none, _, s) => some (s, pss, false)
  | some (some block, offset, s) =>
    some ({ s with rs := { s.rs with ram_bulk_stage := false } },
          { pss with block := some block, page := offset >>> TARGET_PAGE_BITS }, true)

/-- Embedding of `ram_xbzrle_save_queue_pages`; `rbname` is `none` for a NULL name.
The sum `start + len` is a 64-bit sum. -/
def ram_xbzrle_save_queue_pages (s : SaveState) (rbname : Option (List Nat)) (start len : Nat) :
    SaveState × Int :=
  let s := { s with ram_counters := { s.ram_counters with
    postcopy_requests := s.ram_counters.postcopy_requests + 1 } }
  let r : Option Nat × SaveState :=
    match rbname with
    | none => (s.rs.last_req_rb, s)
    | some name =>
      match qemu_ram_block_by_name s.ram_list name with
      | none => (none, s)
      | some b => (some b, { s with rs := { s.rs with last_req_rb := some b } })
  match r.1 with
  | none => (r.2, -1)
  | some ramblock_ =>
    let s := r.2
    if (start + len) % 2 ^ 64 > (ramblock s.ram_list ramblock_).used_length then (s, -1)
    else
      let new_entry : RAMSrcPageRequest := { rb := ramblock_, offset := start, len := len }
      ({ s with
          rs := { s.rs with src_page_requests := s.rs.src_page_requests ++ [new_entry] },
          save_events := s.save_events ++ [SaveEvent.ref ramblock_, SaveEvent.make_urgent] }, 0)

/-- The mask `pagesize_bits - 1` of `ram_save_host_page`, in 64 bits. -/
def host_page_bits_mask (page_size : Nat) : Nat :=
  dec64 (page_size >>> TARGET_PAGE_BITS)

/-- The loop of `ram_save_host_page`: the state, the cursor page and the result when
the function returns. -/
def ram_save_host_page_loop (env : SaveEnv) (last_stage : Bool) (block : Nat) :
    Nat → SaveState → Nat → Int → Option (SaveState × Nat × Int)
  | 0, _, _, _ => none
  | fuel + 1, s, page, pages =>
    let mask := host_page_bits_mask (ramblock s.ram_list block).page_size
    let c := migration_bitmap_clear_dirty s block page
    if !c.2 then
      let page := page + 1
      if page &&& mask ≠ 0 &&
          offset_in_ramblock c.1.ram_list (some block) ((page <<< TARGET_PAGE_BITS) % 2 ^ 64) then
        ram_save_host_page_loop env last_stage block fuel c.1 page pages
      else some (c.1, page - 1, pages)
    else
      let t := ram_save_target_page env c.1 block page last_stage
      if t.2 < 0 then some (t.1, page, t.2)
      else
        let pages := pages + t.2
        let s := t.1
        let s :=
          match (ramblock s.ram_list block).unsentmap with
          | some m =>
            { s with ram_list :=
                (s.ram_list.set block
                  { ramblock s.ram_list block with unsentmap := some (clear_bit page m) }) }
          | none => s
        let page := page + 1
        if page &&& mask ≠ 0 &&
            offset_in_ramblock s.ram_list (some block) ((page <<< TARGET_PAGE_BITS) % 2 ^ 64) then
          ram_save_host_page_loop env last_stage block fuel s page pages
        else some (s, page - 1, pages)

/-- Embedding of `ram_save_host_page`; the cursor points to a block of the RAM list.
The loop is given as many steps as the block has pages, and two more. -/
def ram_save_host_page (env : SaveEnv) (s : SaveState) (pss : PageSearchStatus)
    (last_stage : Bool) : Option (SaveState × PageSearchStatus × Int) :=
  let block := block_index s.ram_list pss.block
  if !(ramblock s.ram_list block).migratable then some (s, pss, 0)
  else
    match ram_save_host_page_loop env last_stage block
        (((ramblock s.ram_list block).used_length >>> TARGET_PAGE_BITS) + 2) s pss.page 0 with
    | none => none
    | some r => some (r.1, { pss with page := r.2.1 }, r.2.2)

/-- The loop of `ram_find_and_save_block`: the state, the cursor and `pages` when it
is left. -/
def ram_find_and_save_block_loop (env : SaveEnv) (last_stage : Bool) :
    Nat → SaveState → PageSearchStatus → Option (SaveState × PageSearchStatus × Int)
  | 0, _, _ => none
  | fuel + 1, s, pss =>
    match get_queued_page s pss with
    | none => none
    | some q =>
      let r : SaveState × PageSearchStatus × Bool × Bool :=
        if !q.2.2 then find_dirty_block env q.1 q.2.1 else (q.1, q.2.1, true, true)
      if r.2.2.2 then
        match ram_save_host_page env r.1 r.2.1 last_stage with
        | none => none
        | some h =>
          if h.2.2 = 0 && r.2.2.1 then ram_find_and_save_block_loop env last_stage fuel h.1 h.2.1
          else some h
      else if r.2.2.1 then ram_find_and_save_block_loop env last_stage fuel r.1 r.2.1
      else some (r.1, r.2.1, 0)

/-- The scan cursor `ram_find_and_save_block` starts with: the last block seen, or
the first block when there is none, and the last page. -/
def pss_init (s : SaveState) : PageSearchStatus :=
  let pss : PageSearchStatus :=
    { block := s.rs.last_seen_block, page := s.rs.last_page, complete_round := false,
      wraps := 0 }
  match pss.block with
  | none => { pss with block := QLIST_FIRST s.ram_list }
  | some _ => pss

/-- Embedding of `ram_find_and_save_block`; `none` if the loop is not left within
`fuel` rounds. -/
def ram_find_and_save_block (env : SaveEnv) (fuel : Nat) (s : SaveState) (last_stage : Bool) :
    Option (SaveState × Int) :=
  if ram_bytes_total s.ram_list = 0 then some (s, 0)
  else
    match ram_find_and_save_block_loop env last_stage fuel s (pss_init s) with
    | none => none
    | some r =>
      some ({ r.1 with rs := { r.1.rs with last_seen_block := r.2.1.block,
                                           last_page := r.2.1.page } }, r.2.2)

/-! ## Descriptions used in the statements -/

/-- The fields of a block that setup and the handshake read and never change. -/
def RAMBlock.layout (b : RAMBlock) : List Nat × Nat × Nat × Nat × Nat × Bool :=
  (b.idstr, b.host, b.used_length, b.max_length, b.page_size, b.migratable)

/-- The handshake record of one region as the spec lays it out: a length byte, the
id bytes, the used length, and the page size when post-copy is enabled and the page
size differs from the host page size. -/
def handshake_record (postcopy : Bool) (host_page_size : Nat) (b : RAMBlock) : List Nat :=
  [b.idstr.length] ++ b.idstr ++ be64_bytes b.used_length ++
    (if postcopy && b.page_size != host_page_size then be64_bytes b.page_size else [])

/-- The handshake as the spec lays it out: the MEM_SIZE word, one record per
migratable region in list order, the EOS word. -/
def handshake_bytes (postcopy : Bool) (host_page_size : Nat) (ram_list : List RAMBlock) :
    List Nat :=
  be64_bytes (ram_bytes_total ram_list ||| RAM_SAVE_FLAG_MEM_SIZE) ++
    (ram_list.filter (fun b => b.migratable)).flatMap (handshake_record postcopy host_page_size) ++
    be64_bytes RAM_SAVE_FLAG_EOS

/-- What sender and receiver must share of a region for the handshake: id, used
length, page size and migratability. -/
def RAMBlock.region (b : RAMBlock) : List Nat × Nat × Nat × Bool :=
  (b.idstr, b.used_length, b.page_size, b.migratable)

/-- Region ids as the registry keeps them: C strings of at most 255 non-NUL bytes
that identify the region (no two regions share an id). -/
def ids_wf (l : List RAMBlock) : Prop :=
  (l.map (fun b => b.idstr)).Nodup ∧ ∀ b ∈ l, b.idstr.length < 256 ∧ ∀ c ∈ b.idstr, c ≠ 0

/-- Used lengths as the memory subsystem keeps them: every migratable region has a
non-zero used length that is a multiple of the target page size, and the total fits
in a 64-bit word. -/
def lengths_wf (l : List RAMBlock) : Prop :=
  (∀ b ∈ l, b.migratable = true → 0 < b.used_length ∧ b.used_length % TARGET_PAGE_SIZE = 0) ∧
  ((l.filter (fun b => b.migratable)).map (fun b => b.used_length)).sum < 2 ^ 64

/-- Indices of the migratable blocks of `l`, counted from `k`. -/
def migratable_indices_from : List RAMBlock → Nat → List Nat
  | [], _ => []
  | b :: rest, k => (if b.migratable then [k] else []) ++ migratable_indices_from rest (k + 1)

/-- The sending discipline of the page round trip: `save_zero_page`, and when the page
is not zero (result -1) `save_normal_page` with the page at `block->host + offset`,
as `ram_save_target_page` and `ram_save_page` do when no other encoding applies. -/
def send_page (s : SaveState) (block offset : Nat) : SaveState :=
  let r := save_zero_page s block offset
  if r.2 = -1 then
    (save_normal_page s block offset
      (read_buffer s.mem (host_of s.ram_list block + offset) TARGET_PAGE_SIZE) false).1
  else r.1

/-- Sends the target pages `(block, offset)` of the list in order. -/
def send_pages (s : SaveState) (pages : List (Nat × Nat)) : SaveState :=
  pages.foldl (fun s p => send_page s p.1 p.2) s

/-- The bytes of the ZERO or PAGE frame of one target page, given the sender's
`last_sent_block`: the header word, the region id unless CONTINUE, and the payload
(one zero byte, or the page). -/
def page_frame_bytes (ram_list : List RAMBlock) (mem : Nat → Nat) (last_sent_block : Option Nat)
    (block offset : Nat) : List Nat :=
  let page := read_buffer mem (host_of ram_list block + offset) TARGET_PAGE_SIZE
  let flag := if buffer_is_zero page then RAM_SAVE_FLAG_ZERO else RAM_SAVE_FLAG_PAGE
  be64_bytes (if last_sent_block = some block then offset ||| flag ||| RAM_SAVE_FLAG_CONTINUE
              else offset ||| flag) ++
    (if last_sent_block = some block then []
     else [(idstr_of ram_list block).length] ++ idstr_of ram_list block) ++
    (if buffer_is_zero page then [0] else page)

/-- The bytes of the frames of a list of target pages sent in order. -/
def page_frames_bytes (ram_list : List RAMBlock) (mem : Nat → Nat) :
    Option Nat → List (Nat × Nat) → List Nat
  | _, [] => []
  | last_sent_block, p :: rest =>
    page_frame_bytes ram_list mem last_sent_block p.1 p.2 ++
      page_frames_bytes ram_list mem (some p.1) rest

/-- Host ranges of distinct blocks do not overlap. -/
def hosts_disjoint (l : List RAMBlock) : Prop :=
  ∀ (i j : Nat) (bi bj : RAMBlock), l[i]? = some bi → l[j]? = some bj → i ≠ j →
    bi.host + bi.used_length ≤ bj.host ∨ bj.host + bj.used_length ≤ bi.host

/-- A target page `(block, offset)` of a migratable block with host memory: the
offset is page aligned and the page lies within the used length. -/
def is_target_page (l : List RAMBlock) (p : Nat × Nat) : Prop :=
  ∃ b, l[p.1]? = some b ∧ b.migratable = true ∧ b.host ≠ 0 ∧
    p.2 % TARGET_PAGE_SIZE = 0 ∧ p.2 + TARGET_PAGE_SIZE ≤ b.used_length ∧ b.used_length < 2 ^ 64

/-- The host address of the target page `(block, offset)`. -/
def page_host (l : List RAMBlock) (p : Nat × Nat) : Nat := host_of l p.1 + p.2

/-! ## Post-copy frames of one host page -/

/-- The payload of a ZERO frame (its fill byte) or of a PAGE frame (its bytes). -/
inductive Payload where
  | zero (ch : Nat)
  | page (bytes : List Nat)

/-- The payload bytes on the wire. -/
def Payload.wire : Payload → List Nat
  | Payload.zero ch => [ch]
  | Payload.page bytes => bytes

/-- The bytes the payload puts into a target page: the fill byte repeated, or the
page bytes. -/
def Payload.fill : Payload → List Nat
  | Payload.zero ch => List.replicate TARGET_PAGE_SIZE (ch % 256)
  | Payload.page bytes => bytes

/-- The type flag of the frame that carries the payload. -/
def Payload.flag : Payload → Nat
  | Payload.zero _ => RAM_SAVE_FLAG_ZERO
  | Payload.page _ => RAM_SAVE_FLAG_PAGE

/-- A payload keeps `all_zero` exactly when it is a ZERO frame with fill byte 0. -/
def Payload.is_zero : Payload → Bool
  | Payload.zero ch => ch == 0
  | Payload.page _ => false

/-- A PAGE payload holds exactly one target page. -/
def Payload.wf : Payload → Prop
  | Payload.zero _ => True
  | Payload.page bytes => bytes.length = TARGET_PAGE_SIZE

/-- A ZERO or PAGE frame as sent: with or without CONTINUE, and its payload. -/
structure PostFrame where
  cont : Bool
  payload : Payload

/-- The flag bits of the frame's header word. -/
def PostFrame.flags (fr : PostFrame) : Nat :=
  if fr.cont then fr.payload.flag ||| RAM_SAVE_FLAG_CONTINUE else fr.payload.flag

/-- The bytes of the frame for the target page at `offset` of block `blk`. -/
def PostFrame.bytes (fr : PostFrame) (blk : RAMBlock) (offset : Nat) : List Nat :=
  be64_bytes (offset + fr.flags) ++
    (if fr.cont then [] else [blk.idstr.length] ++ blk.idstr) ++ fr.payload.wire

/-- The bytes of consecutive frames for the target pages from `offset` on. -/
def host_page_frames_bytes (blk : RAMBlock) : Nat → List PostFrame → List Nat
  | _, [] => []
  | offset, fr :: rest =>
    fr.bytes blk offset ++ host_page_frames_bytes blk (offset + TARGET_PAGE_SIZE) rest

/-- The frame events of consecutive frames for the target pages from `host` on. -/
def host_page_frame_events (b : Nat) : Nat → List PostFrame → List LoadEvent
  | _, [] => []
  | host, fr :: rest =>
    LoadEvent.frame (some b) host fr.flags ::
      host_page_frame_events b (host + TARGET_PAGE_SIZE) rest

/-- The placement call for a host page at `dest`: the zero fast path when `all_zero`,
else the placement of the temporary page. -/
def placement_event (all_zero : Bool) (dest page_size : Nat) (tmp_page : Nat → Nat) (b : Nat) :
    LoadEvent :=
  if all_zero then LoadEvent.place_zero dest (some b)
  else LoadEvent.place dest ((List.range page_size).map tmp_page) (some b)

/-- The return code of the placement call. -/
def placement_ret (env : LoadEnv) (all_zero : Bool) (dest page_size : Nat) (tmp_page : Nat → Nat)
    (b : Nat) : Int :=
  if all_zero then env.postcopy_place_page_zero dest b
  else env.postcopy_place_page dest ((List.range page_size).map tmp_page) b

/-! ## Counting dirty pages -/

/-- The number of set bits among the first `n` bits of a bitmap. -/
def count_set (bitmap : Nat → Bool) : Nat → Nat
  | 0 => 0
  | n + 1 => count_set bitmap n + (if bitmap n then 1 else 0)

/-- The first `k` calls of `unqueue_page`: what each call yields (block and offset),
and the state after them. -/
def unqueue_pages : Nat → SaveState → List (Option Nat × Nat) × SaveState
  | 0, s => ([], s)
  | k + 1, s =>
    let r := unqueue_page s 0
    let t := unqueue_pages k r.2.2
    ((r.1, r.2.1) :: t.1, t.2)

/-- The dirty pages of one block: the set bits of its dirty bitmap among the pages
within its used length, for a migratable block. -/
def block_dirty_count (b : RAMBlock) : Nat :=
  if b.migratable then count_set b.bmap (b.used_length >>> TARGET_PAGE_BITS) else 0

/-- The dirty pages within the used lengths of the migratable blocks. -/
def dirty_count : List RAMBlock → Nat
  | [] => 0
  | b :: rest => block_dirty_count b + dirty_count rest

/-- The set bits of the whole dirty bitmaps of the migratable blocks; a bitmap has
`max_length >> TARGET_PAGE_BITS` bits. -/
def dirty_count_all : List RAMBlock → Nat
  | [] => 0
  | b :: rest =>
    (if b.migratable then count_set b.bmap (b.max_length >>> TARGET_PAGE_BITS) else 0) +
      dirty_count_all rest

/-- The assumption on the memory subsystem's sync of a block from offset 0: it ORs new
dirty bits into the block's bitmap and returns the number of bits, among the pages of
the range, that it newly set. -/
def sync_counts_new_bits (env : SaveEnv) : Prop :=
  ∀ (b : RAMBlock) (length : Nat),
    (∀ i, b.bmap i = true →
      (env.cpu_physical_memory_sync_dirty_bitmap b 0 length).bmap i = true) ∧
    (env.cpu_physical_memory_sync_dirty_bitmap b 0 length).num_dirty =
      count_set (fun i => (env.cpu_physical_memory_sync_dirty_bitmap b 0 length).bmap i &&
        !b.bmap i) (length >>> TARGET_PAGE_BITS)

/-- Used lengths as the memory subsystem keeps them, for counting pages: every
migratable region has a used length that is a multiple of the target page size and at
most its maximum length, and the total fits in a 64-bit word. -/
def lengths_aligned (l : List RAMBlock) : Prop :=
  (∀ b ∈ l, b.migratable = true →
    b.used_length % TARGET_PAGE_SIZE = 0 ∧ b.used_length ≤ b.max_length) ∧
  ((l.filter (fun b => b.migratable)).map (fun b => b.used_length)).sum < 2 ^ 64

/-! ## What the scanner keeps across a page send -/

/-- The fields of `RAMState` the scanner reads: cursor, bulk flag, request queue and
dirty-page counter. -/
def rs_view (rs : RAMState) :
    Option Nat × Nat × Bool × List RAMSrcPageRequest × Nat :=
  (rs.last_seen_block, rs.last_page, rs.ram_bulk_stage, rs.src_page_requests,
    rs.migration_dirty_pages)

/-- The part of the sender state the scanner reads: the RAM list with its bitmaps and
the scanner's fields of `RAMState`. -/
def scan_view (s : SaveState) :
    List RAMBlock × Option Nat × Nat × Bool × List RAMSrcPageRequest × Nat :=
  (s.ram_list, rs_view s.rs)

/-- The state after `find_dirty_block` has hit the end of the RAM list: the bulk stage
is over, and with XBZRLE in use the compressed output still buffered is flushed. -/
def wrap_state (env : SaveEnv) (s : SaveState) : SaveState :=
  let s := { s with rs := { s.rs with ram_bulk_stage := false } }
  if env.migrate_use_xbzrle then flush_compressed_data env s else s

/-- The page count of the block a `RAMBlock *` points to. -/
def used_pages (ram_list : List RAMBlock) (block : Nat) : Nat :=
  (ramblock ram_list block).used_length >>> TARGET_PAGE_BITS

/-- No dirty bit of block `j` is set among the pages from `lo` up to `hi` that lie
within its used length, if the block is migratable. -/
def clean_range (ram_list : List RAMBlock) (j lo hi : Nat) : Prop :=
  (ramblock ram_list j).migratable = true →
    ∀ i, lo ≤ i → i < hi → i < used_pages ram_list j → (ramblock ram_list j).bmap i = false

/-- The RAM list `l2` is `l1` with some dirty and unsent bits cleared. -/
def bits_cleared (l1 l2 : List RAMBlock) : Prop :=
  l2.length = l1.length ∧
  ∀ j, (ramblock l2 j).migratable = (ramblock l1 j).migratable ∧
    (ramblock l2 j).used_length = (ramblock l1 j).used_length ∧
    (ramblock l2 j).page_size = (ramblock l1 j).page_size ∧
    (ramblock l2 j).host = (ramblock l1 j).host ∧
    ∀ i, (ramblock l2 j).bmap i = true → (ramblock l1 j).bmap i = true

/-- What the scanner has found clean so far, for a scan that started at page `lp` of
block `L`: before the wrap, the pages from `lp` on of block `L` up to the cursor and
the blocks between `L` and the cursor; after the wrap, also the blocks behind `L` and
those in front of the cursor. -/
def scanned_clean (l : List RAMBlock) (L lp : Nat) (pss : PageSearchStatus) : Prop :=
  (pss.complete_round = true →
    clean_range l L lp (used_pages l L) ∧
    (∀ j, L < j → clean_range l j 0 (used_pages l j)) ∧
    (∀ j, j < block_index l pss.block → clean_range l j 0 (used_pages l j)) ∧
    clean_range l (block_index l pss.block) 0 pss.page) ∧
  (pss.complete_round = false →
    L ≤ block_index l pss.block ∧
    (block_index l pss.block = L → clean_range l L lp pss.page) ∧
    (block_index l pss.block ≠ L →
      clean_range l L lp (used_pages l L) ∧
      (∀ j, L < j → j < block_index l pss.block → clean_range l j 0 (used_pages l j)) ∧
      clean_range l (block_index l pss.block) 0 pss.page))

/-- The step of `ram_save_host_page` after a page was sent: its bit in the unsent map
is cleared, when the block has one. -/
def clear_unsent (s : SaveState) (block page : Nat) : SaveState :=
  match (ramblock s.ram_list block).unsentmap with
  | some m =>
    { s with ram_list :=
        (s.ram_list.set block
          { ramblock s.ram_list block with unsentmap := some (clear_bit page m) }) }
  | none => s

/-- The control hook does not take the page `page` of `block`: `ram_control_save_page`
returns `RAM_SAVE_CONTROL_NOT_SUPP` and leaves the file as it is. -/
def hook_declines (env : SaveEnv) (s : SaveState) (block page : Nat) : Prop :=
  (env.ram_control_save_page s.rs.f (ramblock s.ram_list block).offset
    ((page <<< TARGET_PAGE_BITS) % 2 ^ 64) TARGET_PAGE_SIZE).1 = env.RAM_SAVE_CONTROL_NOT_SUPP ∧
  (env.ram_control_save_page s.rs.f (ramblock s.ram_list block).offset
    ((page <<< TARGET_PAGE_BITS) % 2 ^ 64) TARGET_PAGE_SIZE).2.2 = s.rs.f

/-- The bytes of the target page `page` of `block` in host memory. -/
def page_bytes (s : SaveState) (block page : Nat) : List Nat :=
  read_buffer s.mem (host_of s.ram_list block + (page <<< TARGET_PAGE_BITS) % 2 ^ 64)
    TARGET_PAGE_SIZE

/-- The compressed output `ram_save_target_page` flushes before it sends a page of
`block`: what the worker has buffered, when the block is not the one last sent and
compression is the active encoding. -/
def flushed_before (env : SaveEnv) (s : SaveState) (block : Nat) : List Nat :=
  if some block ≠ s.rs.last_sent_block && save_page_use_compression env s then s.comp_file
  else []

/-- The bytes of a frame header for `offset` with the flag `flag`: the header word,
with CONTINUE when the block is the one last sent, and otherwise the length and the
bytes of the block's id. -/
def header_bytes (ram_list : List RAMBlock) (last_sent_block : Option Nat) (block offset flag : Nat) :
    List Nat :=
  if last_sent_block = some block then be64_bytes (offset ||| flag ||| RAM_SAVE_FLAG_CONTINUE)
  else be64_bytes (offset ||| flag) ++ [(idstr_of ram_list block).length] ++ idstr_of ram_list block

/-- The bytes of a ZERO frame: the header with the ZERO flag and the single byte 0. -/
def zero_frame_bytes (ram_list : List RAMBlock) (last_sent_block : Option Nat) (block offset : Nat) :
    List Nat :=
  header_bytes ram_list last_sent_block block offset RAM_SAVE_FLAG_ZERO ++ [0]

/-- The step of `ram_save_target_page` before a page of `block` is looked at: the
compressed output is flushed when the block is not the one last sent and compression
is the active encoding. -/
def flush_for_block (env : SaveEnv) (s : SaveState) (block : Nat) : SaveState :=
  if some block ≠ s.rs.last_sent_block && save_page_use_compression env s then
    flush_compressed_data env s
  else s

/-- The state in which `ram_save_host_page` sends the page of the request `e` taken
from the head of the queue, when more than one target page of the request is left:
the request is shortened by one target page, the bulk stage is over, and the page's
dirty bit has been cleared and counted. -/
def request_taken (s : SaveState) (e : RAMSrcPageRequest) (rest : List RAMSrcPageRequest) :
    SaveState :=
  (migration_bitmap_clear_dirty
    { s with rs := { s.rs with
        src_page_requests :=
          ({ e with len := e.len - TARGET_PAGE_SIZE,
                    offset := (e.offset + TARGET_PAGE_SIZE) % 2 ^ 64 } :: rest),
        ram_bulk_stage := false } }
    e.rb (e.offset >>> TARGET_PAGE_BITS)).1

/-- Delta encoding is active for `ram_save_page`: XBZRLE is enabled, the bulk stage is
over and the migration is not in post-copy. -/
def delta_active (env : SaveEnv) (s : SaveState) : Prop :=
  env.migrate_use_xbzrle = true ∧ s.rs.ram_bulk_stage = false ∧ env.migration_in_postcopy = false

/-- The address of the target page `page` of `block` in the RAM address space, the key
of the page in the delta store. -/
def page_addr (s : SaveState) (block page : Nat) : Nat :=
  ((ramblock s.ram_list block).offset + (page <<< TARGET_PAGE_BITS) % 2 ^ 64) % 2 ^ 64

/-- The data frame with flag bits `flags` and offset `addr` at the head of the stream
cannot be resolved to host memory: its region id (read from the stream) names no known
region, or names a region that is not migratable, or the frame carries CONTINUE while
no region has been established, or the region it resolves to has no more than `addr`
bytes in use. -/
def frame_unresolvable (s : LoadState) (flags addr : Nat) : Prop :=
  (flags &&& RAM_SAVE_FLAG_CONTINUE = 0 ∧
    qemu_ram_block_by_name s.ram_list
      (qemu_get_buffer (qemu_get_byte s.f).2 (qemu_get_byte s.f).1).1 = none) ∨
  (flags &&& RAM_SAVE_FLAG_CONTINUE = 0 ∧
    ∃ b, qemu_ram_block_by_name s.ram_list
      (qemu_get_buffer (qemu_get_byte s.f).2 (qemu_get_byte s.f).1).1 = some b ∧
      is_migratable s.ram_list b = false) ∨
  (flags &&& RAM_SAVE_FLAG_CONTINUE ≠ 0 ∧ s.block = none) ∨
  (∃ i b, (ram_block_from_stream s flags).1 = some i ∧ s.ram_list[i]? = some b ∧
    b.used_length ≤ addr)

/-! ## The iteration step -/

/-- Reads the real-time clock in nanoseconds. -/
def qemu_clock_get_ns (env : SaveEnv) (s : SaveState) : Int × SaveState :=
  (env.clock_ns s.clock_reads, { s with clock_reads := s.clock_reads + 1 })

/-- The loop of `ram_save_iterate`: the state and `done` when the loop is left and, as
a ghost value, the result of the last `ram_find_and_save_block` call, if one was made.
`t0` is the start time, `i` the loop counter and `last` the ghost value so far.  The
elapsed milliseconds are the C quotient read as a 64-bit unsigned value. -/
def ram_save_iterate_loop (env : SaveEnv) (t0 : Int) :
    Nat → SaveState → Nat → Option Int → Option (SaveState × Int × Option Int)
  | fuel, s, i, last =>
    if env.qemu_file_rate_limit s.rs.f = 0 ∨ s.rs.src_page_requests.isEmpty = false then
      if qemu_file_get_error s.rs.f ≠ 0 then some (s, 0, last)
      else
        match fuel with
        | 0 => none
        | fuel + 1 =>
          match ram_find_and_save_block env (fuel + 1) s false with
          | none => none
          | some r =>
            if r.2 = 0 then some (r.1, 1, some r.2)
            else
              let s := { r.1 with rs := { r.1.rs with iterations := r.1.rs.iterations + 1 } }
              if i &&& 63 = 0 then
                let c := qemu_clock_get_ns env s
                let t1 := (((c.1 - t0).tdiv 1000000) % 2 ^ 64).toNat
                if t1 > env.DIRTY_SYNC_MAX_WAIT then some (c.2, 0, some r.2)
                else ram_save_iterate_loop env t0 fuel c.2 (i + 1) (some r.2)
              else ram_save_iterate_loop env t0 fuel s (i + 1) (some r.2)
    else some (s, 0, last)

/-- The part of `ram_save_iterate` before the label `out`: the state, `done` and the
ghost value of the loop; `none` when a loop does not exit within the fuel.  The control
hooks and the multifd synchronisation do not write to the file. -/
def ram_save_iterate_body (env : SaveEnv) (fuel : Nat) (s : SaveState) :
    Option (SaveState × Int × Option Int) :=
  if env.blk_mig_bulk_active then some (s, 0, none)
  else
    let s :=
      if s.ram_list_version ≠ s.rs.last_version then
        { s with rs := ram_state_reset s.rs s.ram_list_version }
      else s
    let c := qemu_clock_get_ns env s
    match ram_save_iterate_loop env c.1 fuel c.2 0 none with
    | none => none
    | some r => some (flush_compressed_data env r.1, r.2.1, r.2.2)

/-- The part of `ram_save_iterate` from the label `out` on, entered with the local
`done`; `qemu_fflush` leaves the bytes written as they are. -/
def ram_save_iterate_out (s : SaveState) (done : Int) : SaveState × Int :=
  let f := qemu_put_be64 s.rs.f RAM_SAVE_FLAG_EOS
  let s := { s with
    rs := { s.rs with f := f },
    ram_counters := { s.ram_counters with transferred := s.ram_counters.transferred + 8 } }
  let ret := qemu_file_get_error s.rs.f
  if ret < 0 then (s, ret) else (s, done)

/-- Embedding of `ram_save_iterate`; `none` when a loop does not exit within the fuel. -/
def ram_save_iterate (env : SaveEnv) (fuel : Nat) (s : SaveState) : Option (SaveState × Int) :=
  (ram_save_iterate_body env fuel s).map (fun b => ram_save_iterate_out b.1 b.2.1)

/-- Nothing is left to send: the request queue is empty, no dirty bit is set in any
region, and the used length of every region is a multiple of the target page size
below 2^63. -/
def scan_clean (s : SaveState) : Prop :=
  s.rs.src_page_requests = [] ∧
  (∀ j i, (ramblock s.ram_list j).bmap i = false) ∧
  (∀ j, (ramblock s.ram_list j).used_length % TARGET_PAGE_SIZE = 0 ∧
    (ramblock s.ram_list j).used_length < 2 ^ 63)

/-- The bits of the host-page window `w` of `r` target pages are all equal. -/
def window_uniform (m : Nat → Bool) (r w : Nat) : Prop :=
  ∀ i j, w * r ≤ i → i < (w + 1) * r → w * r ≤ j → j < (w + 1) * r → m i = m j

/-- The maps of `c2` are those of `c` with the bits of the host-page window `w0` set in
both. -/
def window_fixed (r w0 : Nat) (c c2 : ChunkState) : Prop :=
  (∀ i, c2.unsentmap i = (if w0 * r ≤ i ∧ i < w0 * r + r then true else c.unsentmap i)) ∧
  (∀ i, c2.bitmap i = (if w0 * r ≤ i ∧ i < w0 * r + r then true else c.bitmap i))

/-- The map a pass of the canonicalisation scans: the unsent map in the unsent pass,
the dirty bitmap in the dirty pass. -/
def pass_map (unsent_pass : Bool) (c : ChunkState) : Nat → Bool :=
  if unsent_pass then c.unsentmap else c.bitmap

/-- The search for the start of the next run of a pass: the next sent page in the
unsent pass, the next dirty page in the dirty pass. -/
def find_run_start (unsent_pass : Bool) (m : Nat → Bool) (pages start : Nat) : Nat :=
  if unsent_pass then find_next_zero_bit m pages start else find_next_bit m pages start

/-- The search for the end of a run of a pass. -/
def find_run_end (unsent_pass : Bool) (m : Nat → Bool) (pages start : Nat) : Nat :=
  if unsent_pass then find_next_bit m pages start else find_next_zero_bit m pages start

/-- What holds of the scanned map `m` when a pass is at the start `a` of a run: the
host-page windows below `a` are uniform, and, when `a` is a page of the block, the
bits in front of `a` in its window have the value `v` that lies outside runs and the
bit at `a` has the other value. -/
def chunk_inv (v : Bool) (r pages a : Nat) (m : Nat → Bool) : Prop :=
  a ≤ pages ∧ (∀ w, (w + 1) * r ≤ a → window_uniform m r w) ∧
  (a < pages → (∀ i, a / r * r ≤ i → i < a → m i = v) ∧ m a = !v)

/-- Every bit of the host-page window `w` of `r` bits of the map `m` has the value
`v`. -/
def window_all (m : Nat → Bool) (r w : Nat) (v : Bool) : Prop :=
  ∀ i, w * r ≤ i → i < (w + 1) * r → m i = v

/-- The state and the locals after `n` executions of the body of the loop of
`ram_load_postcopy`. -/
def postcopy_iters (env : LoadEnv) :
    Nat → LoadState × PostcopyLocals → LoadState × PostcopyLocals
  | 0, r => r
  | n + 1, r => postcopy_iters env n (ram_load_postcopy_iter env r.1 r.2)

/-- The temporary page after the payloads of consecutive frames have been put into
the target-page slots from position `p` on. -/
def host_page_fill (tmp_page : Nat → Nat) : Nat → List PostFrame → Nat → Nat
  | _, [] => tmp_page
  | p, fr :: rest =>
    host_page_fill (mem_write tmp_page p fr.payload.fill) (p + TARGET_PAGE_SIZE) rest

/-- The value of `all_zero` after consecutive frames for the target pages from host
address `host` on: set at a host-page boundary, cleared by a payload that is not a
zero fill. -/
def frames_all_zero (page_size : Nat) : Nat → Bool → List PostFrame → Bool
  | _, az, [] => az
  | host, az, fr :: rest =>
    frames_all_zero page_size (host + TARGET_PAGE_SIZE)
      ((if host % page_size = 0 then true else az) && fr.payload.is_zero) rest

/-- The event records a call of `postcopy_place_page` or `postcopy_place_page_zero`. -/
def LoadEvent.is_placement : LoadEvent → Bool
  | LoadEvent.place _ _ _ => true
  | LoadEvent.place_zero _ _ => true
  | _ => false

/-- The `switch (flags & ~RAM_SAVE_FLAG_CONTINUE)` of the loop body of
`ram_load_postcopy`, as in `ram_load_postcopy_iter`: the state, the locals and
`place_source` when it points into the file buffer. -/
def postcopy_switch (s : LoadState) (l : PostcopyLocals) (page_buffer sw : Nat) :
    LoadState × PostcopyLocals × Option (List Nat) :=
  let c := qemu_get_byte s.f
  let b := qemu_get_buffer s.f TARGET_PAGE_SIZE
  if sw = RAM_SAVE_FLAG_ZERO then
    ({ s with f := c.2, tmp_page := memset s.tmp_page page_buffer c.1 TARGET_PAGE_SIZE },
     (if c.1 ≠ 0 then { l with all_zero := false } else l), none)
  else if sw = RAM_SAVE_FLAG_PAGE then
    if !l.matches_target_page_size then
      ({ s with f := b.2, tmp_page := mem_write s.tmp_page page_buffer b.1 },
       { l with all_zero := false }, none)
    else
      ({ s with f := b.2 }, { l with all_zero := false }, some b.1)
  else if sw = RAM_SAVE_FLAG_EOS then (s, l, none)
  else (s, { l with ret := -EINVAL }, none)

/-- The end of the loop body of `ram_load_postcopy`, as in `ram_load_postcopy_iter`: the
check for file errors and the placement of the host page. -/
def postcopy_place (env : LoadEnv) (s : LoadState) (l : PostcopyLocals)
    (place_source : Option (List Nat)) (host page_size : Nat) (block : Option Nat) :
    LoadState × PostcopyLocals :=
  let l := if l.ret = 0 ∧ qemu_file_get_error s.f ≠ 0 then
      { l with ret := qemu_file_get_error s.f } else l
  if l.ret = 0 ∧ l.place_needed = true then
    let place_dest := (host + TARGET_PAGE_SIZE + 2 ^ 64 - page_size % 2 ^ 64) % 2 ^ 64
    if l.all_zero then
      ({ s with events := s.events ++ [LoadEvent.place_zero place_dest block] },
       { l with ret := env.postcopy_place_page_zero place_dest (block.getD 0) })
    else
      let source := match place_source with
        | some bytes => bytes
        | none => (List.range page_size).map s.tmp_page
      ({ s with events := s.events ++ [LoadEvent.place place_dest source block] },
       { l with ret := env.postcopy_place_page place_dest source (block.getD 0) })
  else (s, l)

/-- The part of the loop body of `ram_load_postcopy` after the sequence check, as in
`ram_load_postcopy_iter`: `place_needed`, `last_host = host`, the switch and the
placement. -/
def postcopy_frame_body (env : LoadEnv) (s : LoadState) (l : PostcopyLocals) (data : Bool)
    (flags host page_size : Nat) (block : Option Nat) : LoadState × PostcopyLocals :=
  let l := if data then
      { l with place_needed :=
          ((host + TARGET_PAGE_SIZE) % 2 ^ 64) &&& host_page_mask page_size == 0 }
    else l
  let l := { l with last_host := host }
  let s := { s with events := s.events ++ [LoadEvent.frame block host flags] }
  let after := postcopy_switch s l (host &&& host_page_mask page_size)
    (flags &&& NOT_RAM_SAVE_FLAG_CONTINUE)
  postcopy_place env after.1 after.2.1 after.2.2 host page_size block

/-- The destination and the block of a placement call; `none` for other events. -/
def LoadEvent.placement : LoadEvent → Option (Nat × Option Nat)
  | LoadEvent.place dest _ block => some (dest, block)
  | LoadEvent.place_zero dest block => some (dest, block)
  | _ => none

/-- The frame is a ZERO frame or a PAGE frame, with or without CONTINUE. -/
def data_frame_flags (flags : Nat) : Prop :=
  flags &&& NOT_RAM_SAVE_FLAG_CONTINUE = RAM_SAVE_FLAG_ZERO ∨
    flags &&& NOT_RAM_SAVE_FLAG_CONTINUE = RAM_SAVE_FLAG_PAGE

/-- Host memory of the RAM blocks as the memory subsystem maps it: a block with host
memory has a page size that is a power of two of at least a target page, starts at a
multiple of its page size, has a used length of whole target pages that ends below
2^64, and no host address belongs to two blocks. -/
def hosts_wf (l : List RAMBlock) : Prop :=
  (∀ b ∈ l, b.host ≠ 0 → ∃ n, 12 ≤ n ∧ n < 64 ∧ b.page_size = 2 ^ n ∧
    b.host % b.page_size = 0 ∧ b.used_length % TARGET_PAGE_SIZE = 0 ∧
    b.host + b.used_length < 2 ^ 64) ∧
  (∀ (i j : Nat) (bi bj : RAMBlock) (x : Nat), l[i]? = some bi → l[j]? = some bj → bi.host ≠ 0 → bj.host ≠ 0 →
    bi.host ≤ x → x < bi.host + bi.used_length →
    bj.host ≤ x → x < bj.host + bj.used_length → i = j)

/-- The frame events of consecutive ZERO or PAGE frames of block `b` for the target
pages from host address `host` on, with the given flag words. -/
def frame_run (b : Nat) : Nat → List Nat → List LoadEvent
  | _, [] => []
  | host, flags :: rest =>
    LoadEvent.frame (some b) host flags :: frame_run b (host + TARGET_PAGE_SIZE) rest

/-- Every placement in the record of calls is for a block of the RAM list and a
host-page-aligned destination, and the frames processed directly before it are ZERO
or PAGE frames of that block for all the target pages of the host page, in increasing
address order. -/
def placements_complete (ram_list : List RAMBlock) (events : List LoadEvent) : Prop :=
  ∀ (pre : List LoadEvent) (e : LoadEvent) (post : List LoadEvent) (dest : Nat)
    (block : Option Nat),
    events = pre ++ e :: post → e.placement = some (dest, block) →
    ∃ (b : Nat) (blk : RAMBlock) (pre0 : List LoadEvent) (fl : List Nat),
      block = some b ∧ ram_list[b]? = some blk ∧
      fl.length * TARGET_PAGE_SIZE = blk.page_size ∧ dest % blk.page_size = 0 ∧
      (∀ F ∈ fl, data_frame_flags F) ∧ pre = pre0 ++ frame_run b dest fl

/-- The address after `last_host` starts a host page in every block that holds it. -/
def next_aligned (ram_list : List RAMBlock) (last_host : Nat) : Prop :=
  ∀ (j : Nat) (blk : RAMBlock), ram_list[j]? = some blk → blk.host ≠ 0 →
    blk.host ≤ last_host + 4096 → last_host + 4096 < blk.host + blk.used_length →
    (last_host + 4096) % blk.page_size = 0

/-- The record of calls ends with the frames of the first target pages of a host page
that is not complete yet, the last of them at `last_host`. -/
def pending_frames (ram_list : List RAMBlock) (events : List LoadEvent) (last_host : Nat) :
    Prop :=
  ∃ (pre0 : List LoadEvent) (b : Nat) (blk : RAMBlock) (h0 : Nat) (fl : List Nat),
    fl ≠ [] ∧ events = pre0 ++ frame_run b h0 fl ∧ ram_list[b]? = some blk ∧ blk.host ≠ 0 ∧
    blk.host ≤ h0 ∧ last_host + 4096 ≤ blk.host + blk.used_length ∧
    h0 % blk.page_size = 0 ∧ fl.length * 4096 < blk.page_size ∧
    last_host + 4096 = h0 + fl.length * 4096 ∧ ∀ F ∈ fl, data_frame_flags F

/-- The invariant of the loop of `ram_load_postcopy`: the RAM list is unchanged, the
placements so far are complete, and while the loop goes on either a host page is being
assembled or the next sequential address starts a host page. -/
def postcopy_inv (ram_list : List RAMBlock) (r : LoadState × PostcopyLocals) : Prop :=
  r.1.ram_list = ram_list ∧ placements_complete ram_list r.1.events ∧
  (r.2.ret = 0 → r.2.flags &&& RAM_SAVE_FLAG_EOS = 0 →
    pending_frames ram_list r.1.events r.2.last_host ∨
      (next_aligned ram_list r.2.last_host ∧ r.2.last_host + 4096 < 2 ^ 64))

/-- The state and the locals after at most `n` executions of the body of the loop of
`ram_load_postcopy`, stopping when the loop condition fails. -/
def postcopy_run (env : LoadEnv) :
    Nat → LoadState × PostcopyLocals → LoadState × PostcopyLocals
  | 0, r => r
  | n + 1, r =>
    if r.2.ret ≠ 0 ∨ r.2.flags &&& RAM_SAVE_FLAG_EOS ≠ 0 then r
    else postcopy_run env n (ram_load_postcopy_iter env r.1 r.2)

/-- The loop of `postcopy_send_discard_bm_ram`: the ranges passed to
`postcopy_discard_send_range` are appended to `ranges`; `none` when the loop does not
exit within the fuel.  The variables are 64-bit words. -/
def postcopy_send_discard_loop (unsentmap : Nat → Bool) (size : Nat) :
    Nat → Nat → List (Nat × Nat) → Option (List (Nat × Nat))
  | fuel, current, ranges =>
    if current < size then
      match fuel with
      | 0 => none
      | fuel + 1 =>
        let one := find_next_bit unsentmap size current
        if one ≤ size then
          let zero := find_next_zero_bit unsentmap size ((one + 1) % 2 ^ 64)
          let discard_length := if zero ≥ size then size - one else zero - one
          let ranges := if discard_length ≠ 0 then ranges ++ [(one, discard_length)] else ranges
          postcopy_send_discard_loop unsentmap size fuel ((one + discard_length) % 2 ^ 64) ranges
        else postcopy_send_discard_loop unsentmap size fuel one ranges
    else some ranges

/-- Embedding of `postcopy_send_discard_bm_ram`: the return value and the ranges passed
to `postcopy_discard_send_range`, in call order; the loop gets one unit of fuel per
page and one more. -/
def postcopy_send_discard_bm_ram (block : RAMBlock) : Option (Int × List (Nat × Nat)) :=
  let size := (block.used_length % 2 ^ 64) >>> TARGET_PAGE_BITS
  match block.unsentmap with
  | none => some (0, [])
  | some unsentmap =>
    (postcopy_send_discard_loop unsentmap size (size + 1) 0 []).map (fun ranges => (0, ranges))

/-- The ranges `(start, length)` are the maximal runs of set bits of the map among the
bits from `from_` up to `size`, in increasing order: every range is non-empty, lies
below `size` and holds set bits only, it is bounded by a clear bit or by the ends on
both sides, each range ends before the next one starts with a gap, and every set bit
is in a range. -/
def runs_from (m : Nat → Bool) (from_ size : Nat) (ranges : List (Nat × Nat)) : Prop :=
  (∀ r ∈ ranges, from_ ≤ r.1 ∧ 0 < r.2 ∧ r.1 + r.2 ≤ size ∧
    (∀ i, r.1 ≤ i → i < r.1 + r.2 → m i = true) ∧
    (r.1 = 0 ∨ m (r.1 - 1) = false) ∧ (r.1 + r.2 = size ∨ m (r.1 + r.2) = false)) ∧
  ranges.Pairwise (fun r1 r2 => r1.1 + r1.2 < r2.1) ∧
  (∀ i, from_ ≤ i → i < size → m i = true → ∃ r ∈ ranges, r.1 ≤ i ∧ i < r.1 + r.2)

/-- The ranges are exactly the maximal runs of set bits of the map below `size`, in
increasing order. -/
def maximal_runs (m : Nat → Bool) (size : Nat) (ranges : List (Nat × Nat)) : Prop :=
  runs_from m 0 size ranges

/-- Modelled from the spec: `bitmap_count_one` (qemu/bitmap.h) is the number of set bits
among the first `nbits` bits. -/
def bitmap_count_one (bitmap : Nat → Bool) (nbits : Nat) : Nat := count_set bitmap nbits

/-- The loop of `ram_state_resume_prepare` over the migratable blocks, adding to the
64-bit `pages`. -/
def resume_count_pages : List RAMBlock → Nat → Nat
  | [], pages => pages
  | block :: rest, pages =>
    if block.migratable then
      resume_count_pages rest
        ((pages + bitmap_count_one block.bmap (block.used_length >>> TARGET_PAGE_BITS)) % 2 ^ 64)
    else resume_count_pages rest pages

/-- Embedding of `ram_state_resume_prepare`. -/
def ram_state_resume_prepare (s : SaveState) (out : QEMUFile) : SaveState :=
  let pages := resume_count_pages s.ram_list 0
  { s with rs := { s.rs with
      migration_dirty_pages := pages,
      last_seen_block := none,
      last_sent_block := none,
      last_page := 0,
      last_version := s.ram_list_version,
      ram_bulk_stage := false,
      f := out } }

/-- Embedding of `ram_save_pending`: the state and the outputs `*res_precopy_only`,
`*res_compatible` and `*res_postcopy_only`, which are 64-bit words. -/
def ram_save_pending (env : SaveEnv) (s : SaveState) (max_size : Nat)
    (res_precopy_only res_compatible res_postcopy_only : Nat) : SaveState × Nat × Nat × Nat :=
  let remaining_size := (s.rs.migration_dirty_pages * TARGET_PAGE_SIZE) % 2 ^ 64
  let sr : SaveState × Nat :=
    if !env.migration_in_postcopy && decide (remaining_size < max_size) then
      let s := migration_bitmap_sync env s
      (s, (s.rs.migration_dirty_pages * TARGET_PAGE_SIZE) % 2 ^ 64)
    else (s, remaining_size)
  if env.migrate_postcopy_ram then
    (sr.1, res_precopy_only, (res_compatible + sr.2) % 2 ^ 64, res_postcopy_only)
  else
    (sr.1, (res_precopy_only + sr.2) % 2 ^ 64, res_compatible, res_postcopy_only)

/-- The sum of the used lengths of the migratable blocks. -/
def used_length_sum : List RAMBlock → Nat
  | [] => 0
  | b :: rest => (if b.migratable then b.used_length else 0) + used_length_sum rest

/-- The installed delta cache `XBZRLE.cache` together with the byte size it was created
with. -/
structure InstalledCache where
  cache : PageCache
  num_bytes : Int

/-- What `xbzrle_cache_resize` reads from outside the sources: the width of `size_t` in
bits (at most 64), the configured cache size `migrate_xbzrle_cache_size()`, and whether
`cache_init` fails for a size (it refuses some sizes and may run out of memory). -/
structure ResizeEnv where
  size_bits : Nat
  migrate_xbzrle_cache_size : Int
  cache_init_fails : Int → Bool

/-- The C test `new_size != (size_t)new_size` for an `int64_t new_size`: with a 64-bit
`size_t` both sides are compared as 64-bit unsigned words; with a narrower `size_t`
the truncated value is compared as a non-negative `int64_t`. -/
def size_t_truncates (size_bits : Nat) (new_size : Int) : Bool :=
  if size_bits < 64 then decide (new_size ≠ new_size % 2 ^ size_bits)
  else decide (new_size % 2 ^ 64 ≠ (new_size % 2 ^ size_bits) % 2 ^ 64)

/-- Modelled from the spec: `cache_init` (page_cache.c) creates an empty cache of the
given number of bytes, or fails and returns NULL. -/
def cache_init (env : ResizeEnv) (new_size : Int) : Option InstalledCache :=
  if env.cache_init_fails new_size then none
  else some { cache := { entries := fun _ => none }, num_bytes := new_size }

/-- Embedding of `xbzrle_cache_resize`: the return value and `XBZRLE.cache` afterwards
(`none` is NULL); the old cache is freed when it is replaced. -/
def xbzrle_cache_resize (env : ResizeEnv) (cache : Option InstalledCache) (new_size : Int) :
    Int × Option InstalledCache :=
  if size_t_truncates env.size_bits new_size then (-1, cache)
  else if new_size = env.migrate_xbzrle_cache_size then (0, cache)
  else
    match cache with
    | some _ =>
      match cache_init env new_size with
      | none => (-1, cache)
      | some new_cache => (0, some new_cache)
    | none => (0, cache)

/-- The value is representable as a `size_t` of the given width. -/
def size_representable (size_bits : Nat) (new_size : Int) : Prop :=
  0 ≤ new_size ∧ new_size < 2 ^ size_bits

/-- The callback bundle of a plugin, as far as the notifiers look at it: whether the
function pointer is set. -/
structure PluginCallbacks where
  on_execute_instruction : Bool
  on_exception : Bool
  deriving DecidableEq

/-- A plugin instance (`PluginObject`): an identity and its callback bundle. -/
structure PluginInstance where
  id : Nat
  cb : PluginCallbacks
  deriving DecidableEq

/-- A call of a plugin callback with its arguments. -/
inductive PluginCall where
  | on_exception (plugin : PluginInstance) (exception : Int)
  | on_execute_instruction (plugin : PluginInstance) (vaddr : Nat) (code : Nat)
  deriving DecidableEq

/-- What `notify_exec_instruction` asks the emulator: the debug translation of a
virtual address (`(hwaddr)-1` when there is none) and the host pointer for a physical
address (0 is NULL). -/
structure PluginEnv where
  cpu_get_phys_page_debug : Nat → Nat
  qemu_map_ram_ptr_nofault : Nat → Nat

/-- Embedding of `notify_exception`: `QLIST_FOREACH` over `plugin_pluginlist`, the
calls made being appended to a record of calls.  The callbacks do not touch the
list. -/
def notify_exception : List PluginInstance → Int → List PluginCall → List PluginCall
  | [], _, calls => calls
  | p :: rest, exception, calls =>
    if p.cb.on_exception then
      notify_exception rest exception (calls ++ [PluginCall.on_exception p exception])
    else notify_exception rest exception calls

/-- The loop of `notify_exec_instruction` over `plugin_pluginlist`. -/
def notify_exec_instruction_loop :
    List PluginInstance → Nat → Nat → List PluginCall → List PluginCall
  | [], _, _, calls => calls
  | p :: rest, vaddr, code, calls =>
    if p.cb.on_execute_instruction then
      notify_exec_instruction_loop rest vaddr code
        (calls ++ [PluginCall.on_execute_instruction p vaddr code])
    else notify_exec_instruction_loop rest vaddr code calls

/-- Embedding of `notify_exec_instruction`; `hwaddr` is a 64-bit word. -/
def notify_exec_instruction (env : PluginEnv) (plugins : List PluginInstance) (vaddr : Nat)
    (calls : List PluginCall) : List PluginCall :=
  let paddr := env.cpu_get_phys_page_debug vaddr
  if paddr = 2 ^ 64 - 1 then calls
  else
    let code := env.qemu_map_ram_ptr_nofault ((paddr + (NOT_TARGET_PAGE_MASK &&& vaddr)) % 2 ^ 64)
    if code = 0 then calls
    else notify_exec_instruction_loop plugins vaddr code calls

/-- The state and the clock value `end_time` with which `migration_bitmap_sync` tests
whether a sync window has ended: after the dirty log has been synced into the blocks. -/
def sync_window (env : SaveEnv) (s : SaveState) : SaveState × Int :=
  let s := { s with ram_counters :=
    { s.ram_counters with dirty_sync_count := s.ram_counters.dirty_sync_count + 1 } }
  let s :=
    if s.rs.time_last_bitmap_sync = 0 then
      let r := qemu_clock_get_ms env s
      { r.2 with rs := { r.2.rs with time_last_bitmap_sync := r.1 } }
    else s
  let s := migration_bitmap_sync_blocks env s
  let s := { s with ram_counters :=
    { s.ram_counters with remaining := s.rs.migration_dirty_pages * TARGET_PAGE_SIZE } }
  let r := qemu_clock_get_ms env s
  (r.2, r.1)

/-- The call of `migration_bitmap_sync` evaluates a sync window: more than a second has
passed since the last evaluation. -/
def window_evaluated (env : SaveEnv) (s : SaveState) : Prop :=
  (sync_window env s).2 > (sync_window env s).1.rs.time_last_bitmap_sync + 1000

/-- The bytes dirtied in the window of the call. -/
def window_dirtied (env : SaveEnv) (s : SaveState) : Nat :=
  ((sync_window env s).1.rs.num_dirty_pages_period * TARGET_PAGE_SIZE) % 2 ^ 64

/-- The bytes transferred in the window of the call. -/
def window_transferred (env : SaveEnv) (s : SaveState) : Nat :=
  ((sync_window env s).1.ram_counters.transferred % 2 ^ 64 + 2 ^ 64 -
    (sync_window env s).1.rs.bytes_xfer_prev % 2 ^ 64) % 2 ^ 64

/-- The dirty-rate test `migration_bitmap_sync` applies to the window of the call:
`num_dirty_pages_period * TARGET_PAGE_SIZE > (bytes_xfer_now - bytes_xfer_prev) / 2`. -/
def dirty_rate_test (env : SaveEnv) (s : SaveState) : Prop :=
  window_dirtied env s > window_transferred env s / 2

/-- The condition in the words of the claim: the bytes dirtied exceed the bytes
transferred by more than 50%. -/
def dirtied_exceeds_by_half (env : SaveEnv) (s : SaveState) : Prop :=
  2 * window_dirtied env s > 3 * window_transferred env s

/-- The counters that only grow: `transferred`, `dirty_sync_count` and
`postcopy_requests` of `ram_counters`, and `cache_miss`, `overflow`, `pages` and `bytes`
of `xbzrle_counters`; each is in `t` at least what it is in `s`. -/
def counters_le (s t : SaveState) : Prop :=
  s.ram_counters.transferred ≤ t.ram_counters.transferred ∧
  s.ram_counters.dirty_sync_count ≤ t.ram_counters.dirty_sync_count ∧
  s.xbzrle_counters.cache_miss ≤ t.xbzrle_counters.cache_miss ∧
  s.xbzrle_counters.overflow ≤ t.xbzrle_counters.overflow ∧
  s.xbzrle_counters.pages ≤ t.xbzrle_counters.pages ∧
  s.xbzrle_counters.bytes ≤ t.xbzrle_counters.bytes ∧
  s.ram_counters.postcopy_requests ≤ t.ram_counters.postcopy_requests

/-- The end of the run of pages `ram_save_host_page` looks at from `page` on: the lesser
of the next host-page boundary above `page` and the number of used pages of the block;
`r` is the number of target pages of a host page. -/
def host_page_end (r used_pages page : Nat) : Nat :=
  min ((page / r + 1) * r) used_pages

/-- One send of the loop of `ram_save_host_page`: the dirty bit of the page is cleared, the
target page is saved and its unsent bit is cleared; the state and the result of
`ram_save_target_page`. -/
def host_page_send (env : SaveEnv) (last_stage : Bool) (block : Nat) (s : SaveState)
    (page : Nat) : SaveState × Int :=
  let c := migration_bitmap_clear_dirty s block page
  let t := ram_save_target_page env c.1 block page last_stage
  (clear_unsent t.1 block page, t.2)

/-- The sends for the pages of a list in turn: the state after the last one and the
per-page results. -/
def host_page_sends (env : SaveEnv) (last_stage : Bool) (block : Nat) :
    List Nat → SaveState → SaveState × List Int
  | [], s => (s, [])
  | page :: rest, s =>
    let r := host_page_send env last_stage block s page
    let x := host_page_sends env last_stage block rest r.1
    (x.1, r.2 :: x.2)

/-- The pages of `[p, e)` whose bit is set in the bitmap, in ascending order. -/
def dirty_pages_in (bmap : Nat → Bool) (p e : Nat) : List Nat :=
  (List.range' p (e - p)).filter bmap

/-- The 64-bit decrement applied `k` times. -/
def dec64_times : Nat → Nat → Nat
  | 0, x => x
  | k + 1, x => dec64_times k (dec64 x)

/-! ## The sender's stream as a sequence of frames -/

/-- What is found on the wire: a frame, with the block it was sent for, the header word
as written, and the bytes written after the word; or the EOS word. -/
inductive WireItem where
  | frame (block : Nat) (word : Nat) (tail : List Nat)
  | eos
  deriving DecidableEq, Repr

/-- The writes a call of the sender is made of, each one a function of the sender:
`save_zero_page`, `save_normal_page`, `save_xbzrle_page`;
`compress_page_with_multi_thread`, which `ram_save_target_page` calls for the block last
sent only; `flush_compressed_data`; the EOS word at the end of `ram_save_iterate` and
`ram_save_complete`; the `ram_state_reset` of `ram_save_iterate` when the RAM list
version changed; and any other change of the sender state.  A call of
`ram_save_target_page` is the run of the writes `target_page_ops` lists. -/
inductive SenderOp where
  | zero_page (block offset : Nat)
  | normal_page (block offset : Nat) (buf : List Nat) (async : Bool)
  | xbzrle_page (current_data : List Nat) (current_addr block offset : Nat) (last_stage : Bool)
  | compress_page (block offset : Nat)
  | flush
  | eos
  | reset (version : Nat)
  | other (g : SaveState → SaveState)

/-- Runs one operation on the sender state. -/
def sender_op (env : SaveEnv) (s : SaveState) : SenderOp → SaveState
  | SenderOp.zero_page block offset => (save_zero_page s block offset).1
  | SenderOp.normal_page block offset buf async => (save_normal_page s block offset buf async).1
  | SenderOp.xbzrle_page current_data current_addr block offset last_stage =>
    (save_xbzrle_page env s current_data current_addr block offset last_stage).1
  | SenderOp.compress_page block offset =>
    if s.rs.last_sent_block = some block then
      (compress_page_with_multi_thread env s block offset).1
    else s
  | SenderOp.flush => flush_compressed_data env s
  | SenderOp.eos => (ram_save_iterate_out s 0).1
  | SenderOp.reset version => { s with rs := ram_state_reset s.rs version }
  | SenderOp.other g => g s

/-- The frame that an operation for `block` has appended to a file whose content was
`old` and now is `new`, read back from the file: the header word is the first eight
bytes appended; nothing when nothing was appended. -/
def appended_frame (block : Nat) (old new : List Nat) : List WireItem :=
  if new.length ≤ old.length then []
  else [WireItem.frame block (be_value ((new.drop old.length).take 8))
          ((new.drop old.length).drop 8)]

/-- What the sender has put on the wire and what its compression worker holds: the
sender state, the frames and EOS words that have reached the stream, in stream order,
and the frames in the file of the worker. -/
structure SenderTrace where
  state : SaveState
  sent : List WireItem
  pending : List WireItem

/-- Runs one operation and records what it put on the wire: a frame written to the
stream is read back from the stream; the compression moves the content of the worker's
file to the stream and leaves the new frame in the worker's file; a flush moves the
content of the worker's file to the stream. -/
def trace_op (env : SaveEnv) (t : SenderTrace) (op : SenderOp) : SenderTrace :=
  let s2 := sender_op env t.state op
  match op with
  | SenderOp.zero_page block _ =>
    { state := s2, sent := t.sent ++ appended_frame block t.state.rs.f.buf s2.rs.f.buf,
      pending := t.pending }
  | SenderOp.normal_page block _ _ _ =>
    { state := s2, sent := t.sent ++ appended_frame block t.state.rs.f.buf s2.rs.f.buf,
      pending := t.pending }
  | SenderOp.xbzrle_page _ _ block _ _ =>
    { state := s2, sent := t.sent ++ appended_frame block t.state.rs.f.buf s2.rs.f.buf,
      pending := t.pending }
  | SenderOp.compress_page block _ =>
    if t.state.rs.last_sent_block = some block then
      { state := s2, sent := t.sent ++ t.pending,
        pending := appended_frame block [] s2.comp_file }
    else { state := s2, sent := t.sent, pending := t.pending }
  | SenderOp.flush =>
    if env.migrate_use_compression then
      { state := s2, sent := t.sent ++ t.pending, pending := [] }
    else { state := s2, sent := t.sent, pending := t.pending }
  | SenderOp.eos => { state := s2, sent := t.sent ++ [WireItem.eos], pending := t.pending }
  | SenderOp.reset _ => { state := s2, sent := t.sent, pending := t.pending }
  | SenderOp.other _ => { state := s2, sent := t.sent, pending := t.pending }

/-- Runs a sequence of operations and records what they put on the wire. -/
def trace_run (env : SaveEnv) : SenderTrace → List SenderOp → SenderTrace
  | t, [] => t
  | t, op :: ops => trace_run env (trace_op env t op) ops

/-- The trace of a sender that has not written yet. -/
def SenderTrace.start (s : SaveState) : SenderTrace := { state := s, sent := [], pending := [] }

/-- The region a frame without CONTINUE names. -/
def named : WireItem → Option Nat
  | WireItem.frame block word _ => if word &&& RAM_SAVE_FLAG_CONTINUE = 0 then some block else none
  | WireItem.eos => none

/-- The region a frame with CONTINUE was sent for. -/
def continues : WireItem → Option Nat
  | WireItem.frame block word _ => if word &&& RAM_SAVE_FLAG_CONTINUE ≠ 0 then some block else none
  | WireItem.eos => none

/-- The writes a call of `ram_save_target_page` for the page `page` of `block` is made
of, in the order of the code: the control hook, the flush before a page of a new block,
`save_zero_page`, and then either the bookkeeping for a zero page, or
`compress_page_with_multi_thread`, or the multifd queue, or the writes of
`ram_save_page`. -/
def target_page_ops (env : SaveEnv) (s : SaveState) (block page : Nat) (last_stage : Bool) :
    List SenderOp :=
  let offset := (page <<< TARGET_PAGE_BITS) % 2 ^ 64
  let c := control_save_page env s block offset
  SenderOp.other (fun s => (control_save_page env s block offset).1) ::
  (if c.2.1 then []
   else
    let s1 := c.1
    let s2 :=
      if some block ≠ s1.rs.last_sent_block && save_page_use_compression env s1 then
        flush_compressed_data env s1
      else s1
    let z := save_zero_page s2 block offset
    (if some block ≠ s1.rs.last_sent_block && save_page_use_compression env s1 then
      [SenderOp.flush]
     else []) ++
    SenderOp.zero_page block offset ::
    (if z.2 > 0 then
      [SenderOp.other (fun s =>
          if !save_page_use_compression env s then
            xbzrle_cache_zero_page env s (((ramblock s.ram_list block).offset + offset) % 2 ^ 64)
          else s),
       SenderOp.other (fun s =>
          ram_release_pages env s (ramblock s.ram_list block).idstr offset z.2)]
     else if some block = z.1.rs.last_sent_block && save_page_use_compression env z.1 then
      [SenderOp.compress_page block offset]
     else if env.migrate_use_multifd then
      [SenderOp.other (fun s => (ram_save_multifd_page s block offset).1)]
     else
      let b := ramblock z.1.ram_list block
      let current_addr := (b.offset + offset) % 2 ^ 64
      let p := read_buffer z.1.mem (b.host + offset) TARGET_PAGE_SIZE
      if !z.1.rs.ram_bulk_stage && !env.migration_in_postcopy && env.migrate_use_xbzrle then
        let x := save_xbzrle_page env z.1 p current_addr block offset last_stage
        SenderOp.xbzrle_page p current_addr block offset last_stage ::
          (if x.2.1 = -1 then [SenderOp.normal_page block offset x.2.2 last_stage] else [])
      else [SenderOp.normal_page block offset p true]))

/-- The calls by which the sender writes to the stream: `ram_save_target_page`, the one
function that emits data frames; `flush_compressed_data`; the EOS word at the end of
`ram_save_iterate` and `ram_save_complete`; the `ram_state_reset` of `ram_save_iterate`
when the RAM list version changed; and any other change of the sender state. -/
inductive SenderCall where
  | target_page (block page : Nat) (last_stage : Bool)
  | flush
  | eos
  | reset (version : Nat)
  | other (g : SaveState → SaveState)

/-- The writes a call is made of. -/
def call_ops (env : SaveEnv) (s : SaveState) : SenderCall → List SenderOp
  | SenderCall.target_page block page last_stage => target_page_ops env s block page last_stage
  | SenderCall.flush => [SenderOp.flush]
  | SenderCall.eos => [SenderOp.eos]
  | SenderCall.reset version => [SenderOp.reset version]
  | SenderCall.other g => [SenderOp.other g]

/-- Runs one call and records what its writes put on the wire. -/
def trace_call (env : SaveEnv) (t : SenderTrace) (c : SenderCall) : SenderTrace :=
  trace_run env t (call_ops env t.state c)

/-- Runs a sequence of calls and records what they put on the wire. -/
def trace_calls (env : SaveEnv) : SenderTrace → List SenderCall → SenderTrace
  | t, [] => t
  | t, c :: cs => trace_calls env (trace_call env t c) cs

/-- The bytes of the id "pc.ram". -/
def pc_ram_id : List Nat := [112, 99, 46, 114, 97, 109]

/-- The region of scenario S1: "pc.ram", 8192 bytes used, 4096-byte pages. -/
def pc_ram : RAMBlock :=
  { idstr := pc_ram_id, host := 0x10000, offset := 0, used_length := 8192, max_length := 8192,
    page_size := 4096, migratable := true, bmap := fun _ => false, unsentmap := none,
    receivedmap := fun _ => false }

/-- A sender environment without optional features, 4096-byte host pages, and a
memory subsystem that reports no new dirty page. -/
def plain_save_env : SaveEnv :=
  { migrate_use_xbzrle := false, migrate_use_compression := false,
    migrate_postcopy_ram := false, migration_in_postcopy := false,
    migration_in_colo_state := false, migrate_auto_converge := false,
    blk_mig_bulk_active := false, migrate_use_events := false, migrate_release_ram := false,
    qemu_host_page_size := 4096, compress_threads_save_setup_ret := 0,
    ram_state_alloc_ok := true, xbzrle_init_ret := 0,
    cpu_physical_memory_sync_dirty_bitmap :=
      fun b _ _ => { bmap := b.bmap, num_dirty := 0, real_dirty := 0 },
    clock_ms := fun _ => 0,
    migrate_use_multifd := false,
    RAM_SAVE_CONTROL_NOT_SUPP := -1000,
    RAM_SAVE_CONTROL_DELAYED := -2000,
    ram_control_save_page := fun f _ _ _ => (-1000, 0, f),
    xbzrle_encode_buffer := fun _ _ => (-1, []),
    cache_insert_victims := fun _ _ => some [],
    qemu_put_compression_data := fun _ => (-1, []),
    qemu_file_rate_limit := fun _ => 0,
    clock_ns := fun _ => 0,
    DIRTY_SYNC_MAX_WAIT := 50 }

/-- An empty file without error. -/
def empty_file : QEMUFile := { buf := [], last_error := 0 }

/-- A sender state before setup over the given RAM list and memory. -/
def initial_save_state (ram_list : List RAMBlock) (mem : Nat → Nat) : SaveState :=
  { rs := RAMState.zeroed,
    ram_counters := { transferred := 0, duplicate := 0, normal := 0, dirty_sync_count := 0,
                      dirty_pages_rate := 0, remaining := 0, postcopy_requests := 0 },
    xbzrle_counters := { pages := 0, bytes := 0, cache_miss := 0, overflow := 0 },
    ram_list := ram_list, ram_list_version := 0, mem := mem, clock_reads := 0,
    throttle_calls := 0, pass_events := [], xbzrle_cache := { entries := fun _ => none },
    comp_file := [], save_events := [] }

/-- A receiver environment without optional features, in pre-copy mode, with
4096-byte host pages; the external operations are stand-ins. -/
def plain_load_env : LoadEnv :=
  { migrate_use_compression := false, postcopy_running := false, postcopy_advised := false,
    decompress_error_check := false, qemu_host_page_size := 4096,
    qemu_ram_resize := fun _ n => { ret := 0, used_length := n },
    compressBound := fun n => n + 14,
    qemu_uncompress_data := fun _ => ([], -1),
    xbzrle_decode_buffer := fun _ old => (old, 0),
    postcopy_place_page := fun _ _ _ => 0,
    postcopy_place_page_zero := fun _ _ => 0 }

/-- A fresh receiver over the given RAM list, memory and input bytes. -/
def initial_load_state (ram_list : List RAMBlock) (mem : Nat → Nat) (input : List Nat) :
    LoadState :=
  { f := { buf := input, last_error := 0 }, ram_list := ram_list, mem := mem, block := none,
    seq_iter := 0, tmp_page := fun _ => 0, events := [] }

/-- Source memory of scenario S2: the first page of "pc.ram" is zero, the bytes after
it are not. -/
def s2_source_mem : Nat → Nat := fun a => if a < 0x10000 + 4096 then 0 else a % 251 + 1

/-- The pages of scenario S2: offsets 0 and 4096 of block 0. -/
def s2_pages : List (Nat × Nat) := [(0, 0), (0, 4096)]

/-- The region of scenario S5: "pc.ram" backed by 16384-byte host pages, two host
pages long, at a host address aligned to the host page size. -/
def huge_ram : RAMBlock :=
  { idstr := pc_ram_id, host := 0x10000, offset := 0, used_length := 32768, max_length := 32768,
    page_size := 16384, migratable := true, bmap := fun _ => false, unsentmap := none,
    receivedmap := fun _ => false }

/-- The receiver environment of scenario S5: post-copy is running. -/
def postcopy_load_env : LoadEnv := { plain_load_env with postcopy_running := true }

/-- Scenario S5, second part: the state of the post-copy loop after the ZERO frame at
offset 0 of "pc.ram", with the ZERO frame at offset 8192 and the EOS word still to be
read. -/
def s5_skip_state : LoadState :=
  { f := { buf := be64_bytes (8192 + 34) ++ [0] ++ be64_bytes 16, last_error := 0 },
    ram_list := [huge_ram], mem := fun _ => 0, block := some 0, seq_iter := 1,
    tmp_page := fun _ => 0, events := [LoadEvent.frame (some 0) 0x10000 2] }

/-- The locals of the post-copy loop after the ZERO frame at offset 0. -/
def s5_skip_locals : PostcopyLocals :=
  { flags := 2, ret := 0, place_needed := false, matches_target_page_size := false,
    last_host := 0x10000, all_zero := true }

/-- The region "pc.ram" with both of its pages dirty. -/
def dirty_ram : RAMBlock := { pc_ram with bmap := fun i => decide (i < 2) }

/-- A sender over "pc.ram" with both pages dirty and counted, outside the bulk stage. -/
def dirty_state : SaveState :=
  { initial_save_state [dirty_ram] (fun _ => 0) with
    rs := { RAMState.zeroed with migration_dirty_pages := 2 } }

/-- A sender over "pc.ram" in the bulk stage, with no dirty bit. -/
def bulk_clean_state : SaveState :=
  { initial_save_state [pc_ram] (fun _ => 0) with
    rs := { RAMState.zeroed with ram_bulk_stage := true } }

/-- Region A of scenario S6: 128 target pages, none dirty. -/
def region_a : RAMBlock :=
  { idstr := [97], host := 0x100000, offset := 0, used_length := 0x80000,
    max_length := 0x80000, page_size := 4096, migratable := true, bmap := fun _ => false,
    unsentmap := none, receivedmap := fun _ => false }

/-- Region B of scenario S6: 8 target pages on 4096-byte host pages, pages 4 and 5
dirty. -/
def region_b : RAMBlock :=
  { idstr := [98], host := 0x200000, offset := 0x80000, used_length := 0x8000,
    max_length := 0x8000, page_size := 4096, migratable := true,
    bmap := fun i => decide (i = 4 ∨ i = 5), unsentmap := none,
    receivedmap := fun _ => false }

/-- Scenario S6: the scanner is at region A, page 100, in the bulk stage, and one
request for region B, offset 0x4000, length 0x2000 is queued. -/
def s6_state : SaveState :=
  { initial_save_state [region_a, region_b] (fun _ => 0) with
    rs := { RAMState.zeroed with
      last_seen_block := some 0, last_page := 100, ram_bulk_stage := true,
      migration_dirty_pages := 2,
      src_page_requests := [{ rb := 1, offset := 0x4000, len := 0x2000 }] } }

/-- Scenario S3: the cached page, all zero. -/
def s3_prev : List Nat := List.replicate 4096 0

/-- Scenario S3: the current page, the cached page with bytes 100 to 103 changed. -/
def s3_current : List Nat := List.replicate 100 0 ++ [1, 2, 3, 4] ++ List.replicate 3992 0

/-- A sender environment with delta encoding enabled and an encoder that reports no
change for equal pages and otherwise six encoded bytes. -/
def delta_env : SaveEnv :=
  { plain_save_env with
    migrate_use_xbzrle := true,
    xbzrle_encode_buffer := fun old new =>
      if old = new then (0, []) else (6, [100, 4, 1, 2, 3, 4]) }

/-- Scenario S3: a sender over "pc.ram" outside the bulk stage, in sync epoch 5, whose
delta cache holds the all-zero page at address 0 with epoch 5. -/
def s3_state : SaveState :=
  { initial_save_state [pc_ram] (fun _ => 0) with
    ram_counters := { (initial_save_state [pc_ram] (fun _ => 0)).ram_counters with
      dirty_sync_count := 5 },
    xbzrle_cache := { entries := fun a =>
      if a = 0 then some { data := s3_prev, epoch := 5 } else none } }

/-- A resizable region: "pc.ram" with one page in use and room for two. -/
def resizable_ram : RAMBlock := { pc_ram with used_length := 4096, max_length := 8192 }

/-- A sender over "pc.ram" outside the bulk stage, with no dirty page, whose cursor is
at page 0 of the region. -/
def clean_scan_state : SaveState :=
  { initial_save_state [pc_ram] (fun _ => 0) with
    rs := { RAMState.zeroed with last_seen_block := some 0 } }

/-- A sender environment with compression enabled and, for the rest, no optional
feature. -/
def compress_env : SaveEnv := { plain_save_env with migrate_use_compression := true }

/-- A sender over regions A and B, all memory zero, that has last sent a page of
region A and whose compression worker still holds three bytes of output. -/
def pending_state : SaveState :=
  { initial_save_state [region_a, region_b] (fun _ => 0) with
    rs := { RAMState.zeroed with last_sent_block := some 0 },
    comp_file := [1, 2, 3] }

/-- A sender environment with delta encoding enabled whose encoder always reports
an overflow. -/
def overflow_env : SaveEnv :=
  { delta_env with xbzrle_encode_buffer := fun _ _ => (-1, []) }

/-- A sender over "pc.ram" before the first page is sent, every byte of memory being 1. -/
def ones_state : SaveState := initial_save_state [pc_ram] (fun _ => 1)

/-- A sender environment whose transport reports the rate limit exceeded as soon as a
byte has been written. -/
def limited_env : SaveEnv :=
  { plain_save_env with qemu_file_rate_limit := fun f => if f.buf.length = 0 then 0 else 1 }

/-- A sender over "pc.ram" on 16384-byte host pages, all memory zero, with the four
target pages of the first host page dirty. -/
def huge_dirty_state : SaveState :=
  { initial_save_state [{ huge_ram with bmap := fun i => decide (i < 4) }] (fun _ => 0) with
    rs := { RAMState.zeroed with migration_dirty_pages := 4 } }

/-- A block of eight target pages of which pages 1, 2 and 6 are dirty and pages 0, 1 and
5 have not been sent. -/
def ragged_chunk_state : ChunkState :=
  { bitmap := fun i => decide (i = 1 ∨ i = 2 ∨ i = 6),
    unsentmap := fun i => decide (i = 0 ∨ i = 1 ∨ i = 5),
    migration_dirty_pages := 3,
    discards := [] }

/-- The four frames of one 16384-byte host page: a zero fill, a page of sevens, a zero
fill and a fill with fives; the first names the block, the others carry CONTINUE. -/
def s4_frames : List PostFrame :=
  [{ cont := false, payload := Payload.zero 0 },
   { cont := true, payload := Payload.page (List.replicate 4096 7) },
   { cont := true, payload := Payload.zero 0 },
   { cont := true, payload := Payload.zero 5 }]

/-- Scenario S4: a receiver with the region of 16384-byte host pages whose stream holds
the frames for offsets 0, 4096, 8192 and 12288 and the EOS word. -/
def s4_load_state : LoadState :=
  { f := { buf := host_page_frames_bytes huge_ram 0 s4_frames ++ be64_bytes 16, last_error := 0 },
    ram_list := [huge_ram], mem := fun _ => 0, block := none, seq_iter := 1,
    tmp_page := fun _ => 0, events := [] }

/-- A region that is not migrated: "rom", one page at host address 0x20000. -/
def rom_block : RAMBlock :=
  { idstr := [114, 111, 109], host := 0x20000, offset := 0x100000, used_length := 4096,
    max_length := 4096, page_size := 4096, migratable := false, bmap := fun _ => false,
    unsentmap := none, receivedmap := fun _ => false }

/-- A receiver that knows "pc.ram" and "rom" and is handed a ZERO frame for offset 0
that names "rom". -/
def rom_named_state : LoadState :=
  initial_load_state [pc_ram, rom_block] (fun _ => 0)
    (be64_bytes (0 ||| RAM_SAVE_FLAG_ZERO) ++ [3, 114, 111, 109] ++ [0xAA] ++
      be64_bytes RAM_SAVE_FLAG_EOS)

/-- The stream of a later section: a ZERO frame for offset 0 with CONTINUE and fill
byte 0xAA, and the EOS word. -/
def continue_stream : List Nat :=
  be64_bytes (0 ||| RAM_SAVE_FLAG_ZERO ||| RAM_SAVE_FLAG_CONTINUE) ++ [0xAA] ++
    be64_bytes RAM_SAVE_FLAG_EOS

/-- A block of eight target pages of which pages 0, 1 and 5 have not been sent. -/
def ragged_unsent_block : RAMBlock :=
  { huge_ram with unsentmap := some (fun i => decide (i = 0 ∨ i = 1 ∨ i = 5)) }

/-- A host with 64-bit `size_t`, a configured cache size of 64 MiB, and a `cache_init`
that refuses sizes below one target page. -/
def lp64_resize_env : ResizeEnv :=
  { size_bits := 64, migrate_xbzrle_cache_size := 67108864,
    cache_init_fails := fun n => decide (n < 4096) }

/-- A host with 32-bit `size_t`, otherwise like `lp64_resize_env`. -/
def ilp32_resize_env : ResizeEnv :=
  { size_bits := 32, migrate_xbzrle_cache_size := 67108864,
    cache_init_fails := fun n => decide (n < 4096) }

/-- An installed cache of 64 MiB that holds one page. -/
def used_cache : InstalledCache :=
  { cache := { entries := fun a => if a = 0 then some { data := [], epoch := 1 } else none },
    num_bytes := 67108864 }

/-- A sender environment with auto-converge whose clock advances by two seconds per
reading and whose memory subsystem reports one page dirtied per sync. -/
def converge_env : SaveEnv :=
  { plain_save_env with
    migrate_auto_converge := true,
    clock_ms := fun n => 2000 * (n + 1),
    cpu_physical_memory_sync_dirty_bitmap :=
      fun b _ _ => { bmap := b.bmap, num_dirty := 0, real_dirty := 1 } }

/-- The state with `transferred` set: what sending pages between two syncs does to the
byte counter. -/
def with_transferred (s : SaveState) (n : Nat) : SaveState :=
  { s with ram_counters := { s.ram_counters with transferred := n } }

/-- Three sync windows: in the first nothing is transferred, in the second 100000
bytes, in the third nothing. -/
def window_states : SaveState × SaveState × SaveState :=
  let s0 := initial_save_state [pc_ram] (fun _ => 0)
  let s1 := with_transferred (migration_bitmap_sync converge_env s0) 100000
  let s2 := migration_bitmap_sync converge_env s1
  (s0, s1, s2)

/-- Two sync windows in each of which 4096 bytes are dirtied and 4096 transferred. -/
def even_window_states : SaveState × SaveState :=
  let s0 := with_transferred (initial_save_state [pc_ram] (fun _ => 0)) 4096
  let s1 := with_transferred (migration_bitmap_sync converge_env s0) 8192
  (s0, s1)

/-- A sender over "pc.ram" on 16384-byte host pages, two host pages long, all memory zero,
with the pages 1, 2 and 6 dirty, an unsent map with every bit set, and the scan cursor on
page 1. -/
def partial_dirty_state : SaveState :=
  { initial_save_state
      [{ huge_ram with
          bmap := fun i => decide (i = 1 ∨ i = 2 ∨ i = 6),
          unsentmap := some (fun i => decide (i < 8)) }] (fun _ => 0) with
    rs := { RAMState.zeroed with migration_dirty_pages := 3 } }

/-- The scan cursor on page 1 of the first block. -/
def cursor_page_one : PageSearchStatus :=
  { block := some 0, page := 1, complete_round := false, wraps := 0 }

/-- A sender over "pc.ram" right after `ram_state_reset`: no region seen yet, bulk stage,
and no dirty page. -/
def reset_clean_state : SaveState :=
  { initial_save_state [pc_ram] (fun _ => 0) with rs := ram_state_reset RAMState.zeroed 0 }

/-- A receiver environment with compression enabled and, for the rest, no optional
feature. -/
def compress_load_env : LoadEnv := { plain_load_env with migrate_use_compression := true }

/-- A receiver that knows "pc.ram" and is handed a PAGE frame for offset 0 whose region
id is announced as five bytes long, of which the stream holds one. -/
def short_id_state : LoadState :=
  initial_load_state [pc_ram] (fun _ => 0) (be64_bytes 8 ++ [5, 120])

/-- A sender environment with compression and delta encoding enabled whose compressor
puts out two bytes for every page. -/
def squeeze_env : SaveEnv :=
  { plain_save_env with
    migrate_use_compression := true, migrate_use_xbzrle := true,
    qemu_put_compression_data := fun _ => (2, [7, 7]) }

/-- A fresh sender over regions A and B after `ram_state_reset`, in the bulk stage,
every byte of memory being 1. -/
def bulk_ab_state : SaveState :=
  { initial_save_state [region_a, region_b] (fun _ => 1) with
    rs := ram_state_reset RAMState.zeroed 0 }

/-- The bulk stage ends while a compressed page is held back: pages 0 and 1 of region A
are sent, the second one through the compression worker; the bulk stage is ended, as
`get_queued_page` does for a queued request; page 0 of region B is sent; and the
compressed output is flushed. -/
def held_back_calls : List SenderCall :=
  [SenderCall.target_page 0 0 false, SenderCall.target_page 0 1 false,
   SenderCall.other (fun s => { s with rs := { s.rs with ram_bulk_stage := false } }),
   SenderCall.target_page 1 0 false, SenderCall.flush]

/-! ## Bit-level helper lemmas -/

theorem or_continue_and (x : Nat) : (x ||| RAM_SAVE_FLAG_CONTINUE) &&& RAM_SAVE_FLAG_CONTINUE ≠ 0 := by
  intro h
  have h5 := congrArg (fun n => Nat.testBit n 5) h
  have h32 : Nat.testBit 32 5 = true := by decide
  simp [RAM_SAVE_FLAG_CONTINUE, Nat.testBit_and, Nat.testBit_or, h32] at h5

theorem save_page_header_continue (ram_list : List RAMBlock) (rs : RAMState) (f : QEMUFile)
    (block offset : Nat) (hb : rs.last_sent_block = some block) :
    save_page_header ram_list rs f block offset =
      (rs, qemu_put_be64 f (offset ||| RAM_SAVE_FLAG_CONTINUE), 8) := by
  have hb2 : some block = rs.last_sent_block := hb.symm
  simp [save_page_header, hb2, or_continue_and offset]

theorem save_page_header_first (ram_list : List RAMBlock) (rs : RAMState) (f : QEMUFile)
    (block offset : Nat) (hb : rs.last_sent_block ≠ some block)
    (hc : offset &&& RAM_SAVE_FLAG_CONTINUE = 0) :
    save_page_header ram_list rs f block offset =
      ({ rs with last_sent_block := some block },
       qemu_put_buffer (qemu_put_byte (qemu_put_be64 f offset) (idstr_of ram_list block).length)
         (idstr_of ram_list block), 8 + (1 + (idstr_of ram_list block).length)) := by
  have hb2 : ¬ some block = rs.last_sent_block := fun h => hb h.symm
  simp [save_page_header, hb2, hc]

/-! ## C2: save_page_header -/

/-- C2: for an offset word without CONTINUE, `save_page_header` writes one big-endian
word whose CONTINUE bit is set exactly when the block is `last_sent_block`; without
CONTINUE it then writes the id length byte and the id bytes and records the block
as `last_sent_block`; with CONTINUE it writes nothing more and leaves the state
unchanged; the returned size is the number of bytes written (8, or 9 plus the id
length). -/
theorem save_page_header_framing (ram_list : List RAMBlock) (rs : RAMState) (f : QEMUFile)
    (block offset : Nat) (hc : offset &&& RAM_SAVE_FLAG_CONTINUE = 0)
    (hid : (idstr_of ram_list block).length < 256) :
    let r := save_page_header ram_list rs f block offset
    let word := if rs.last_sent_block = some block then offset ||| RAM_SAVE_FLAG_CONTINUE else offset
    (word &&& RAM_SAVE_FLAG_CONTINUE ≠ 0 ↔ rs.last_sent_block = some block) ∧
    (rs.last_sent_block = some block →
      r.2.1.buf = f.buf ++ be64_bytes word ∧ r.1 = rs ∧ r.2.2 = 8) ∧
    (rs.last_sent_block ≠ some block →
      r.2.1.buf = f.buf ++ be64_bytes word ++ [(idstr_of ram_list block).length]
          ++ idstr_of ram_list block ∧
      r.1 = { rs with last_sent_block := some block } ∧
      r.2.2 = 9 + (idstr_of ram_list block).length) ∧
    r.2.1.buf.length = f.buf.length + r.2.2 ∧ r.2.1.last_error = f.last_error := by
  intro r word
  by_cases hb : rs.last_sent_block = some block
  · have hb2 : some block = rs.last_sent_block := hb.symm
    have hw : word = offset ||| RAM_SAVE_FLAG_CONTINUE := by simp [word, hb]
    have hne := or_continue_and offset
    have hr : r = (rs, qemu_put_be64 f (offset ||| RAM_SAVE_FLAG_CONTINUE), 8) :=
      save_page_header_continue ram_list rs f block offset hb
    refine ⟨?_, ?_, ?_, ?_, ?_⟩
    · rw [hw]; exact ⟨fun _ => hb, fun _ => hne⟩
    · intro _; rw [hr, hw]; simp [qemu_put_be64]
    · intro h; exact absurd hb h
    · rw [hr]; simp [qemu_put_be64, be64_bytes]
    · rw [hr]; simp [qemu_put_be64]
  · have hb2 : ¬ some block = rs.last_sent_block := fun h => hb h.symm
    have hw : word = offset := by simp [word, hb]
    have hr : r = ({ rs with last_sent_block := some block },
        qemu_put_buffer (qemu_put_byte (qemu_put_be64 f offset) (idstr_of ram_list block).length)
          (idstr_of ram_list block), 8 + (1 + (idstr_of ram_list block).length)) :=
      save_page_header_first ram_list rs f block offset hb hc
    refine ⟨?_, ?_, ?_, ?_, ?_⟩
    · rw [hw]; exact ⟨fun h => absurd hc h, fun h => absurd h hb⟩
    · intro h; exact absurd h hb
    · intro _
      rw [hr, hw]
      refine ⟨?_, rfl, by simp; omega⟩
      simp [qemu_put_buffer, qemu_put_byte, qemu_put_be64, Nat.mod_eq_of_lt hid]
    · rw [hr]; simp [qemu_put_buffer, qemu_put_byte, qemu_put_be64, be64_bytes]; omega
    · rw [hr]; simp [qemu_put_buffer, qemu_put_byte, qemu_put_be64]

/-- Witness of C2: the first header of a fresh sender for "pc.ram" with a ZERO frame
at offset 4096. -/
theorem save_page_header_framing_witness :
    (4098 &&& RAM_SAVE_FLAG_CONTINUE = 0) ∧ (idstr_of [pc_ram] 0).length < 256 ∧
    (save_page_header [pc_ram] RAMState.zeroed empty_file 0 4098).2.1.buf.length =
      empty_file.buf.length + (save_page_header [pc_ram] RAMState.zeroed empty_file 0 4098).2.2 :=
  ⟨by decide, by decide,
   (save_page_header_framing [pc_ram] RAMState.zeroed empty_file 0 4098 (by decide)
      (by decide)).2.2.2.1⟩

/-! ## C3, C4: the handshake written by ram_save_setup -/

theorem put_block_record_buf (env : SaveEnv) (f : QEMUFile) (b : RAMBlock)
    (hid : b.idstr.length < 256) :
    (put_block_record env f b).buf =
      f.buf ++ handshake_record env.migrate_postcopy_ram env.qemu_host_page_size b := by
  unfold put_block_record handshake_record
  by_cases h : (env.migrate_postcopy_ram && b.page_size != env.qemu_host_page_size) = true
  · simp only [h, if_true]
    simp [qemu_put_be64, qemu_put_buffer, qemu_put_byte, Nat.mod_eq_of_lt hid]
  · simp only [h]
    simp [qemu_put_be64, qemu_put_buffer, qemu_put_byte, Nat.mod_eq_of_lt hid]

theorem put_block_records_buf (env : SaveEnv) (l : List RAMBlock) :
    ∀ (f : QEMUFile), (∀ b ∈ l, b.idstr.length < 256) →
    (l.foldl (put_block_record env) f).buf =
      f.buf ++ l.flatMap (handshake_record env.migrate_postcopy_ram env.qemu_host_page_size) := by
  induction l with
  | nil => intro f _; simp
  | cons b rest ih =>
    intro f h
    rw [List.foldl_cons, ih _ (fun x hx => h x (List.mem_cons_of_mem _ hx)),
      put_block_record_buf env f b (h b (List.mem_cons_self _ _)), List.flatMap_cons,
      List.append_assoc]

theorem region_of_layout (l1 : List RAMBlock) :
    ∀ l2 : List RAMBlock, l1.map RAMBlock.layout = l2.map RAMBlock.layout →
    l1.map RAMBlock.region = l2.map RAMBlock.region := by
  induction l1 with
  | nil => intro l2 h; cases l2 with
    | nil => rfl
    | cons _ _ => simp at h
  | cons a r ih =>
    intro l2 h
    cases l2 with
    | nil => simp at h
    | cons b r2 =>
      simp only [List.map_cons, List.cons.injEq] at h ⊢
      refine ⟨?_, ih r2 h.2⟩
      have hab := h.1
      simp only [RAMBlock.layout, Prod.mk.injEq] at hab
      simp [RAMBlock.region, hab.1, hab.2.2.1, hab.2.2.2.2.1, hab.2.2.2.2.2]

theorem ram_bytes_total_region (l1 : List RAMBlock) :
    ∀ l2 : List RAMBlock, l1.map RAMBlock.region = l2.map RAMBlock.region →
    ram_bytes_total l1 = ram_bytes_total l2 := by
  have key : ∀ (l1 l2 : List RAMBlock), l1.map RAMBlock.region = l2.map RAMBlock.region →
      ((l1.filter (fun b => b.migratable)).map (fun b => b.used_length)) =
      ((l2.filter (fun b => b.migratable)).map (fun b => b.used_length)) := by
    intro l1
    induction l1 with
    | nil => intro l2 h; cases l2 with
      | nil => rfl
      | cons _ _ => simp at h
    | cons a r ih =>
      intro l2 h
      cases l2 with
      | nil => simp at h
      | cons b r2 =>
        simp only [List.map_cons, List.cons.injEq] at h
        have hab := h.1
        simp only [RAMBlock.region, Prod.mk.injEq] at hab
        have := ih r2 h.2
        simp only [List.filter_cons, hab.2.2.2]
        split <;> simp [this, hab.2.1]
  intro l2 h
  unfold ram_bytes_total
  rw [key l1 l2 h]

theorem handshake_bytes_region (pc : Bool) (hps : Nat) (l1 : List RAMBlock) :
    ∀ l2 : List RAMBlock, l1.map RAMBlock.region = l2.map RAMBlock.region →
    handshake_bytes pc hps l1 = handshake_bytes pc hps l2 := by
  have key : ∀ (l1 l2 : List RAMBlock), l1.map RAMBlock.region = l2.map RAMBlock.region →
      (l1.filter (fun b => b.migratable)).flatMap (handshake_record pc hps) =
      (l2.filter (fun b => b.migratable)).flatMap (handshake_record pc hps) := by
    intro l1
    induction l1 with
    | nil => intro l2 h; cases l2 with
      | nil => rfl
      | cons _ _ => simp at h
    | cons a r ih =>
      intro l2 h
      cases l2 with
      | nil => simp at h
      | cons b r2 =>
        simp only [List.map_cons, List.cons.injEq] at h
        have hab := h.1
        simp only [RAMBlock.region, Prod.mk.injEq] at hab
        have := ih r2 h.2
        have hrec : handshake_record pc hps a = handshake_record pc hps b := by
          simp [handshake_record, hab.1, hab.2.1, hab.2.2.1]
        simp only [List.filter_cons, hab.2.2.2]
        split <;> simp [this, hrec]
  intro l2 h
  unfold handshake_bytes
  rw [key l1 l2 h, ram_bytes_total_region l1 l2 h]

theorem migration_bitmap_sync_range_layout (env : SaveEnv) (s : SaveState) (rb start length : Nat) :
    (migration_bitmap_sync_range env s rb start length).ram_list.map RAMBlock.layout =
      s.ram_list.map RAMBlock.layout := by
  unfold migration_bitmap_sync_range
  cases h : s.ram_list[rb]? with
  | none => rfl
  | some b =>
    simp only [List.map_set]
    apply List.ext_getElem?
    intro n
    rw [List.getElem?_set]
    by_cases hn : rb = n
    · subst hn
      have hlt : rb < s.ram_list.length := by
        by_contra hc
        rw [List.getElem?_eq_none (by omega)] at h
        exact Option.noConfusion h
      rw [List.getElem?_eq_getElem hlt] at h
      injection h with h
      subst h
      simp [hlt, RAMBlock.layout]
    · simp [hn]

theorem sync_fold_layout (env : SaveEnv) (l : List Nat) :
    ∀ s : SaveState,
    (l.foldl (fun s i =>
      match s.ram_list[i]? with
      | some block =>
        if block.migratable then migration_bitmap_sync_range env s i 0 block.used_length else s
      | none => s) s).ram_list.map RAMBlock.layout = s.ram_list.map RAMBlock.layout := by
  induction l with
  | nil => intro s; rfl
  | cons i rest ih =>
    intro s
    rw [List.foldl_cons, ih]
    cases h : s.ram_list[i]? with
    | none => rfl
    | some b =>
      by_cases hm : b.migratable = true
      · simp only [hm, if_true]; exact migration_bitmap_sync_range_layout env s i 0 _
      · simp [hm]

theorem migration_bitmap_sync_throttle_ram_list (env : SaveEnv) (s : SaveState) (n : Nat) :
    (migration_bitmap_sync_throttle env s n).ram_list = s.ram_list := by
  unfold migration_bitmap_sync_throttle
  simp only []
  split_ifs <;> rfl

theorem migration_update_rates_ram_list (env : SaveEnv) (s : SaveState) (t : Int) :
    (migration_update_rates env s t).ram_list = s.ram_list := by
  unfold migration_update_rates
  simp only []
  split_ifs <;> rfl

theorem migration_bitmap_sync_period_ram_list (env : SaveEnv) (s : SaveState) (t : Int) :
    (migration_bitmap_sync_period env s t).ram_list = s.ram_list := by
  unfold migration_bitmap_sync_period
  simp only []
  split_ifs
  · simp only [migration_update_rates_ram_list, migration_bitmap_sync_throttle_ram_list]
  · rfl

theorem migration_bitmap_sync_layout (env : SaveEnv) (s : SaveState) :
    (migration_bitmap_sync env s).ram_list.map RAMBlock.layout = s.ram_list.map RAMBlock.layout := by
  unfold migration_bitmap_sync
  simp only []
  split_ifs <;>
    simp only [migration_bitmap_sync_period_ram_list, qemu_clock_get_ms,
      migration_bitmap_sync_blocks] <;>
    exact sync_fold_layout env _ _

theorem ram_list_init_bitmaps_layout (env : SaveEnv) (l : List RAMBlock) :
    (ram_list_init_bitmaps env l).map RAMBlock.layout = l.map RAMBlock.layout := by
  unfold ram_list_init_bitmaps
  split
  · rw [List.map_map]
    apply List.map_congr_left
    intro b _
    simp only [Function.comp]
    by_cases hm : b.migratable = true <;> by_cases hp : env.migrate_postcopy_ram = true <;>
      simp [hm, hp, RAMBlock.layout]
  · rfl

theorem ram_init_all_layout (env : SaveEnv) (s : SaveState) (h : (ram_init_all env s).2 = 0) :
    (ram_init_all env s).1.ram_list.map RAMBlock.layout = s.ram_list.map RAMBlock.layout := by
  unfold ram_init_all at h ⊢
  unfold ram_state_init at h ⊢
  by_cases ha : env.ram_state_alloc_ok = true
  · by_cases hx : env.xbzrle_init_ret = 0
    · simp only [ha, hx, Bool.not_true, Bool.false_eq_true, if_false, ne_eq, not_true_eq_false]
      unfold ram_init_bitmaps
      rw [migration_bitmap_sync_layout]
      exact ram_list_init_bitmaps_layout env _
    · simp [ha, hx] at h
  · simp [ha] at h

theorem idstr_bound_of_region (l1 l2 : List RAMBlock)
    (h : l1.map RAMBlock.region = l2.map RAMBlock.region)
    (hid : ∀ b ∈ l2, b.idstr.length < 256) : ∀ b ∈ l1, b.idstr.length < 256 := by
  intro b hb
  have hm : RAMBlock.region b ∈ l2.map RAMBlock.region := by
    rw [← h]; exact List.mem_map_of_mem _ hb
  obtain ⟨b2, hb2, he⟩ := List.mem_map.1 hm
  have : b2.idstr = b.idstr := by
    simp only [RAMBlock.region, Prod.mk.injEq] at he
    exact he.1
  rw [← this]
  exact hid b2 hb2

theorem ram_save_setup_buf_of_layout (env : SaveEnv) (f : QEMUFile) (l l0 : List RAMBlock)
    (h : l.map RAMBlock.layout = l0.map RAMBlock.layout)
    (hid : ∀ b ∈ l0, b.idstr.length < 256) :
    (qemu_put_be64
      ((l.filter (fun b => b.migratable)).foldl (put_block_record env)
        (qemu_put_be64 f (ram_bytes_total l ||| RAM_SAVE_FLAG_MEM_SIZE)))
      RAM_SAVE_FLAG_EOS).buf =
    f.buf ++ handshake_bytes env.migrate_postcopy_ram env.qemu_host_page_size l0 := by
  have hr := region_of_layout l l0 h
  have hid1 := idstr_bound_of_region l l0 hr hid
  rw [← handshake_bytes_region _ _ l l0 hr]
  unfold handshake_bytes
  simp only [qemu_put_be64]
  rw [put_block_records_buf env _ _ (fun b hb => hid1 b (List.mem_filter.1 hb).1)]
  simp [List.append_assoc]

theorem ram_save_setup_ok (env : SaveEnv) (s : SaveState) (f : QEMUFile)
    (hc : env.compress_threads_save_setup_ret = 0)
    (hi : env.migration_in_colo_state = true ∨
      (env.ram_state_alloc_ok = true ∧ env.xbzrle_init_ret = 0))
    (hid : ∀ b ∈ s.ram_list, b.idstr.length < 256) :
    (ram_save_setup env s f).2 = 0 ∧
    (ram_save_setup env s f).1.rs.f.buf =
      f.buf ++ handshake_bytes env.migrate_postcopy_ram env.qemu_host_page_size s.ram_list := by
  unfold ram_save_setup
  simp only [hc, ne_eq, not_true_eq_false, if_false]
  by_cases hcolo : env.migration_in_colo_state = true
  · simp only [hcolo, Bool.not_true, Bool.false_eq_true, if_false, not_true_eq_false, true_and]
    exact ram_save_setup_buf_of_layout env f s.ram_list s.ram_list rfl hid
  · have hok := hi.resolve_left hcolo
    have hret : (ram_init_all env s).2 = 0 := by
      simp [ram_init_all, ram_state_init, hok.1, hok.2]
    simp only [hcolo, Bool.not_false, if_true, hret, ne_eq, not_true_eq_false, if_false, true_and]
    exact ram_save_setup_buf_of_layout env f _ s.ram_list (ram_init_all_layout env s hret) hid

/-- C3: when its allocation steps succeed, `ram_save_setup` returns 0 and appends to
the stream exactly the handshake: be64(total RAM bytes | MEM_SIZE), then for every
migratable region in list order a length byte equal to the id length, the id bytes,
be64(used_length), and be64(page_size) exactly when post-copy is enabled and the
page size differs from the host page size, and finally be64(EOS). -/
theorem ram_save_setup_handshake (env : SaveEnv) (s : SaveState) (f : QEMUFile)
    (hc : env.compress_threads_save_setup_ret = 0)
    (hi : env.migration_in_colo_state = true ∨
      (env.ram_state_alloc_ok = true ∧ env.xbzrle_init_ret = 0))
    (hid : ∀ b ∈ s.ram_list, b.idstr.length < 256) :
    (ram_save_setup env s f).2 = 0 ∧
    (ram_save_setup env s f).1.rs.f.buf =
      f.buf ++ (be64_bytes (ram_bytes_total s.ram_list ||| RAM_SAVE_FLAG_MEM_SIZE) ++
        (s.ram_list.filter (fun b => b.migratable)).flatMap (fun b =>
          [b.idstr.length] ++ b.idstr ++ be64_bytes b.used_length ++
            (if env.migrate_postcopy_ram && b.page_size != env.qemu_host_page_size
              then be64_bytes b.page_size else [])) ++
        be64_bytes RAM_SAVE_FLAG_EOS) := by
  have h := ram_save_setup_ok env s f hc hi hid
  refine ⟨h.1, ?_⟩
  rw [h.2]
  rfl

/-- Witness of C3 on the region "pc.ram". -/
theorem ram_save_setup_handshake_witness :
    plain_save_env.compress_threads_save_setup_ret = 0 ∧
    (ram_save_setup plain_save_env (initial_save_state [pc_ram] (fun _ => 0)) empty_file).2 = 0 ∧
    (ram_save_setup plain_save_env (initial_save_state [pc_ram] (fun _ => 0)) empty_file).1.rs.f.buf =
      empty_file.buf ++ handshake_bytes false 4096 [pc_ram] :=
  ⟨rfl, ram_save_setup_handshake plain_save_env (initial_save_state [pc_ram] (fun _ => 0))
    empty_file rfl (Or.inr ⟨rfl, rfl⟩) (by
      intro b hb
      simp only [initial_save_state, List.mem_singleton] at hb
      subst hb
      decide)⟩

/-- C4, as the claim states it, fails: for the single region "pc.ram" (8192 bytes used,
4096-byte pages equal to the host page size) the byte after the MEM_SIZE word is not
0x07. -/
theorem ram_save_setup_s1_counterexample :
    (ram_save_setup plain_save_env (initial_save_state [pc_ram] (fun _ => 0)) empty_file).1.rs.f.buf ≠
      be64_bytes (8192 ||| 0x04) ++ [0x07] ++ pc_ram_id ++ be64_bytes 8192 ++ be64_bytes 0x10 := by
  rw [(ram_save_setup_ok plain_save_env (initial_save_state [pc_ram] (fun _ => 0))
    empty_file rfl (Or.inr ⟨rfl, rfl⟩) (by
      intro b hb
      simp only [initial_save_state, List.mem_singleton] at hb
      subst hb
      decide)).2]
  decide

/-- C4, amended: with exactly one migratable region named "pc.ram" with used_length
8192 and page_size 4096 equal to the host page size, `ram_save_setup` emits exactly
be64(8192 | 0x04), the single byte 0x06 (the length of "pc.ram"), the bytes of
"pc.ram", be64(8192), be64(0x10). -/
theorem ram_save_setup_s1 (env : SaveEnv) (s : SaveState) (f : QEMUFile) (b : RAMBlock)
    (hc : env.compress_threads_save_setup_ret = 0)
    (hi : env.migration_in_colo_state = true ∨
      (env.ram_state_alloc_ok = true ∧ env.xbzrle_init_ret = 0))
    (hl : s.ram_list = [b]) (hname : b.idstr = pc_ram_id) (hm : b.migratable = true)
    (hu : b.used_length = 8192) (hp : b.page_size = 4096) (hh : env.qemu_host_page_size = 4096) :
    (ram_save_setup env s f).2 = 0 ∧
    (ram_save_setup env s f).1.rs.f.buf =
      f.buf ++ (be64_bytes (8192 ||| 0x04) ++ [0x06] ++ pc_ram_id ++ be64_bytes 8192 ++
        be64_bytes 0x10) := by
  have hid : ∀ x ∈ s.ram_list, x.idstr.length < 256 := by
    intro x hx
    rw [hl, List.mem_singleton] at hx
    subst hx
    rw [hname]; decide
  have h := ram_save_setup_ok env s f hc hi hid
  refine ⟨h.1, ?_⟩
  rw [h.2, hl]
  congr 1
  simp [handshake_bytes, handshake_record, ram_bytes_total, hm, hu, hp, hh, hname,
    RAM_SAVE_FLAG_MEM_SIZE, RAM_SAVE_FLAG_EOS, pc_ram_id]

/-- Witness of the amended C4. -/
theorem ram_save_setup_s1_witness :
    (ram_save_setup plain_save_env (initial_save_state [pc_ram] (fun _ => 0)) empty_file).2 = 0 ∧
    (ram_save_setup plain_save_env (initial_save_state [pc_ram] (fun _ => 0)) empty_file).1.rs.f.buf =
      empty_file.buf ++ (be64_bytes (8192 ||| 0x04) ++ [0x06] ++ pc_ram_id ++ be64_bytes 8192 ++
        be64_bytes 0x10) :=
  ram_save_setup_s1 plain_save_env (initial_save_state [pc_ram] (fun _ => 0)) empty_file pc_ram
    rfl (Or.inr ⟨rfl, rfl⟩) rfl rfl rfl rfl rfl rfl

/-! ## Reading what was written -/

theorem be_value_be64_bytes (v : Nat) (h : v < 2 ^ 64) : be_value (be64_bytes v) = v := by
  simp only [be_value, be64_bytes, List.foldl_cons, List.foldl_nil]
  omega

theorem be64_bytes_length (v : Nat) : (be64_bytes v).length = 8 := rfl

theorem qemu_get_buffer_append (bytes rest : List Nat) (e : Int) (n : Nat)
    (h : bytes.length = n) :
    qemu_get_buffer { buf := bytes ++ rest, last_error := e } n =
      (bytes, { buf := rest, last_error := e }) := by
  simp [qemu_get_buffer, List.take_left' h, List.drop_left' h, h]

theorem qemu_get_be64_append (v : Nat) (rest : List Nat) (e : Int) (h : v < 2 ^ 64) :
    qemu_get_be64 { buf := be64_bytes v ++ rest, last_error := e } =
      (v, { buf := rest, last_error := e }) := by
  unfold qemu_get_be64 qemu_get_be
  rw [qemu_get_buffer_append (be64_bytes v) rest e 8 rfl]
  simp [be64_bytes_length, be_value_be64_bytes v h]

theorem qemu_get_byte_cons (b : Nat) (rest : List Nat) (e : Int) :
    qemu_get_byte { buf := b :: rest, last_error := e } = (b, { buf := rest, last_error := e }) :=
  rfl

/-! ## Page-mask arithmetic -/

theorem testBit_page_mask (i : Nat) :
    Nat.testBit (2 ^ 64 - 4096) i = (decide (12 ≤ i) && decide (i < 64)) := by
  have h : (2 ^ 64 - 4096 : Nat) = (2 ^ 52 - 1) <<< 12 := by decide
  rw [h, Nat.testBit_shiftLeft, Nat.testBit_two_pow_sub_one]
  by_cases h1 : 12 ≤ i <;> by_cases h2 : i < 64 <;> simp [h1, h2] <;> omega

theorem and_page_mask (x : Nat) (h : x < 2 ^ 64) :
    x &&& TARGET_PAGE_MASK = x - x % 4096 := by
  have hx : x - x % 4096 = (x >>> 12) <<< 12 := by
    rw [Nat.shiftRight_eq_div_pow, Nat.shiftLeft_eq]
    have := Nat.div_add_mod x 4096
    norm_num
    omega
  rw [hx]
  apply Nat.eq_of_testBit_eq
  intro i
  rw [Nat.testBit_and, TARGET_PAGE_MASK, testBit_page_mask, Nat.testBit_shiftLeft,
    Nat.testBit_shiftRight]
  by_cases h1 : 12 ≤ i
  · by_cases h2 : i < 64
    · have : 12 + (i - 12) = i := by omega
      simp [h1, h2, this]
    · have hlt : x < 2 ^ i := lt_of_lt_of_le h (Nat.pow_le_pow_right (by norm_num) (by omega))
      have : 12 + (i - 12) = i := by omega
      simp [h1, h2, this, Nat.testBit_lt_two_pow hlt]
  · simp [h1]

theorem and_not_page_mask (x : Nat) : x &&& NOT_TARGET_PAGE_MASK = x % 4096 := by
  have := Nat.and_pow_two_sub_one_eq_mod x 12
  simpa [NOT_TARGET_PAGE_MASK] using this

theorem or_flag_eq_add (a fl : Nat) (ha : a % 4096 = 0) (hf : fl < 4096) : a ||| fl = a + fl := by
  have h := Nat.mul_add_lt_is_or (i := 12) (b := fl) (by norm_num; exact hf) (a / 4096)
  have h2 : 2 ^ 12 * (a / 4096) = a := by
    have := Nat.div_add_mod a 4096
    norm_num
    omega
  rw [h2] at h
  exact h.symm

/-! ## Registry lookup -/

theorem block_by_name_from_found (id : List Nat) (pre : List RAMBlock) :
    ∀ (b : RAMBlock) (post : List RAMBlock) (i : Nat),
    b.idstr = id → (∀ x ∈ pre, x.idstr ≠ id) →
    block_by_name_from id (pre ++ b :: post) i = some (i + pre.length) := by
  induction pre with
  | nil => intro b post i hb _; simp [block_by_name_from, hb]
  | cons a r ih =>
    intro b post i hb hpre
    have ha : a.idstr ≠ id := hpre a (List.mem_cons_self _ _)
    have hstep : block_by_name_from id (a :: r ++ b :: post) i =
        block_by_name_from id (r ++ b :: post) (i + 1) := by
      show block_by_name_from id (a :: (r ++ b :: post)) i = _
      simp only [block_by_name_from, ha, if_false]
    rw [hstep, ih b post (i + 1) hb (fun x hx => hpre x (List.mem_cons_of_mem _ hx))]
    simp only [List.length_cons]
    congr 1
    omega

theorem cstring_of_no_nul (id : List Nat) (h : ∀ c ∈ id, c ≠ 0) : cstring id = id := by
  unfold cstring
  rw [List.takeWhile_eq_self_iff]
  intro c hc
  simp [h c hc]

theorem qemu_ram_block_by_name_found (pre post : List RAMBlock) (b : RAMBlock)
    (hwf : ids_wf (pre ++ b :: post)) :
    qemu_ram_block_by_name (pre ++ b :: post) b.idstr = some pre.length := by
  unfold qemu_ram_block_by_name
  have hb := hwf.2 b (by simp)
  rw [cstring_of_no_nul _ hb.2, block_by_name_from_found b.idstr pre b post 0 rfl]
  · simp
  · intro x hx he
    have hnd := hwf.1
    simp only [List.map_append, List.map_cons] at hnd
    have := (List.nodup_append.1 hnd).2.2
    exact this (List.mem_map_of_mem (fun b => b.idstr) hx)
      (by rw [he]; exact List.mem_cons_self _ _)

/-! ## C5: the handshake is accepted by ram_load -/

theorem getElem?_append_cons (pre post : List RAMBlock) (b : RAMBlock) :
    (pre ++ b :: post)[pre.length]? = some b := by
  rw [List.getElem?_append_right (le_refl _)]
  simp

theorem ram_load_block_record_ok (env : LoadEnv) (s : LoadState) (pre post : List RAMBlock)
    (b : RAMBlock) (rest : List Nat) (e : Int)
    (hl : s.ram_list = pre ++ b :: post) (hwf : ids_wf s.ram_list) (hm : b.migratable = true)
    (hu : b.used_length < 2 ^ 64) (hp : b.page_size < 2 ^ 64)
    (hf : s.f = { buf := handshake_record env.postcopy_advised env.qemu_host_page_size b ++ rest,
                  last_error := e }) :
    ram_load_block_record env s =
      ({ s with f := { buf := rest, last_error := e },
                events := s.events ++ [LoadEvent.block_reg pre.length] }, 0, b.used_length) := by
  have hlook : qemu_ram_block_by_name s.ram_list b.idstr = some pre.length := by
    rw [hl]; rw [hl] at hwf; exact qemu_ram_block_by_name_found pre post b hwf
  have hget : s.ram_list[pre.length]? = some b := by rw [hl]; exact getElem?_append_cons pre post b
  have hlen : b.idstr.length < 256 := by
    rw [hl] at hwf; exact (hwf.2 b (by simp)).1
  unfold ram_load_block_record
  simp only [hf, handshake_record, List.singleton_append, List.cons_append, List.append_assoc,
    List.nil_append, qemu_get_byte_cons, qemu_get_buffer_append b.idstr _ e b.idstr.length rfl,
    qemu_get_be64_append b.used_length _ e hu, hlook, hget, hm]
  by_cases hc : (env.postcopy_advised && b.page_size != env.qemu_host_page_size) = true
  · simp [hc, qemu_get_be64_append b.page_size rest e hp]
  · simp [hc]

theorem ram_load_mem_size_ok (env : LoadEnv) (suffix : List RAMBlock) :
    ∀ (pre : List RAMBlock) (s : LoadState) (fuel : Nat) (rest : List Nat) (e : Int),
    s.ram_list = pre ++ suffix → ids_wf s.ram_list →
    (∀ b ∈ suffix, b.migratable = true → 0 < b.used_length) →
    ((suffix.filter (fun b => b.migratable)).map (fun b => b.used_length)).sum < 2 ^ 64 →
    (∀ b ∈ suffix, b.page_size < 2 ^ 64) →
    s.f = { buf := (suffix.filter (fun b => b.migratable)).flatMap
              (handshake_record env.postcopy_advised env.qemu_host_page_size) ++ rest,
            last_error := e } →
    (suffix.filter (fun b => b.migratable)).length ≤ fuel →
    ram_load_mem_size env fuel s 0
        ((suffix.filter (fun b => b.migratable)).map (fun b => b.used_length)).sum =
      some ({ s with f := { buf := rest, last_error := e },
                     events := s.events ++
                       (migratable_indices_from suffix pre.length).map LoadEvent.block_reg }, 0) := by
  induction suffix with
  | nil =>
    intro pre s fuel rest e _ _ _ _ _ hf _
    unfold ram_load_mem_size
    simp only [List.filter_nil, List.map_nil, List.sum_nil, or_true, if_true,
      migratable_indices_from, List.append_nil]
    simp only [List.filter_nil, List.flatMap_nil, List.nil_append] at hf
    rw [← hf]
  | cons b suffix ih =>
    intro pre s fuel rest e hl hwf hpos hsum hps hf hfuel
    have hl2 : s.ram_list = (pre ++ [b]) ++ suffix := by rw [hl]; simp
    by_cases hm : b.migratable = true
    · simp only [List.filter_cons, hm, if_true, List.map_cons, List.sum_cons, List.flatMap_cons,
        List.length_cons, List.append_assoc] at hsum hf hfuel ⊢
      have hb0 : 0 < b.used_length := hpos b (List.mem_cons_self _ _) hm
      obtain ⟨fuel, rfl⟩ : ∃ n, fuel = n + 1 := ⟨fuel - 1, by omega⟩
      rw [ram_load_mem_size]
      have hne : ¬ ((0 : Int) ≠ 0 ∨ b.used_length +
          ((suffix.filter (fun b => b.migratable)).map (fun b => b.used_length)).sum = 0) := by
        intro h
        rcases h with h | h
        · exact h rfl
        · omega
      simp only [hne, if_false]
      rw [ram_load_block_record_ok env s pre suffix b _ e hl hwf hm (by omega)
        (hps b (List.mem_cons_self _ _)) hf]
      simp only []
      have htot : (b.used_length +
          ((suffix.filter (fun b => b.migratable)).map (fun b => b.used_length)).sum + 2 ^ 64 -
          b.used_length) % 2 ^ 64 =
          ((suffix.filter (fun b => b.migratable)).map (fun b => b.used_length)).sum := by
        omega
      have key := ih (pre ++ [b])
        { s with
          f := { buf := (suffix.filter (fun b => b.migratable)).flatMap
                   (handshake_record env.postcopy_advised env.qemu_host_page_size) ++ rest,
                 last_error := e },
          events := s.events ++ [LoadEvent.block_reg pre.length] }
        fuel rest e hl2 hwf
        (fun x hx => hpos x (List.mem_cons_of_mem _ hx)) (by omega)
        (fun x hx => hps x (List.mem_cons_of_mem _ hx)) rfl (by omega)
      rw [htot, key]
      simp [migratable_indices_from, hm]
    · have hm2 : b.migratable = false := by simpa using hm
      simp only [List.filter_cons, hm2, Bool.false_eq_true, ↓reduceIte] at hsum hf hfuel ⊢
      rw [ih (pre ++ [b]) s fuel rest e hl2 hwf
        (fun x hx => hpos x (List.mem_cons_of_mem _ hx)) hsum
        (fun x hx => hps x (List.mem_cons_of_mem _ hx)) hf hfuel]
      simp [migratable_indices_from, hm]

theorem ram_load_iter_mem_size (env : LoadEnv) (inv fuel : Nat) (s : LoadState) (t : Nat)
    (rest : List Nat) (e : Int) (ht : t % 4096 = 0) (ht64 : t < 2 ^ 64)
    (hinv : 4 &&& inv = 0)
    (hf : s.f = { buf := be64_bytes (t ||| RAM_SAVE_FLAG_MEM_SIZE) ++ rest, last_error := e }) :
    ram_load_iter env inv fuel s =
      (ram_load_mem_size env fuel { s with f := { buf := rest, last_error := e } } 0 t).map
        (fun p => (4, if p.2 = 0 then qemu_file_get_error p.1.f else p.2, p.1)) := by
  have hor : t ||| RAM_SAVE_FLAG_MEM_SIZE = t + 4 := or_flag_eq_add t 4 ht (by norm_num)
  have hlt : t + 4 < 2 ^ 64 := by omega
  have hflags : (t + 4) &&& NOT_TARGET_PAGE_MASK = 4 := by rw [and_not_page_mask]; omega
  have haddr : (t + 4) &&& TARGET_PAGE_MASK = t := by rw [and_page_mask _ hlt]; omega
  have hdata : 4 &&& (RAM_SAVE_FLAG_ZERO ||| RAM_SAVE_FLAG_PAGE ||| RAM_SAVE_FLAG_COMPRESS_PAGE |||
      RAM_SAVE_FLAG_XBZRLE) = 0 := by decide
  have hsw : 4 &&& NOT_RAM_SAVE_FLAG_CONTINUE = RAM_SAVE_FLAG_MEM_SIZE := by decide
  unfold ram_load_iter
  simp only [hf, hor, qemu_get_be64_append _ rest e hlt, hflags, haddr, hinv, hdata, hsw,
    ne_eq, not_true_eq_false, if_false, decide_False, Bool.false_and, Bool.false_eq_true,
    if_true]
  cases ram_load_mem_size env fuel { s with f := { buf := rest, last_error := e } } 0 t <;> rfl

theorem ram_load_iter_eos (env : LoadEnv) (inv fuel : Nat) (s : LoadState)
    (rest : List Nat) (e : Int) (hinv : 16 &&& inv = 0)
    (hf : s.f = { buf := be64_bytes RAM_SAVE_FLAG_EOS ++ rest, last_error := e }) :
    ram_load_iter env inv fuel s =
      some (16, e, { s with f := { buf := rest, last_error := e } }) := by
  have hE : RAM_SAVE_FLAG_EOS = 16 := rfl
  rw [hE] at hf
  have hlt : 16 < 2 ^ 64 := by decide
  have hflags : 16 &&& NOT_TARGET_PAGE_MASK = 16 := by decide
  have haddr : 16 &&& TARGET_PAGE_MASK = 0 := by decide
  have hdata : 16 &&& (RAM_SAVE_FLAG_ZERO ||| RAM_SAVE_FLAG_PAGE ||| RAM_SAVE_FLAG_COMPRESS_PAGE |||
      RAM_SAVE_FLAG_XBZRLE) = 0 := by decide
  have hsw : 16 &&& NOT_RAM_SAVE_FLAG_CONTINUE = 16 := by decide
  have h1 : ¬ (16 = RAM_SAVE_FLAG_MEM_SIZE) := by decide
  have h2 : ¬ (16 = RAM_SAVE_FLAG_ZERO) := by decide
  have h3 : ¬ (16 = RAM_SAVE_FLAG_PAGE) := by decide
  have h4 : ¬ (16 = RAM_SAVE_FLAG_COMPRESS_PAGE) := by decide
  have h5 : ¬ (16 = RAM_SAVE_FLAG_XBZRLE) := by decide
  unfold ram_load_iter
  simp only [hf, qemu_get_be64_append 16 rest e hlt, hflags, haddr, hinv, hdata, hsw,
    ne_eq, not_true_eq_false, if_false, decide_False, Bool.false_and, Bool.false_eq_true,
    h1, h2, h3, h4, h5, hE, if_true, Option.map_some', qemu_file_get_error]

theorem sum_used_length_aligned (l : List RAMBlock)
    (h : ∀ b ∈ l, b.migratable = true → 0 < b.used_length ∧ b.used_length % TARGET_PAGE_SIZE = 0) :
    ((l.filter (fun b => b.migratable)).map (fun b => b.used_length)).sum % 4096 = 0 := by
  induction l with
  | nil => rfl
  | cons b r ih =>
    have ihr := ih (fun x hx => h x (List.mem_cons_of_mem _ hx))
    by_cases hm : b.migratable = true
    · have hb := (h b (List.mem_cons_self _ _) hm).2
      simp only [TARGET_PAGE_SIZE] at hb
      simp only [List.filter_cons, hm, if_true, List.map_cons, List.sum_cons]
      omega
    · have hm2 : b.migratable = false := by simpa using hm
      simp only [List.filter_cons, hm2, Bool.false_eq_true, ↓reduceIte]
      exact ihr

theorem ram_load_loop_handshake (env : LoadEnv) (inv : Nat) (s : LoadState) (rest : List Nat)
    (fuel : Nat) (hinv4 : 4 &&& inv = 0) (hinv16 : 16 &&& inv = 0)
    (hids : ids_wf s.ram_list) (hlen : lengths_wf s.ram_list)
    (hps : ∀ b ∈ s.ram_list, b.page_size < 2 ^ 64)
    (hf : s.f = { buf := handshake_bytes env.postcopy_advised env.qemu_host_page_size s.ram_list
                    ++ rest, last_error := 0 })
    (hfuel : (s.ram_list.filter (fun b => b.migratable)).length + 2 ≤ fuel) :
    ram_load_loop env inv fuel s 0 0 =
      some (0, { s with f := { buf := rest, last_error := 0 },
                        events := s.events ++
                          (migratable_indices_from s.ram_list 0).map LoadEvent.block_reg }) := by
  obtain ⟨n, rfl⟩ : ∃ n, fuel = n + 2 := ⟨fuel - 2, by omega⟩
  have hsum := hlen.2
  have htot : ram_bytes_total s.ram_list =
      ((s.ram_list.filter (fun b => b.migratable)).map (fun b => b.used_length)).sum := by
    unfold ram_bytes_total
    exact Nat.mod_eq_of_lt hsum
  have hal := sum_used_length_aligned s.ram_list hlen.1
  rw [ram_load_loop]
  have hc0 : ¬ ((0 : Int) ≠ 0 ∨ 0 &&& RAM_SAVE_FLAG_EOS ≠ 0) := by decide
  simp only [hc0, if_false]
  have hf1 : s.f = { buf := be64_bytes (ram_bytes_total s.ram_list ||| RAM_SAVE_FLAG_MEM_SIZE) ++
      ((s.ram_list.filter (fun b => b.migratable)).flatMap
        (handshake_record env.postcopy_advised env.qemu_host_page_size) ++
        (be64_bytes RAM_SAVE_FLAG_EOS ++ rest)), last_error := 0 } := by
    rw [hf]; simp [handshake_bytes, List.append_assoc]
  rw [ram_load_iter_mem_size env inv (n + 1 + 1) s (ram_bytes_total s.ram_list) _ 0
    (by rw [htot]; exact hal) (by rw [htot]; exact hsum) hinv4 hf1]
  have key := ram_load_mem_size_ok env s.ram_list []
    { s with f := { buf := ((s.ram_list.filter (fun b => b.migratable)).flatMap
        (handshake_record env.postcopy_advised env.qemu_host_page_size) ++
        (be64_bytes RAM_SAVE_FLAG_EOS ++ rest)), last_error := 0 } }
    (n + 1 + 1) (be64_bytes RAM_SAVE_FLAG_EOS ++ rest) 0
    (by simp) hids (fun b hb hm => (hlen.1 b hb hm).1) hsum hps rfl (by omega)
  rw [htot, key]
  simp only [Option.map_some', qemu_file_get_error, if_true]
  rw [ram_load_loop]
  have hc1 : ¬ ((0 : Int) ≠ 0 ∨ 4 &&& RAM_SAVE_FLAG_EOS ≠ 0) := by decide
  simp only [hc1, if_false]
  rw [ram_load_iter_eos env inv (n + 1) _ rest 0 hinv16 rfl]
  simp only []
  rw [ram_load_loop.eq_def]
  have hc2 : ((0 : Int) ≠ 0 ∨ 16 &&& RAM_SAVE_FLAG_EOS ≠ 0) := Or.inr (by decide)
  simp only [hc2, if_true, List.length_nil]

theorem ram_load_precopy_handshake (env : LoadEnv) (s : LoadState) (rest : List Nat) (fuel : Nat)
    (hpre : env.postcopy_running = false)
    (hids : ids_wf s.ram_list) (hlen : lengths_wf s.ram_list)
    (hps : ∀ b ∈ s.ram_list, b.page_size < 2 ^ 64)
    (hf : s.f = { buf := handshake_bytes env.postcopy_advised env.qemu_host_page_size s.ram_list
                    ++ rest, last_error := 0 })
    (hfuel : (s.ram_list.filter (fun b => b.migratable)).length + 2 ≤ fuel) :
    ram_load env fuel s 4 =
      some (0, { s with f := { buf := rest, last_error := 0 }, seq_iter := s.seq_iter + 1,
                        events := s.events ++
                          (migratable_indices_from s.ram_list 0).map LoadEvent.block_reg }) := by
  unfold ram_load
  have h4 : 4 &&& (if (!env.migrate_use_compression) = true then RAM_SAVE_FLAG_COMPRESS_PAGE
      else 0) = 0 := by
    split <;> decide
  have h16 : 16 &&& (if (!env.migrate_use_compression) = true then RAM_SAVE_FLAG_COMPRESS_PAGE
      else 0) = 0 := by
    split <;> decide
  simp only [hpre, Bool.false_eq_true, if_false, ne_eq, not_true_eq_false]
  rw [ram_load_loop_handshake env _ { s with seq_iter := s.seq_iter + 1 } rest fuel h4 h16 hids hlen
    hps hf hfuel]
  simp only [Option.map_some', wait_for_decompress_done, qemu_file_get_error]
  have : int_or 0 (if (!env.migrate_use_compression) = true then 0 else 0) = 0 := by
    split <;> rfl
  rw [this]

/-- C5: for a region table shared by sender and receiver (same ids, used lengths, page
sizes and migratability; ids that identify the regions; used lengths that are
non-zero multiples of the target page size) and the same post-copy capability and
host page size on both sides, the bytes written by `ram_save_setup` are accepted by
pre-copy `ram_load` with version 4: it returns 0, consumes exactly those bytes up to
and including the EOS word, registers one record per migratable region in list
order, and requests no region resize (no other external call is recorded). -/
theorem handshake_round_trip (senv : SaveEnv) (ss : SaveState) (env : LoadEnv) (s : LoadState)
    (rest : List Nat) (fuel : Nat)
    (hc : senv.compress_threads_save_setup_ret = 0)
    (hi : senv.migration_in_colo_state = true ∨
      (senv.ram_state_alloc_ok = true ∧ senv.xbzrle_init_ret = 0))
    (hshared : ss.ram_list.map RAMBlock.region = s.ram_list.map RAMBlock.region)
    (hadv : env.postcopy_advised = senv.migrate_postcopy_ram)
    (hhps : env.qemu_host_page_size = senv.qemu_host_page_size)
    (hpre : env.postcopy_running = false)
    (hids : ids_wf s.ram_list) (hlen : lengths_wf s.ram_list)
    (hps : ∀ b ∈ s.ram_list, b.page_size < 2 ^ 64)
    (hf : s.f = { buf := (ram_save_setup senv ss empty_file).1.rs.f.buf ++ rest, last_error := 0 })
    (hfuel : (s.ram_list.filter (fun b => b.migratable)).length + 2 ≤ fuel) :
    (ram_save_setup senv ss empty_file).2 = 0 ∧
    ram_load env fuel s 4 =
      some (0, { s with f := { buf := rest, last_error := 0 }, seq_iter := s.seq_iter + 1,
                        events := s.events ++
                          (migratable_indices_from s.ram_list 0).map LoadEvent.block_reg }) := by
  have hid : ∀ b ∈ ss.ram_list, b.idstr.length < 256 :=
    idstr_bound_of_region ss.ram_list s.ram_list hshared (fun b hb => (hids.2 b hb).1)
  have hsetup := ram_save_setup_ok senv ss empty_file hc hi hid
  refine ⟨hsetup.1, ?_⟩
  apply ram_load_precopy_handshake env s rest fuel hpre hids hlen hps _ hfuel
  rw [hf, hsetup.2, handshake_bytes_region _ _ ss.ram_list s.ram_list hshared, hadv, hhps]
  rfl

theorem ids_wf_pc_ram : ids_wf [pc_ram] := by
  unfold ids_wf
  refine ⟨by simp, ?_⟩
  intro b hb
  rw [List.mem_singleton] at hb
  subst hb
  exact ⟨by decide, by decide⟩

theorem lengths_wf_pc_ram : lengths_wf [pc_ram] := by
  unfold lengths_wf
  refine ⟨?_, by decide⟩
  intro b hb _
  rw [List.mem_singleton] at hb
  subst hb
  exact ⟨by decide, by decide⟩

/-- Witness of C5 on the region "pc.ram" (scenario S1), with three bytes following
the handshake. -/
theorem handshake_round_trip_witness :
    ram_load plain_load_env 3
      (initial_load_state [pc_ram] (fun _ => 0)
        ((ram_save_setup plain_save_env (initial_save_state [pc_ram] (fun _ => 0))
          empty_file).1.rs.f.buf ++ [1, 2, 3])) 4 =
      some (0, { initial_load_state [pc_ram] (fun _ => 0) [1, 2, 3] with
                 seq_iter := 1, events := [LoadEvent.block_reg 0] }) :=
  (handshake_round_trip plain_save_env (initial_save_state [pc_ram] (fun _ => 0)) plain_load_env
    (initial_load_state [pc_ram] (fun _ => 0)
      ((ram_save_setup plain_save_env (initial_save_state [pc_ram] (fun _ => 0))
        empty_file).1.rs.f.buf ++ [1, 2, 3]))
    [1, 2, 3] 3 rfl (Or.inr ⟨rfl, rfl⟩) rfl rfl rfl rfl ids_wf_pc_ram lengths_wf_pc_ram
    (by
      intro b hb
      simp only [initial_load_state, List.mem_singleton] at hb
      subst hb
      decide)
    rfl (by decide)).2

/-! ## C1: round trip of ZERO and PAGE frames -/

theorem or_flag_continue (off fl : Nat) :
    off ||| fl ||| RAM_SAVE_FLAG_CONTINUE = off ||| (fl ||| RAM_SAVE_FLAG_CONTINUE) :=
  Nat.or_assoc _ _ _

theorem zero_flag_no_continue (off : Nat) (h : off % 4096 = 0) :
    (off ||| RAM_SAVE_FLAG_ZERO) &&& RAM_SAVE_FLAG_CONTINUE = 0 := by
  rw [or_flag_eq_add off RAM_SAVE_FLAG_ZERO h (by decide)]
  have h5 : RAM_SAVE_FLAG_CONTINUE = 2 ^ 5 := rfl
  apply Nat.eq_of_testBit_eq
  intro i
  rw [Nat.testBit_and, h5, Nat.testBit_two_pow, Nat.zero_testBit]
  by_cases hi : 5 = i
  · subst hi
    simp only [decide_True, Bool.and_true, Nat.testBit, RAM_SAVE_FLAG_ZERO]
    rw [Nat.shiftRight_eq_div_pow]
    have : (off + 2) / 32 % 2 = 0 := by omega
    simp [Nat.one_and_eq_mod_two, this]
  · simp [hi]

theorem page_flag_no_continue (off : Nat) (h : off % 4096 = 0) :
    (off ||| RAM_SAVE_FLAG_PAGE) &&& RAM_SAVE_FLAG_CONTINUE = 0 := by
  rw [or_flag_eq_add off RAM_SAVE_FLAG_PAGE h (by decide)]
  have h5 : RAM_SAVE_FLAG_CONTINUE = 2 ^ 5 := rfl
  apply Nat.eq_of_testBit_eq
  intro i
  rw [Nat.testBit_and, h5, Nat.testBit_two_pow, Nat.zero_testBit]
  by_cases hi : 5 = i
  · subst hi
    simp only [decide_True, Bool.and_true, Nat.testBit, RAM_SAVE_FLAG_PAGE]
    rw [Nat.shiftRight_eq_div_pow]
    have : (off + 8) / 32 % 2 = 0 := by omega
    simp [Nat.one_and_eq_mod_two, this]
  · simp [hi]

theorem send_page_spec (s : SaveState) (b off : Nat) (hoff : off % 4096 = 0)
    (hid : (idstr_of s.ram_list b).length < 256) :
    (send_page s b off).rs.f.buf =
      s.rs.f.buf ++ page_frame_bytes s.ram_list s.mem s.rs.last_sent_block b off ∧
    (send_page s b off).rs.last_sent_block = some b ∧
    (send_page s b off).mem = s.mem ∧ (send_page s b off).ram_list = s.ram_list := by
  unfold send_page save_zero_page save_normal_page page_frame_bytes
  by_cases hz : buffer_is_zero (read_buffer s.mem (host_of s.ram_list b + off) TARGET_PAGE_SIZE) = true
  · simp only [hz, if_true]
    by_cases hb : s.rs.last_sent_block = some b
    · simp [save_page_header_continue _ _ _ _ _ hb, hb, qemu_put_be64, qemu_put_byte]
    · simp [save_page_header_first _ _ _ _ _ hb (zero_flag_no_continue off hoff),
        hb, qemu_put_be64, qemu_put_byte, qemu_put_buffer, Nat.mod_eq_of_lt hid]
  · simp only [hz, Bool.false_eq_true, if_false, if_true]
    by_cases hb : s.rs.last_sent_block = some b
    · simp [save_page_header_continue _ _ _ _ _ hb, hb, qemu_put_be64, qemu_put_buffer]
    · simp [save_page_header_first _ _ _ _ _ hb (page_flag_no_continue off hoff),
        hb, qemu_put_be64, qemu_put_byte, qemu_put_buffer, Nat.mod_eq_of_lt hid]

theorem send_pages_spec (pages : List (Nat × Nat)) :
    ∀ (s : SaveState), (∀ p ∈ pages, p.2 % 4096 = 0 ∧ (idstr_of s.ram_list p.1).length < 256) →
    (send_pages s pages).rs.f.buf =
      s.rs.f.buf ++ page_frames_bytes s.ram_list s.mem s.rs.last_sent_block pages := by
  induction pages with
  | nil => intro s _; simp [send_pages, page_frames_bytes]
  | cons p rest ih =>
    intro s h
    have hp := h p (List.mem_cons_self _ _)
    have hs := send_page_spec s p.1 p.2 hp.1 hp.2
    have hrest : ∀ q ∈ rest, q.2 % 4096 = 0 ∧
        (idstr_of (send_page s p.1 p.2).ram_list q.1).length < 256 := by
      intro q hq
      rw [hs.2.2.2]
      exact h q (List.mem_cons_of_mem _ hq)
    have := ih (send_page s p.1 p.2) hrest
    simp only [send_pages, List.foldl_cons] at this ⊢
    rw [this, hs.1, hs.2.1, hs.2.2.1, hs.2.2.2, page_frames_bytes, List.append_assoc]

theorem host_from_ram_block_offset_some (l : List RAMBlock) (b : Nat) (blk : RAMBlock) (off : Nat)
    (hblk : l[b]? = some blk) (hhost : blk.host ≠ 0) (hlt : off < blk.used_length) :
    host_from_ram_block_offset l (some b) off = blk.host + off := by
  simp [host_from_ram_block_offset, offset_in_ramblock, hblk, hhost, hlt, host_of]

theorem ram_load_iter_zero (env : LoadEnv) (inv fuel : Nat) (s s1 : LoadState) (F off b : Nat)
    (blk : RAMBlock) (rest0 rest : List Nat) (ch : Nat) (e : Int)
    (hf : s.f = { buf := be64_bytes (off + F) ++ rest0, last_error := e })
    (hoff : off % 4096 = 0) (h64 : off + F < 2 ^ 64) (hF : F < 4096)
    (hinv : F &&& inv = 0)
    (hdata : F &&& (RAM_SAVE_FLAG_ZERO ||| RAM_SAVE_FLAG_PAGE ||| RAM_SAVE_FLAG_COMPRESS_PAGE |||
      RAM_SAVE_FLAG_XBZRLE) ≠ 0)
    (hsw : F &&& NOT_RAM_SAVE_FLAG_CONTINUE = RAM_SAVE_FLAG_ZERO)
    (hrb : ram_block_from_stream { s with f := { buf := rest0, last_error := e } } F = (some b, s1))
    (hblk : s1.ram_list[b]? = some blk) (hhost : blk.host ≠ 0) (hlt : off < blk.used_length)
    (hf1 : s1.f = { buf := ch :: rest, last_error := 0 }) :
    ram_load_iter env inv fuel s =
      some (F, 0, { s1 with
        f := { buf := rest, last_error := 0 },
        ram_list := ramblock_recv_bitmap_set s1.ram_list (some b) (blk.host + off),
        mem := ram_handle_zero_page s1.mem (blk.host + off) ch TARGET_PAGE_SIZE }) := by
  have hflags : (off + F) &&& NOT_TARGET_PAGE_MASK = F := by rw [and_not_page_mask]; omega
  have haddr : (off + F) &&& TARGET_PAGE_MASK = off := by rw [and_page_mask _ h64]; omega
  have hh := host_from_ram_block_offset_some s1.ram_list b blk off hblk hhost hlt
  have hne : ¬ (blk.host + off = 0) := by omega
  have h1 : ¬ (RAM_SAVE_FLAG_ZERO = RAM_SAVE_FLAG_MEM_SIZE) := by decide
  unfold ram_load_iter
  simp only [hf, qemu_get_be64_append _ rest0 e h64, hflags, haddr, hinv, hdata, hsw, hrb, hh,
    ne_eq, not_true_eq_false, not_false_eq_true, if_false, if_true, decide_True, decide_False,
    Bool.true_and, beq_iff_eq, hne, h1, hf1, qemu_get_byte_cons, Option.map_some',
    qemu_file_get_error]

theorem ram_load_iter_page (env : LoadEnv) (inv fuel : Nat) (s s1 : LoadState) (F off b : Nat)
    (blk : RAMBlock) (rest0 rest : List Nat) (page : List Nat) (e : Int)
    (hf : s.f = { buf := be64_bytes (off + F) ++ rest0, last_error := e })
    (hoff : off % 4096 = 0) (h64 : off + F < 2 ^ 64) (hF : F < 4096)
    (hinv : F &&& inv = 0)
    (hdata : F &&& (RAM_SAVE_FLAG_ZERO ||| RAM_SAVE_FLAG_PAGE ||| RAM_SAVE_FLAG_COMPRESS_PAGE |||
      RAM_SAVE_FLAG_XBZRLE) ≠ 0)
    (hsw : F &&& NOT_RAM_SAVE_FLAG_CONTINUE = RAM_SAVE_FLAG_PAGE)
    (hrb : ram_block_from_stream { s with f := { buf := rest0, last_error := e } } F = (some b, s1))
    (hblk : s1.ram_list[b]? = some blk) (hhost : blk.host ≠ 0) (hlt : off < blk.used_length)
    (hpage : page.length = TARGET_PAGE_SIZE)
    (hf1 : s1.f = { buf := page ++ rest, last_error := 0 }) :
    ram_load_iter env inv fuel s =
      some (F, 0, { s1 with
        f := { buf := rest, last_error := 0 },
        ram_list := ramblock_recv_bitmap_set s1.ram_list (some b) (blk.host + off),
        mem := mem_write s1.mem (blk.host + off) page }) := by
  have hflags : (off + F) &&& NOT_TARGET_PAGE_MASK = F := by rw [and_not_page_mask]; omega
  have haddr : (off + F) &&& TARGET_PAGE_MASK = off := by rw [and_page_mask _ h64]; omega
  have hh := host_from_ram_block_offset_some s1.ram_list b blk off hblk hhost hlt
  have hne : ¬ (blk.host + off = 0) := by omega
  have h1 : ¬ (RAM_SAVE_FLAG_PAGE = RAM_SAVE_FLAG_MEM_SIZE) := by decide
  have h2 : ¬ (RAM_SAVE_FLAG_PAGE = RAM_SAVE_FLAG_ZERO) := by decide
  unfold ram_load_iter
  simp only [hf, qemu_get_be64_append _ rest0 e h64, hflags, haddr, hinv, hdata, hsw, hrb, hh,
    ne_eq, not_true_eq_false, not_false_eq_true, if_false, if_true, decide_True, decide_False,
    Bool.true_and, beq_iff_eq, hne, h1, h2, hf1, qemu_get_buffer_append page rest 0 _ hpage,
    Option.map_some', qemu_file_get_error]

theorem ram_block_from_stream_continue (s : LoadState) (F b : Nat)
    (hc : F &&& RAM_SAVE_FLAG_CONTINUE ≠ 0) (hb : s.block = some b) :
    ram_block_from_stream s F = (some b, s) := by
  simp [ram_block_from_stream, hc, hb]

theorem ram_block_from_stream_named (s : LoadState) (F b : Nat) (blk : RAMBlock)
    (rest : List Nat) (e : Int)
    (hc : F &&& RAM_SAVE_FLAG_CONTINUE = 0)
    (hf : s.f = { buf := [blk.idstr.length] ++ blk.idstr ++ rest, last_error := e })
    (hlook : qemu_ram_block_by_name s.ram_list blk.idstr = some b)
    (hblk : s.ram_list[b]? = some blk) (hm : blk.migratable = true) :
    ram_block_from_stream s F =
      (some b, { s with f := { buf := rest, last_error := e }, block := some b }) := by
  unfold ram_block_from_stream
  simp only [hc, ne_eq, not_true_eq_false, if_false, hf, List.singleton_append, List.cons_append,
    List.nil_append, qemu_get_byte_cons, qemu_get_buffer_append blk.idstr rest e _ rfl, hlook,
    is_migratable, hblk, hm, Bool.not_true, Bool.false_eq_true]

theorem split_at_index (l : List RAMBlock) (i : Nat) (b : RAMBlock) (h : l[i]? = some b) :
    ∃ pre post, l = pre ++ b :: post ∧ pre.length = i := by
  have hlt : i < l.length := by
    by_contra hc
    rw [List.getElem?_eq_none (by omega)] at h
    exact Option.noConfusion h
  refine ⟨l.take i, l.drop (i + 1), ?_, by simp; omega⟩
  rw [List.getElem?_eq_getElem hlt] at h
  injection h with h
  rw [← h, List.getElem_cons_drop l i hlt, List.take_append_drop]

theorem qemu_ram_block_by_name_index (l : List RAMBlock) (i : Nat) (b : RAMBlock)
    (hwf : ids_wf l) (h : l[i]? = some b) : qemu_ram_block_by_name l b.idstr = some i := by
  obtain ⟨pre, post, hl, hlen⟩ := split_at_index l i b h
  subst hl
  rw [qemu_ram_block_by_name_found pre post b hwf, hlen]

theorem getElem?_of_map_eq {α : Type} (f : RAMBlock → α) (l1 : List RAMBlock) :
    ∀ (l2 : List RAMBlock) (i : Nat) (b2 : RAMBlock), l1.map f = l2.map f → l2[i]? = some b2 →
    ∃ b1, l1[i]? = some b1 ∧ f b1 = f b2 := by
  intro l2 i b2 h h2
  have h3 : (l2.map f)[i]? = some (f b2) := by rw [List.getElem?_map, h2]; rfl
  rw [← h, List.getElem?_map] at h3
  cases h1 : l1[i]? with
  | none => rw [h1] at h3; exact Option.noConfusion h3
  | some b1 =>
    rw [h1] at h3
    exact ⟨b1, rfl, by simpa using h3⟩

theorem ramblock_recv_bitmap_set_layout (l : List RAMBlock) (block : Option Nat) (host : Nat) :
    (ramblock_recv_bitmap_set l block host).map RAMBlock.layout = l.map RAMBlock.layout := by
  unfold ramblock_recv_bitmap_set
  cases block with
  | none => rfl
  | some i =>
    simp only []
    cases h : l[i]? with
    | none => rfl
    | some b =>
      simp only [List.map_set]
      apply List.ext_getElem?
      intro n
      rw [List.getElem?_set]
      by_cases hn : i = n
      · subst hn
        have hlt : i < l.length := by
          by_contra hc
          rw [List.getElem?_eq_none (by omega)] at h
          exact Option.noConfusion h
        rw [List.getElem?_eq_getElem hlt] at h
        injection h with h
        subst h
        simp [hlt, RAMBlock.layout]
      · simp [hn]

theorem ids_wf_of_layout (l1 l2 : List RAMBlock)
    (h : l1.map RAMBlock.layout = l2.map RAMBlock.layout) (hwf : ids_wf l2) : ids_wf l1 := by
  have hid : l1.map (fun b => b.idstr) = l2.map (fun b => b.idstr) := by
    have := congrArg (List.map (fun (x : List Nat × Nat × Nat × Nat × Nat × Bool) => x.1)) h
    simpa [List.map_map, Function.comp, RAMBlock.layout] using this
  refine ⟨by rw [hid]; exact hwf.1, ?_⟩
  intro b hb
  obtain ⟨i, hi⟩ := List.mem_iff_getElem?.1 hb
  obtain ⟨b2, hb2, he⟩ := getElem?_of_map_eq RAMBlock.layout l2 l1 i b h.symm hi
  have hid2 : b2.idstr = b.idstr := by
    simp only [RAMBlock.layout, Prod.mk.injEq] at he
    exact he.1
  rw [← hid2]
  exact hwf.2 b2 (List.mem_iff_getElem?.2 ⟨i, hb2⟩)

theorem buffer_is_zero_eq (l : List Nat) (h : buffer_is_zero l = true) :
    l = List.replicate l.length 0 := by
  induction l with
  | nil => rfl
  | cons a r ih =>
    simp only [buffer_is_zero, List.all_cons, Bool.and_eq_true, beq_iff_eq] at h
    rw [List.length_cons, List.replicate_succ, h.1]
    congr 1
    exact ih h.2

theorem read_buffer_length (mem : Nat → Nat) (p n : Nat) : (read_buffer mem p n).length = n := by
  simp [read_buffer]

theorem ram_load_iter_page_frame (env : LoadEnv) (inv fuel : Nat) (s : LoadState)
    (sl : List RAMBlock) (smem : Nat → Nat) (lsb : Option Nat) (p : Nat × Nat) (rest : List Nat)
    (hinv : inv = 0 ∨ inv = RAM_SAVE_FLAG_COMPRESS_PAGE)
    (hshared : sl.map RAMBlock.region = s.ram_list.map RAMBlock.region)
    (hids : ids_wf s.ram_list) (htp : is_target_page s.ram_list p)
    (hblock : s.block = lsb)
    (hf : s.f = { buf := page_frame_bytes sl smem lsb p.1 p.2 ++ rest, last_error := 0 }) :
    ∃ F s', ram_load_iter env inv fuel s = some (F, 0, s') ∧ F &&& RAM_SAVE_FLAG_EOS = 0 ∧
      s'.f = { buf := rest, last_error := 0 } ∧ s'.block = some p.1 ∧
      s'.ram_list.map RAMBlock.layout = s.ram_list.map RAMBlock.layout ∧
      s'.mem = mem_write s.mem (host_of s.ram_list p.1 + p.2)
        (read_buffer smem (host_of sl p.1 + p.2) TARGET_PAGE_SIZE) := by
  obtain ⟨blk, hblk, hm, hhost, hal, hin, hu64⟩ := htp
  simp only [TARGET_PAGE_SIZE] at hal hin
  obtain ⟨sb, hsb, hreg⟩ := getElem?_of_map_eq RAMBlock.region sl s.ram_list p.1 blk hshared hblk
  have hidstr : idstr_of sl p.1 = blk.idstr := by
    simp only [RAMBlock.region, Prod.mk.injEq] at hreg
    simp [idstr_of, hsb, hreg.1]
  have hhostof : host_of s.ram_list p.1 = blk.host := by simp [host_of, hblk]
  have hlook := qemu_ram_block_by_name_index s.ram_list p.1 blk hids hblk
  have hlt : p.2 < blk.used_length := by omega
  have hplen := read_buffer_length smem (host_of sl p.1 + p.2) TARGET_PAGE_SIZE
  rw [hhostof]
  unfold page_frame_bytes at hf
  rw [hidstr] at hf
  by_cases hz : buffer_is_zero (read_buffer smem (host_of sl p.1 + p.2) TARGET_PAGE_SIZE) = true
  · have hpz := buffer_is_zero_eq _ hz
    rw [hplen] at hpz
    have hmem : ram_handle_zero_page s.mem (blk.host + p.2) 0 TARGET_PAGE_SIZE =
        mem_write s.mem (blk.host + p.2)
          (read_buffer smem (host_of sl p.1 + p.2) TARGET_PAGE_SIZE) := by
      rw [hpz]; rfl
    by_cases hl : lsb = some p.1
    · simp only [hz, hl, if_true, or_flag_continue, List.append_nil, List.append_assoc] at hf
      have hfl : RAM_SAVE_FLAG_ZERO ||| RAM_SAVE_FLAG_CONTINUE = 34 := by decide
      rw [hfl, or_flag_eq_add p.2 34 hal (by norm_num)] at hf
      have hrb := ram_block_from_stream_continue
        { s with f := { buf := [0] ++ rest, last_error := 0 } } 34 p.1 (by decide)
        (by rw [← hl]; exact hblock)
      refine ⟨34, _, ram_load_iter_zero env inv fuel s _ 34 p.2 p.1 blk _ rest 0 0 hf hal
        (by omega) (by norm_num) (by rcases hinv with h | h <;> subst h <;> decide)
        (by decide) (by decide) hrb hblk hhost hlt rfl, by decide, rfl, ?_, ?_, hmem⟩
      · simp only []; rw [← hl]; exact hblock
      · exact ramblock_recv_bitmap_set_layout s.ram_list (some p.1) (blk.host + p.2)
    · simp only [hz, hl, if_true, if_false, List.append_assoc] at hf
      rw [or_flag_eq_add p.2 RAM_SAVE_FLAG_ZERO hal (by decide)] at hf
      have hrb := ram_block_from_stream_named
        { s with f := { buf := [blk.idstr.length] ++ blk.idstr ++ ([0] ++ rest), last_error := 0 } }
        2 p.1 blk ([0] ++ rest) 0 (by decide) rfl hlook hblk hm
      refine ⟨2, _, ram_load_iter_zero env inv fuel s _ 2 p.2 p.1 blk _ rest 0 0
        (by rw [hf]; simp [RAM_SAVE_FLAG_ZERO]) hal
        (by omega) (by norm_num) (by rcases hinv with h | h <;> subst h <;> decide)
        (by decide) (by decide) hrb hblk hhost hlt rfl, by decide, rfl, rfl, ?_, hmem⟩
      exact ramblock_recv_bitmap_set_layout s.ram_list (some p.1) (blk.host + p.2)
  · have hz2 : buffer_is_zero (read_buffer smem (host_of sl p.1 + p.2) TARGET_PAGE_SIZE) = false := by
      simpa using hz
    by_cases hl : lsb = some p.1
    · simp only [hz2, hl, if_true, Bool.false_eq_true, if_false, or_flag_continue, List.append_nil,
        List.append_assoc] at hf
      have hfl : RAM_SAVE_FLAG_PAGE ||| RAM_SAVE_FLAG_CONTINUE = 40 := by decide
      rw [hfl, or_flag_eq_add p.2 40 hal (by norm_num)] at hf
      have hrb := ram_block_from_stream_continue
        { s with f := { buf := read_buffer smem (host_of sl p.1 + p.2) TARGET_PAGE_SIZE ++ rest,
                        last_error := 0 } } 40 p.1 (by decide)
        (by rw [← hl]; exact hblock)
      refine ⟨40, _, ram_load_iter_page env inv fuel s _ 40 p.2 p.1 blk _ rest _ 0 hf hal
        (by omega) (by norm_num) (by rcases hinv with h | h <;> subst h <;> decide)
        (by decide) (by decide) hrb hblk hhost hlt hplen rfl, by decide, rfl, ?_, ?_, rfl⟩
      · simp only []; rw [← hl]; exact hblock
      · exact ramblock_recv_bitmap_set_layout s.ram_list (some p.1) (blk.host + p.2)
    · simp only [hz2, hl, Bool.false_eq_true, if_false, List.append_assoc] at hf
      rw [or_flag_eq_add p.2 RAM_SAVE_FLAG_PAGE hal (by decide)] at hf
      have hrb := ram_block_from_stream_named
        { s with f := { buf := [blk.idstr.length] ++ blk.idstr ++
            (read_buffer smem (host_of sl p.1 + p.2) TARGET_PAGE_SIZE ++ rest), last_error := 0 } }
        8 p.1 blk (read_buffer smem (host_of sl p.1 + p.2) TARGET_PAGE_SIZE ++ rest) 0
        (by decide) rfl hlook hblk hm
      refine ⟨8, _, ram_load_iter_page env inv fuel s _ 8 p.2 p.1 blk _ rest _ 0
        (by rw [hf]; simp [RAM_SAVE_FLAG_PAGE]) hal
        (by omega) (by norm_num) (by rcases hinv with h | h <;> subst h <;> decide)
        (by decide) (by decide) hrb hblk hhost hlt hplen rfl, by decide, rfl, rfl, ?_, rfl⟩
      exact ramblock_recv_bitmap_set_layout s.ram_list (some p.1) (blk.host + p.2)

theorem host_of_layout (l1 l2 : List RAMBlock)
    (h : l1.map RAMBlock.layout = l2.map RAMBlock.layout) (i : Nat) :
    host_of l1 i = host_of l2 i := by
  unfold host_of
  cases h2 : l2[i]? with
  | none =>
    have hlen : l1.length = l2.length := by
      have := congrArg List.length h
      simpa using this
    have hn : l1[i]? = none := by
      rw [List.getElem?_eq_none_iff] at h2 ⊢
      omega
    rw [hn]
  | some b2 =>
    obtain ⟨b1, hb1, he⟩ := getElem?_of_map_eq RAMBlock.layout l1 l2 i b2 h h2
    rw [hb1]
    simp only [RAMBlock.layout, Prod.mk.injEq] at he
    exact he.2.1

theorem is_target_page_of_layout (l1 l2 : List RAMBlock)
    (h : l1.map RAMBlock.layout = l2.map RAMBlock.layout) (p : Nat × Nat)
    (hp : is_target_page l2 p) : is_target_page l1 p := by
  obtain ⟨b2, hb2, hm, hh, ha, hi, hu⟩ := hp
  obtain ⟨b1, hb1, he⟩ := getElem?_of_map_eq RAMBlock.layout l1 l2 p.1 b2 h hb2
  simp only [RAMBlock.layout, Prod.mk.injEq] at he
  exact ⟨b1, hb1, by rw [he.2.2.2.2.2]; exact hm, by rw [he.2.1]; exact hh, ha,
    by rw [he.2.2.1]; exact hi, by rw [he.2.2.1]; exact hu⟩

theorem hosts_disjoint_of_layout (l1 l2 : List RAMBlock)
    (h : l1.map RAMBlock.layout = l2.map RAMBlock.layout)
    (hd : hosts_disjoint l2) : hosts_disjoint l1 := by
  intro i j bi bj hi hj hij
  obtain ⟨ci, hci, hei⟩ := getElem?_of_map_eq RAMBlock.layout l2 l1 i bi h.symm hi
  obtain ⟨cj, hcj, hej⟩ := getElem?_of_map_eq RAMBlock.layout l2 l1 j bj h.symm hj
  simp only [RAMBlock.layout, Prod.mk.injEq] at hei hej
  have := hd i j ci cj hci hcj hij
  rw [hei.2.1, hei.2.2.1, hej.2.1, hej.2.2.1] at this
  exact this

theorem target_pages_disjoint (l : List RAMBlock) (p q : Nat × Nat)
    (hp : is_target_page l p) (hq : is_target_page l q) (hd : hosts_disjoint l) (hne : p ≠ q) :
    page_host l p + 4096 ≤ page_host l q ∨ page_host l q + 4096 ≤ page_host l p := by
  obtain ⟨bp, hbp, _, _, hap, hip, _⟩ := hp
  obtain ⟨bq, hbq, _, _, haq, hiq, _⟩ := hq
  simp only [TARGET_PAGE_SIZE] at hap hip haq hiq
  have hhp : host_of l p.1 = bp.host := by simp [host_of, hbp]
  have hhq : host_of l q.1 = bq.host := by simp [host_of, hbq]
  unfold page_host
  rw [hhp, hhq]
  by_cases hb : p.1 = q.1
  · rw [hb, hbq] at hbp
    injection hbp with hbp
    subst hbp
    have h2 : p.2 ≠ q.2 := by
      intro h2
      exact hne (Prod.ext hb h2)
    omega
  · have := hd p.1 q.1 bp bq hbp hbq hb
    omega

theorem mem_write_read (m sm : Nat → Nat) (p q n i : Nat) (hi : i < n) :
    mem_write m p (read_buffer sm q n) (p + i) = sm (q + i) % 256 := by
  unfold mem_write
  have hlen := read_buffer_length sm q n
  have hc : p ≤ p + i ∧ p + i < p + (read_buffer sm q n).length := by
    rw [hlen]; omega
  rw [if_pos hc]
  have : p + i - p = i := by omega
  rw [this]
  simp [read_buffer, List.getD, hi]

theorem mem_write_outside (m : Nat → Nat) (p : Nat) (bytes : List Nat) (a : Nat)
    (h : ¬ (p ≤ a ∧ a < p + bytes.length)) : mem_write m p bytes a = m a := by
  unfold mem_write
  rw [if_neg h]

theorem read_buffer_congr (m1 m2 : Nat → Nat) (p q n : Nat)
    (h : ∀ i < n, m1 (p + i) % 256 = m2 (q + i) % 256) :
    read_buffer m1 p n = read_buffer m2 q n := by
  unfold read_buffer
  apply List.map_congr_left
  intro i hi
  exact h i (List.mem_range.1 hi)

theorem ram_load_loop_pages (env : LoadEnv) (inv : Nat) (sl : List RAMBlock) (smem : Nat → Nat)
    (rest : List Nat) (hinv : inv = 0 ∨ inv = RAM_SAVE_FLAG_COMPRESS_PAGE)
    (pages : List (Nat × Nat)) :
    ∀ (s : LoadState) (lsb : Option Nat) (fuel F0 : Nat),
    F0 &&& RAM_SAVE_FLAG_EOS = 0 →
    sl.map RAMBlock.region = s.ram_list.map RAMBlock.region →
    ids_wf s.ram_list → hosts_disjoint s.ram_list →
    (∀ p ∈ pages, is_target_page s.ram_list p) →
    s.block = lsb →
    s.f = { buf := page_frames_bytes sl smem lsb pages ++ (be64_bytes RAM_SAVE_FLAG_EOS ++ rest),
            last_error := 0 } →
    pages.length + 1 ≤ fuel →
    ∃ s', ram_load_loop env inv fuel s F0 0 = some (0, s') ∧
      s'.f = { buf := rest, last_error := 0 } ∧
      (∀ p ∈ pages, ∀ i < 4096,
        s'.mem (page_host s.ram_list p + i) = smem (page_host sl p + i) % 256) ∧
      (∀ a, (∀ q ∈ pages, ¬ (page_host s.ram_list q ≤ a ∧ a < page_host s.ram_list q + 4096)) →
        s'.mem a = s.mem a) := by
  induction pages with
  | nil =>
    intro s lsb fuel F0 hF0 _ _ _ _ _ hf hfuel
    obtain ⟨n, rfl⟩ : ∃ n, fuel = n + 1 := ⟨fuel - 1, by omega⟩
    simp only [page_frames_bytes, List.nil_append] at hf
    refine ⟨{ s with f := { buf := rest, last_error := 0 } }, ?_, rfl, ?_, ?_⟩
    · rw [ram_load_loop]
      have hc0 : ¬ ((0 : Int) ≠ 0 ∨ F0 &&& RAM_SAVE_FLAG_EOS ≠ 0) := by
        intro h
        rcases h with h | h
        · exact h rfl
        · exact h hF0
      simp only [hc0, if_false]
      rw [ram_load_iter_eos env inv (n + 1) s rest 0
        (by rcases hinv with h | h <;> subst h <;> decide) hf]
      simp only []
      rw [ram_load_loop.eq_def]
      have hc2 : ((0 : Int) ≠ 0 ∨ 16 &&& RAM_SAVE_FLAG_EOS ≠ 0) := Or.inr (by decide)
      simp only [hc2, if_true]
    · intro p hp; exact absurd hp (List.not_mem_nil _)
    · intro a _; rfl
  | cons p pages ih =>
    intro s lsb fuel F0 hF0 hshared hids hdisj htp hblock hf hfuel
    obtain ⟨n, rfl⟩ : ∃ n, fuel = n + 1 := ⟨fuel - 1, by omega⟩
    simp only [page_frames_bytes, List.append_assoc] at hf
    obtain ⟨F, s1, hiter, hF, hf1, hb1, hl1, hm1⟩ := ram_load_iter_page_frame env inv (n + 1) s sl smem
      lsb p _ hinv hshared hids (htp p (List.mem_cons_self _ _)) hblock hf
    have hreg1 : sl.map RAMBlock.region = s1.ram_list.map RAMBlock.region := by
      rw [hshared]; exact (region_of_layout _ _ hl1).symm
    have hhost : ∀ q : Nat × Nat, page_host s1.ram_list q = page_host s.ram_list q := by
      intro q; unfold page_host; rw [host_of_layout _ _ hl1]
    obtain ⟨s', hloop, hf', hA, hB⟩ := ih s1 (some p.1) n F hF hreg1
      (ids_wf_of_layout _ _ hl1 hids) (hosts_disjoint_of_layout _ _ hl1 hdisj)
      (fun q hq => is_target_page_of_layout _ _ hl1 q (htp q (List.mem_cons_of_mem _ hq)))
      hb1 hf1 (by simp only [List.length_cons] at hfuel; omega)
    have hhead : ∀ i < 4096, s1.mem (page_host s.ram_list p + i) = smem (page_host sl p + i) % 256 := by
      intro i hi
      rw [hm1]
      exact mem_write_read s.mem smem _ _ TARGET_PAGE_SIZE i hi
    refine ⟨s', ?_, hf', ?_, ?_⟩
    · rw [ram_load_loop]
      have hc0 : ¬ ((0 : Int) ≠ 0 ∨ F0 &&& RAM_SAVE_FLAG_EOS ≠ 0) := by
        intro h
        rcases h with h | h
        · exact h rfl
        · exact h hF0
      simp only [hc0, if_false, hiter]
      exact hloop
    · intro q hq i hi
      by_cases hmem : q ∈ pages
      · rw [← hhost q]; exact hA q hmem i hi
      · have hqp : q = p := by
          rcases List.mem_cons.1 hq with h | h
          · exact h
          · exact absurd h hmem
        subst hqp
        rw [hB, hhead i hi]
        intro r hr
        have hne : q ≠ r := fun h => hmem (h ▸ hr)
        have := target_pages_disjoint s.ram_list q r (htp q (List.mem_cons_self _ _))
          (htp r (List.mem_cons_of_mem _ hr)) hdisj hne
        rw [hhost r]
        omega
    · intro a ha
      rw [hB a (fun q hq => by rw [hhost q]; exact ha q (List.mem_cons_of_mem _ hq)), hm1]
      apply mem_write_outside
      rw [read_buffer_length]
      exact ha p (List.mem_cons_self _ _)

/-- C1: starting from a fresh sender (`last_sent_block` unset, empty stream) and a
fresh receiver (no remembered block, no file error), for every region table shared
by both sides (same ids, used lengths, page sizes and migratability; ids that
identify the regions; disjoint host ranges on the receiver) and every sequence of
target pages of migratable regions sent with `save_zero_page` or `save_normal_page`
and followed by an EOS word, pre-copy `ram_load` with version 4 returns 0, consumes
the stream, and leaves the destination memory of every sent page equal to the
source page at the same region and offset. -/
theorem page_round_trip (ss : SaveState) (env : LoadEnv) (s : LoadState)
    (pages : List (Nat × Nat)) (fuel : Nat)
    (hfresh : ss.rs.last_sent_block = none) (hout : ss.rs.f.buf = [])
    (hshared : ss.ram_list.map RAMBlock.region = s.ram_list.map RAMBlock.region)
    (hids : ids_wf s.ram_list) (hdisj : hosts_disjoint s.ram_list)
    (htp : ∀ p ∈ pages, is_target_page s.ram_list p)
    (hblock : s.block = none) (hpre : env.postcopy_running = false)
    (hf : s.f = { buf := (qemu_put_be64 (send_pages ss pages).rs.f RAM_SAVE_FLAG_EOS).buf,
                  last_error := 0 })
    (hfuel : pages.length + 1 ≤ fuel) :
    ∃ s', ram_load env fuel s 4 = some (0, s') ∧ s'.f.buf = [] ∧
      ∀ p ∈ pages,
        read_buffer s'.mem (page_host s.ram_list p) TARGET_PAGE_SIZE =
          read_buffer ss.mem (page_host ss.ram_list p) TARGET_PAGE_SIZE := by
  have hsend : (send_pages ss pages).rs.f.buf =
      page_frames_bytes ss.ram_list ss.mem none pages := by
    rw [send_pages_spec pages ss, hout, hfresh, List.nil_append]
    intro p hp
    obtain ⟨b, hb, _, _, ha, _, _⟩ := htp p hp
    obtain ⟨sb, hsb, hreg⟩ := getElem?_of_map_eq RAMBlock.region ss.ram_list s.ram_list p.1 b
      hshared hb
    simp only [RAMBlock.region, Prod.mk.injEq] at hreg
    refine ⟨ha, ?_⟩
    simp only [idstr_of, hsb, hreg.1]
    exact (hids.2 b (List.mem_iff_getElem?.2 ⟨p.1, hb⟩)).1
  have hf2 : ({ s with seq_iter := s.seq_iter + 1 } : LoadState).f =
      { buf := page_frames_bytes ss.ram_list ss.mem none pages ++
          (be64_bytes RAM_SAVE_FLAG_EOS ++ []), last_error := 0 } := by
    simp only [hf, qemu_put_be64, hsend, List.append_nil]
  obtain ⟨s', hloop, hf', hA, _⟩ := ram_load_loop_pages env
    (if (!env.migrate_use_compression) = true then RAM_SAVE_FLAG_COMPRESS_PAGE else 0)
    ss.ram_list ss.mem [] (by split <;> simp) pages
    { s with seq_iter := s.seq_iter + 1 } none fuel 0 (by decide) hshared hids hdisj htp hblock
    hf2 hfuel
  refine ⟨s', ?_, by rw [hf'], ?_⟩
  · unfold ram_load
    simp only [hpre, Bool.false_eq_true, if_false, ne_eq, not_true_eq_false]
    rw [hloop]
    simp only [Option.map_some', wait_for_decompress_done, qemu_file_get_error, hf']
    have : int_or 0 (if (!env.migrate_use_compression) = true then 0 else 0) = 0 := by
      split <;> rfl
    rw [this]
  · intro p hp
    apply read_buffer_congr
    intro i hi
    have := hA p hp i hi
    simp only [page_host] at this ⊢
    rw [this, Nat.mod_mod]

theorem hosts_disjoint_singleton (b : RAMBlock) : hosts_disjoint [b] := by
  intro i j bi bj hi hj hij
  have h1 : i = 0 := by
    by_contra hc
    rw [List.getElem?_eq_none (by simp; omega)] at hi
    exact Option.noConfusion hi
  have h2 : j = 0 := by
    by_contra hc
    rw [List.getElem?_eq_none (by simp; omega)] at hj
    exact Option.noConfusion hj
  omega

theorem s2_pages_are_target_pages : ∀ p ∈ s2_pages, is_target_page [pc_ram] p := by
  intro p hp
  simp only [s2_pages, List.mem_cons, List.mem_singleton, List.not_mem_nil, or_false] at hp
  rcases hp with h | h <;> subst h <;>
    exact ⟨pc_ram, rfl, rfl, by decide, by decide, by decide, by decide⟩

/-- Witness of C1 on scenario S2: "pc.ram" with a zero page at offset 0 and a
non-zero page at offset 4096. -/
theorem page_round_trip_witness :
    ∃ s', ram_load plain_load_env 3
        (initial_load_state [pc_ram] (fun _ => 7)
          (qemu_put_be64 (send_pages (initial_save_state [pc_ram] s2_source_mem) s2_pages).rs.f
            RAM_SAVE_FLAG_EOS).buf) 4 = some (0, s') ∧ s'.f.buf = [] ∧
      ∀ p ∈ s2_pages,
        read_buffer s'.mem (page_host [pc_ram] p) TARGET_PAGE_SIZE =
          read_buffer s2_source_mem (page_host [pc_ram] p) TARGET_PAGE_SIZE :=
  page_round_trip (initial_save_state [pc_ram] s2_source_mem) plain_load_env
    (initial_load_state [pc_ram] (fun _ => 7)
      (qemu_put_be64 (send_pages (initial_save_state [pc_ram] s2_source_mem) s2_pages).rs.f
        RAM_SAVE_FLAG_EOS).buf)
    s2_pages 3 rfl rfl rfl ids_wf_pc_ram (hosts_disjoint_singleton pc_ram)
    s2_pages_are_target_pages rfl rfl rfl (by decide)

/-! ## Post-copy receive: host-page arithmetic -/

theorem host_page_mask_pow (n : Nat) (hn : n < 64) : host_page_mask (2 ^ n) = 2 ^ n - 1 := by
  unfold host_page_mask
  have h1 : 0 < 2 ^ n := Nat.two_pow_pos n
  have h2 : 2 ^ n < 2 ^ 64 := Nat.pow_lt_pow_right (by norm_num) hn
  have : 2 ^ n + 2 ^ 64 - 1 = (2 ^ n - 1) + 2 ^ 64 := by omega
  rw [this, Nat.add_mod_right]
  exact Nat.mod_eq_of_lt (by omega)

theorem and_host_page_mask (x n : Nat) (hn : n < 64) :
    x &&& host_page_mask (2 ^ n) = x % 2 ^ n := by
  rw [host_page_mask_pow n hn]
  exact Nat.and_pow_two_sub_one_eq_mod x n

theorem postcopy_loop_exit (env : LoadEnv) (fuel : Nat) (s : LoadState) (l : PostcopyLocals)
    (h : l.ret ≠ 0 ∨ l.flags &&& RAM_SAVE_FLAG_EOS ≠ 0) :
    ram_load_postcopy_loop env fuel s l = some (l.ret, s) := by
  rw [ram_load_postcopy_loop.eq_def]
  simp only [h, if_true]

theorem postcopy_loop_step (env : LoadEnv) (fuel : Nat) (s : LoadState) (l : PostcopyLocals)
    (hret : l.ret = 0) (heos : l.flags &&& RAM_SAVE_FLAG_EOS = 0) :
    ram_load_postcopy_loop env (fuel + 1) s l =
      ram_load_postcopy_loop env fuel (ram_load_postcopy_iter env s l).1
        (ram_load_postcopy_iter env s l).2 := by
  rw [ram_load_postcopy_loop]
  have hc : ¬ (l.ret ≠ 0 ∨ l.flags &&& RAM_SAVE_FLAG_EOS ≠ 0) := by
    intro h
    rcases h with h | h
    · exact h hret
    · exact h heos
  simp only [hc, if_false]

/-! ## C9: a non-sequential target page ends the post-copy load -/

theorem ram_block_from_stream_keeps (t : LoadState) (F : Nat) :
    (ram_block_from_stream t F).2.ram_list = t.ram_list ∧
    (ram_block_from_stream t F).2.events = t.events ∧
    (ram_block_from_stream t F).2.tmp_page = t.tmp_page ∧
    (ram_block_from_stream t F).2.mem = t.mem := by
  unfold ram_block_from_stream
  split
  · split <;> exact ⟨rfl, rfl, rfl, rfl⟩
  · simp only []
    split
    · exact ⟨rfl, rfl, rfl, rfl⟩
    · split <;> exact ⟨rfl, rfl, rfl, rfl⟩

/-- C9: in the loop of `ram_load_postcopy`, a ZERO or PAGE frame whose host address
is not host-page aligned (page sizes being powers of two) and is not the previous
frame's host address plus TARGET_PAGE_SIZE makes the function return -EINVAL at
once: the state it returns is the one reached after reading the frame's header and
region id, with no frame and no page placement recorded, the temporary page
untouched and nothing further read. -/
theorem postcopy_non_sequential (env : LoadEnv) (fuel : Nat) (s : LoadState) (l : PostcopyLocals)
    (word : Nat) (f1 : QEMUFile) (block : Option Nat) (s1 : LoadState) (host n : Nat)
    (hret : l.ret = 0) (heos : l.flags &&& RAM_SAVE_FLAG_EOS = 0)
    (hword : qemu_get_be64 s.f = (word, f1)) (hfile : f1.last_error = 0)
    (hdata : (word &&& NOT_TARGET_PAGE_MASK) &&& (RAM_SAVE_FLAG_ZERO ||| RAM_SAVE_FLAG_PAGE) ≠ 0)
    (hblock : ram_block_from_stream { s with f := f1 } (word &&& NOT_TARGET_PAGE_MASK) =
      (block, s1))
    (hhost : host_from_ram_block_offset s1.ram_list block (word &&& TARGET_PAGE_MASK) = host)
    (hP : page_size_of s1.ram_list block = 2 ^ n) (hn : n < 64)
    (hunaligned : host % 2 ^ n ≠ 0)
    (hwrap : l.last_host + TARGET_PAGE_SIZE < 2 ^ 64)
    (hseq : host ≠ l.last_host + TARGET_PAGE_SIZE) :
    ram_load_postcopy_loop env (fuel + 1) s l = some (-EINVAL, s1) ∧
    s1.events = s.events ∧ s1.tmp_page = s.tmp_page := by
  have hk := ram_block_from_stream_keeps { s with f := f1 } (word &&& NOT_TARGET_PAGE_MASK)
  rw [hblock] at hk
  refine ⟨?_, hk.2.1, hk.2.2.1⟩
  rw [postcopy_loop_step env fuel s l hret heos]
  have hne : ¬ (host = 0) := by
    intro h0
    rw [h0] at hunaligned
    simp at hunaligned
  have hmod : (l.last_host + TARGET_PAGE_SIZE) % 2 ^ 64 = l.last_host + TARGET_PAGE_SIZE :=
    Nat.mod_eq_of_lt hwrap
  have hiter : ram_load_postcopy_iter env s l =
      (s1, { l with flags := word &&& NOT_TARGET_PAGE_MASK, place_needed := false,
                    matches_target_page_size := (2 ^ n == TARGET_PAGE_SIZE), ret := -EINVAL }) := by
    have hcond : (host % 2 ^ n != 0 && host != l.last_host + TARGET_PAGE_SIZE) = true := by
      simp [hunaligned, hseq]
    unfold ram_load_postcopy_iter
    simp only [hword, qemu_file_get_error, hfile, ne_eq, not_true_eq_false, if_false, hdata,
      not_false_eq_true, decide_True, if_true, hblock, hhost, hP, and_host_page_mask _ n hn,
      Bool.true_and, beq_iff_eq, hne, hunaligned, hmod, hcond]
  rw [hiter]
  have hex : (-EINVAL : Int) ≠ 0 := by decide
  exact postcopy_loop_exit env fuel _ _ (Or.inl hex)

/-- Witness of C9 on scenario S5: after offset 0 of a 16384-byte host page, the frame
at offset 8192 (host address 0x12000) is refused. -/
theorem postcopy_non_sequential_witness :
    ram_load_postcopy_loop postcopy_load_env 1 s5_skip_state s5_skip_locals =
      some (-EINVAL, { s5_skip_state with f := { buf := [0] ++ be64_bytes 16, last_error := 0 } }) ∧
    ({ s5_skip_state with f := { buf := [0] ++ be64_bytes 16, last_error := 0 } } : LoadState).events =
      s5_skip_state.events ∧
    ({ s5_skip_state with f := { buf := [0] ++ be64_bytes 16, last_error := 0 } } : LoadState).tmp_page =
      s5_skip_state.tmp_page :=
  postcopy_non_sequential postcopy_load_env 0 s5_skip_state s5_skip_locals (8192 + 34)
    { buf := [0] ++ be64_bytes 16, last_error := 0 } (some 0)
    { s5_skip_state with f := { buf := [0] ++ be64_bytes 16, last_error := 0 } } 0x12000 14
    rfl (by decide) rfl rfl (by decide)
    (by
      have h : (8192 + 34) &&& NOT_TARGET_PAGE_MASK &&& RAM_SAVE_FLAG_CONTINUE ≠ 0 := by decide
      exact ram_block_from_stream_continue _ _ 0 h rfl)
    rfl rfl (by decide) (by decide) (by decide) (by decide)

/-! ## C12: migration_bitmap_clear_dirty -/

theorem dec64_eq (x : Nat) : dec64 x = (x + 2 ^ 64 - 1) % 2 ^ 64 := by
  have hP : (2 : Nat) ^ 64 = 18446744073709551616 := by norm_num
  unfold dec64
  rw [hP]
  split_ifs with h <;> omega

theorem count_set_clear_bit (bm : Nat → Bool) (page n : Nat) :
    count_set (clear_bit page bm) n + (if page < n ∧ bm page = true then 1 else 0) =
      count_set bm n := by
  induction n with
  | zero => simp [count_set]
  | succ n ih =>
    simp only [count_set]
    by_cases hp : page = n
    · subst hp
      have h0 : count_set (clear_bit page bm) page = count_set bm page := by
        have := ih
        simpa using this
      simp [clear_bit, h0]
    · have hc : clear_bit page bm n = bm n := by
        simp [clear_bit, Ne.symm hp]
      rw [hc]
      by_cases hlt : page < n
      · have : page < n + 1 := by omega
        simp only [hlt, this, true_and] at ih ⊢
        omega
      · have : ¬ page < n + 1 := by omega
        simp only [hlt, this, false_and, if_false] at ih ⊢
        omega

theorem ramblock_of_some (l : List RAMBlock) (i : Nat) (b : RAMBlock) (h : l[i]? = some b) :
    ramblock l i = b := by
  simp [ramblock, h]

theorem ramblock_set_self (l : List RAMBlock) (i : Nat) (b b2 : RAMBlock) (h : l[i]? = some b) :
    ramblock (l.set i b2) i = b2 := by
  have hlt : i < l.length := by
    rcases Nat.lt_or_ge i l.length with h1 | h1
    · exact h1
    · rw [List.getElem?_eq_none h1] at h; cases h
  simp [ramblock, List.getElem?_set, hlt]

/-- C12: `migration_bitmap_clear_dirty` returns the page's dirty bit, leaves it clear and
every other bit of every block as it was, and takes one off `migration_dirty_pages`
(in 64 bits) exactly when it returns true; so, unless the counter is 0 while the bit is
set, the counter minus the number of set bits among the first `n > page` bits is
unchanged. -/
theorem migration_bitmap_clear_dirty_spec (s : SaveState) (rb page n : Nat) (b : RAMBlock)
    (hb : s.ram_list[rb]? = some b) (hpage : page < n) :
    (migration_bitmap_clear_dirty s rb page).2 = b.bmap page ∧
    (ramblock (migration_bitmap_clear_dirty s rb page).1.ram_list rb).bmap page = false ∧
    (∀ i, i ≠ page →
      (ramblock (migration_bitmap_clear_dirty s rb page).1.ram_list rb).bmap i = b.bmap i) ∧
    (∀ j, j ≠ rb → (migration_bitmap_clear_dirty s rb page).1.ram_list[j]? = s.ram_list[j]?) ∧
    (migration_bitmap_clear_dirty s rb page).1.rs.migration_dirty_pages =
      (if (migration_bitmap_clear_dirty s rb page).2 then
        (s.rs.migration_dirty_pages + 2 ^ 64 - 1) % 2 ^ 64
       else s.rs.migration_dirty_pages) ∧
    ((b.bmap page = true → 0 < s.rs.migration_dirty_pages) →
      s.rs.migration_dirty_pages < 2 ^ 64 →
      ((migration_bitmap_clear_dirty s rb page).1.rs.migration_dirty_pages : Int) -
          count_set (ramblock (migration_bitmap_clear_dirty s rb page).1.ram_list rb).bmap n =
        (s.rs.migration_dirty_pages : Int) - count_set b.bmap n) := by
  have hrb : ramblock s.ram_list rb = b := ramblock_of_some _ _ _ hb
  by_cases hbit : b.bmap page = true
  · have hr : migration_bitmap_clear_dirty s rb page =
        ({ s with
          ram_list := s.ram_list.set rb { b with bmap := clear_bit page b.bmap },
          rs := { s.rs with
            migration_dirty_pages := dec64 s.rs.migration_dirty_pages } },
         true) := by
      simp [migration_bitmap_clear_dirty, hrb, hbit]
    rw [hr]
    simp only [dec64_eq]
    simp only [ramblock_set_self _ _ _ _ hb]
    refine ⟨hbit.symm, by simp [clear_bit], ?_, ?_, by simp, ?_⟩
    · intro i hi
      simp [clear_bit, hi]
    · intro j hj
      simp [List.getElem?_set, Ne.symm hj]
    · intro h0 hlt
      have hpos := h0 hbit
      have hc := count_set_clear_bit b.bmap page n
      simp only [hpage, hbit, and_self, if_true] at hc
      have hm : (s.rs.migration_dirty_pages + 2 ^ 64 - 1) % 2 ^ 64 =
          s.rs.migration_dirty_pages - 1 := by
        have : s.rs.migration_dirty_pages + 2 ^ 64 - 1 =
            (s.rs.migration_dirty_pages - 1) + 2 ^ 64 := by omega
        rw [this, Nat.add_mod_right, Nat.mod_eq_of_lt (by omega)]
      simp only [hm]
      omega
  · have hbit2 : b.bmap page = false := by simpa using hbit
    have hr : migration_bitmap_clear_dirty s rb page = (s, false) := by
      simp [migration_bitmap_clear_dirty, hrb, hbit2]
    rw [hr]
    simp only [hrb]
    simp [hbit2]

/-- Witness of C12: clearing page 1 of "pc.ram" when both pages are dirty. -/
theorem migration_bitmap_clear_dirty_spec_witness :
    (migration_bitmap_clear_dirty dirty_state 0 1).2 = true ∧
    (ramblock (migration_bitmap_clear_dirty dirty_state 0 1).1.ram_list 0).bmap 1 = false ∧
    ((migration_bitmap_clear_dirty dirty_state 0 1).1.rs.migration_dirty_pages : Int) -
        count_set (ramblock (migration_bitmap_clear_dirty dirty_state 0 1).1.ram_list 0).bmap 2 =
      (dirty_state.rs.migration_dirty_pages : Int) - count_set dirty_ram.bmap 2 :=
  have h := migration_bitmap_clear_dirty_spec dirty_state 0 1 2 dirty_ram rfl (by decide)
  ⟨h.1.trans rfl, h.2.1, h.2.2.2.2.2 (fun _ => by decide) (by decide)⟩

/-! ## C15, C16: migration_bitmap_find_dirty -/

theorem find_next_from_spec (p : Nat → Bool) (size : Nat) :
    ∀ (fuel i : Nat), size ≤ i + fuel →
      (size ≤ i → find_next_from p size fuel i = size) ∧
      (i ≤ size → i ≤ find_next_from p size fuel i ∧ find_next_from p size fuel i ≤ size ∧
        (∀ j, i ≤ j → j < find_next_from p size fuel i → p j = false) ∧
        (find_next_from p size fuel i < size → p (find_next_from p size fuel i) = true)) := by
  intro fuel
  induction fuel with
  | zero =>
    intro i h
    have hr : find_next_from p size 0 i = size := rfl
    rw [hr]
    exact ⟨fun _ => rfl, fun h2 => ⟨h2, le_refl _, fun j h1 h2 => by omega, fun h => by omega⟩⟩
  | succ fuel ih =>
    intro i h
    by_cases hge : i ≥ size
    · have hr : find_next_from p size (fuel + 1) i = size := by
        simp [find_next_from, hge]
      rw [hr]
      exact ⟨fun _ => rfl, fun h2 => ⟨h2, le_refl _, fun j h1 h2 => by omega, fun h => by omega⟩⟩
    · by_cases hp : p i = true
      · have hr : find_next_from p size (fuel + 1) i = i := by
          simp [find_next_from, hge, hp]
        rw [hr]
        exact ⟨fun h2 => by omega,
          fun h2 => ⟨le_refl _, h2, fun j h1 h2 => by omega, fun _ => hp⟩⟩
      · have hp2 : p i = false := by simpa using hp
        have hr : find_next_from p size (fuel + 1) i = find_next_from p size fuel (i + 1) := by
          simp [find_next_from, hge, hp2]
        rw [hr]
        obtain ⟨-, h3⟩ := ih (i + 1) (by omega)
        obtain ⟨h4, h5, h6, h7⟩ := h3 (by omega)
        refine ⟨fun h2 => by omega, fun h2 => ⟨by omega, h5, fun j h1 h2 => ?_, h7⟩⟩
        by_cases hj : j = i
        · subst hj; exact hp2
        · exact h6 j (by omega) h2

theorem find_next_bit_spec (bm : Nat → Bool) (size start : Nat) :
    (size ≤ start → find_next_bit bm size start = size) ∧
    (start ≤ size → start ≤ find_next_bit bm size start ∧ find_next_bit bm size start ≤ size ∧
      (∀ j, start ≤ j → j < find_next_bit bm size start → bm j = false) ∧
      (find_next_bit bm size start < size → bm (find_next_bit bm size start) = true)) :=
  find_next_from_spec bm size (size - start) start (by omega)

theorem shiftRight_page_bits (x : Nat) : x >>> TARGET_PAGE_BITS = x / TARGET_PAGE_SIZE := by
  simp [TARGET_PAGE_BITS, TARGET_PAGE_SIZE, Nat.shiftRight_eq_div_pow]

/-- C16: outside the bulk stage `migration_bitmap_find_dirty` returns, for a migratable
region, the least page index from `start` on, below the page count, whose dirty bit is
set, and the page count `used_length / TARGET_PAGE_SIZE` when there is none; for a
region that is not migratable it returns the page count. -/
theorem migration_bitmap_find_dirty_spec (s : SaveState) (rb start : Nat) (b : RAMBlock)
    (hb : s.ram_list[rb]? = some b) (hbulk : s.rs.ram_bulk_stage = false) :
    (b.migratable = false →
      migration_bitmap_find_dirty s rb start = b.used_length / TARGET_PAGE_SIZE) ∧
    (b.migratable = true →
      (∀ i, start ≤ i → i < b.used_length / TARGET_PAGE_SIZE → b.bmap i = true →
        (∀ j, start ≤ j → j < i → b.bmap j = false) →
        migration_bitmap_find_dirty s rb start = i) ∧
      ((∀ i, start ≤ i → i < b.used_length / TARGET_PAGE_SIZE → b.bmap i = false) →
        migration_bitmap_find_dirty s rb start = b.used_length / TARGET_PAGE_SIZE)) := by
  have hrb : ramblock s.ram_list rb = b := ramblock_of_some _ _ _ hb
  constructor
  · intro hm
    simp [migration_bitmap_find_dirty, hrb, hm, shiftRight_page_bits]
  · intro hm
    have hr : migration_bitmap_find_dirty s rb start =
        find_next_bit b.bmap (b.used_length / TARGET_PAGE_SIZE) start := by
      simp [migration_bitmap_find_dirty, hrb, hm, hbulk, shiftRight_page_bits]
    rw [hr]
    obtain ⟨h1, h2⟩ := find_next_bit_spec b.bmap (b.used_length / TARGET_PAGE_SIZE) start
    constructor
    · intro i hi1 hi2 hi3 hi4
      obtain ⟨h3, h4, h5, h6⟩ := h2 (by omega)
      rcases Nat.lt_trichotomy (find_next_bit b.bmap (b.used_length / TARGET_PAGE_SIZE) start) i
        with hlt | heq | hgt
      · have := h6 (by omega)
        have := hi4 _ h3 hlt
        simp_all
      · exact heq
      · have := h5 i hi1 hgt
        simp_all
    · intro hnone
      rcases Nat.lt_or_ge (b.used_length / TARGET_PAGE_SIZE) start with hlt | hge
      · exact h1 (by omega)
      · obtain ⟨h3, h4, h5, h6⟩ := h2 hge
        rcases Nat.lt_or_ge (find_next_bit b.bmap (b.used_length / TARGET_PAGE_SIZE) start)
          (b.used_length / TARGET_PAGE_SIZE) with hlt | hge2
        · have := h6 hlt
          have := hnone _ h3 hlt
          simp_all
        · omega

/-- Witness of C16: with both pages of "pc.ram" dirty the search from page 1 finds
page 1. -/
theorem migration_bitmap_find_dirty_spec_witness :
    migration_bitmap_find_dirty dirty_state 0 1 = 1 :=
  (migration_bitmap_find_dirty_spec dirty_state 0 1 dirty_ram rfl rfl).2 rfl |>.1 1
    (by decide) (by decide) rfl (fun j h1 h2 => by omega)

/-- C15, as stated, fails: in the bulk stage a search from page 0 consults the dirty
bitmap; with no dirty bit in the two pages of "pc.ram" it returns 2 and not 1. -/
theorem bulk_find_dirty_counterexample :
    bulk_clean_state.rs.ram_bulk_stage = true ∧ (ramblock bulk_clean_state.ram_list 0).migratable = true ∧
    migration_bitmap_find_dirty bulk_clean_state 0 0 ≠ 0 + 1 := by
  decide

/-- C15, amended: in the bulk stage, for every migratable region, a search from a start
index above 0 (whose successor is a 64-bit value) returns `start + 1` whatever the dirty
bitmap holds; a search from start index 0 searches the dirty bitmap, and returns what it
returns outside the bulk stage. -/
theorem bulk_find_dirty (s : SaveState) (rb start : Nat) (b : RAMBlock)
    (hb : s.ram_list[rb]? = some b) (hm : b.migratable = true)
    (hbulk : s.rs.ram_bulk_stage = true) (h64 : start + 1 < 2 ^ 64)
    (bm : Nat → Bool) :
    (0 < start →
      migration_bitmap_find_dirty s rb start = start + 1 ∧
      migration_bitmap_find_dirty { s with ram_list := s.ram_list.set rb { b with bmap := bm } }
        rb start = start + 1) ∧
    (start = 0 →
      migration_bitmap_find_dirty s rb start =
        find_next_bit b.bmap (b.used_length >>> TARGET_PAGE_BITS) 0 ∧
      migration_bitmap_find_dirty s rb start =
        migration_bitmap_find_dirty { s with rs := { s.rs with ram_bulk_stage := false } }
          rb start) := by
  have hrb : ramblock s.ram_list rb = b := ramblock_of_some _ _ _ hb
  have hrb2 : ramblock (s.ram_list.set rb { b with bmap := bm }) rb = { b with bmap := bm } :=
    ramblock_set_self _ _ _ _ hb
  have h64b : start + 1 < 18446744073709551616 := by
    have : (2 : Nat) ^ 64 = 18446744073709551616 := by norm_num
    omega
  refine ⟨fun hstart => ⟨?_, ?_⟩, fun h0 => ?_⟩
  · simp [migration_bitmap_find_dirty, hrb, hm, hbulk, hstart, h64b]
  · simp only [migration_bitmap_find_dirty]
    rw [hrb2]
    simp [hm, hbulk, hstart, h64b]
  · subst h0
    simp [migration_bitmap_find_dirty, hrb, hm, hbulk]

/-- Witness of the amended C15: in the bulk stage the search from page 1 of "pc.ram"
returns 2, and the search from page 0 is the search of the bitmap. -/
theorem bulk_find_dirty_witness :
    migration_bitmap_find_dirty bulk_clean_state 0 1 = 1 + 1 ∧
    migration_bitmap_find_dirty bulk_clean_state 0 0 =
      find_next_bit pc_ram.bmap (pc_ram.used_length >>> TARGET_PAGE_BITS) 0 :=
  ⟨((bulk_find_dirty bulk_clean_state 0 1 pc_ram rfl rfl rfl (by decide)
      (fun _ => true)).1 (by decide)).1,
   ((bulk_find_dirty bulk_clean_state 0 0 pc_ram rfl rfl rfl (by decide)
      (fun _ => true)).2 rfl).1⟩

/-! ## C19: unqueue_page -/

theorem unqueue_page_long (s : SaveState) (o : Nat) (e : RAMSrcPageRequest)
    (rest : List RAMSrcPageRequest) (hq : s.rs.src_page_requests = e :: rest)
    (hlen : e.len > TARGET_PAGE_SIZE) :
    unqueue_page s o = (some e.rb, e.offset,
      { s with rs := { s.rs with src_page_requests :=
          { e with len := e.len - TARGET_PAGE_SIZE,
                   offset := (e.offset + TARGET_PAGE_SIZE) % 2 ^ 64 } :: rest } }) := by
  simp [unqueue_page, hq, hlen]

theorem unqueue_page_last (s : SaveState) (o : Nat) (e : RAMSrcPageRequest)
    (rest : List RAMSrcPageRequest) (hq : s.rs.src_page_requests = e :: rest)
    (hlen : ¬ e.len > TARGET_PAGE_SIZE) :
    unqueue_page s o = (some e.rb, e.offset,
      { s with rs := { s.rs with src_page_requests := rest },
               save_events := s.save_events ++
                 [SaveEvent.unref e.rb, SaveEvent.consume_urgent] }) := by
  simp [unqueue_page, hq, hlen]

theorem unqueue_pages_entry (rb : Nat) (rest : List RAMSrcPageRequest) :
    ∀ (j m off : Nat) (s : SaveState),
      s.rs.src_page_requests = { rb := rb, offset := off, len := m * TARGET_PAGE_SIZE } :: rest →
      j ≤ m → 1 ≤ m → off + m * TARGET_PAGE_SIZE ≤ 2 ^ 64 →
      (unqueue_pages j s).1 =
        (List.range j).map (fun i => (some rb, off + i * TARGET_PAGE_SIZE)) ∧
      (unqueue_pages j s).2.rs.src_page_requests =
        (if j = m then rest
         else { rb := rb, offset := off + j * TARGET_PAGE_SIZE,
                len := (m - j) * TARGET_PAGE_SIZE } :: rest) := by
  have hT : TARGET_PAGE_SIZE = 4096 := rfl
  have hP : (2 : Nat) ^ 64 = 18446744073709551616 := by norm_num
  intro j
  induction j with
  | zero =>
    intro m off s hq hj hm h64
    have : ¬ 0 = m := by omega
    simp [unqueue_pages, hq, this]
  | succ j ih =>
    intro m off s hq hj hm h64
    simp only [unqueue_pages]
    by_cases hlen : m * TARGET_PAGE_SIZE > TARGET_PAGE_SIZE
    · have hm2 : 2 ≤ m := by
        rw [hT] at hlen
        omega
      have hr := unqueue_page_long s 0 _ rest hq hlen
      have hoff : (off + TARGET_PAGE_SIZE) % 2 ^ 64 = off + TARGET_PAGE_SIZE := by
        apply Nat.mod_eq_of_lt
        rw [hT, hP] at h64
        rw [hT, hP]
        omega
      have hl : m * TARGET_PAGE_SIZE - TARGET_PAGE_SIZE = (m - 1) * TARGET_PAGE_SIZE := by
        rw [hT]
        omega
      simp only [hoff, hl] at hr
      rw [hr]
      obtain ⟨h1, h2⟩ := ih (m - 1) (off + TARGET_PAGE_SIZE)
        { s with rs := { s.rs with src_page_requests :=
            { rb := rb, offset := off + TARGET_PAGE_SIZE,
              len := (m - 1) * TARGET_PAGE_SIZE } :: rest } } rfl (by omega) (by omega)
        (by rw [hT, hP] at h64; rw [hT, hP]; omega)
      constructor
      · show (some rb, off) :: _ = _
        rw [h1, List.range_succ_eq_map, List.map_cons, List.map_map, Nat.zero_mul, Nat.add_zero,
          List.cons.injEq]
        refine ⟨rfl, ?_⟩
        apply List.map_congr_left
        intro i _
        have e1 : off + TARGET_PAGE_SIZE + i * TARGET_PAGE_SIZE =
            off + (i + 1) * TARGET_PAGE_SIZE := by
          rw [hT]; omega
        simp only [Function.comp, Nat.succ_eq_add_one, e1]
      · show (unqueue_pages j _).2.rs.src_page_requests = _
        rw [h2]
        have e1 : off + TARGET_PAGE_SIZE + j * TARGET_PAGE_SIZE =
            off + (j + 1) * TARGET_PAGE_SIZE := by
          rw [hT]; omega
        have e2 : m - 1 - j = m - (j + 1) := by omega
        by_cases hjm : j = m - 1
        · have : j + 1 = m := by omega
          rw [if_pos hjm, if_pos this]
        · have : ¬ j + 1 = m := by omega
          rw [if_neg hjm, if_neg this, e1, e2]
    · have hm1 : m = 1 := by
        rw [hT] at hlen
        omega
      subst hm1
      have hj0 : j = 0 := by omega
      subst hj0
      have hr := unqueue_page_last s 0 _ rest hq hlen
      rw [hr]
      simp [unqueue_pages, List.range_succ_eq_map]

/-- C19: on an empty queue `unqueue_page` returns NULL and changes nothing; on a queue
with head entry `e` it returns the entry's region and offset, and the head stays with
its offset increased and its length decreased by TARGET_PAGE_SIZE when its length is
more than TARGET_PAGE_SIZE and is removed otherwise, the entries behind it staying as
they are; so an entry of length `k * TARGET_PAGE_SIZE` is yielded as the `k` offsets
`offset + i * TARGET_PAGE_SIZE` in order, the entries behind it being untouched until
the `k`-th call has removed it. -/
theorem unqueue_page_spec (s : SaveState) (o : Nat) :
    (s.rs.src_page_requests = [] → unqueue_page s o = (none, o, s)) ∧
    (∀ (e : RAMSrcPageRequest) (rest : List RAMSrcPageRequest),
      s.rs.src_page_requests = e :: rest → e.offset + TARGET_PAGE_SIZE < 2 ^ 64 →
      (unqueue_page s o).1 = some e.rb ∧ (unqueue_page s o).2.1 = e.offset ∧
      (unqueue_page s o).2.2.rs.src_page_requests =
        (if e.len > TARGET_PAGE_SIZE then
          { e with offset := e.offset + TARGET_PAGE_SIZE,
                   len := e.len - TARGET_PAGE_SIZE } :: rest
         else rest) ∧
      (unqueue_page s o).2.2.ram_list = s.ram_list) ∧
    (∀ (e : RAMSrcPageRequest) (rest : List RAMSrcPageRequest) (k : Nat),
      s.rs.src_page_requests = e :: rest → 1 ≤ k → e.len = k * TARGET_PAGE_SIZE →
      e.offset + k * TARGET_PAGE_SIZE ≤ 2 ^ 64 →
      (unqueue_pages k s).1 =
        (List.range k).map (fun i => (some e.rb, e.offset + i * TARGET_PAGE_SIZE)) ∧
      (unqueue_pages k s).2.rs.src_page_requests = rest ∧
      ∀ j, j < k → (unqueue_pages j s).2.rs.src_page_requests =
        { e with offset := e.offset + j * TARGET_PAGE_SIZE,
                 len := (k - j) * TARGET_PAGE_SIZE } :: rest) := by
  refine ⟨?_, ?_, ?_⟩
  · intro hq
    simp [unqueue_page, hq]
  · intro e rest hq h64
    by_cases hlen : e.len > TARGET_PAGE_SIZE
    · rw [unqueue_page_long s o e rest hq hlen]
      have h64b : e.offset + TARGET_PAGE_SIZE < 18446744073709551616 := by
        have hP : (2 : Nat) ^ 64 = 18446744073709551616 := by norm_num
        omega
      simp [hlen, h64b]
    · rw [unqueue_page_last s o e rest hq hlen]
      simp [hlen]
  · intro e rest k hq hk hlen h64
    have hq2 : s.rs.src_page_requests =
        { rb := e.rb, offset := e.offset, len := k * TARGET_PAGE_SIZE } :: rest := by
      rw [hq, ← hlen]
    refine ⟨?_, ?_, ?_⟩
    · exact (unqueue_pages_entry e.rb rest k k e.offset s hq2 (le_refl _) hk h64).1
    · have := (unqueue_pages_entry e.rb rest k k e.offset s hq2 (le_refl _) hk h64).2
      simpa using this
    · intro j hj
      have := (unqueue_pages_entry e.rb rest j k e.offset s hq2 (by omega) hk h64).2
      have hne : ¬ j = k := by omega
      simpa [hne] using this

/-- Witness of C19: the request of scenario S6 is yielded as the offsets 0x4000 and
0x5000, and the queue is then empty. -/
theorem unqueue_page_spec_witness :
    (unqueue_pages 2 s6_state).1 = [(some 1, 0x4000), (some 1, 0x5000)] ∧
    (unqueue_pages 2 s6_state).2.rs.src_page_requests = [] :=
  have h := (unqueue_page_spec s6_state 0).2.2 { rb := 1, offset := 0x4000, len := 0x2000 } [] 2
    rfl (by decide) (by decide) (by norm_num [TARGET_PAGE_SIZE])
  ⟨h.1.trans (by decide), h.2.1⟩

/-! ## C18: ram_xbzrle_save_queue_pages -/

theorem ram_xbzrle_save_queue_pages_resolved (s : SaveState) (rbname : Option (List Nat))
    (start len b : Nat)
    (hres : match rbname with
      | none => s.rs.last_req_rb = some b
      | some name => qemu_ram_block_by_name s.ram_list name = some b) :
    ram_xbzrle_save_queue_pages s rbname start len =
      if (start + len) % 2 ^ 64 > (ramblock s.ram_list b).used_length then
        ({ s with
            ram_counters := { s.ram_counters with
              postcopy_requests := s.ram_counters.postcopy_requests + 1 },
            rs := { s.rs with last_req_rb := some b } }, -1)
      else
        ({ s with
            ram_counters := { s.ram_counters with
              postcopy_requests := s.ram_counters.postcopy_requests + 1 },
            rs := { s.rs with
              last_req_rb := some b,
              src_page_requests :=
                (s.rs.src_page_requests ++ [{ rb := b, offset := start, len := len }]) },
            save_events := s.save_events ++ [SaveEvent.ref b, SaveEvent.make_urgent] }, 0) := by
  cases rbname with
  | none =>
    simp only at hres
    simp only [ram_xbzrle_save_queue_pages, hres]
    split <;> simp [← hres]
  | some name =>
    simp only at hres
    simp only [ram_xbzrle_save_queue_pages, hres]

/-- C18 at the failing input: for "pc.ram" with used_length 8192, the request
start = 2^64 - 4096, len = 8192, whose sum 2^64 + 4096 exceeds the used length, is
accepted: the 64-bit sum is 4096, the call returns 0 and appends the entry. -/
theorem ram_xbzrle_save_queue_pages_overrun :
    (2 ^ 64 - 4096) + 8192 > pc_ram.used_length ∧
    (ram_xbzrle_save_queue_pages (initial_save_state [pc_ram] (fun _ => 0)) (some pc_ram_id)
      (2 ^ 64 - 4096) 8192).2 = 0 ∧
    (ram_xbzrle_save_queue_pages (initial_save_state [pc_ram] (fun _ => 0)) (some pc_ram_id)
      (2 ^ 64 - 4096) 8192).1.rs.src_page_requests =
        [{ rb := 0, offset := 2 ^ 64 - 4096, len := 8192 }] := by
  have h := ram_xbzrle_save_queue_pages_resolved (initial_save_state [pc_ram] (fun _ => 0))
    (some pc_ram_id) (2 ^ 64 - 4096) 8192 0 (by decide)
  have hc : ¬ ((2 ^ 64 - 4096) + 8192) % 2 ^ 64 >
      (ramblock (initial_save_state [pc_ram] (fun _ => 0)).ram_list 0).used_length := by
    decide
  rw [if_neg hc] at h
  rw [h]
  exact ⟨by decide, rfl, rfl⟩

/-! ## C20: the success path of save_xbzrle_page -/

theorem be_value_be16_bytes (v : Nat) (h : v < 2 ^ 16) : be_value (be16_bytes v) = v := by
  simp only [be_value, be16_bytes, List.foldl]
  omega

theorem get_cached_data_write (c : PageCache) (addr epoch : Nat) (data : List Nat)
    (h : cache_is_cached c addr epoch = true) :
    get_cached_data (cache_write_data c addr data) addr = data ∧
    cache_is_cached (cache_write_data c addr data) addr epoch = true := by
  unfold cache_is_cached at h
  cases hc : c.entries addr with
  | none => simp [hc] at h
  | some e =>
    simp only [hc] at h
    simp [get_cached_data, cache_is_cached, cache_write_data, hc, h]

theorem save_xbzrle_page_hit (env : SaveEnv) (s : SaveState) (current_data : List Nat)
    (current_addr block offset : Nat) (last_stage : Bool) (n : Nat) (enc : List Nat)
    (hhit : cache_is_cached s.xbzrle_cache current_addr s.ram_counters.dirty_sync_count = true)
    (henc : env.xbzrle_encode_buffer (get_cached_data s.xbzrle_cache current_addr) current_data =
      ((n : Int), enc))
    (hn : 0 < n) :
    save_xbzrle_page env s current_data current_addr block offset last_stage =
      ({ s with
          xbzrle_cache :=
            (if last_stage then s.xbzrle_cache
             else cache_write_data s.xbzrle_cache current_addr current_data),
          rs := { (save_page_header s.ram_list s.rs s.rs.f block
                    (offset ||| RAM_SAVE_FLAG_XBZRLE)).1 with
            f := { buf := (save_page_header s.ram_list s.rs s.rs.f block
                      (offset ||| RAM_SAVE_FLAG_XBZRLE)).2.1.buf ++
                    ([ENCODING_FLAG_XBZRLE] ++ be16_bytes n ++ enc.take n),
                   last_error := (save_page_header s.ram_list s.rs s.rs.f block
                      (offset ||| RAM_SAVE_FLAG_XBZRLE)).2.1.last_error } },
          xbzrle_counters := { s.xbzrle_counters with
            pages := s.xbzrle_counters.pages + 1,
            bytes := s.xbzrle_counters.bytes +
              ((save_page_header s.ram_list s.rs s.rs.f block
                (offset ||| RAM_SAVE_FLAG_XBZRLE)).2.2 + n + 1 + 2) },
          ram_counters := { s.ram_counters with
            transferred := s.ram_counters.transferred +
              ((save_page_header s.ram_list s.rs s.rs.f block
                (offset ||| RAM_SAVE_FLAG_XBZRLE)).2.2 + n + 1 + 2) } }, 1, current_data) := by
  have hn0 : (n : Int) ≠ 0 := by omega
  have hn1 : (n : Int) ≠ -1 := by omega
  cases last_stage <;>
    simp [save_xbzrle_page, hhit, henc, hn0, hn1, qemu_put_byte, qemu_put_be16, qemu_put_buffer,
      ENCODING_FLAG_XBZRLE, List.append_assoc]

theorem s3_pages_differ : s3_prev ≠ s3_current := by
  intro h
  have h0 : s3_prev[100]? = some 0 := by
    unfold s3_prev
    rw [List.getElem?_replicate]
    simp
  have h1 : s3_current[100]? = some 1 := by
    unfold s3_current
    rw [List.getElem?_append_left (by simp), List.getElem?_append_right (by simp)]
    simp
  rw [h, h1] at h0
  cases h0

theorem s3_encoded :
    delta_env.xbzrle_encode_buffer (get_cached_data s3_state.xbzrle_cache 0) s3_current =
      (((6 : Nat) : Int), [100, 4, 1, 2, 3, 4]) := by
  have h : get_cached_data s3_state.xbzrle_cache 0 = s3_prev := rfl
  rw [h]
  simp [delta_env, s3_pages_differ]

/-- C20, as stated, fails: in the last stage the success path of `save_xbzrle_page`
returns 1 but leaves the cache snapshot as it was, so the snapshot at the address
still is the old page and not the current page data. -/
theorem save_xbzrle_page_last_stage_counterexample :
    cache_is_cached s3_state.xbzrle_cache 0 s3_state.ram_counters.dirty_sync_count = true ∧
    (save_xbzrle_page delta_env s3_state s3_current 0 0 0 true).2.1 = 1 ∧
    get_cached_data (save_xbzrle_page delta_env s3_state s3_current 0 0 0 true).1.xbzrle_cache 0 ≠
      s3_current := by
  rw [save_xbzrle_page_hit delta_env s3_state s3_current 0 0 0 true 6 [100, 4, 1, 2, 3, 4]
    rfl s3_encoded (by decide)]
  refine ⟨rfl, rfl, ?_⟩
  have h : get_cached_data s3_state.xbzrle_cache 0 = s3_prev := rfl
  simp only [if_true]
  rw [h]
  exact s3_pages_differ

/-- C20, amended: when the page address is a cache hit and the encoder returns `n > 0`
(at most the size of its output buffer, and a 16-bit value), `save_xbzrle_page` writes
the page header with the XBZRLE flag, the tag byte 0x01, `n` as two big-endian bytes
and the first `n` encoded bytes; returns 1; adds 1 to xbzrle pages and header size
+ n + 3 to xbzrle bytes and to transferred; leaves cache_miss and overflow unchanged;
and the cache snapshot at the address afterwards is the current page data unless this
is the last stage, when the cache is left unchanged. -/
theorem save_xbzrle_page_success (env : SaveEnv) (s : SaveState) (current_data : List Nat)
    (current_addr block offset : Nat) (last_stage : Bool) (n : Nat) (enc : List Nat)
    (hhit : cache_is_cached s.xbzrle_cache current_addr s.ram_counters.dirty_sync_count = true)
    (henc : env.xbzrle_encode_buffer (get_cached_data s.xbzrle_cache current_addr) current_data =
      ((n : Int), enc))
    (hn : 0 < n) (hlen : n ≤ enc.length) (h16 : n < 2 ^ 16) :
    (save_xbzrle_page env s current_data current_addr block offset last_stage).2.1 = 1 ∧
    (save_xbzrle_page env s current_data current_addr block offset last_stage).1.rs.f.buf =
      (save_page_header s.ram_list s.rs s.rs.f block (offset ||| RAM_SAVE_FLAG_XBZRLE)).2.1.buf ++
        ([0x01] ++ be16_bytes n ++ enc.take n) ∧
    be_value (be16_bytes n) = n ∧ (enc.take n).length = n ∧
    (save_xbzrle_page env s current_data current_addr block offset last_stage).1.xbzrle_counters.pages
      = s.xbzrle_counters.pages + 1 ∧
    (save_xbzrle_page env s current_data current_addr block offset last_stage).1.xbzrle_counters.bytes
      = s.xbzrle_counters.bytes +
        ((save_page_header s.ram_list s.rs s.rs.f block (offset ||| RAM_SAVE_FLAG_XBZRLE)).2.2
          + n + 3) ∧
    (save_xbzrle_page env s current_data current_addr block offset last_stage).1.ram_counters.transferred
      = s.ram_counters.transferred +
        ((save_page_header s.ram_list s.rs s.rs.f block (offset ||| RAM_SAVE_FLAG_XBZRLE)).2.2
          + n + 3) ∧
    (save_xbzrle_page env s current_data current_addr block offset
      last_stage).1.xbzrle_counters.cache_miss = s.xbzrle_counters.cache_miss ∧
    (save_xbzrle_page env s current_data current_addr block offset
      last_stage).1.xbzrle_counters.overflow = s.xbzrle_counters.overflow ∧
    (last_stage = false →
      get_cached_data (save_xbzrle_page env s current_data current_addr block offset
        last_stage).1.xbzrle_cache current_addr = current_data) ∧
    (last_stage = true →
      (save_xbzrle_page env s current_data current_addr block offset
        last_stage).1.xbzrle_cache = s.xbzrle_cache) := by
  rw [save_xbzrle_page_hit env s current_data current_addr block offset last_stage n enc
    hhit henc hn]
  refine ⟨rfl, rfl, be_value_be16_bytes n h16, ?_, rfl, ?_, ?_, rfl, rfl, ?_, ?_⟩
  · simp [hlen]
  · simp only [Nat.add_assoc]
  · simp only [Nat.add_assoc]
  · intro hl
    simp only [hl]
    exact (get_cached_data_write _ _ _ _ hhit).1
  · intro hl
    simp only [hl, if_true]

/-- Witness of the amended C20: scenario S3 outside the last stage. -/
theorem save_xbzrle_page_success_witness :
    (save_xbzrle_page delta_env s3_state s3_current 0 0 0 false).2.1 = 1 ∧
    (save_xbzrle_page delta_env s3_state s3_current 0 0 0 false).1.xbzrle_counters.pages = 1 ∧
    (save_xbzrle_page delta_env s3_state s3_current 0 0 0 false).1.xbzrle_counters.cache_miss
      = 0 ∧
    get_cached_data (save_xbzrle_page delta_env s3_state s3_current 0 0 0 false).1.xbzrle_cache 0
      = s3_current :=
  have h := save_xbzrle_page_success delta_env s3_state s3_current 0 0 0 false 6
    [100, 4, 1, 2, 3, 4] rfl s3_encoded (by decide) (by decide) (by decide)
  ⟨h.1, h.2.2.2.2.1, h.2.2.2.2.2.2.2.1, h.2.2.2.2.2.2.2.2.2.1 rfl⟩

/-! ## C11: the dirty-page count -/

theorem count_set_or_new (old new : Nat → Bool) (h : ∀ i, old i = true → new i = true) (n : Nat) :
    count_set new n = count_set old n + count_set (fun i => new i && !old i) n := by
  induction n with
  | zero => rfl
  | succ n ih =>
    simp only [count_set, ih]
    have h1 := h n
    by_cases ho : old n = true
    · have hn := h1 ho
      simp only [ho, hn, Bool.not_true, Bool.and_false, if_true]
      simp
      omega
    · have ho2 : old n = false := by simpa using ho
      by_cases hn : new n = true
      · simp only [ho2, hn, Bool.not_false, Bool.and_true, if_true]
        simp
        omega
      · have hn2 : new n = false := by simpa using hn
        simp [ho2, hn2]

theorem count_set_lt (n m : Nat) (h : n ≤ m) : count_set (fun i => decide (i < m)) n = n := by
  induction n with
  | zero => rfl
  | succ n ih =>
    have : n < m := by omega
    simp [count_set, ih (by omega), this]

theorem dirty_count_set (l : List RAMBlock) (i : Nat) (b b2 : RAMBlock) (h : l[i]? = some b) :
    dirty_count (l.set i b2) + block_dirty_count b = dirty_count l + block_dirty_count b2 := by
  induction l generalizing i with
  | nil => simp at h
  | cons x rest ih =>
    cases i with
    | zero =>
      simp only [List.getElem?_cons_zero, Option.some.injEq] at h
      subst h
      simp only [List.set_cons_zero, dirty_count]
      omega
    | succ i =>
      simp only [List.getElem?_cons_succ] at h
      simp only [List.set_cons_succ, dirty_count]
      have := ih i h
      omega

theorem migration_bitmap_sync_range_dirty (env : SaveEnv) (hsync : sync_counts_new_bits env)
    (s : SaveState) (i : Nat) (b : RAMBlock) (hb : s.ram_list[i]? = some b)
    (hm : b.migratable = true)
    (hinv : dirty_count s.ram_list = s.rs.migration_dirty_pages) :
    dirty_count (migration_bitmap_sync_range env s i 0 b.used_length).ram_list =
      (migration_bitmap_sync_range env s i 0 b.used_length).rs.migration_dirty_pages := by
  obtain ⟨h1, h2⟩ := hsync b b.used_length
  have h3 := count_set_or_new b.bmap
    (env.cpu_physical_memory_sync_dirty_bitmap b 0 b.used_length).bmap h1
    (b.used_length >>> TARGET_PAGE_BITS)
  have h4 := dirty_count_set s.ram_list i b
    { b with bmap := (env.cpu_physical_memory_sync_dirty_bitmap b 0 b.used_length).bmap } hb
  have e1 : block_dirty_count b = count_set b.bmap (b.used_length >>> TARGET_PAGE_BITS) := by
    simp [block_dirty_count, hm]
  have e2 : block_dirty_count
      { b with bmap := (env.cpu_physical_memory_sync_dirty_bitmap b 0 b.used_length).bmap } =
      count_set (env.cpu_physical_memory_sync_dirty_bitmap b 0 b.used_length).bmap
        (b.used_length >>> TARGET_PAGE_BITS) := by
    simp [block_dirty_count, hm]
  rw [e1, e2] at h4
  simp only [migration_bitmap_sync_range, hb]
  rw [h2]
  omega

theorem sync_fold_dirty (env : SaveEnv) (hsync : sync_counts_new_bits env) (l : List Nat) :
    ∀ s : SaveState, dirty_count s.ram_list = s.rs.migration_dirty_pages →
    dirty_count (l.foldl (fun s i =>
      match s.ram_list[i]? with
      | some block =>
        if block.migratable then migration_bitmap_sync_range env s i 0 block.used_length else s
      | none => s) s).ram_list =
    (l.foldl (fun s i =>
      match s.ram_list[i]? with
      | some block =>
        if block.migratable then migration_bitmap_sync_range env s i 0 block.used_length else s
      | none => s) s).rs.migration_dirty_pages := by
  induction l with
  | nil => intro s h; exact h
  | cons i rest ih =>
    intro s h
    rw [List.foldl_cons]
    apply ih
    cases hb : s.ram_list[i]? with
    | none => exact h
    | some b =>
      by_cases hm : b.migratable = true
      · simp only [hm, if_true]
        exact migration_bitmap_sync_range_dirty env hsync s i b hb hm h
      · simp only [hm]
        exact h

theorem migration_bitmap_sync_throttle_dirty (env : SaveEnv) (s : SaveState) (n : Nat) :
    (migration_bitmap_sync_throttle env s n).rs.migration_dirty_pages =
      s.rs.migration_dirty_pages := by
  unfold migration_bitmap_sync_throttle
  simp only []
  split_ifs <;> rfl

theorem migration_update_rates_dirty (env : SaveEnv) (s : SaveState) (t : Int) :
    (migration_update_rates env s t).rs.migration_dirty_pages = s.rs.migration_dirty_pages := by
  unfold migration_update_rates
  simp only []
  split_ifs <;> rfl

theorem migration_bitmap_sync_period_dirty (env : SaveEnv) (s : SaveState) (t : Int) :
    (migration_bitmap_sync_period env s t).rs.migration_dirty_pages =
      s.rs.migration_dirty_pages := by
  unfold migration_bitmap_sync_period
  simp only []
  split_ifs
  · simp only [migration_update_rates_dirty, migration_bitmap_sync_throttle_dirty]
  · rfl

theorem migration_bitmap_sync_dirty (env : SaveEnv) (hsync : sync_counts_new_bits env)
    (s : SaveState) (h : dirty_count s.ram_list = s.rs.migration_dirty_pages) :
    dirty_count (migration_bitmap_sync env s).ram_list =
      (migration_bitmap_sync env s).rs.migration_dirty_pages := by
  unfold migration_bitmap_sync
  simp only []
  split_ifs <;>
    simp only [migration_bitmap_sync_period_ram_list, migration_bitmap_sync_period_dirty,
      qemu_clock_get_ms, migration_bitmap_sync_blocks] <;>
    exact sync_fold_dirty env hsync _ _ h

theorem dirty_count_map (f : RAMBlock → RAMBlock) (l : List RAMBlock)
    (h : ∀ b ∈ l, block_dirty_count (f b) * 4096 = if b.migratable then b.used_length else 0) :
    dirty_count (l.map f) * 4096 =
      ((l.filter (fun b => b.migratable)).map (fun b => b.used_length)).sum := by
  induction l with
  | nil => simp [dirty_count]
  | cons b r ih =>
    have ihr := ih (fun x hx => h x (List.mem_cons_of_mem _ hx))
    have hb := h b (List.mem_cons_self _ _)
    simp only [List.map_cons, dirty_count]
    by_cases hm : b.migratable = true
    · simp only [hm, if_true] at hb
      simp only [List.filter_cons, hm, if_true, List.map_cons, List.sum_cons]
      omega
    · have hm2 : b.migratable = false := by simpa using hm
      simp only [hm2, Bool.false_eq_true, if_false] at hb
      simp only [List.filter_cons, hm2, Bool.false_eq_true, if_false]
      omega

theorem init_bitmaps_count (env : SaveEnv) (l : List RAMBlock)
    (h : ∀ b ∈ l, b.migratable = true →
      b.used_length % TARGET_PAGE_SIZE = 0 ∧ b.used_length ≤ b.max_length) :
    dirty_count (l.map (fun block =>
      if block.migratable then
        let pages := block.max_length >>> TARGET_PAGE_BITS
        let block := { block with bmap := fun i => decide (i < pages) }
        if env.migrate_postcopy_ram then
          { block with unsentmap := some (fun i => decide (i < pages)) }
        else block
      else block)) * 4096 =
    ((l.filter (fun b => b.migratable)).map (fun b => b.used_length)).sum := by
  apply dirty_count_map
  intro b hb
  have hT : TARGET_PAGE_SIZE = 4096 := rfl
  by_cases hm : b.migratable = true
  · obtain ⟨h1, h2⟩ := h b hb hm
    rw [hT] at h1
    have hle : b.used_length >>> TARGET_PAGE_BITS ≤ b.max_length >>> TARGET_PAGE_BITS := by
      rw [shiftRight_page_bits, shiftRight_page_bits]
      exact Nat.div_le_div_right h2
    have hc := count_set_lt _ _ hle
    have hu : b.used_length >>> TARGET_PAGE_BITS * 4096 = b.used_length := by
      rw [shiftRight_page_bits, hT]
      omega
    by_cases hp : env.migrate_postcopy_ram = true
    · simp only [hm, hp, if_true, block_dirty_count, hc]
      exact hu
    · have hp2 : env.migrate_postcopy_ram = false := by simpa using hp
      simp only [hm, hp2, if_true, block_dirty_count, hc, Bool.false_eq_true, if_false]
      exact hu
  · have hm2 : b.migratable = false := by simpa using hm
    simp [hm2, block_dirty_count]

theorem dirty_count_zero (l : List RAMBlock)
    (h : ((l.filter (fun b => b.migratable)).map (fun b => b.used_length)).sum = 0) :
    dirty_count l = 0 := by
  induction l with
  | nil => rfl
  | cons b r ih =>
    simp only [dirty_count]
    by_cases hm : b.migratable = true
    · simp only [List.filter_cons, hm, if_true, List.map_cons, List.sum_cons] at h
      have hb : b.used_length = 0 := by omega
      rw [ih (by omega)]
      simp [block_dirty_count, hb, count_set]
    · have hm2 : b.migratable = false := by simpa using hm
      simp only [List.filter_cons, hm2, Bool.false_eq_true, if_false] at h
      rw [ih h]
      simp [block_dirty_count, hm2]

theorem ram_list_init_bitmaps_dirty (env : SaveEnv) (l : List RAMBlock)
    (h : lengths_aligned l) :
    dirty_count (ram_list_init_bitmaps env l) = ram_bytes_total l >>> TARGET_PAGE_BITS := by
  obtain ⟨h1, h2⟩ := h
  have ht : ram_bytes_total l =
      ((l.filter (fun b => b.migratable)).map (fun b => b.used_length)).sum := by
    unfold ram_bytes_total
    exact Nat.mod_eq_of_lt h2
  have hT : TARGET_PAGE_SIZE = 4096 := rfl
  unfold ram_list_init_bitmaps
  by_cases h0 : ram_bytes_total l = 0
  · rw [if_neg (by simp [h0])]
    rw [dirty_count_zero l (by rw [← ht]; exact h0), h0]
    rfl
  · rw [if_pos h0]
    have := init_bitmaps_count env l h1
    rw [shiftRight_page_bits, hT, ht, ← this, Nat.mul_div_cancel _ (by norm_num)]

/-- C11, as stated, fails: for a region with one page in use and room for two, setup
leaves two set bits in the dirty bitmap while `migration_dirty_pages` is 1. -/
theorem dirty_count_all_counterexample :
    (ram_init_all plain_save_env (initial_save_state [resizable_ram] (fun _ => 0))).2 = 0 ∧
    dirty_count_all
      (ram_init_all plain_save_env (initial_save_state [resizable_ram] (fun _ => 0))).1.ram_list
      = 2 ∧
    (ram_init_all plain_save_env
      (initial_save_state [resizable_ram] (fun _ => 0))).1.rs.migration_dirty_pages = 1 := by
  decide

/-- C11, amended: after sender initialisation and after every later
`migration_bitmap_sync`, the number of set dirty bits among the pages within the used
length, summed over the migratable regions, equals `migration_dirty_pages`, assuming
the memory subsystem's sync returns the number of bits it newly set (and used lengths
that are page-aligned, at most the maximum length, and in total a 64-bit value). -/
theorem dirty_count_invariant (env : SaveEnv) (hsync : sync_counts_new_bits env) :
    (∀ s s2 : SaveState, ram_init_all env s = (s2, 0) → lengths_aligned s.ram_list →
      dirty_count s2.ram_list = s2.rs.migration_dirty_pages) ∧
    (∀ s : SaveState, dirty_count s.ram_list = s.rs.migration_dirty_pages →
      dirty_count (migration_bitmap_sync env s).ram_list =
        (migration_bitmap_sync env s).rs.migration_dirty_pages) := by
  refine ⟨?_, fun s h => migration_bitmap_sync_dirty env hsync s h⟩
  intro s s2 h hl
  unfold ram_init_all at h
  simp only [] at h
  by_cases ha : env.ram_state_alloc_ok = true
  · have hr : ram_state_init env s =
        ({ s with rs := (ram_state_reset { RAMState.zeroed with
            migration_dirty_pages := ram_bytes_total s.ram_list >>> TARGET_PAGE_BITS }
            s.ram_list_version) }, 0) := by
      simp [ram_state_init, ha]
    rw [hr] at h
    simp only [ne_eq, not_true_eq_false, if_false] at h
    by_cases hx : env.xbzrle_init_ret = 0
    · simp only [hx, ne_eq, not_true_eq_false, if_false, Prod.mk.injEq, and_true] at h
      rw [← h]
      unfold ram_init_bitmaps
      apply migration_bitmap_sync_dirty env hsync
      exact ram_list_init_bitmaps_dirty env s.ram_list hl
    · simp [hx] at h
  · have ha2 : env.ram_state_alloc_ok = false := by simpa using ha
    have hr : ram_state_init env s = (s, -1) := by
      simp [ram_state_init, ha2]
    rw [hr] at h
    simp at h

theorem count_set_and_not_self (bm : Nat → Bool) (n : Nat) :
    count_set (fun i => bm i && !bm i) n = 0 := by
  induction n with
  | zero => rfl
  | succ n ih =>
    simp only [count_set, ih]
    by_cases h : bm n = true
    · simp [h]
    · have h2 : bm n = false := by simpa using h
      simp [h2]

theorem sync_counts_new_bits_plain : sync_counts_new_bits plain_save_env := by
  intro b length
  exact ⟨fun i h => h, (count_set_and_not_self b.bmap _).symm⟩

theorem lengths_aligned_pc_ram : lengths_aligned [pc_ram] := by
  constructor
  · intro b hb hm
    simp only [List.mem_singleton] at hb
    subst hb
    exact ⟨by decide, by decide⟩
  · decide

/-- Witness of the amended C11: setup over "pc.ram" with a memory subsystem that
reports no new dirty page. -/
theorem dirty_count_invariant_witness :
    sync_counts_new_bits plain_save_env ∧ lengths_aligned [pc_ram] ∧
    dirty_count
      (ram_init_all plain_save_env (initial_save_state [pc_ram] (fun _ => 0))).1.ram_list =
    (ram_init_all plain_save_env
      (initial_save_state [pc_ram] (fun _ => 0))).1.rs.migration_dirty_pages :=
  ⟨sync_counts_new_bits_plain, lengths_aligned_pc_ram,
    (dirty_count_invariant plain_save_env sync_counts_new_bits_plain).1
      (initial_save_state [pc_ram] (fun _ => 0)) _ (Prod.ext rfl (by decide))
      lengths_aligned_pc_ram⟩

/-! ## Page sends leave the scanner's view of the state alone -/

theorem save_page_header_view (l : List RAMBlock) (rs : RAMState) (f : QEMUFile) (b o : Nat) :
    rs_view (save_page_header l rs f b o).1 = rs_view rs := by
  unfold save_page_header
  simp only []
  split_ifs <;> rfl

theorem rs_view_with_f (rs : RAMState) (f : QEMUFile) : rs_view { rs with f := f } = rs_view rs :=
  rfl

theorem save_zero_page_view (s : SaveState) (b o : Nat) :
    scan_view (save_zero_page s b o).1 = scan_view s := by
  unfold save_zero_page
  simp only []
  split_ifs
  · simp only [scan_view, rs_view_with_f, save_page_header_view]
  · rfl

theorem save_normal_page_view (s : SaveState) (b o : Nat) (buf : List Nat) (a : Bool) :
    scan_view (save_normal_page s b o buf a).1 = scan_view s := by
  unfold save_normal_page
  simp only [scan_view, rs_view_with_f, save_page_header_view]

theorem save_xbzrle_page_view (env : SaveEnv) (s : SaveState) (d : List Nat) (a b o : Nat)
    (ls : Bool) :
    scan_view (save_xbzrle_page env s d a b o ls).1 = scan_view s := by
  unfold save_xbzrle_page
  simp only []
  split_ifs <;> simp only [scan_view, rs_view_with_f, save_page_header_view]

theorem control_save_page_view (env : SaveEnv) (s : SaveState) (b o : Nat) :
    scan_view (control_save_page env s b o).1 = scan_view s := by
  unfold control_save_page
  simp only []
  split_ifs <;> rfl

theorem flush_compressed_data_view (env : SaveEnv) (s : SaveState) :
    scan_view (flush_compressed_data env s) = scan_view s := by
  unfold flush_compressed_data
  simp only []
  split_ifs <;> rfl

theorem ram_release_pages_view (env : SaveEnv) (s : SaveState) (n : List Nat) (o : Nat) (p : Int) :
    scan_view (ram_release_pages env s n o p) = scan_view s := by
  unfold ram_release_pages
  split_ifs <;> rfl

theorem xbzrle_cache_zero_page_view (env : SaveEnv) (s : SaveState) (a : Nat) :
    scan_view (xbzrle_cache_zero_page env s a) = scan_view s := by
  unfold xbzrle_cache_zero_page
  split_ifs <;> rfl

theorem do_compress_ram_page_view (env : SaveEnv) (s : SaveState) (b o : Nat) :
    scan_view (do_compress_ram_page env s b o).1 = scan_view s := by
  unfold do_compress_ram_page
  simp only []
  split_ifs
  · simp only [scan_view, rs_view_with_f, save_page_header_view]
  · rw [ram_release_pages_view]
    simp only [scan_view, rs_view_with_f, save_page_header_view]

theorem compress_page_with_multi_thread_view (env : SaveEnv) (s : SaveState) (b o : Nat) :
    scan_view (compress_page_with_multi_thread env s b o).1 = scan_view s := by
  unfold compress_page_with_multi_thread
  simp only []
  rw [do_compress_ram_page_view]
  rfl

theorem ram_save_multifd_page_view (s : SaveState) (b o : Nat) :
    scan_view (ram_save_multifd_page s b o).1 = scan_view s := rfl

theorem ram_save_page_view (env : SaveEnv) (s : SaveState) (b p : Nat) (ls : Bool) :
    scan_view (ram_save_page env s b p ls).1 = scan_view s := by
  unfold ram_save_page
  simp only []
  split_ifs <;> simp only [save_normal_page_view, save_xbzrle_page_view]

theorem ram_save_target_page_view (env : SaveEnv) (s : SaveState) (b p : Nat) (ls : Bool) :
    scan_view (ram_save_target_page env s b p ls).1 = scan_view s := by
  unfold ram_save_target_page
  simp only []
  split_ifs <;>
    simp only [ram_save_page_view, ram_save_multifd_page_view,
      compress_page_with_multi_thread_view, ram_release_pages_view, xbzrle_cache_zero_page_view,
      save_zero_page_view, flush_compressed_data_view, control_save_page_view]

/-! ## Clearing bits of the RAM list -/

theorem ramblock_set_ne (l : List RAMBlock) (i j : Nat) (x : RAMBlock) (h : j ≠ i) :
    ramblock (l.set i x) j = ramblock l j := by
  simp [ramblock, List.getElem?_set, Ne.symm h]

theorem ramblock_set_invalid (l : List RAMBlock) (i : Nat) (x : RAMBlock) (h : l.length ≤ i) :
    l.set i x = l := by
  apply List.ext_getElem?
  intro n
  rw [List.getElem?_set]
  by_cases hn : i = n
  · subst hn
    simp [List.getElem?_eq_none h, Nat.not_lt.mpr h]
  · simp [hn]

theorem ramblock_set_valid (l : List RAMBlock) (i : Nat) (x : RAMBlock) (h : i < l.length) :
    ramblock (l.set i x) i = x := by
  simp [ramblock, List.getElem?_set, h]

theorem bits_cleared_refl (l : List RAMBlock) : bits_cleared l l :=
  ⟨rfl, fun _ => ⟨rfl, rfl, rfl, rfl, fun _ h => h⟩⟩

theorem bits_cleared_trans (l1 l2 l3 : List RAMBlock) (h1 : bits_cleared l1 l2)
    (h2 : bits_cleared l2 l3) : bits_cleared l1 l3 := by
  refine ⟨h2.1.trans h1.1, fun j => ?_⟩
  obtain ⟨a1, a2, a3, a4, a5⟩ := h1.2 j
  obtain ⟨b1, b2, b3, b4, b5⟩ := h2.2 j
  exact ⟨b1.trans a1, b2.trans a2, b3.trans a3, b4.trans a4, fun i h => a5 i (b5 i h)⟩

theorem bits_cleared_set (l : List RAMBlock) (b : Nat) (x : RAMBlock)
    (hm : x.migratable = (ramblock l b).migratable)
    (hu : x.used_length = (ramblock l b).used_length)
    (hp : x.page_size = (ramblock l b).page_size)
    (hh : x.host = (ramblock l b).host)
    (hb : ∀ i, x.bmap i = true → (ramblock l b).bmap i = true) :
    bits_cleared l (l.set b x) := by
  refine ⟨List.length_set _ _ _, fun j => ?_⟩
  by_cases hj : j = b
  · subst hj
    by_cases hv : j < l.length
    · rw [ramblock_set_valid l j x hv]
      exact ⟨hm, hu, hp, hh, hb⟩
    · rw [ramblock_set_invalid l j x (by omega)]
      exact ⟨rfl, rfl, rfl, rfl, fun _ h => h⟩
  · rw [ramblock_set_ne l b j x hj]
    exact ⟨rfl, rfl, rfl, rfl, fun _ h => h⟩

theorem clear_dirty_cleared (s : SaveState) (b p : Nat) :
    bits_cleared s.ram_list (migration_bitmap_clear_dirty s b p).1.ram_list ∧
    (migration_bitmap_clear_dirty s b p).1.rs.last_seen_block = s.rs.last_seen_block ∧
    (migration_bitmap_clear_dirty s b p).1.rs.last_page = s.rs.last_page ∧
    (migration_bitmap_clear_dirty s b p).1.rs.ram_bulk_stage = s.rs.ram_bulk_stage ∧
    (migration_bitmap_clear_dirty s b p).1.rs.src_page_requests = s.rs.src_page_requests ∧
    (ramblock (migration_bitmap_clear_dirty s b p).1.ram_list b).bmap p = false := by
  unfold migration_bitmap_clear_dirty
  simp only []
  by_cases hbit : (ramblock s.ram_list b).bmap p = true
  · rw [if_pos hbit]
    refine ⟨?_, rfl, rfl, rfl, rfl, ?_⟩
    · show bits_cleared s.ram_list (s.ram_list.set b _)
      refine bits_cleared_set _ _ _ rfl rfl rfl rfl ?_
      intro i hi
      simp only [clear_bit] at hi
      split_ifs at hi
      exact hi
    · show (ramblock (s.ram_list.set b _) b).bmap p = false
      by_cases hv : b < s.ram_list.length
      · rw [ramblock_set_valid _ _ _ hv]
        simp [clear_bit]
      · have hn : ramblock s.ram_list b = RAMBlock.null := by
          simp [ramblock, List.getElem?_eq_none (Nat.not_lt.mp hv)]
        rw [hn] at hbit
        simp [RAMBlock.null] at hbit
  · have hbit2 : (ramblock s.ram_list b).bmap p = false := by simpa using hbit
    rw [if_neg hbit]
    exact ⟨bits_cleared_refl _, rfl, rfl, rfl, rfl, hbit2⟩

/-! ## The host-page loop only clears bits -/

theorem scan_view_fields (s t : SaveState) (h : scan_view t = scan_view s) :
    t.ram_list = s.ram_list ∧ t.rs.last_seen_block = s.rs.last_seen_block ∧
    t.rs.last_page = s.rs.last_page ∧ t.rs.ram_bulk_stage = s.rs.ram_bulk_stage ∧
    t.rs.src_page_requests = s.rs.src_page_requests ∧
    t.rs.migration_dirty_pages = s.rs.migration_dirty_pages := by
  simp only [scan_view, rs_view, Prod.mk.injEq] at h
  exact h

theorem ram_save_host_page_loop_cleared (env : SaveEnv) (ls : Bool) (block : Nat) :
    ∀ (fuel : Nat) (s : SaveState) (page : Nat) (pages : Int) (r : SaveState × Nat × Int),
      ram_save_host_page_loop env ls block fuel s page pages = some r →
      bits_cleared s.ram_list r.1.ram_list ∧
      r.1.rs.last_seen_block = s.rs.last_seen_block ∧
      r.1.rs.last_page = s.rs.last_page ∧
      r.1.rs.ram_bulk_stage = s.rs.ram_bulk_stage ∧
      r.1.rs.src_page_requests = s.rs.src_page_requests ∧
      (0 ≤ pages → 0 ≤ r.2.2 → page ≤ r.2.1 ∧
        ∀ i, page ≤ i → i ≤ r.2.1 → (ramblock r.1.ram_list block).bmap i = false) := by
  intro fuel
  induction fuel with
  | zero =>
    intro s page pages r h
    simp [ram_save_host_page_loop] at h
  | succ fuel ih =>
    intro s page pages r h
    have tail : ∀ (cnd : Prop) [Decidable cnd] (s2 : SaveState) (pages2 : Int),
        (if cnd then ram_save_host_page_loop env ls block fuel s2 (page + 1) pages2
          else some (s2, page + 1 - 1, pages2)) = some r →
        bits_cleared s.ram_list s2.ram_list →
        s2.rs.last_seen_block = s.rs.last_seen_block →
        s2.rs.last_page = s.rs.last_page →
        s2.rs.ram_bulk_stage = s.rs.ram_bulk_stage →
        s2.rs.src_page_requests = s.rs.src_page_requests →
        (ramblock s2.ram_list block).bmap page = false →
        (0 ≤ pages → 0 ≤ pages2) →
        bits_cleared s.ram_list r.1.ram_list ∧
        r.1.rs.last_seen_block = s.rs.last_seen_block ∧
        r.1.rs.last_page = s.rs.last_page ∧
        r.1.rs.ram_bulk_stage = s.rs.ram_bulk_stage ∧
        r.1.rs.src_page_requests = s.rs.src_page_requests ∧
        (0 ≤ pages → 0 ≤ r.2.2 → page ≤ r.2.1 ∧
          ∀ i, page ≤ i → i ≤ r.2.1 → (ramblock r.1.ram_list block).bmap i = false) := by
      intro cnd _ s2 pages2 hr hcl h1 h2 h3 h4 hbit hp
      by_cases hcnd : cnd
      case neg =>
        rw [if_neg hcnd] at hr
        simp only [Option.some.injEq] at hr
        subst hr
        refine ⟨hcl, h1, h2, h3, h4, fun _ _ => ⟨by simp, fun i hi1 hi2 => ?_⟩⟩
        have : i = page := by
          simp only [Nat.add_sub_cancel] at hi2
          omega
        subst this
        exact hbit
      case pos =>
        rw [if_pos hcnd] at hr
        obtain ⟨a1, a2, a3, a4, a5, a6⟩ := ih s2 (page + 1) pages2 r hr
        refine ⟨bits_cleared_trans _ _ _ hcl a1, a2.trans h1, a3.trans h2, a4.trans h3,
          a5.trans h4, fun hp0 hr0 => ?_⟩
        obtain ⟨b1, b2⟩ := a6 (hp hp0) hr0
        refine ⟨by omega, fun i hi1 hi2 => ?_⟩
        by_cases hip : i = page
        · subst hip
          by_contra hne
          have ht : (ramblock r.1.ram_list block).bmap i = true := by simpa using hne
          have := (a1.2 block).2.2.2.2 i ht
          rw [hbit] at this
          cases this
        · exact b2 i (by omega) hi2
    obtain ⟨c1, c2, c3, c4, c5, c6⟩ := clear_dirty_cleared s block page
    rw [ram_save_host_page_loop] at h
    simp only [] at h
    by_cases hc : (migration_bitmap_clear_dirty s block page).2 = true
    · simp only [hc, Bool.not_true, Bool.false_eq_true, if_false] at h
      obtain ⟨v1, v2, v3, v4, v5, _⟩ := scan_view_fields _ _
        (ram_save_target_page_view env (migration_bitmap_clear_dirty s block page).1 block page ls)
      by_cases ht : (ram_save_target_page env (migration_bitmap_clear_dirty s block page).1
          block page ls).2 < 0
      · simp only [ht, if_true, Option.some.injEq] at h
        subst h
        refine ⟨by rw [v1]; exact c1, v2.trans c2, v3.trans c3, v4.trans c4, v5.trans c5, ?_⟩
        intro _ h0
        simp only at h0
        omega
      · simp only [ht, if_false] at h
        cases hu : (ramblock (ram_save_target_page env (migration_bitmap_clear_dirty s block page).1
            block page ls).1.ram_list block).unsentmap with
        | none =>
          simp only [hu] at h
          refine tail _ _ (pages + (ram_save_target_page env (migration_bitmap_clear_dirty s block page).1
            block page ls).2) h (by rw [v1]; exact c1) (v2.trans c2) (v3.trans c3)
            (v4.trans c4) (v5.trans c5) (by rw [v1]; exact c6) (fun hp => by omega)
        | some m =>
          simp only [hu] at h
          refine tail _ _ (pages + (ram_save_target_page env (migration_bitmap_clear_dirty s block page).1
            block page ls).2) h ?_ (v2.trans c2) (v3.trans c3) (v4.trans c4)
            (v5.trans c5) ?_ (fun hp => by omega)
          · refine bits_cleared_trans _ _ _ c1 ?_
            rw [v1]
            exact bits_cleared_set _ _ _ rfl rfl rfl rfl (fun _ hi => hi)
          · show (ramblock (List.set _ block _) block).bmap page = false
            rw [v1]
            by_cases hv : block < (migration_bitmap_clear_dirty s block page).1.ram_list.length
            · rw [ramblock_set_valid _ _ _ hv]
              exact c6
            · rw [ramblock_set_invalid _ _ _ (by omega)]
              exact c6
    · have hc2 : (migration_bitmap_clear_dirty s block page).2 = false := by simpa using hc
      simp only [hc2, Bool.not_false, if_true] at h
      exact tail _ _ _ h c1 c2 c3 c4 c5 c6 (fun hp => hp)

/-! ## One round of the scanner with an empty request queue -/

theorem get_queued_page_empty (s : SaveState) (pss : PageSearchStatus)
    (hq : s.rs.src_page_requests = []) : get_queued_page s pss = some (s, pss, false) := by
  simp [get_queued_page, queue_fuel, hq, get_queued_page_loop, unqueue_page]

theorem wrap_state_view (env : SaveEnv) (s : SaveState) :
    (wrap_state env s).ram_list = s.ram_list ∧
    (wrap_state env s).rs.last_seen_block = s.rs.last_seen_block ∧
    (wrap_state env s).rs.last_page = s.rs.last_page ∧
    (wrap_state env s).rs.ram_bulk_stage = false ∧
    (wrap_state env s).rs.src_page_requests = s.rs.src_page_requests ∧
    (wrap_state env s).rs.migration_dirty_pages = s.rs.migration_dirty_pages := by
  unfold wrap_state
  simp only []
  split_ifs
  · obtain ⟨h1, h2, h3, h4, h5, h6⟩ := scan_view_fields _ _
      (flush_compressed_data_view env { s with rs := { s.rs with ram_bulk_stage := false } })
    exact ⟨h1, h2, h3, h4, h5, h6⟩
  · exact ⟨rfl, rfl, rfl, rfl, rfl, rfl⟩

theorem find_dirty_block_cases (env : SaveEnv) (s : SaveState) (pss : PageSearchStatus) :
    (pss.complete_round = true ∧ pss.block = s.rs.last_seen_block ∧
      migration_bitmap_find_dirty s (block_index s.ram_list pss.block) pss.page ≥ s.rs.last_page ∧
      find_dirty_block env s pss =
        (s, { pss with page :=
          migration_bitmap_find_dirty s (block_index s.ram_list pss.block) pss.page },
         false, false)) ∨
    (¬ (pss.complete_round = true ∧ pss.block = s.rs.last_seen_block ∧
        migration_bitmap_find_dirty s (block_index s.ram_list pss.block) pss.page ≥
          s.rs.last_page) ∧
      ((migration_bitmap_find_dirty s (block_index s.ram_list pss.block) pss.page <<<
          TARGET_PAGE_BITS) % 2 ^ 64 ≥
        (ramblock s.ram_list (block_index s.ram_list pss.block)).used_length) ∧
      ((∃ c2, QLIST_NEXT s.ram_list (block_index s.ram_list pss.block) = some c2 ∧
          find_dirty_block env s pss =
            (s, { pss with page := 0, block := some c2 }, true, false)) ∨
       (QLIST_NEXT s.ram_list (block_index s.ram_list pss.block) = none ∧
          find_dirty_block env s pss =
            (wrap_state env s,
             { pss with page := 0, block := QLIST_FIRST s.ram_list, complete_round := true,
                        wraps := pss.wraps + 1 }, true, false)))) ∨
    (¬ (pss.complete_round = true ∧ pss.block = s.rs.last_seen_block ∧
        migration_bitmap_find_dirty s (block_index s.ram_list pss.block) pss.page ≥
          s.rs.last_page) ∧
      ((migration_bitmap_find_dirty s (block_index s.ram_list pss.block) pss.page <<<
          TARGET_PAGE_BITS) % 2 ^ 64 <
        (ramblock s.ram_list (block_index s.ram_list pss.block)).used_length) ∧
      find_dirty_block env s pss =
        (s, { pss with page :=
          migration_bitmap_find_dirty s (block_index s.ram_list pss.block) pss.page },
         true, true)) := by
  have hcond : (pss.complete_round && pss.block == s.rs.last_seen_block &&
      decide (migration_bitmap_find_dirty s (block_index s.ram_list pss.block) pss.page ≥
        s.rs.last_page)) = true ↔
      (pss.complete_round = true ∧ pss.block = s.rs.last_seen_block ∧
        migration_bitmap_find_dirty s (block_index s.ram_list pss.block) pss.page ≥
          s.rs.last_page) := by
    simp [and_assoc]
  by_cases hstop : pss.complete_round = true ∧ pss.block = s.rs.last_seen_block ∧
      migration_bitmap_find_dirty s (block_index s.ram_list pss.block) pss.page ≥ s.rs.last_page
  · left
    refine ⟨hstop.1, hstop.2.1, hstop.2.2, ?_⟩
    unfold find_dirty_block
    simp only []
    rw [if_pos (hcond.mpr hstop)]
  · right
    by_cases hadv : (migration_bitmap_find_dirty s (block_index s.ram_list pss.block) pss.page <<<
          TARGET_PAGE_BITS) % 2 ^ 64 ≥
        (ramblock s.ram_list (block_index s.ram_list pss.block)).used_length
    · left
      refine ⟨hstop, hadv, ?_⟩
      cases hn : QLIST_NEXT s.ram_list (block_index s.ram_list pss.block) with
      | none =>
        right
        refine ⟨rfl, ?_⟩
        unfold find_dirty_block
        simp only []
        rw [if_neg (fun h => hstop (hcond.mp h)), if_pos hadv]
        simp only [hn]
        rfl
      | some c2 =>
        left
        refine ⟨c2, rfl, ?_⟩
        unfold find_dirty_block
        simp only []
        rw [if_neg (fun h => hstop (hcond.mp h)), if_pos hadv]
        simp only [hn]
    · right
      refine ⟨hstop, by omega, ?_⟩
      unfold find_dirty_block
      simp only []
      rw [if_neg (fun h => hstop (hcond.mp h)), if_neg hadv]

theorem find_and_save_loop_step (env : SaveEnv) (ls : Bool) (fuel : Nat) (s : SaveState)
    (pss : PageSearchStatus) (hq : s.rs.src_page_requests = []) :
    ram_find_and_save_block_loop env ls (fuel + 1) s pss =
      if (find_dirty_block env s pss).2.2.2 then
        match ram_save_host_page env (find_dirty_block env s pss).1
            (find_dirty_block env s pss).2.1 ls with
        | none => none
        | some h =>
          if h.2.2 = 0 && (find_dirty_block env s pss).2.2.1 then
            ram_find_and_save_block_loop env ls fuel h.1 h.2.1
          else some h
      else if (find_dirty_block env s pss).2.2.1 then
        ram_find_and_save_block_loop env ls fuel (find_dirty_block env s pss).1
          (find_dirty_block env s pss).2.1
      else some ((find_dirty_block env s pss).1, (find_dirty_block env s pss).2.1, 0) := by
  rw [ram_find_and_save_block_loop, get_queued_page_empty s pss hq]
  simp only [Bool.not_false, if_true]

/-! ## The pages the scanner has found clean -/

theorem used_pages_cleared (l l2 : List RAMBlock) (h : bits_cleared l l2) (j : Nat) :
    used_pages l2 j = used_pages l j := by
  unfold used_pages
  rw [(h.2 j).2.1]

theorem block_index_cleared (l l2 : List RAMBlock) (h : bits_cleared l l2) (b : Option Nat) :
    block_index l2 b = block_index l b := by
  cases b with
  | none => exact h.1
  | some c => rfl

theorem clean_range_cleared (l l2 : List RAMBlock) (h : bits_cleared l l2) (j lo hi : Nat)
    (hc : clean_range l j lo hi) : clean_range l2 j lo hi := by
  intro hm i h1 h2 h3
  rw [(h.2 j).1] at hm
  rw [used_pages_cleared l l2 h] at h3
  have := hc hm i h1 h2 h3
  by_contra hne
  have ht : (ramblock l2 j).bmap i = true := by simpa using hne
  rw [(h.2 j).2.2.2.2 i ht] at this
  cases this

theorem clean_range_join (l : List RAMBlock) (j a b c : Nat) (h1 : clean_range l j a b)
    (h2 : clean_range l j b c) : clean_range l j a c := by
  intro hm i hi1 hi2 hi3
  by_cases hb : i < b
  · exact h1 hm i hi1 hb hi3
  · exact h2 hm i (by omega) hi2 hi3

theorem clean_range_sub (l : List RAMBlock) (j a b a2 b2 : Nat) (h1 : clean_range l j a b)
    (ha : a ≤ a2) (hb : b2 ≤ b) : clean_range l j a2 b2 := by
  intro hm i hi1 hi2 hi3
  exact h1 hm i (by omega) (by omega) hi3

theorem clean_range_all (l : List RAMBlock) (j a : Nat)
    (h : clean_range l j 0 (used_pages l j)) : clean_range l j 0 a := by
  intro hm i hi1 hi2 hi3
  exact h hm i hi1 hi3 hi3

theorem scanned_clean_cleared (l l2 : List RAMBlock) (h : bits_cleared l l2) (L lp : Nat)
    (pss : PageSearchStatus) (hs : scanned_clean l L lp pss) : scanned_clean l2 L lp pss := by
  unfold scanned_clean at hs ⊢
  simp only [block_index_cleared l l2 h, used_pages_cleared l l2 h]
  refine ⟨fun hcr => ?_, fun hcr => ?_⟩
  · obtain ⟨a1, a2, a3, a4⟩ := hs.1 hcr
    exact ⟨clean_range_cleared l l2 h _ _ _ a1,
      fun j hj => clean_range_cleared l l2 h _ _ _ (a2 j hj),
      fun j hj => clean_range_cleared l l2 h _ _ _ (a3 j hj),
      clean_range_cleared l l2 h _ _ _ a4⟩
  · obtain ⟨a1, a2, a3⟩ := hs.2 hcr
    refine ⟨a1, fun hc => clean_range_cleared l l2 h _ _ _ (a2 hc), fun hc => ?_⟩
    obtain ⟨b1, b2, b3⟩ := a3 hc
    exact ⟨clean_range_cleared l l2 h _ _ _ b1,
      fun j hj1 hj2 => clean_range_cleared l l2 h _ _ _ (b2 j hj1 hj2),
      clean_range_cleared l l2 h _ _ _ b3⟩

theorem find_dirty_nonbulk (s : SaveState) (c page : Nat) (hb : s.rs.ram_bulk_stage = false) :
    clean_range s.ram_list c page (migration_bitmap_find_dirty s c page) ∧
    ((ramblock s.ram_list c).migratable = false ∨ page ≤ used_pages s.ram_list c →
      migration_bitmap_find_dirty s c page ≤ used_pages s.ram_list c) ∧
    (used_pages s.ram_list c ≤ page → migration_bitmap_find_dirty s c page = used_pages s.ram_list c)
    := by
  unfold migration_bitmap_find_dirty used_pages
  simp only []
  by_cases hm : (ramblock s.ram_list c).migratable = true
  · simp only [hm, Bool.not_true, Bool.false_eq_true, if_false, hb, Bool.false_and]
    obtain ⟨h1, h2⟩ := find_next_bit_spec (ramblock s.ram_list c).bmap
      ((ramblock s.ram_list c).used_length >>> TARGET_PAGE_BITS) page
    refine ⟨?_, ?_, h1⟩
    · intro _ i hi1 hi2 hi3
      unfold used_pages at hi3
      rcases Nat.lt_or_ge ((ramblock s.ram_list c).used_length >>> TARGET_PAGE_BITS) page
        with hlt | hge
      · rw [h1 (by omega)] at hi2
        omega
      · exact (h2 hge).2.2.1 i hi1 hi2
    · intro hp
      rcases hp with hp | hp
      · simp at hp
      · exact (h2 hp).2.1
  · have hm2 : (ramblock s.ram_list c).migratable = false := by simpa using hm
    simp only [hm2, Bool.not_false, if_true]
    refine ⟨fun h => ?_, ?_, ?_⟩
    · rw [hm2] at h
      cases h
    · simp
    · simp

theorem shift_lt_used (used r : Nat) (h : r < used >>> TARGET_PAGE_BITS) :
    (r <<< TARGET_PAGE_BITS) % 2 ^ 64 < used := by
  have hT : TARGET_PAGE_BITS = 12 := rfl
  rw [hT] at h ⊢
  rw [Nat.shiftRight_eq_div_pow] at h
  rw [Nat.shiftLeft_eq]
  have h1 : r * 2 ^ 12 % 2 ^ 64 ≤ r * 2 ^ 12 := Nat.mod_le _ _
  have h2 : (2 : Nat) ^ 12 = 4096 := by norm_num
  rw [h2] at h h1 ⊢
  omega

theorem ram_save_host_page_cleared (env : SaveEnv) (s : SaveState) (pss : PageSearchStatus)
    (ls : Bool) (h : SaveState × PageSearchStatus × Int)
    (hh : ram_save_host_page env s pss ls = some h) :
    bits_cleared s.ram_list h.1.ram_list ∧
    h.1.rs.last_seen_block = s.rs.last_seen_block ∧
    h.1.rs.last_page = s.rs.last_page ∧
    h.1.rs.ram_bulk_stage = s.rs.ram_bulk_stage ∧
    h.1.rs.src_page_requests = s.rs.src_page_requests ∧
    h.2.1.block = pss.block ∧ h.2.1.complete_round = pss.complete_round ∧
    h.2.1.wraps = pss.wraps ∧
    (0 ≤ h.2.2 → pss.page ≤ h.2.1.page ∧
      ∀ i, pss.page ≤ i → i < h.2.1.page →
        (ramblock h.1.ram_list (block_index s.ram_list pss.block)).bmap i = false) := by
  unfold ram_save_host_page at hh
  simp only [] at hh
  by_cases hm : (ramblock s.ram_list (block_index s.ram_list pss.block)).migratable = true
  · simp only [hm, Bool.not_true, Bool.false_eq_true, if_false] at hh
    cases hl : ram_save_host_page_loop env ls (block_index s.ram_list pss.block)
        (((ramblock s.ram_list (block_index s.ram_list pss.block)).used_length >>>
          TARGET_PAGE_BITS) + 2) s pss.page 0 with
    | none => simp [hl] at hh
    | some r =>
      simp only [hl, Option.some.injEq] at hh
      subst hh
      obtain ⟨a1, a2, a3, a4, a5, a6⟩ := ram_save_host_page_loop_cleared env ls _ _ _ _ _ _ hl
      refine ⟨a1, a2, a3, a4, a5, rfl, rfl, rfl, fun h0 => ?_⟩
      obtain ⟨b1, b2⟩ := a6 (le_refl _) h0
      exact ⟨b1, fun i hi1 hi2 => b2 i hi1 (by
        have : i < r.2.1 := hi2
        omega)⟩
  · have hm2 : (ramblock s.ram_list (block_index s.ram_list pss.block)).migratable = false := by
      simpa using hm
    simp only [hm2, Bool.not_false, if_true, Option.some.injEq] at hh
    subst hh
    exact ⟨bits_cleared_refl _, rfl, rfl, rfl, rfl, rfl, rfl, rfl,
      fun _ => ⟨le_refl _, fun i h1 h2 => by
        have h3 : i < pss.page := h2
        omega⟩⟩

theorem clean_range_invalid (l : List RAMBlock) (j lo hi : Nat) (h : l.length ≤ j) :
    clean_range l j lo hi := by
  intro hm
  have hn : ramblock l j = RAMBlock.null := by
    simp [ramblock, List.getElem?_eq_none h]
  rw [hn] at hm
  simp [RAMBlock.null] at hm

theorem clean_range_empty (l : List RAMBlock) (j lo : Nat) : clean_range l j lo lo := by
  intro _ i h1 h2
  omega

theorem scanned_clean_extend (l : List RAMBlock) (L lp : Nat) (pss pss2 : PageSearchStatus)
    (hs : scanned_clean l L lp pss) (hb : pss2.block = pss.block)
    (hcr : pss2.complete_round = pss.complete_round)
    (hc : clean_range l (block_index l pss.block) pss.page pss2.page) :
    scanned_clean l L lp pss2 := by
  unfold scanned_clean at hs ⊢
  rw [hb, hcr]
  refine ⟨fun h => ?_, fun h => ?_⟩
  · obtain ⟨a1, a2, a3, a4⟩ := hs.1 h
    exact ⟨a1, a2, a3, clean_range_join _ _ _ _ _ a4 hc⟩
  · obtain ⟨a1, a2, a3⟩ := hs.2 h
    refine ⟨a1, fun he => ?_, fun hne => ?_⟩
    · have := a2 he
      rw [he] at hc
      exact clean_range_join _ _ _ _ _ this hc
    · obtain ⟨b1, b2, b3⟩ := a3 hne
      exact ⟨b1, b2, clean_range_join _ _ _ _ _ b3 hc⟩

theorem QLIST_NEXT_some (l : List RAMBlock) (c c2 : Nat) (h : QLIST_NEXT l c = some c2) :
    c2 = c + 1 ∧ c + 1 < l.length := by
  unfold QLIST_NEXT at h
  split_ifs at h with h1
  simp only [Option.some.injEq] at h
  exact ⟨h.symm, h1⟩

theorem QLIST_NEXT_none (l : List RAMBlock) (c : Nat) (h : QLIST_NEXT l c = none) :
    l.length ≤ c + 1 := by
  unfold QLIST_NEXT at h
  split_ifs at h with h1
  omega

theorem QLIST_FIRST_pos (l : List RAMBlock) (h : 0 < l.length) : QLIST_FIRST l = some 0 := by
  simp [QLIST_FIRST, h]

/-! ## C13: a result of 0 means no dirty page is left -/

theorem find_result_at_end (s : SaveState) (c page : Nat) (hb : s.rs.ram_bulk_stage = false)
    (hadv : (migration_bitmap_find_dirty s c page <<< TARGET_PAGE_BITS) % 2 ^ 64 ≥
      (ramblock s.ram_list c).used_length) :
    clean_range s.ram_list c page (used_pages s.ram_list c) := by
  obtain ⟨h1, h2, h3⟩ := find_dirty_nonbulk s c page hb
  have hle : migration_bitmap_find_dirty s c page ≤ used_pages s.ram_list c := by
    rcases Nat.le_total page (used_pages s.ram_list c) with hp | hp
    · exact h2 (Or.inr hp)
    · rw [h3 hp]
  have hge : used_pages s.ram_list c ≤ migration_bitmap_find_dirty s c page := by
    by_contra hlt
    have := shift_lt_used (ramblock s.ram_list c).used_length
      (migration_bitmap_find_dirty s c page) (by unfold used_pages at hlt; omega)
    omega
  have heq : migration_bitmap_find_dirty s c page = used_pages s.ram_list c := by omega
  rw [heq] at h1
  exact h1

theorem find_and_save_loop_clean (env : SaveEnv) (ls : Bool) :
    ∀ (fuel : Nat) (s : SaveState) (pss : PageSearchStatus)
      (r : SaveState × PageSearchStatus × Int),
      s.rs.ram_bulk_stage = false → s.rs.src_page_requests = [] → 0 < s.ram_list.length →
      (pss.complete_round = true → pss.block ≠ none) →
      (∀ L, s.rs.last_seen_block = some L → scanned_clean s.ram_list L s.rs.last_page pss) →
      ram_find_and_save_block_loop env ls fuel s pss = some r → r.2.2 = 0 →
      ∀ j, clean_range r.1.ram_list j 0 (used_pages r.1.ram_list j) := by
  intro fuel
  induction fuel with
  | zero =>
    intro s pss r _ _ _ _ _ h
    simp [ram_find_and_save_block_loop] at h
  | succ fuel ih =>
    intro s pss r hbulk hq hlen hblk hinv h hr0
    rw [find_and_save_loop_step env ls fuel s pss hq] at h
    rcases find_dirty_block_cases env s pss with hstop | hadv | hfound
    · -- no progress: the loop is left
      obtain ⟨hcr, hbl, hge, hf⟩ := hstop
      rw [hf] at h
      simp only [Bool.false_eq_true, if_false, Option.some.injEq] at h
      subst h
      show ∀ j, clean_range s.ram_list j 0 (used_pages s.ram_list j)
      cases hpb : pss.block with
      | none => exact absurd hpb (hblk hcr)
      | some L =>
        have hl : s.rs.last_seen_block = some L := by rw [← hbl, hpb]
        obtain ⟨a1, a2, a3, a4⟩ := (hinv L hl).1 hcr
        have hbi : block_index s.ram_list pss.block = L := by rw [hpb]; rfl
        rw [hbi] at a3 a4 hge
        have hfc := (find_dirty_nonbulk s L pss.page hbulk).1
        intro j
        rcases Nat.lt_trichotomy j L with hj | hj | hj
        · exact a3 j hj
        · subst hj
          have c1 := clean_range_join _ _ _ _ _ a4 hfc
          have c2 := clean_range_sub _ _ _ _ 0 s.rs.last_page c1 (le_refl _) hge
          exact clean_range_join _ _ _ _ _ c2 a1
        · exact a2 j hj
    · -- the block is exhausted: on to the next one
      obtain ⟨hns, hge, hnext⟩ := hadv
      have hcl := find_result_at_end s (block_index s.ram_list pss.block) pss.page hbulk hge
      rcases hnext with ⟨c2, hc2, hf⟩ | ⟨hnone, hf⟩
      · rw [hf] at h
        simp only [Bool.false_eq_true, if_false, if_true] at h
        obtain ⟨hc2a, hc2b⟩ := QLIST_NEXT_some _ _ _ hc2
        refine ih s _ r hbulk hq hlen (fun _ => by simp) (fun L hl => ?_) h hr0
        have hs := hinv L hl
        unfold scanned_clean at hs ⊢
        simp only [block_index]
        refine ⟨fun hcr => ?_, fun hcr => ?_⟩
        · obtain ⟨a1, a2, a3, a4⟩ := hs.1 hcr
          refine ⟨a1, a2, fun j hj => ?_, clean_range_empty _ _ _⟩
          rcases Nat.lt_or_ge j (block_index s.ram_list pss.block) with hj2 | hj2
          · exact a3 j hj2
          · have : j = block_index s.ram_list pss.block := by omega
            subst this
            exact clean_range_join _ _ _ _ _ a4 hcl
        · obtain ⟨a1, a2, a3⟩ := hs.2 hcr
          refine ⟨by omega, fun he => by omega, fun _ => ?_⟩
          by_cases hcL : block_index s.ram_list pss.block = L
          · have c1 := a2 hcL
            rw [hcL] at hcl
            refine ⟨clean_range_join _ _ _ _ _ c1 hcl, fun j hj1 hj2 => by omega,
              clean_range_empty _ _ _⟩
          · obtain ⟨b1, b2, b3⟩ := a3 hcL
            refine ⟨b1, fun j hj1 hj2 => ?_, clean_range_empty _ _ _⟩
            rcases Nat.lt_or_ge j (block_index s.ram_list pss.block) with hj3 | hj3
            · exact b2 j hj1 hj3
            · have : j = block_index s.ram_list pss.block := by omega
              subst this
              exact clean_range_join _ _ _ _ _ b3 hcl
      · rw [hf] at h
        simp only [Bool.false_eq_true, if_false, if_true] at h
        have hlenc := QLIST_NEXT_none _ _ hnone
        obtain ⟨w1, w2, w3, w4, w5, _⟩ := wrap_state_view env s
        refine ih (wrap_state env s) _ r w4 (w5.trans hq) (by rw [w1]; exact hlen)
          (fun _ => by simp [QLIST_FIRST_pos _ hlen]) (fun L hl => ?_) h hr0
        rw [w2] at hl
        rw [w1, w3]
        have hs := hinv L hl
        unfold scanned_clean at hs ⊢
        simp only [QLIST_FIRST_pos _ hlen, block_index]
        refine ⟨fun _ => ?_, fun hcr => by simp at hcr⟩
        by_cases hcr : pss.complete_round = true
        · obtain ⟨a1, a2, a3, a4⟩ := hs.1 hcr
          exact ⟨a1, a2, fun j hj => by omega, clean_range_empty _ _ _⟩
        · have hcr2 : pss.complete_round = false := by simpa using hcr
          obtain ⟨a1, a2, a3⟩ := hs.2 hcr2
          by_cases hcL : block_index s.ram_list pss.block = L
          · have c1 := a2 hcL
            rw [hcL] at hcl hlenc
            refine ⟨clean_range_join _ _ _ _ _ c1 hcl, fun j hj => ?_, fun j hj => by omega,
              clean_range_empty _ _ _⟩
            exact clean_range_invalid _ _ _ _ (by omega)
          · obtain ⟨b1, b2, b3⟩ := a3 hcL
            refine ⟨b1, fun j hj => ?_, fun j hj => by omega, clean_range_empty _ _ _⟩
            rcases Nat.lt_trichotomy j (block_index s.ram_list pss.block) with hj3 | hj3 | hj3
            · exact b2 j hj hj3
            · subst hj3
              exact clean_range_join _ _ _ _ _ b3 hcl
            · exact clean_range_invalid _ _ _ _ (by omega)
    · -- a page is found and its host page saved
      obtain ⟨hns, hlt, hf⟩ := hfound
      rw [hf] at h
      simp only [if_true] at h
      cases hh : ram_save_host_page env s
          { pss with page :=
            migration_bitmap_find_dirty s (block_index s.ram_list pss.block) pss.page } ls with
      | none => simp [hh] at h
      | some hp =>
        simp only [hh, Bool.and_true, decide_eq_true_eq] at h
        by_cases hz : hp.2.2 = 0
        · rw [if_pos hz] at h
          obtain ⟨a1, a2, a3, a4, a5, a6, a7, a8, a9⟩ :=
            ram_save_host_page_cleared env s _ ls hp hh
          obtain ⟨b1, b2⟩ := a9 (by omega)
          refine ih hp.1 hp.2.1 r (a4.trans hbulk) (a5.trans hq) (by rw [a1.1]; exact hlen)
            (fun hc => by rw [a6]; exact hblk (a7 ▸ hc)) (fun L hl => ?_) h hr0
          rw [a2] at hl
          rw [a3]
          have hs := scanned_clean_cleared _ _ a1 L s.rs.last_page pss (hinv L hl)
          refine scanned_clean_extend _ L _ pss hp.2.1 hs a6 a7 ?_
          have hfc := clean_range_cleared _ _ a1 _ _ _
            (find_dirty_nonbulk s (block_index s.ram_list pss.block) pss.page hbulk).1
          rw [block_index_cleared _ _ a1]
          refine clean_range_join _ _ _ _ _ hfc ?_
          intro _ i hi1 hi2 _
          exact b2 i hi1 hi2
        · rw [if_neg hz] at h
          simp only [Option.some.injEq] at h
          subst h
          exact absurd hr0 hz

theorem ram_list_pos_of_total (l : List RAMBlock) (h : ram_bytes_total l ≠ 0) : 0 < l.length := by
  cases l with
  | nil => exact absurd rfl h
  | cons _ _ => simp

/-- C13: for every sender state outside the bulk stage with non-zero total RAM and an
empty request queue, if `ram_find_and_save_block` returns 0 then no dirty bit is set
among the pages within the used length of any migratable region. -/
theorem zero_means_no_dirty_pages (env : SaveEnv) (fuel : Nat) (s s2 : SaveState) (ls : Bool)
    (hbulk : s.rs.ram_bulk_stage = false) (htotal : ram_bytes_total s.ram_list ≠ 0)
    (hq : s.rs.src_page_requests = [])
    (h : ram_find_and_save_block env fuel s ls = some (s2, 0)) :
    ∀ (j : Nat) (b : RAMBlock), s2.ram_list[j]? = some b → b.migratable = true →
      ∀ i, i < b.used_length / TARGET_PAGE_SIZE → b.bmap i = false := by
  unfold ram_find_and_save_block at h
  rw [if_neg htotal] at h
  have hlen := ram_list_pos_of_total _ htotal
  cases hl : ram_find_and_save_block_loop env ls fuel s (pss_init s) with
  | none =>
    rw [hl] at h
    cases h
  | some r =>
    rw [hl] at h
    simp only [Option.some.injEq, Prod.mk.injEq] at h
    obtain ⟨h1, h2⟩ := h
    have hclean := find_and_save_loop_clean env ls fuel s _ r hbulk hq hlen
      (by
        intro hc
        unfold pss_init at hc
        cases hb : s.rs.last_seen_block <;> simp [hb] at hc)
      (by
        intro L hL
        unfold pss_init
        simp only [hL]
        unfold scanned_clean
        refine ⟨fun hc => by simp at hc, fun _ => ?_⟩
        simp only [block_index]
        exact ⟨le_refl _, fun _ => clean_range_empty _ _ _, fun hne => absurd rfl hne⟩)
      hl h2
    intro j b hb hm i hi
    have hrl : s2.ram_list = r.1.ram_list := by rw [← h1]
    rw [hrl] at hb
    have hrb : ramblock r.1.ram_list j = b := ramblock_of_some _ _ _ hb
    have hc := hclean j
    unfold clean_range used_pages at hc
    rw [hrb] at hc
    rw [← shiftRight_page_bits] at hi
    exact hc hm i (Nat.zero_le _) hi hi

/-- Witness of C13: a scan over "pc.ram" without dirty pages returns 0 after one wrap. -/
theorem zero_means_no_dirty_pages_witness :
    ram_find_and_save_block plain_save_env 2 clean_scan_state false =
      some ({ clean_scan_state with
        rs := { clean_scan_state.rs with last_seen_block := some 0, last_page := 2 } }, 0) ∧
    ∀ (j : Nat) (b : RAMBlock),
      ({ clean_scan_state with
        rs := { clean_scan_state.rs with last_seen_block := some 0, last_page := 2 } }
          : SaveState).ram_list[j]? = some b →
      b.migratable = true → ∀ i, i < b.used_length / TARGET_PAGE_SIZE → b.bmap i = false :=
  ⟨rfl, zero_means_no_dirty_pages plain_save_env 2 clean_scan_state _ false rfl (by decide) rfl
    rfl⟩

/-! ## Sending an all-zero page -/

theorem page_offset_aligned (page : Nat) : (page <<< TARGET_PAGE_BITS) % 2 ^ 64 % 4096 = 0 := by
  have hP : (2:Nat)^64 = 18446744073709551616 := by norm_num
  rw [Nat.shiftLeft_eq, hP]
  have : TARGET_PAGE_BITS = 12 := rfl
  rw [this]
  norm_num

theorem save_zero_page_zero (s : SaveState) (block off : Nat) (hoff : off % 4096 = 0)
    (hz : buffer_is_zero (read_buffer s.mem (host_of s.ram_list block + off) TARGET_PAGE_SIZE) = true)
    (hid : (idstr_of s.ram_list block).length < 256) :
    save_zero_page s block off =
      ({ s with
          rs := { s.rs with
            last_sent_block := some block,
            f := { s.rs.f with
              buf := s.rs.f.buf ++ zero_frame_bytes s.ram_list s.rs.last_sent_block block off } },
          ram_counters := { s.ram_counters with
            duplicate := s.ram_counters.duplicate + 1,
            transferred := s.ram_counters.transferred +
              (zero_frame_bytes s.ram_list s.rs.last_sent_block block off).length } }, 1) := by
  unfold save_zero_page zero_frame_bytes header_bytes
  simp only [hz, if_true]
  by_cases hb : s.rs.last_sent_block = some block
  · simp [save_page_header_continue _ _ _ _ _ hb, hb, qemu_put_be64, qemu_put_byte, be64_bytes]
  · simp [save_page_header_first _ _ _ _ _ hb (zero_flag_no_continue off hoff),
        hb, qemu_put_be64, qemu_put_byte, qemu_put_buffer, Nat.mod_eq_of_lt hid, be64_bytes]
    omega

theorem control_save_page_declined (env : SaveEnv) (s : SaveState) (block page : Nat)
    (hhook : hook_declines env s block page) :
    control_save_page env s block ((page <<< TARGET_PAGE_BITS) % 2 ^ 64) = (s, false, -1) := by
  obtain ⟨h1, h2⟩ := hhook
  unfold control_save_page
  simp only [h1, h2, if_true]

theorem save_page_use_compression_congr (env : SaveEnv) (s t : SaveState)
    (h : t.rs.ram_bulk_stage = s.rs.ram_bulk_stage) :
    save_page_use_compression env t = save_page_use_compression env s := by
  unfold save_page_use_compression
  rw [h]

theorem flush_compressed_data_on (env : SaveEnv) (s : SaveState)
    (h : env.migrate_use_compression = true) :
    flush_compressed_data env s =
      { s with
        rs := { s.rs with f := { s.rs.f with buf := s.rs.f.buf ++ s.comp_file } },
        comp_file := [],
        ram_counters := { s.ram_counters with
          transferred := s.ram_counters.transferred + s.comp_file.length } } := by
  unfold flush_compressed_data
  simp [h, qemu_put_qemu_file, qemu_put_buffer]

theorem save_page_use_compression_on (env : SaveEnv) (s : SaveState)
    (h : save_page_use_compression env s = true) : env.migrate_use_compression = true := by
  unfold save_page_use_compression at h
  by_cases hc : env.migrate_use_compression = true
  · exact hc
  · simp [hc] at h

theorem flush_for_block_fields (env : SaveEnv) (s : SaveState) (block : Nat) :
    (flush_for_block env s block).mem = s.mem ∧
    (flush_for_block env s block).ram_list = s.ram_list ∧
    (flush_for_block env s block).xbzrle_cache = s.xbzrle_cache ∧
    (flush_for_block env s block).xbzrle_counters = s.xbzrle_counters ∧
    (flush_for_block env s block).save_events = s.save_events ∧
    (flush_for_block env s block).rs.last_sent_block = s.rs.last_sent_block ∧
    (flush_for_block env s block).rs.ram_bulk_stage = s.rs.ram_bulk_stage ∧
    (flush_for_block env s block).rs.f.buf = s.rs.f.buf ++ flushed_before env s block ∧
    (flush_for_block env s block).ram_counters.duplicate = s.ram_counters.duplicate ∧
    (flush_for_block env s block).ram_counters.normal = s.ram_counters.normal ∧
    (flush_for_block env s block).ram_counters.dirty_sync_count =
      s.ram_counters.dirty_sync_count ∧
    (flush_for_block env s block).ram_counters.transferred =
      s.ram_counters.transferred + (flushed_before env s block).length := by
  unfold flush_for_block flushed_before
  by_cases hc : (decide (some block ≠ s.rs.last_sent_block) && save_page_use_compression env s) = true
  · rw [if_pos hc, if_pos hc]
    have hu : save_page_use_compression env s = true := by
      simp only [Bool.and_eq_true] at hc
      exact hc.2
    rw [flush_compressed_data_on env s (save_page_use_compression_on env s hu)]
    exact ⟨rfl, rfl, rfl, rfl, rfl, rfl, rfl, rfl, rfl, rfl, rfl, rfl⟩
  · rw [if_neg hc, if_neg hc]
    simp

set_option maxRecDepth 8000 in
theorem ram_save_target_page_zero (env : SaveEnv) (s : SaveState) (block page : Nat)
    (ls : Bool) (hhook : hook_declines env s block page)
    (hz : buffer_is_zero (page_bytes s block page) = true)
    (hid : (idstr_of s.ram_list block).length < 256) :
    ram_save_target_page env s block page ls =
      (ram_release_pages env
        (if !save_page_use_compression env s then
           xbzrle_cache_zero_page env
             (save_zero_page (flush_for_block env s block) block
               ((page <<< TARGET_PAGE_BITS) % 2 ^ 64)).1
             (((ramblock s.ram_list block).offset + (page <<< TARGET_PAGE_BITS) % 2 ^ 64) % 2 ^ 64)
         else (save_zero_page (flush_for_block env s block) block
               ((page <<< TARGET_PAGE_BITS) % 2 ^ 64)).1)
        (ramblock s.ram_list block).idstr ((page <<< TARGET_PAGE_BITS) % 2 ^ 64) 1, 1) := by
  unfold ram_save_target_page
  simp only []
  rw [control_save_page_declined env s block page hhook]
  simp only [Bool.false_eq_true, if_false]
  unfold page_bytes at hz
  generalize hoffeq : (page <<< TARGET_PAGE_BITS) % 2 ^ 64 = off at hz ⊢
  have hoff : off % 4096 = 0 := by
    rw [← hoffeq]
    exact page_offset_aligned page
  clear hoffeq hhook
  have hs1 : (if (decide (some block ≠ s.rs.last_sent_block) &&
      save_page_use_compression env s) = true then flush_compressed_data env s else s) =
      flush_for_block env s block := rfl
  rw [hs1]
  obtain ⟨hm, hl, -, -, -, -, hbulk, -⟩ := flush_for_block_fields env s block
  have hzp := save_zero_page_zero (flush_for_block env s block) block off hoff
    (by rw [hm, hl]; exact hz) (by rw [hl]; exact hid)
  have h2 : (save_zero_page (flush_for_block env s block) block off).2 = 1 := by rw [hzp]
  have hl2 : (save_zero_page (flush_for_block env s block) block off).1.ram_list = s.ram_list := by
    rw [hzp]
    exact hl
  have hb2 : (save_zero_page (flush_for_block env s block) block off).1.rs.ram_bulk_stage =
      s.rs.ram_bulk_stage := by
    rw [hzp]
    exact hbulk
  have hx : ∀ (t : SaveState) (a : Nat), (xbzrle_cache_zero_page env t a).ram_list = t.ram_list := by
    intro t a
    unfold xbzrle_cache_zero_page
    split_ifs <;> rfl
  rw [h2, hl2, save_page_use_compression_congr env s _ hb2]
  simp
  split_ifs <;> simp [hx, hl2]

theorem ram_release_pages_fields (env : SaveEnv) (s : SaveState) (n : List Nat) (o : Nat)
    (p : Int) :
    (ram_release_pages env s n o p).rs = s.rs ∧
    (ram_release_pages env s n o p).ram_counters = s.ram_counters ∧
    (ram_release_pages env s n o p).xbzrle_counters = s.xbzrle_counters ∧
    (ram_release_pages env s n o p).mem = s.mem ∧
    (ram_release_pages env s n o p).ram_list = s.ram_list ∧
    (ram_release_pages env s n o p).xbzrle_cache = s.xbzrle_cache ∧
    (ram_release_pages env s n o p).comp_file = s.comp_file := by
  unfold ram_release_pages
  split_ifs <;> exact ⟨rfl, rfl, rfl, rfl, rfl, rfl, rfl⟩

theorem xbzrle_cache_zero_page_fields (env : SaveEnv) (s : SaveState) (a : Nat) :
    (xbzrle_cache_zero_page env s a).rs = s.rs ∧
    (xbzrle_cache_zero_page env s a).ram_counters = s.ram_counters ∧
    (xbzrle_cache_zero_page env s a).xbzrle_counters = s.xbzrle_counters ∧
    (xbzrle_cache_zero_page env s a).mem = s.mem ∧
    (xbzrle_cache_zero_page env s a).ram_list = s.ram_list ∧
    (xbzrle_cache_zero_page env s a).comp_file = s.comp_file := by
  unfold xbzrle_cache_zero_page
  split_ifs <;> exact ⟨rfl, rfl, rfl, rfl, rfl, rfl⟩

theorem save_zero_page_fields (t : SaveState) (block off : Nat) (hoff : off % 4096 = 0)
    (hz : buffer_is_zero (read_buffer t.mem (host_of t.ram_list block + off) TARGET_PAGE_SIZE) = true)
    (hid : (idstr_of t.ram_list block).length < 256) :
    (save_zero_page t block off).2 = 1 ∧
    (save_zero_page t block off).1.rs.f.buf =
      t.rs.f.buf ++ zero_frame_bytes t.ram_list t.rs.last_sent_block block off ∧
    (save_zero_page t block off).1.rs.last_sent_block = some block ∧
    (save_zero_page t block off).1.rs.ram_bulk_stage = t.rs.ram_bulk_stage ∧
    (save_zero_page t block off).1.ram_counters.duplicate = t.ram_counters.duplicate + 1 ∧
    (save_zero_page t block off).1.ram_counters.transferred =
      t.ram_counters.transferred +
        (zero_frame_bytes t.ram_list t.rs.last_sent_block block off).length ∧
    (save_zero_page t block off).1.ram_counters.normal = t.ram_counters.normal ∧
    (save_zero_page t block off).1.ram_counters.dirty_sync_count =
      t.ram_counters.dirty_sync_count ∧
    (save_zero_page t block off).1.mem = t.mem ∧
    (save_zero_page t block off).1.ram_list = t.ram_list ∧
    (save_zero_page t block off).1.xbzrle_counters = t.xbzrle_counters ∧
    (save_zero_page t block off).1.xbzrle_cache = t.xbzrle_cache := by
  rw [save_zero_page_zero t block off hoff hz hid]
  exact ⟨rfl, rfl, rfl, rfl, rfl, rfl, rfl, rfl, rfl, rfl, rfl, rfl⟩

theorem zero_page_tail_fields (env : SaveEnv) (s0 Z : SaveState) (a : Nat) (n : List Nat)
    (o : Nat) (p : Int) :
    (ram_release_pages env
      (if !save_page_use_compression env s0 then xbzrle_cache_zero_page env Z a else Z)
      n o p).rs = Z.rs ∧
    (ram_release_pages env
      (if !save_page_use_compression env s0 then xbzrle_cache_zero_page env Z a else Z)
      n o p).ram_counters = Z.ram_counters ∧
    (ram_release_pages env
      (if !save_page_use_compression env s0 then xbzrle_cache_zero_page env Z a else Z)
      n o p).xbzrle_counters = Z.xbzrle_counters ∧
    (ram_release_pages env
      (if !save_page_use_compression env s0 then xbzrle_cache_zero_page env Z a else Z)
      n o p).mem = Z.mem ∧
    (ram_release_pages env
      (if !save_page_use_compression env s0 then xbzrle_cache_zero_page env Z a else Z)
      n o p).ram_list = Z.ram_list ∧
    (ram_release_pages env
      (if !save_page_use_compression env s0 then xbzrle_cache_zero_page env Z a else Z)
      n o p).xbzrle_cache =
      (if save_page_use_compression env s0 || Z.rs.ram_bulk_stage || !env.migrate_use_xbzrle then
         Z.xbzrle_cache
       else
         (cache_insert env Z.xbzrle_cache a (List.replicate TARGET_PAGE_SIZE 0)
           Z.ram_counters.dirty_sync_count).1) := by
  obtain ⟨r1, r2, r3, r4, r5, r6, -⟩ := ram_release_pages_fields env
    (if !save_page_use_compression env s0 then xbzrle_cache_zero_page env Z a else Z) n o p
  obtain ⟨x1, x2, x3, x4, x5, -⟩ := xbzrle_cache_zero_page_fields env Z a
  rw [r1, r2, r3, r4, r5, r6]
  by_cases hc : save_page_use_compression env s0 = true
  · simp [hc]
  · simp only [hc, Bool.not_false, if_true, x1, x2, x3, x4, x5, Bool.false_or, true_and]
    unfold xbzrle_cache_zero_page
    split_ifs <;> simp_all

theorem ram_save_target_page_zero_fields (env : SaveEnv) (s : SaveState) (block page : Nat)
    (ls : Bool) (hhook : hook_declines env s block page)
    (hz : buffer_is_zero (page_bytes s block page) = true)
    (hid : (idstr_of s.ram_list block).length < 256) :
    (ram_save_target_page env s block page ls).2 = 1 ∧
    (ram_save_target_page env s block page ls).1.rs.f.buf =
      s.rs.f.buf ++ flushed_before env s block ++
        zero_frame_bytes s.ram_list s.rs.last_sent_block block
          ((page <<< TARGET_PAGE_BITS) % 2 ^ 64) ∧
    (ram_save_target_page env s block page ls).1.rs.last_sent_block = some block ∧
    (ram_save_target_page env s block page ls).1.rs.ram_bulk_stage = s.rs.ram_bulk_stage ∧
    (ram_save_target_page env s block page ls).1.ram_counters.duplicate =
      s.ram_counters.duplicate + 1 ∧
    (ram_save_target_page env s block page ls).1.ram_counters.transferred =
      s.ram_counters.transferred + (flushed_before env s block).length +
        (zero_frame_bytes s.ram_list s.rs.last_sent_block block
          ((page <<< TARGET_PAGE_BITS) % 2 ^ 64)).length ∧
    (ram_save_target_page env s block page ls).1.ram_counters.normal = s.ram_counters.normal ∧
    (ram_save_target_page env s block page ls).1.ram_counters.dirty_sync_count =
      s.ram_counters.dirty_sync_count ∧
    (ram_save_target_page env s block page ls).1.mem = s.mem ∧
    (ram_save_target_page env s block page ls).1.ram_list = s.ram_list ∧
    (ram_save_target_page env s block page ls).1.xbzrle_counters = s.xbzrle_counters ∧
    (ram_save_target_page env s block page ls).1.xbzrle_cache =
      (if save_page_use_compression env s || s.rs.ram_bulk_stage || !env.migrate_use_xbzrle then
         s.xbzrle_cache
       else
         (cache_insert env s.xbzrle_cache
           (((ramblock s.ram_list block).offset + (page <<< TARGET_PAGE_BITS) % 2 ^ 64) % 2 ^ 64)
           (List.replicate TARGET_PAGE_SIZE 0) s.ram_counters.dirty_sync_count).1) := by
  rw [ram_save_target_page_zero env s block page ls hhook hz hid]
  unfold page_bytes at hz
  have hoff := page_offset_aligned page
  obtain ⟨hm, hl, hca, hxc, -, hlsb, hbulk, hbuf, hdup, hnorm, hdsc, htr⟩ :=
    flush_for_block_fields env s block
  obtain ⟨-, z2, z3, z4, z5, z6, z7, z8, z9, z10, z11, z12⟩ :=
    save_zero_page_fields (flush_for_block env s block) block
      ((page <<< TARGET_PAGE_BITS) % 2 ^ 64) hoff
      (by rw [hm, hl]; exact hz) (by rw [hl]; exact hid)
  obtain ⟨t1, t2, t3, t4, t5, t6⟩ := zero_page_tail_fields env s
    (save_zero_page (flush_for_block env s block) block ((page <<< TARGET_PAGE_BITS) % 2 ^ 64)).1
    (((ramblock s.ram_list block).offset + (page <<< TARGET_PAGE_BITS) % 2 ^ 64) % 2 ^ 64)
    (ramblock s.ram_list block).idstr ((page <<< TARGET_PAGE_BITS) % 2 ^ 64) 1
  refine ⟨rfl, ?_, ?_, ?_, ?_, ?_, ?_, ?_, ?_, ?_, ?_, ?_⟩
  · rw [t1, z2, hbuf, hl, hlsb]
  · rw [t1, z3]
  · rw [t1, z4, hbulk]
  · rw [t2, z5, hdup]
  · rw [t2, z6, htr, hl, hlsb]
  · rw [t2, z7, hnorm]
  · rw [t2, z8, hdsc]
  · rw [t4, z9, hm]
  · rw [t5, z10, hl]
  · rw [t3, z11, hxc]
  · rw [t6, z4, hbulk, z12, hca, z8, hdsc]

theorem buffer_is_zero_read (mem : Nat → Nat) (p n : Nat) (h : ∀ a, mem a % 256 = 0) :
    buffer_is_zero (read_buffer mem p n) = true := by
  simp [buffer_is_zero, read_buffer, h]

theorem flushed_before_same (env : SaveEnv) (s : SaveState) (block : Nat)
    (h : s.rs.last_sent_block = some block) : flushed_before env s block = [] := by
  unfold flushed_before
  simp [h]

theorem plain_hook_declines (s : SaveState) (block page : Nat) :
    hook_declines plain_save_env s block page := ⟨rfl, rfl⟩

theorem compress_hook_declines (s : SaveState) (block page : Nat) :
    hook_declines compress_env s block page := ⟨rfl, rfl⟩

/-! ## C24: ZERO frames -/

/-- C24, as stated, fails: when the page is the first of a new block under compression,
`ram_save_target_page` first flushes the compressed output of earlier pages, so the
stream does not grow by the ZERO frame alone and `transferred` grows by more than the
frame's size (here by 3 + 11 bytes for a frame of 11). -/
theorem zero_page_flush_counterexample :
    hook_declines compress_env pending_state 1 0 ∧
    buffer_is_zero (page_bytes pending_state 1 0) = true ∧
    (ram_save_target_page compress_env pending_state 1 0 false).1.rs.f.buf =
      [1, 2, 3] ++ [0, 0, 0, 0, 0, 0, 0, RAM_SAVE_FLAG_ZERO, 1, 98, 0] ∧
    (ram_save_target_page compress_env pending_state 1 0 false).1.ram_counters.transferred ≠
      pending_state.ram_counters.transferred +
        (zero_frame_bytes pending_state.ram_list pending_state.rs.last_sent_block 1 0).length := by
  have hz : buffer_is_zero (page_bytes pending_state 1 0) = true :=
    buffer_is_zero_read _ _ _ (fun _ => rfl)
  have h := ram_save_target_page_zero_fields compress_env pending_state 1 0 false
    (compress_hook_declines _ _ _) hz (by decide)
  refine ⟨compress_hook_declines _ _ _, hz, ?_, ?_⟩
  · rw [h.2.1]
    decide
  · rw [h.2.2.2.2.2.1]
    decide

/-- C24, amended: for an all-zero target page that the control hook does not take,
`ram_save_target_page` returns 1 and appends to the stream, after the compressed output
of earlier pages that it flushes when the page is the first of a new block under
compression, exactly one ZERO frame: the page header with the ZERO flag and the single
byte 0.  `duplicate` grows by 1 and `transferred` by the flushed bytes plus the frame's
size.  Sending the same page again appends one more ZERO frame, of 9 bytes: the header
word with ZERO and CONTINUE and the byte 0. -/
theorem zero_page_frames (env : SaveEnv) (s : SaveState) (block page : Nat) (ls : Bool)
    (hhook : hook_declines env s block page)
    (hz : buffer_is_zero (page_bytes s block page) = true)
    (hid : (idstr_of s.ram_list block).length < 256)
    (hhook2 : hook_declines env (ram_save_target_page env s block page ls).1 block page) :
    (ram_save_target_page env s block page ls).2 = 1 ∧
    (ram_save_target_page env s block page ls).1.rs.f.buf =
      s.rs.f.buf ++ flushed_before env s block ++
        (header_bytes s.ram_list s.rs.last_sent_block block
          ((page <<< TARGET_PAGE_BITS) % 2 ^ 64) RAM_SAVE_FLAG_ZERO ++ [0]) ∧
    (ram_save_target_page env s block page ls).1.ram_counters.duplicate =
      s.ram_counters.duplicate + 1 ∧
    (ram_save_target_page env s block page ls).1.ram_counters.transferred =
      s.ram_counters.transferred + (flushed_before env s block).length +
        (header_bytes s.ram_list s.rs.last_sent_block block
          ((page <<< TARGET_PAGE_BITS) % 2 ^ 64) RAM_SAVE_FLAG_ZERO ++ [0]).length ∧
    (ram_save_target_page env (ram_save_target_page env s block page ls).1 block page ls).2 = 1 ∧
    (ram_save_target_page env (ram_save_target_page env s block page ls).1 block page
        ls).1.rs.f.buf =
      (ram_save_target_page env s block page ls).1.rs.f.buf ++
        (be64_bytes ((page <<< TARGET_PAGE_BITS) % 2 ^ 64 ||| RAM_SAVE_FLAG_ZERO |||
          RAM_SAVE_FLAG_CONTINUE) ++ [0]) ∧
    (ram_save_target_page env (ram_save_target_page env s block page ls).1 block page
        ls).1.ram_counters.duplicate = s.ram_counters.duplicate + 2 ∧
    (ram_save_target_page env (ram_save_target_page env s block page ls).1 block page
        ls).1.ram_counters.transferred =
      (ram_save_target_page env s block page ls).1.ram_counters.transferred + 9 := by
  obtain ⟨a1, a2, a3, -, a5, a6, -, -, a9, a10, -, -⟩ :=
    ram_save_target_page_zero_fields env s block page ls hhook hz hid
  have hz2 : buffer_is_zero (page_bytes (ram_save_target_page env s block page ls).1 block page)
      = true := by
    unfold page_bytes
    rw [a9, a10]
    exact hz
  obtain ⟨b1, b2, -, -, b5, b6, -⟩ :=
    ram_save_target_page_zero_fields env (ram_save_target_page env s block page ls).1 block page
      ls hhook2 hz2 (by rw [a10]; exact hid)
  have hfl := flushed_before_same env (ram_save_target_page env s block page ls).1 block a3
  have hfr : zero_frame_bytes (ram_save_target_page env s block page ls).1.ram_list
      (ram_save_target_page env s block page ls).1.rs.last_sent_block block
      ((page <<< TARGET_PAGE_BITS) % 2 ^ 64) =
      be64_bytes ((page <<< TARGET_PAGE_BITS) % 2 ^ 64 ||| RAM_SAVE_FLAG_ZERO |||
          RAM_SAVE_FLAG_CONTINUE) ++ [0] := by
    unfold zero_frame_bytes header_bytes
    rw [if_pos a3]
  rw [hfl, hfr] at b2 b6
  refine ⟨a1, a2, a5, a6, b1, ?_, ?_, ?_⟩
  · rw [b2, List.append_nil]
  · rw [b5, a5]
  · rw [b6]
    simp [be64_bytes]

/-- Witness of the amended C24: page 4 of region B in scenario S6. -/
theorem zero_page_frames_witness :
    (ram_save_target_page plain_save_env s6_state 1 4 false).2 = 1 ∧
    (ram_save_target_page plain_save_env s6_state 1 4 false).1.ram_counters.duplicate = 1 :=
  have h := zero_page_frames plain_save_env s6_state 1 4 false (plain_hook_declines _ _ _)
    (buffer_is_zero_read _ _ _ (fun _ => rfl)) (by decide) (plain_hook_declines _ _ _)
  ⟨h.1, h.2.2.1⟩

/-! ## A request at the head of the queue -/

theorem host_page_bits_mask_target : host_page_bits_mask TARGET_PAGE_SIZE = 0 := by decide

theorem ram_save_host_page_loop_single (env : SaveEnv) (ls : Bool) (block fuel : Nat)
    (s : SaveState) (page : Nat) (pages : Int)
    (hps : (ramblock s.ram_list block).page_size = TARGET_PAGE_SIZE) :
    ram_save_host_page_loop env ls block (fuel + 1) s page pages =
      if (migration_bitmap_clear_dirty s block page).2 = false then
        some ((migration_bitmap_clear_dirty s block page).1, page, pages)
      else if (ram_save_target_page env (migration_bitmap_clear_dirty s block page).1 block page
          ls).2 < 0 then
        some ((ram_save_target_page env (migration_bitmap_clear_dirty s block page).1 block page
          ls).1, page,
          (ram_save_target_page env (migration_bitmap_clear_dirty s block page).1 block page ls).2)
      else
        some (clear_unsent (ram_save_target_page env (migration_bitmap_clear_dirty s block page).1
            block page ls).1 block page, page,
          pages + (ram_save_target_page env (migration_bitmap_clear_dirty s block page).1 block
            page ls).2) := by
  rw [ram_save_host_page_loop]
  simp only [hps, host_page_bits_mask_target, Nat.and_zero, ne_eq, not_true_eq_false,
    decide_False, Bool.false_and, Bool.false_eq_true, if_false, Nat.add_sub_cancel]
  by_cases hc : (migration_bitmap_clear_dirty s block page).2 = true
  · have hc3 : ¬ (migration_bitmap_clear_dirty s block page).2 = false := by simp [hc]
    rw [if_neg hc3]
    simp only [hc, Bool.not_true, Bool.false_eq_true, if_false]
    by_cases ht : (ram_save_target_page env (migration_bitmap_clear_dirty s block page).1 block
        page ls).2 < 0
    · rw [if_pos ht, if_pos ht]
    · rw [if_neg ht, if_neg ht]
      unfold clear_unsent
      cases (ramblock (ram_save_target_page env (migration_bitmap_clear_dirty s block page).1
          block page ls).1.ram_list block).unsentmap <;> rfl
  · have hc2 : (migration_bitmap_clear_dirty s block page).2 = false := by simpa using hc
    rw [if_pos hc2]
    simp only [hc2, Bool.not_false, if_true]

theorem get_queued_page_head_dirty (s : SaveState) (pss : PageSearchStatus)
    (e : RAMSrcPageRequest) (rest : List RAMSrcPageRequest)
    (hq : s.rs.src_page_requests = e :: rest) (hlen : e.len > TARGET_PAGE_SIZE)
    (hd : (ramblock s.ram_list e.rb).bmap (e.offset >>> TARGET_PAGE_BITS) = true) :
    get_queued_page s pss =
      some ({ s with rs := { s.rs with
                src_page_requests :=
                  ({ e with len := e.len - TARGET_PAGE_SIZE,
                            offset := (e.offset + TARGET_PAGE_SIZE) % 2 ^ 64 } :: rest),
                ram_bulk_stage := false } },
            { pss with block := some e.rb, page := e.offset >>> TARGET_PAGE_BITS }, true) := by
  unfold get_queued_page queue_fuel
  rw [get_queued_page_loop, unqueue_page_long s 0 e rest hq hlen]
  simp only [hd, Bool.not_true, Bool.false_eq_true, if_false]

theorem clear_unsent_fields (s : SaveState) (b p : Nat) :
    (clear_unsent s b p).rs = s.rs ∧ (clear_unsent s b p).ram_counters = s.ram_counters ∧
    ∀ j, (ramblock (clear_unsent s b p).ram_list j).bmap = (ramblock s.ram_list j).bmap := by
  unfold clear_unsent
  cases hu : (ramblock s.ram_list b).unsentmap with
  | none => exact ⟨rfl, rfl, fun _ => rfl⟩
  | some m =>
    refine ⟨rfl, rfl, ?_⟩
    intro j
    show (ramblock (s.ram_list.set b _) j).bmap = _
    by_cases hj : j = b
    · subst hj
      by_cases hv : j < s.ram_list.length
      · rw [ramblock_set_valid _ _ _ hv]
      · rw [ramblock_set_invalid _ _ _ (Nat.le_of_not_lt hv)]
    · rw [ramblock_set_ne _ _ _ _ hj]

theorem request_taken_fields (s : SaveState) (e : RAMSrcPageRequest)
    (rest : List RAMSrcPageRequest) (blk : RAMBlock) (hb : s.ram_list[e.rb]? = some blk)
    (hd : blk.bmap (e.offset >>> TARGET_PAGE_BITS) = true) :
    (request_taken s e rest).rs.src_page_requests =
      { e with len := e.len - TARGET_PAGE_SIZE,
               offset := (e.offset + TARGET_PAGE_SIZE) % 2 ^ 64 } :: rest ∧
    (request_taken s e rest).rs.ram_bulk_stage = false ∧
    (request_taken s e rest).rs.f = s.rs.f ∧
    (request_taken s e rest).mem = s.mem ∧
    (ramblock (request_taken s e rest).ram_list e.rb).bmap =
      clear_bit (e.offset >>> TARGET_PAGE_BITS) blk.bmap ∧
    (request_taken s e rest).rs.migration_dirty_pages = dec64 s.rs.migration_dirty_pages := by
  have hrb : ramblock s.ram_list e.rb = blk := ramblock_of_some _ _ _ hb
  have hv : e.rb < s.ram_list.length := by
    by_contra hn
    rw [List.getElem?_eq_none (Nat.le_of_not_lt hn)] at hb
    cases hb
  unfold request_taken migration_bitmap_clear_dirty
  simp only [hrb, hd, if_true, true_and, and_true]
  rw [ramblock_set_valid _ _ _ hv]

theorem urgent_request_step (env : SaveEnv) (ls : Bool) (fuel : Nat) (s : SaveState)
    (e : RAMSrcPageRequest) (rest : List RAMSrcPageRequest) (blk : RAMBlock)
    (htotal : ram_bytes_total s.ram_list ≠ 0)
    (hq : s.rs.src_page_requests = e :: rest) (hlen : e.len > TARGET_PAGE_SIZE)
    (hb : s.ram_list[e.rb]? = some blk) (hm : blk.migratable = true)
    (hps : blk.page_size = TARGET_PAGE_SIZE)
    (hd : blk.bmap (e.offset >>> TARGET_PAGE_BITS) = true)
    (hsend : 0 < (ram_save_target_page env (request_taken s e rest) e.rb
      (e.offset >>> TARGET_PAGE_BITS) ls).2) :
    ram_find_and_save_block env (fuel + 1) s ls =
      some ({ clear_unsent (ram_save_target_page env (request_taken s e rest) e.rb
                (e.offset >>> TARGET_PAGE_BITS) ls).1 e.rb (e.offset >>> TARGET_PAGE_BITS) with
              rs := { (clear_unsent (ram_save_target_page env (request_taken s e rest) e.rb
                (e.offset >>> TARGET_PAGE_BITS) ls).1 e.rb (e.offset >>> TARGET_PAGE_BITS)).rs with
                last_seen_block := some e.rb,
                last_page := e.offset >>> TARGET_PAGE_BITS } },
            (ram_save_target_page env (request_taken s e rest) e.rb
              (e.offset >>> TARGET_PAGE_BITS) ls).2) := by
  have hrb : ramblock s.ram_list e.rb = blk := ramblock_of_some _ _ _ hb
  unfold request_taken at hsend ⊢
  unfold ram_find_and_save_block
  rw [if_neg htotal, ram_find_and_save_block_loop,
    get_queued_page_head_dirty s (pss_init s) e rest hq hlen (by rw [hrb]; exact hd)]
  simp only [Bool.not_true, Bool.false_eq_true, if_false, if_true]
  unfold ram_save_host_page
  simp only [block_index, hrb, hm, Bool.not_true, Bool.false_eq_true, if_false]
  rw [ram_save_host_page_loop_single env ls e.rb _ _ _ _ (by
    show (ramblock s.ram_list e.rb).page_size = TARGET_PAGE_SIZE
    rw [hrb]; exact hps)]
  have hc : (migration_bitmap_clear_dirty
      { s with rs := { s.rs with
          src_page_requests :=
            ({ e with len := e.len - TARGET_PAGE_SIZE,
                      offset := (e.offset + TARGET_PAGE_SIZE) % 2 ^ 64 } :: rest),
          ram_bulk_stage := false } }
      e.rb (e.offset >>> TARGET_PAGE_BITS)).2 = true := by
    unfold migration_bitmap_clear_dirty
    simp only [hrb, hd, if_true]
  simp only [] at hc hsend
  rw [if_neg (fun h => by rw [hc] at h; cases h), if_neg (by omega)]
  simp only [zero_add]
  rw [if_neg (by
    simp only [Bool.and_true, decide_eq_true_eq]
    omega)]

theorem urgent_request_fields (env : SaveEnv) (ls : Bool) (fuel : Nat) (s : SaveState)
    (e e2 : RAMSrcPageRequest) (page : Nat) (rest : List RAMSrcPageRequest) (blk : RAMBlock)
    (htotal : ram_bytes_total s.ram_list ≠ 0)
    (hq : s.rs.src_page_requests = e :: rest) (hlen : e.len > TARGET_PAGE_SIZE)
    (hpage : e.offset >>> TARGET_PAGE_BITS = page)
    (he2 : e2 = { e with len := e.len - TARGET_PAGE_SIZE,
                         offset := (e.offset + TARGET_PAGE_SIZE) % 2 ^ 64 })
    (hb : s.ram_list[e.rb]? = some blk) (hm : blk.migratable = true)
    (hps : blk.page_size = TARGET_PAGE_SIZE)
    (hd : blk.bmap page = true)
    (hsend : 0 < (ram_save_target_page env (request_taken s e rest) e.rb page ls).2) :
    ∃ r, ram_find_and_save_block env (fuel + 1) s ls = some r ∧
      r.2 = (ram_save_target_page env (request_taken s e rest) e.rb page ls).2 ∧
      r.1.rs.f = (ram_save_target_page env (request_taken s e rest) e.rb page ls).1.rs.f ∧
      r.1.rs.src_page_requests = e2 :: rest ∧
      r.1.rs.ram_bulk_stage = false ∧
      r.1.rs.last_seen_block = some e.rb ∧
      r.1.rs.last_page = page ∧
      (ramblock r.1.ram_list e.rb).bmap = clear_bit page blk.bmap := by
  subst hpage he2
  refine ⟨_, urgent_request_step env ls fuel s e rest blk htotal hq hlen hb hm hps hd hsend,
    rfl, ?_, ?_, ?_, rfl, rfl, ?_⟩
  all_goals
    obtain ⟨q1, q2, -, -, q5, -⟩ := request_taken_fields s e rest blk hb hd
    obtain ⟨v1, -, -, v4, v5, -⟩ := scan_view_fields _ _
      (ram_save_target_page_view env (request_taken s e rest) e.rb
        (e.offset >>> TARGET_PAGE_BITS) ls)
    obtain ⟨u1, -, u3⟩ := clear_unsent_fields
      (ram_save_target_page env (request_taken s e rest) e.rb
        (e.offset >>> TARGET_PAGE_BITS) ls).1 e.rb (e.offset >>> TARGET_PAGE_BITS)
  · show (clear_unsent _ _ _).rs.f = _
    rw [u1]
  · show (clear_unsent _ _ _).rs.src_page_requests = _
    rw [u1, v5, q1]
  · show (clear_unsent _ _ _).rs.ram_bulk_stage = _
    rw [u1, v4, q2]
  · show (ramblock (clear_unsent _ _ _).ram_list e.rb).bmap = _
    rw [u3, v1, q5]

theorem s6_request_page : (0x4000 : Nat) >>> TARGET_PAGE_BITS = 4 := by decide

theorem s6_request_rest (B : Nat) :
    ({ rb := B, offset := 0x5000, len := 0x1000 } : RAMSrcPageRequest) =
      { rb := B, offset := (0x4000 + TARGET_PAGE_SIZE) % 2 ^ 64, len := 0x2000 - TARGET_PAGE_SIZE } := by
  have h1 : (0x4000 + TARGET_PAGE_SIZE) % 2 ^ 64 = 0x5000 := by norm_num [TARGET_PAGE_SIZE]
  have h2 : 0x2000 - TARGET_PAGE_SIZE = 0x1000 := by norm_num [TARGET_PAGE_SIZE]
  rw [h1, h2]

theorem s6_request_long : (0x2000 : Nat) > TARGET_PAGE_SIZE := by decide

/-! ## C17: a queued request pre-empts the scan -/

/-- C17, as stated, fails: in scenario S6 with 4096-byte host pages in region B, one
call of `ram_find_and_save_block` sends only the target page at offset 0x4000 (one ZERO
frame of 11 bytes, result 1); on return the queue still holds the rest of the entry,
offset 0x5000 and length 0x1000, and page 5 of region B still is dirty. -/
theorem urgent_preemption_counterexample :
    s6_state.rs.last_seen_block = some 0 ∧ s6_state.rs.last_page = 100 ∧
    s6_state.rs.src_page_requests = [{ rb := 1, offset := 0x4000, len := 0x2000 }] ∧
    (ramblock s6_state.ram_list 1).bmap 4 = true ∧ (ramblock s6_state.ram_list 1).bmap 5 = true ∧
    ∃ r, ram_find_and_save_block plain_save_env 1 s6_state false = some r ∧
      r.2 = 1 ∧
      r.1.rs.f.buf = [0, 0, 0, 0, 0, 0, 0x40, RAM_SAVE_FLAG_ZERO, 1, 98, 0] ∧
      r.1.rs.src_page_requests = [{ rb := 1, offset := 0x5000, len := 0x1000 }] ∧
      (ramblock r.1.ram_list 1).bmap 5 = true := by
  refine ⟨rfl, rfl, rfl, rfl, rfl, ?_⟩
  have hz := ram_save_target_page_zero_fields plain_save_env
    (request_taken s6_state { rb := 1, offset := 0x4000, len := 0x2000 } []) 1 4 false
    (plain_hook_declines _ _ _) (buffer_is_zero_read _ _ _ (fun _ => rfl)) (by decide)
  have hs : 0 < (ram_save_target_page plain_save_env
      (request_taken s6_state { rb := 1, offset := 0x4000, len := 0x2000 } []) 1 4 false).2 := by
    rw [hz.1]
    decide
  obtain ⟨r, hr, h1, h2, h3, -, -, -, h7⟩ := urgent_request_fields plain_save_env false 0 s6_state
    { rb := 1, offset := 0x4000, len := 0x2000 } { rb := 1, offset := 0x5000, len := 0x1000 } 4 []
    region_b (by decide) rfl s6_request_long s6_request_page (s6_request_rest 1) rfl rfl rfl rfl hs
  refine ⟨r, hr, ?_, ?_, ?_, ?_⟩
  · rw [h1]
    exact hz.1
  · rw [h2, hz.2.1]
    decide
  · exact h3
  · rw [h7]
    rfl

/-- C17, amended: when the request queue holds one entry for region B with offset
0x4000 and length 0x2000 whose two target pages are dirty, and region B has host pages
of the target page size, the next `ram_find_and_save_block` call (whose page send
succeeds) sends the one target page at offset 0x4000 and returns the result of that
send; on return the queue holds the rest of the entry, offset 0x5000 and length
0x1000, the bulk stage is over, `last_seen_block` is B, and of the two pages only the
first has its dirty bit cleared. -/
theorem urgent_preemption (env : SaveEnv) (ls : Bool) (fuel : Nat) (s : SaveState) (B : Nat)
    (blk : RAMBlock) (htotal : ram_bytes_total s.ram_list ≠ 0)
    (hq : s.rs.src_page_requests = [{ rb := B, offset := 0x4000, len := 0x2000 }])
    (hb : s.ram_list[B]? = some blk) (hm : blk.migratable = true)
    (hps : blk.page_size = TARGET_PAGE_SIZE)
    (hd4 : blk.bmap 4 = true) (hd5 : blk.bmap 5 = true)
    (hsend : 0 < (ram_save_target_page env
      (request_taken s { rb := B, offset := 0x4000, len := 0x2000 } []) B 4 ls).2) :
    ∃ r, ram_find_and_save_block env (fuel + 1) s ls = some r ∧
      r.2 = (ram_save_target_page env
        (request_taken s { rb := B, offset := 0x4000, len := 0x2000 } []) B 4 ls).2 ∧
      r.1.rs.f = (ram_save_target_page env
        (request_taken s { rb := B, offset := 0x4000, len := 0x2000 } []) B 4 ls).1.rs.f ∧
      r.1.rs.src_page_requests = [{ rb := B, offset := 0x5000, len := 0x1000 }] ∧
      r.1.rs.ram_bulk_stage = false ∧
      r.1.rs.last_seen_block = some B ∧
      (ramblock r.1.ram_list B).bmap 4 = false ∧
      (ramblock r.1.ram_list B).bmap 5 = true := by
  obtain ⟨r, hr, h1, h2, h3, h4, h5, -, h7⟩ := urgent_request_fields env ls fuel s
    { rb := B, offset := 0x4000, len := 0x2000 } { rb := B, offset := 0x5000, len := 0x1000 } 4 []
    blk htotal hq s6_request_long s6_request_page (s6_request_rest B) hb hm hps hd4 hsend
  refine ⟨r, hr, h1, h2, h3, h4, h5, ?_, ?_⟩
  · show (ramblock r.1.ram_list B).bmap 4 = false
    have h7b : (ramblock r.1.ram_list B).bmap = clear_bit 4 blk.bmap := h7
    rw [h7b]
    simp [clear_bit]
  · have h7b : (ramblock r.1.ram_list B).bmap = clear_bit 4 blk.bmap := h7
    rw [h7b]
    simp [clear_bit, hd5]

/-- Witness of the amended C17: scenario S6 with 4096-byte host pages in region B. -/
theorem urgent_preemption_witness :
    ∃ r, ram_find_and_save_block plain_save_env 1 s6_state false = some r ∧
      r.1.rs.src_page_requests = [{ rb := 1, offset := 0x5000, len := 0x1000 }] ∧
      r.1.rs.ram_bulk_stage = false ∧ r.1.rs.last_seen_block = some 1 :=
  have hz := ram_save_target_page_zero_fields plain_save_env
    (request_taken s6_state { rb := 1, offset := 0x4000, len := 0x2000 } []) 1 4 false
    (plain_hook_declines _ _ _) (buffer_is_zero_read _ _ _ (fun _ => rfl)) (by decide)
  have hs : 0 < (ram_save_target_page plain_save_env
      (request_taken s6_state { rb := 1, offset := 0x4000, len := 0x2000 } []) 1 4 false).2 := by
    rw [hz.1]
    decide
  have h := urgent_preemption plain_save_env false 0 s6_state 1 region_b (by decide) rfl rfl rfl
    rfl rfl rfl hs
  h.elim (fun r hr => ⟨r, hr.1, hr.2.2.2.1, hr.2.2.2.2.1, hr.2.2.2.2.2.1⟩)

/-! ## Sending a page as a raw PAGE frame -/

theorem host_of_ramblock (l : List RAMBlock) (b : Nat) : (ramblock l b).host = host_of l b := by
  unfold ramblock host_of
  cases l[b]? <;> rfl

theorem save_normal_page_fields (s : SaveState) (block off : Nat) (buf : List Nat) (a : Bool)
    (hoff : off % 4096 = 0) (hid : (idstr_of s.ram_list block).length < 256) :
    (save_normal_page s block off buf a).2 = 1 ∧
    (save_normal_page s block off buf a).1.rs.f.buf =
      s.rs.f.buf ++
        (header_bytes s.ram_list s.rs.last_sent_block block off RAM_SAVE_FLAG_PAGE ++ buf) ∧
    (save_normal_page s block off buf a).1.rs.last_sent_block = some block ∧
    (save_normal_page s block off buf a).1.ram_counters.normal = s.ram_counters.normal + 1 ∧
    (save_normal_page s block off buf a).1.ram_counters.transferred =
      s.ram_counters.transferred +
        (header_bytes s.ram_list s.rs.last_sent_block block off RAM_SAVE_FLAG_PAGE).length +
        TARGET_PAGE_SIZE ∧
    (save_normal_page s block off buf a).1.xbzrle_counters = s.xbzrle_counters ∧
    (save_normal_page s block off buf a).1.xbzrle_cache = s.xbzrle_cache ∧
    (save_normal_page s block off buf a).1.save_events = s.save_events ∧
    (save_normal_page s block off buf a).1.comp_file = s.comp_file ∧
    (save_normal_page s block off buf a).1.mem = s.mem ∧
    (save_normal_page s block off buf a).1.ram_list = s.ram_list := by
  unfold save_normal_page header_bytes
  by_cases hb : s.rs.last_sent_block = some block
  · simp [save_page_header_continue _ _ _ _ _ hb, hb, qemu_put_be64, qemu_put_buffer, be64_bytes]
  · simp [save_page_header_first _ _ _ _ _ hb (page_flag_no_continue off hoff),
      hb, qemu_put_be64, qemu_put_byte, qemu_put_buffer, Nat.mod_eq_of_lt hid, be64_bytes]
    omega

set_option maxRecDepth 8000 in
theorem ram_save_page_plain (env : SaveEnv) (s : SaveState) (block page : Nat) (ls : Bool)
    (h : (!s.rs.ram_bulk_stage && !env.migration_in_postcopy && env.migrate_use_xbzrle) = false) :
    ram_save_page env s block page ls =
      save_normal_page s block ((page <<< TARGET_PAGE_BITS) % 2 ^ 64) (page_bytes s block page)
        true := by
  unfold ram_save_page page_bytes
  simp only [h, Bool.false_eq_true, if_false, if_true, host_of_ramblock]

set_option maxRecDepth 8000 in
theorem ram_save_page_delta (env : SaveEnv) (s : SaveState) (block page : Nat) (ls : Bool)
    (h : delta_active env s) :
    ram_save_page env s block page ls =
      if (save_xbzrle_page env s (page_bytes s block page) (page_addr s block page) block
          ((page <<< TARGET_PAGE_BITS) % 2 ^ 64) ls).2.1 = -1 then
        save_normal_page
          (save_xbzrle_page env s (page_bytes s block page) (page_addr s block page) block
            ((page <<< TARGET_PAGE_BITS) % 2 ^ 64) ls).1 block
          ((page <<< TARGET_PAGE_BITS) % 2 ^ 64)
          (save_xbzrle_page env s (page_bytes s block page) (page_addr s block page) block
            ((page <<< TARGET_PAGE_BITS) % 2 ^ 64) ls).2.2 ls
      else
        ((save_xbzrle_page env s (page_bytes s block page) (page_addr s block page) block
            ((page <<< TARGET_PAGE_BITS) % 2 ^ 64) ls).1,
         (save_xbzrle_page env s (page_bytes s block page) (page_addr s block page) block
            ((page <<< TARGET_PAGE_BITS) % 2 ^ 64) ls).2.1) := by
  obtain ⟨h1, h2, h3⟩ := h
  unfold ram_save_page page_bytes page_addr
  simp only [h1, h2, h3, Bool.not_false, Bool.and_self, if_true, host_of_ramblock]

theorem get_cached_data_insert (env : SaveEnv) (c : PageCache) (addr : Nat) (d : List Nat)
    (epoch : Nat) (h : (cache_insert env c addr d epoch).2 ≠ -1) :
    get_cached_data (cache_insert env c addr d epoch).1 addr = d ∧
    (cache_insert env c addr d epoch).1.entries addr = some { data := d, epoch := epoch } := by
  unfold cache_insert at h ⊢
  cases hv : env.cache_insert_victims c addr with
  | none => simp [hv] at h
  | some v => simp [get_cached_data]

theorem cache_insert_rejected (env : SaveEnv) (c : PageCache) (addr : Nat) (d : List Nat)
    (epoch : Nat) (h : (cache_insert env c addr d epoch).2 = -1) :
    (cache_insert env c addr d epoch).1 = c := by
  unfold cache_insert at h ⊢
  cases hv : env.cache_insert_victims c addr with
  | none => rfl
  | some v => simp [hv] at h

theorem save_xbzrle_page_miss (env : SaveEnv) (s : SaveState) (d : List Nat)
    (addr block off : Nat) (ls : Bool)
    (hmiss : cache_is_cached s.xbzrle_cache addr s.ram_counters.dirty_sync_count = false) :
    save_xbzrle_page env s d addr block off ls =
      ({ s with
          xbzrle_counters := { s.xbzrle_counters with
            cache_miss := s.xbzrle_counters.cache_miss + 1 },
          xbzrle_cache :=
            (if ls then s.xbzrle_cache
             else (cache_insert env s.xbzrle_cache addr d s.ram_counters.dirty_sync_count).1) },
        -1, d) := by
  unfold save_xbzrle_page
  simp only [hmiss, Bool.not_false, if_true]
  cases ls
  · simp only [Bool.not_false, if_true, Bool.false_eq_true, if_false]
    by_cases hr : (cache_insert env s.xbzrle_cache addr d s.ram_counters.dirty_sync_count).2 = -1
    · rw [if_pos hr, cache_insert_rejected _ _ _ _ _ hr]
    · rw [if_neg hr, (get_cached_data_insert _ _ _ _ _ hr).1]
  · simp

theorem save_xbzrle_page_overflow (env : SaveEnv) (s : SaveState) (d : List Nat)
    (addr block off : Nat) (ls : Bool)
    (hhit : cache_is_cached s.xbzrle_cache addr s.ram_counters.dirty_sync_count = true)
    (henc : (env.xbzrle_encode_buffer (get_cached_data s.xbzrle_cache addr) d).1 = -1) :
    save_xbzrle_page env s d addr block off ls =
      ({ s with
          xbzrle_counters := { s.xbzrle_counters with
            overflow := s.xbzrle_counters.overflow + 1 },
          xbzrle_cache :=
            (if ls then s.xbzrle_cache else cache_write_data s.xbzrle_cache addr d) },
        -1, d) := by
  unfold save_xbzrle_page
  simp only [hhit, Bool.not_true, Bool.false_eq_true, if_false, henc, if_true]
  cases ls
  · simp only [Bool.not_false, if_true, Bool.false_eq_true, if_false]
    rw [(get_cached_data_write _ _ _ d hhit).1, if_neg (by decide)]
  · simp

set_option maxRecDepth 8000 in
theorem ram_save_page_raw (env : SaveEnv) (s X : SaveState) (block page : Nat) (ls : Bool)
    (hact : delta_active env s)
    (hx : save_xbzrle_page env s (page_bytes s block page) (page_addr s block page) block
      ((page <<< TARGET_PAGE_BITS) % 2 ^ 64) ls = (X, -1, page_bytes s block page))
    (hrs : X.rs = s.rs) (hl : X.ram_list = s.ram_list)
    (hid : (idstr_of s.ram_list block).length < 256) :
    (ram_save_page env s block page ls).2 = 1 ∧
    (ram_save_page env s block page ls).1.rs.f.buf =
      s.rs.f.buf ++
        (header_bytes s.ram_list s.rs.last_sent_block block
          ((page <<< TARGET_PAGE_BITS) % 2 ^ 64) RAM_SAVE_FLAG_PAGE ++ page_bytes s block page) ∧
    (ram_save_page env s block page ls).1.xbzrle_counters = X.xbzrle_counters ∧
    (ram_save_page env s block page ls).1.xbzrle_cache = X.xbzrle_cache := by
  rw [ram_save_page_delta env s block page ls hact, hx, if_pos rfl]
  obtain ⟨n1, n2, -, -, -, n6, n7, -⟩ := save_normal_page_fields X block
    ((page <<< TARGET_PAGE_BITS) % 2 ^ 64) (page_bytes s block page) ls (page_offset_aligned page)
    (by rw [hl]; exact hid)
  rw [hrs, hl] at n2
  exact ⟨n1, n2, n6, n7⟩

theorem page_bytes_length (s : SaveState) (block page : Nat) :
    (page_bytes s block page).length = TARGET_PAGE_SIZE := by
  unfold page_bytes
  exact read_buffer_length _ _ _

theorem delta_active_s3 (env : SaveEnv) (hx : env.migrate_use_xbzrle = true)
    (hp : env.migration_in_postcopy = false) : delta_active env s3_state :=
  ⟨hx, rfl, hp⟩

theorem page_addr_s3 (page : Nat) (h : page < 2 ^ 40) : page_addr s3_state 0 page = page * 4096 := by
  have hs : (ramblock s3_state.ram_list 0).offset = 0 := rfl
  have hP : (2:Nat)^64 = 18446744073709551616 := by norm_num
  have hQ : (2:Nat)^40 = 1099511627776 := by norm_num
  have hT : TARGET_PAGE_BITS = 12 := rfl
  unfold page_addr
  rw [hs, Nat.shiftLeft_eq, hT, hP]
  rw [hQ] at h
  norm_num
  omega

/-! ## C21: the miss path of the delta encoder -/

/-- C21, as stated, fails: in the last stage a cache miss is counted and the page goes
out as a raw PAGE frame, but the page is not inserted, so the cache does not hold it
afterwards (scenario S4 with the epoch-5 state of S3, page 1, last stage). -/
theorem xbzrle_miss_last_stage_counterexample :
    delta_active delta_env s3_state ∧
    cache_is_cached s3_state.xbzrle_cache (page_addr s3_state 0 1)
      s3_state.ram_counters.dirty_sync_count = false ∧
    (ram_save_page delta_env s3_state 0 1 true).2 = 1 ∧
    (ram_save_page delta_env s3_state 0 1 true).1.xbzrle_counters.cache_miss = 1 ∧
    cache_is_cached (ram_save_page delta_env s3_state 0 1 true).1.xbzrle_cache
      (page_addr s3_state 0 1) s3_state.ram_counters.dirty_sync_count = false := by
  have hact := delta_active_s3 delta_env rfl rfl
  have ha : page_addr s3_state 0 1 = 4096 := by
    rw [page_addr_s3 1 (by norm_num)]
  have hmiss : cache_is_cached s3_state.xbzrle_cache (page_addr s3_state 0 1)
      s3_state.ram_counters.dirty_sync_count = false := by
    rw [ha]
    rfl
  obtain ⟨r1, -, r3, r4⟩ := ram_save_page_raw delta_env s3_state _ 0 1 true hact
    (save_xbzrle_page_miss delta_env s3_state _ _ 0 _ true hmiss) rfl rfl (by decide)
  refine ⟨hact, hmiss, r1, ?_, ?_⟩
  · rw [r3]
    rfl
  · rw [r4]
    exact hmiss

/-- C21, amended: with delta encoding active (enabled, outside the bulk stage, not in
post-copy), sending through `ram_save_page` a page whose address is not a cache hit
adds 1 to `cache_miss`, leaves `pages` unchanged, writes exactly one raw PAGE frame
(the header and the TARGET_PAGE_SIZE bytes of the page) and returns 1.  Outside the
last stage, when the cache accepts the insert, the cache afterwards holds the page's
content at its address with the current `dirty_sync_count`; in the last stage, or when
the insert is rejected, the cache is left unchanged. -/
theorem xbzrle_miss_path (env : SaveEnv) (s : SaveState) (block page : Nat) (ls : Bool)
    (hact : delta_active env s)
    (hmiss : cache_is_cached s.xbzrle_cache (page_addr s block page)
      s.ram_counters.dirty_sync_count = false)
    (hid : (idstr_of s.ram_list block).length < 256) :
    (ram_save_page env s block page ls).2 = 1 ∧
    (ram_save_page env s block page ls).1.xbzrle_counters.cache_miss =
      s.xbzrle_counters.cache_miss + 1 ∧
    (ram_save_page env s block page ls).1.xbzrle_counters.pages = s.xbzrle_counters.pages ∧
    (ram_save_page env s block page ls).1.rs.f.buf =
      s.rs.f.buf ++
        (header_bytes s.ram_list s.rs.last_sent_block block
          ((page <<< TARGET_PAGE_BITS) % 2 ^ 64) RAM_SAVE_FLAG_PAGE ++ page_bytes s block page) ∧
    (page_bytes s block page).length = TARGET_PAGE_SIZE ∧
    (ls = false → ∀ victims,
      env.cache_insert_victims s.xbzrle_cache (page_addr s block page) = some victims →
      (ram_save_page env s block page ls).1.xbzrle_cache.entries (page_addr s block page) =
        some { data := page_bytes s block page, epoch := s.ram_counters.dirty_sync_count }) ∧
    (ls = true → (ram_save_page env s block page ls).1.xbzrle_cache = s.xbzrle_cache) ∧
    (env.cache_insert_victims s.xbzrle_cache (page_addr s block page) = none →
      (ram_save_page env s block page ls).1.xbzrle_cache = s.xbzrle_cache) := by
  obtain ⟨r1, r2, r3, r4⟩ := ram_save_page_raw env s _ block page ls hact
    (save_xbzrle_page_miss env s _ _ block _ ls hmiss) rfl rfl hid
  refine ⟨r1, ?_, ?_, r2, page_bytes_length s block page, ?_, ?_, ?_⟩
  · rw [r3]
  · rw [r3]
  · intro hls victims hv
    rw [r4]
    subst hls
    simp [cache_insert, hv]
  · intro hls
    rw [r4]
    subst hls
    rfl
  · intro hv
    rw [r4]
    cases ls
    · simp [cache_insert, hv]
    · rfl

/-- Witness of the amended C21: page 1 of "pc.ram" in the epoch-5 state of S3, outside
the last stage. -/
theorem xbzrle_miss_path_witness :
    (ram_save_page delta_env s3_state 0 1 false).2 = 1 ∧
    (ram_save_page delta_env s3_state 0 1 false).1.xbzrle_counters.cache_miss = 1 ∧
    (ram_save_page delta_env s3_state 0 1 false).1.xbzrle_counters.pages = 0 :=
  have ha : page_addr s3_state 0 1 = 4096 := by
    rw [page_addr_s3 1 (by norm_num)]
  have hmiss : cache_is_cached s3_state.xbzrle_cache (page_addr s3_state 0 1)
      s3_state.ram_counters.dirty_sync_count = false := by
    rw [ha]
    rfl
  have h := xbzrle_miss_path delta_env s3_state 0 1 false (delta_active_s3 delta_env rfl rfl)
    hmiss (by decide)
  ⟨h.1, h.2.1, h.2.2.1⟩

/-! ## C22: the overflow path of the delta encoder -/

/-- C22, as stated, fails: in the last stage the overflow path counts the overflow and
returns -1 but leaves the cache snapshot as it was, the old page and not the current
page data. -/
theorem xbzrle_overflow_last_stage_counterexample :
    cache_is_cached s3_state.xbzrle_cache 0 s3_state.ram_counters.dirty_sync_count = true ∧
    (overflow_env.xbzrle_encode_buffer (get_cached_data s3_state.xbzrle_cache 0) s3_current).1
      = -1 ∧
    (save_xbzrle_page overflow_env s3_state s3_current 0 0 0 true).2.1 = -1 ∧
    (save_xbzrle_page overflow_env s3_state s3_current 0 0 0 true).1.xbzrle_counters.overflow
      = 1 ∧
    get_cached_data (save_xbzrle_page overflow_env s3_state s3_current 0 0 0 true).1.xbzrle_cache
      0 ≠ s3_current := by
  rw [save_xbzrle_page_overflow overflow_env s3_state s3_current 0 0 0 true rfl rfl]
  refine ⟨rfl, rfl, rfl, rfl, ?_⟩
  have h : get_cached_data s3_state.xbzrle_cache 0 = s3_prev := rfl
  simp only [if_true]
  rw [h]
  exact s3_pages_differ

/-- C22, amended: when the page address is a cache hit and the encoder returns -1,
`save_xbzrle_page` adds 1 to the overflow counter, writes nothing to the stream and
returns -1; outside the last stage it overwrites the cache snapshot at that address
with the current page data, in the last stage it leaves the cache unchanged.  After
that `ram_save_page` sends the page as one raw PAGE frame and returns 1. -/
theorem xbzrle_overflow_path (env : SaveEnv) (s : SaveState) (block page : Nat) (ls : Bool)
    (hact : delta_active env s)
    (hhit : cache_is_cached s.xbzrle_cache (page_addr s block page)
      s.ram_counters.dirty_sync_count = true)
    (henc : (env.xbzrle_encode_buffer (get_cached_data s.xbzrle_cache (page_addr s block page))
      (page_bytes s block page)).1 = -1)
    (hid : (idstr_of s.ram_list block).length < 256) :
    (save_xbzrle_page env s (page_bytes s block page) (page_addr s block page) block
      ((page <<< TARGET_PAGE_BITS) % 2 ^ 64) ls).2.1 = -1 ∧
    (save_xbzrle_page env s (page_bytes s block page) (page_addr s block page) block
      ((page <<< TARGET_PAGE_BITS) % 2 ^ 64) ls).1.xbzrle_counters.overflow =
      s.xbzrle_counters.overflow + 1 ∧
    (save_xbzrle_page env s (page_bytes s block page) (page_addr s block page) block
      ((page <<< TARGET_PAGE_BITS) % 2 ^ 64) ls).1.rs.f = s.rs.f ∧
    (ls = false →
      get_cached_data (save_xbzrle_page env s (page_bytes s block page) (page_addr s block page)
        block ((page <<< TARGET_PAGE_BITS) % 2 ^ 64) ls).1.xbzrle_cache (page_addr s block page) =
        page_bytes s block page) ∧
    (ls = true →
      (save_xbzrle_page env s (page_bytes s block page) (page_addr s block page) block
        ((page <<< TARGET_PAGE_BITS) % 2 ^ 64) ls).1.xbzrle_cache = s.xbzrle_cache) ∧
    (ram_save_page env s block page ls).2 = 1 ∧
    (ram_save_page env s block page ls).1.rs.f.buf =
      s.rs.f.buf ++
        (header_bytes s.ram_list s.rs.last_sent_block block
          ((page <<< TARGET_PAGE_BITS) % 2 ^ 64) RAM_SAVE_FLAG_PAGE ++ page_bytes s block page) ∧
    (ram_save_page env s block page ls).1.xbzrle_counters.overflow =
      s.xbzrle_counters.overflow + 1 := by
  have hx := save_xbzrle_page_overflow env s (page_bytes s block page) (page_addr s block page)
    block ((page <<< TARGET_PAGE_BITS) % 2 ^ 64) ls hhit henc
  obtain ⟨r1, r2, r3, -⟩ := ram_save_page_raw env s _ block page ls hact hx rfl rfl hid
  rw [hx]
  refine ⟨rfl, rfl, rfl, ?_, ?_, r1, r2, ?_⟩
  · intro hls
    subst hls
    exact (get_cached_data_write _ _ _ _ hhit).1
  · intro hls
    subst hls
    rfl
  · rw [r3]

/-- Witness of the amended C22: page 0 of "pc.ram" in scenario S3 with an encoder that
overflows. -/
theorem xbzrle_overflow_path_witness :
    (ram_save_page overflow_env s3_state 0 0 false).2 = 1 ∧
    (ram_save_page overflow_env s3_state 0 0 false).1.xbzrle_counters.overflow = 1 :=
  have ha : page_addr s3_state 0 0 = 0 := by
    rw [page_addr_s3 0 (by norm_num)]
  have hhit : cache_is_cached s3_state.xbzrle_cache (page_addr s3_state 0 0)
      s3_state.ram_counters.dirty_sync_count = true := by
    rw [ha]
    rfl
  have h := xbzrle_overflow_path overflow_env s3_state 0 0 false
    (delta_active_s3 overflow_env rfl rfl) hhit rfl (by decide)
  ⟨h.2.2.2.2.2.1, h.2.2.2.2.2.2.2⟩

/-! ## Sending a page that is not zero -/

theorem buffer_is_zero_read_nonzero (mem : Nat → Nat) (p n : Nat) (h : mem p % 256 ≠ 0)
    (hn : 0 < n) : buffer_is_zero (read_buffer mem p n) = false := by
  obtain ⟨m, rfl⟩ : ∃ m, n = m + 1 := ⟨n - 1, by omega⟩
  simp [buffer_is_zero, read_buffer, List.range_succ_eq_map, h]

theorem save_zero_page_nonzero (s : SaveState) (block off : Nat)
    (h : buffer_is_zero (read_buffer s.mem (host_of s.ram_list block + off) TARGET_PAGE_SIZE) = false) :
    save_zero_page s block off = (s, -1) := by
  unfold save_zero_page
  simp only [h, Bool.false_eq_true, if_false]

set_option maxRecDepth 8000 in
theorem ram_save_target_page_nonzero (env : SaveEnv) (s : SaveState) (block page : Nat)
    (ls : Bool) (hhook : hook_declines env s block page)
    (hnz : buffer_is_zero (page_bytes s block page) = false) :
    ram_save_target_page env s block page ls =
      if some block = s.rs.last_sent_block && save_page_use_compression env s then
        compress_page_with_multi_thread env (flush_for_block env s block) block
          ((page <<< TARGET_PAGE_BITS) % 2 ^ 64)
      else if env.migrate_use_multifd then
        ram_save_multifd_page (flush_for_block env s block) block
          ((page <<< TARGET_PAGE_BITS) % 2 ^ 64)
      else ram_save_page env (flush_for_block env s block) block page ls := by
  unfold ram_save_target_page
  simp only []
  rw [control_save_page_declined env s block page hhook]
  simp only [Bool.false_eq_true, if_false]
  unfold page_bytes at hnz
  have hs1 : (if (decide (some block ≠ s.rs.last_sent_block) &&
      save_page_use_compression env s) = true then flush_compressed_data env s else s) =
      flush_for_block env s block := rfl
  rw [hs1]
  obtain ⟨hm, hl, -, -, -, hlsb, hbulk, -⟩ := flush_for_block_fields env s block
  rw [save_zero_page_nonzero (flush_for_block env s block) block _ (by rw [hm, hl]; exact hnz)]
  have hneg : ¬ ((-1 : Int) > 0) := by decide
  rw [if_neg hneg, hlsb, save_page_use_compression_congr env s _ hbulk]

theorem flush_for_block_same (env : SaveEnv) (s : SaveState) (block : Nat)
    (h : s.rs.last_sent_block = some block) : flush_for_block env s block = s := by
  unfold flush_for_block
  simp [h]

theorem flush_for_block_new (env : SaveEnv) (s : SaveState) (block : Nat)
    (h : s.rs.last_sent_block ≠ some block) (hc : save_page_use_compression env s = true) :
    flush_for_block env s block = flush_compressed_data env s ∧
    flushed_before env s block = s.comp_file := by
  have hne : ¬ some block = s.rs.last_sent_block := fun e => h e.symm
  unfold flush_for_block flushed_before
  simp [hne, hc]

theorem compress_event_mem (env : SaveEnv) (s : SaveState) (block off : Nat) :
    (compress_page_with_multi_thread env s block off).2 = 1 ∧
    SaveEvent.compress block off ∈
      (compress_page_with_multi_thread env s block off).1.save_events := by
  unfold compress_page_with_multi_thread do_compress_ram_page ram_release_pages
  refine ⟨rfl, ?_⟩
  simp only []
  split_ifs <;> simp

/-! ## C23: the first page of a new block under compression -/

/-- C23, as stated, fails: with compression as the active encoding, the first page
sent from a region (here the first page of "pc.ram", nothing sent before) does not go
to the compression worker: it is written as a raw PAGE frame, and no page is handed to
`compress_page_with_multi_thread`. -/
theorem first_page_compression_counterexample :
    save_page_use_compression compress_env ones_state = true ∧
    ones_state.rs.last_sent_block ≠ some 0 ∧
    hook_declines compress_env ones_state 0 0 ∧
    buffer_is_zero (page_bytes ones_state 0 0) = false ∧
    (ram_save_target_page compress_env ones_state 0 0 false).1.rs.f.buf =
      [0, 0, 0, 0, 0, 0, 0, RAM_SAVE_FLAG_PAGE, 6] ++ pc_ram_id ++ page_bytes ones_state 0 0 ∧
    (ram_save_target_page compress_env ones_state 0 0 false).1.save_events = [] ∧
    (ram_save_target_page compress_env ones_state 0 0 false).1.comp_file = [] := by
  have hnz : buffer_is_zero (page_bytes ones_state 0 0) = false :=
    buffer_is_zero_read_nonzero _ _ _ (by decide) (by decide)
  have hne : ones_state.rs.last_sent_block ≠ some 0 := by decide
  have hc : save_page_use_compression compress_env ones_state = true := rfl
  refine ⟨hc, hne, compress_hook_declines _ _ _, hnz, ?_⟩
  rw [ram_save_target_page_nonzero compress_env ones_state 0 0 false
    (compress_hook_declines _ _ _) hnz]
  rw [if_neg (by decide), if_neg (by decide),
    (flush_for_block_new compress_env ones_state 0 hne hc).1,
    ram_save_page_plain compress_env (flush_compressed_data compress_env ones_state) 0 0 false rfl]
  obtain ⟨-, n2, -, -, -, -, -, n8, n9, -⟩ := save_normal_page_fields
    (flush_compressed_data compress_env ones_state) 0 ((0 <<< TARGET_PAGE_BITS) % 2 ^ 64)
    (page_bytes (flush_compressed_data compress_env ones_state) 0 0) true (by decide) (by decide)
  exact ⟨n2, n8, n9⟩

theorem compression_excludes_delta (env : SaveEnv) (s : SaveState)
    (h : save_page_use_compression env s = true) :
    (!s.rs.ram_bulk_stage && !env.migration_in_postcopy && env.migrate_use_xbzrle) = false := by
  unfold save_page_use_compression at h
  cases hb : s.rs.ram_bulk_stage <;> cases hx : env.migrate_use_xbzrle <;>
    cases env.migration_in_postcopy <;> simp_all

theorem page_bytes_congr (s t : SaveState) (block page : Nat) (hm : t.mem = s.mem)
    (hl : t.ram_list = s.ram_list) : page_bytes t block page = page_bytes s block page := by
  unfold page_bytes
  rw [hm, hl]

/-- C23, amended: in `ram_save_target_page`, for a non-zero page that the control hook
does not take, with compression as the active encoding: when the page's block differs
from `last_sent_block`, the compressed output still buffered is flushed and the page is
sent uncompressed, as one raw PAGE frame by `ram_save_page`, or, when multifd is in
use, through the multifd channel; the page is handed to
`compress_page_with_multi_thread` only when its block is `last_sent_block`. -/
theorem first_page_of_block_uncompressed (env : SaveEnv) (s : SaveState) (block page : Nat)
    (ls : Bool) (hhook : hook_declines env s block page)
    (hnz : buffer_is_zero (page_bytes s block page) = false)
    (hcomp : save_page_use_compression env s = true)
    (hid : (idstr_of s.ram_list block).length < 256) :
    (s.rs.last_sent_block ≠ some block → env.migrate_use_multifd = false →
      (ram_save_target_page env s block page ls).2 = 1 ∧
      (ram_save_target_page env s block page ls).1.rs.f.buf =
        s.rs.f.buf ++ s.comp_file ++
          (header_bytes s.ram_list s.rs.last_sent_block block
            ((page <<< TARGET_PAGE_BITS) % 2 ^ 64) RAM_SAVE_FLAG_PAGE ++
            page_bytes s block page) ∧
      (ram_save_target_page env s block page ls).1.save_events = s.save_events) ∧
    (s.rs.last_sent_block ≠ some block → env.migrate_use_multifd = true →
      (ram_save_target_page env s block page ls).2 = 1 ∧
      (ram_save_target_page env s block page ls).1.rs.f.buf = s.rs.f.buf ++ s.comp_file ∧
      (ram_save_target_page env s block page ls).1.save_events =
        s.save_events ++ [SaveEvent.multifd block ((page <<< TARGET_PAGE_BITS) % 2 ^ 64)]) ∧
    (s.rs.last_sent_block = some block →
      ram_save_target_page env s block page ls =
        compress_page_with_multi_thread env s block ((page <<< TARGET_PAGE_BITS) % 2 ^ 64) ∧
      SaveEvent.compress block ((page <<< TARGET_PAGE_BITS) % 2 ^ 64) ∈
        (ram_save_target_page env s block page ls).1.save_events) := by
  have hr := ram_save_target_page_nonzero env s block page ls hhook hnz
  obtain ⟨hm, hl, -, -, hev, hlsb, hbulk, hbuf, -⟩ := flush_for_block_fields env s block
  refine ⟨?_, ?_, ?_⟩
  · intro hne hmf
    have hne2 : ¬ some block = s.rs.last_sent_block := fun e => hne e.symm
    have hfb := (flush_for_block_new env s block hne hcomp).2
    have hc1 : ¬ ((decide (some block = s.rs.last_sent_block) &&
        save_page_use_compression env s) = true) := by simp [hne2]
    have hc2 : ¬ (env.migrate_use_multifd = true) := by simp [hmf]
    rw [hr, if_neg hc1, if_neg hc2,
      ram_save_page_plain env (flush_for_block env s block) block page ls
        (by rw [hbulk]; exact compression_excludes_delta env s hcomp),
      page_bytes_congr s _ block page hm hl]
    obtain ⟨n1, n2, -, -, -, -, -, n8, -⟩ := save_normal_page_fields
      (flush_for_block env s block) block ((page <<< TARGET_PAGE_BITS) % 2 ^ 64)
      (page_bytes s block page) true (page_offset_aligned page) (by rw [hl]; exact hid)
    rw [hbuf, hl, hlsb, hfb] at n2
    rw [hev] at n8
    exact ⟨n1, n2, n8⟩
  · intro hne hmf
    have hne2 : ¬ some block = s.rs.last_sent_block := fun e => hne e.symm
    have hfb := (flush_for_block_new env s block hne hcomp).2
    have hc1 : ¬ ((decide (some block = s.rs.last_sent_block) &&
        save_page_use_compression env s) = true) := by simp [hne2]
    rw [hr, if_neg hc1, if_pos hmf]
    unfold ram_save_multifd_page
    refine ⟨rfl, ?_, ?_⟩
    · show (flush_for_block env s block).rs.f.buf = _
      rw [hbuf, hfb]
    · show (flush_for_block env s block).save_events ++ _ = _
      rw [hev]
  · intro hsame
    have hc1 : (decide (some block = s.rs.last_sent_block) &&
        save_page_use_compression env s) = true := by simp [hsame, hcomp]
    rw [hr, if_pos hc1, flush_for_block_same env s block hsame]
    exact ⟨rfl, (compress_event_mem env s block _).2⟩

/-- Witness of the amended C23: the first page of "pc.ram" with compression enabled. -/
theorem first_page_of_block_uncompressed_witness :
    (ram_save_target_page compress_env ones_state 0 0 false).2 = 1 ∧
    (ram_save_target_page compress_env ones_state 0 0 false).1.save_events = [] :=
  have h := (first_page_of_block_uncompressed compress_env ones_state 0 0 false
    (compress_hook_declines _ _ _) (buffer_is_zero_read_nonzero _ _ _ (by decide) (by decide))
    rfl (by decide)).1 (by decide) rfl
  ⟨h.1, h.2.2⟩

theorem delta_hook_declines (s : SaveState) (block page : Nat) :
    hook_declines delta_env s block page := ⟨rfl, rfl⟩

/-! ## C25: a zero page and the delta cache -/

/-- C25, as stated, fails: in the bulk stage, with delta encoding enabled and
compression off, `ram_save_target_page` sends the all-zero page as a ZERO frame and
leaves the delta cache as it was, here empty: no snapshot is held at the page's
address. -/
theorem zero_page_cache_bulk_counterexample :
    delta_env.migrate_use_xbzrle = true ∧
    save_page_use_compression delta_env bulk_clean_state = false ∧
    hook_declines delta_env bulk_clean_state 0 0 ∧
    buffer_is_zero (page_bytes bulk_clean_state 0 0) = true ∧
    (ram_save_target_page delta_env bulk_clean_state 0 0 false).2 = 1 ∧
    cache_is_cached (ram_save_target_page delta_env bulk_clean_state 0 0 false).1.xbzrle_cache
      (page_addr bulk_clean_state 0 0) bulk_clean_state.ram_counters.dirty_sync_count = false := by
  have hz : buffer_is_zero (page_bytes bulk_clean_state 0 0) = true :=
    buffer_is_zero_read _ _ _ (fun _ => rfl)
  have h := ram_save_target_page_zero_fields delta_env bulk_clean_state 0 0 false
    (delta_hook_declines _ _ _) hz (by decide)
  refine ⟨rfl, rfl, delta_hook_declines _ _ _, hz, h.1, ?_⟩
  have hc : (save_page_use_compression delta_env bulk_clean_state ||
      bulk_clean_state.rs.ram_bulk_stage || !delta_env.migrate_use_xbzrle) = true := rfl
  rw [h.2.2.2.2.2.2.2.2.2.2.2, if_pos hc]
  rfl

/-- C25, amended: with delta encoding enabled, when `ram_save_target_page` sends an
all-zero page outside the bulk stage, compression is not the active encoding and the
cache accepts the insert, the delta cache afterwards holds an all-zero snapshot at the
page's address (region offset plus page offset) with the current `dirty_sync_count`;
in the bulk stage, when compression is the active encoding, or when the insert is
rejected, the cache is left unchanged. -/
theorem zero_page_cache (env : SaveEnv) (s : SaveState) (block page : Nat) (ls : Bool)
    (hx : env.migrate_use_xbzrle = true)
    (hhook : hook_declines env s block page)
    (hz : buffer_is_zero (page_bytes s block page) = true)
    (hid : (idstr_of s.ram_list block).length < 256) :
    (ram_save_target_page env s block page ls).2 = 1 ∧
    (save_page_use_compression env s = false → s.rs.ram_bulk_stage = false → ∀ victims,
      env.cache_insert_victims s.xbzrle_cache (page_addr s block page) = some victims →
      (ram_save_target_page env s block page ls).1.xbzrle_cache.entries (page_addr s block page) =
        some { data := List.replicate TARGET_PAGE_SIZE 0,
               epoch := s.ram_counters.dirty_sync_count }) ∧
    (s.rs.ram_bulk_stage = true →
      (ram_save_target_page env s block page ls).1.xbzrle_cache = s.xbzrle_cache) ∧
    (save_page_use_compression env s = true →
      (ram_save_target_page env s block page ls).1.xbzrle_cache = s.xbzrle_cache) ∧
    (env.cache_insert_victims s.xbzrle_cache (page_addr s block page) = none →
      (ram_save_target_page env s block page ls).1.xbzrle_cache = s.xbzrle_cache) := by
  obtain ⟨h1, -, -, -, -, -, -, -, -, -, -, h12⟩ :=
    ram_save_target_page_zero_fields env s block page ls hhook hz hid
  have h12b : (ram_save_target_page env s block page ls).1.xbzrle_cache =
      (if save_page_use_compression env s || s.rs.ram_bulk_stage || !env.migrate_use_xbzrle then
         s.xbzrle_cache
       else
         (cache_insert env s.xbzrle_cache (page_addr s block page)
           (List.replicate TARGET_PAGE_SIZE 0) s.ram_counters.dirty_sync_count).1) := h12
  refine ⟨h1, ?_, ?_, ?_, ?_⟩
  · intro hc hb victims hv
    rw [h12b]
    simp [hc, hb, hx, cache_insert, hv]
  · intro hb
    rw [h12b]
    simp [hb]
  · intro hc
    rw [h12b]
    simp [hc]
  · intro hv
    rw [h12b]
    split_ifs
    · rfl
    · simp [cache_insert, hv]

/-- Witness of the amended C25: page 1 of "pc.ram" in the epoch-5 state of S3. -/
theorem zero_page_cache_witness :
    (ram_save_target_page delta_env s3_state 0 1 false).2 = 1 ∧
    (ram_save_target_page delta_env s3_state 0 1 false).1.xbzrle_cache.entries
        (page_addr s3_state 0 1) =
      some { data := List.replicate TARGET_PAGE_SIZE 0, epoch := 5 } :=
  have h := zero_page_cache delta_env s3_state 0 1 false rfl (delta_hook_declines _ _ _)
    (buffer_is_zero_read _ _ _ (fun _ => rfl)) (by decide)
  ⟨h.1, h.2.1 rfl rfl [] rfl⟩

/-! ## C26: the protocol version -/

theorem int_or_einval (b : Int) : int_or (-EINVAL) b ≠ 0 := by
  unfold int_or
  split_ifs with h1 h2
  · decide
  · exact h1
  · have he : (-EINVAL : Int) = Int.negSucc 21 := rfl
    rw [he]
    cases b with
    | ofNat n => simp [Int.lor]
    | negSucc n => simp [Int.lor]

theorem ram_load_loop_exit (env : LoadEnv) (inv fuel : Nat) (s : LoadState) (flags : Nat)
    (ret : Int) (h : ret ≠ 0 ∨ flags &&& RAM_SAVE_FLAG_EOS ≠ 0) :
    ram_load_loop env inv fuel s flags ret = some (ret, s) := by
  rw [ram_load_loop.eq_def]
  simp only []
  rw [if_pos h]

theorem ram_load_precopy_version (env : LoadEnv) (fuel : Nat) (s : LoadState) (version_id : Int)
    (hpre : env.postcopy_running = false) (hv : version_id ≠ 4) :
    ∃ r, ram_load env fuel s version_id = some r ∧ r.1 ≠ 0 ∧
      r.2 = { s with seq_iter := s.seq_iter + 1 } := by
  unfold ram_load
  simp only [hpre, hv, ne_eq, not_false_eq_true, if_true, Bool.false_eq_true, if_false]
  rw [ram_load_loop_exit env _ fuel _ 0 (-EINVAL) (Or.inl (by decide))]
  exact ⟨_, rfl, int_or_einval _, rfl⟩

/-- C26, at the failing input: with post-copy running, `ram_load` called with
version_id 3 on a stream that holds just the EOS word returns 0: the result of
`ram_load_postcopy` replaces the error code of the version check. -/
theorem ram_load_postcopy_version :
    postcopy_load_env.postcopy_running = true ∧
    (ram_load postcopy_load_env 1
      (initial_load_state [pc_ram] (fun _ => 0) (be64_bytes RAM_SAVE_FLAG_EOS)) 3).map
        (fun r => r.1) = some 0 := by
  refine ⟨rfl, ?_⟩
  decide

/-! ## C27, C28: frames the pre-copy loader refuses -/

theorem ram_load_loop_refused (env : LoadEnv) (inv fuel : Nat) (s s1 : LoadState)
    (flags fl : Nat) (hflags : flags &&& RAM_SAVE_FLAG_EOS = 0)
    (hiter : ram_load_iter env inv (fuel + 1) s = some (fl, -EINVAL, s1)) :
    ram_load_loop env inv (fuel + 1) s flags 0 = some (-EINVAL, s1) := by
  rw [ram_load_loop.eq_def]
  simp only []
  rw [if_neg (by simp [hflags]), hiter]
  exact ram_load_loop_exit env inv fuel s1 fl (-EINVAL) (Or.inl (by decide))

theorem and_flags_compress (w : Nat) :
    (w &&& NOT_TARGET_PAGE_MASK) &&& RAM_SAVE_FLAG_COMPRESS_PAGE =
      w &&& RAM_SAVE_FLAG_COMPRESS_PAGE := by
  rw [Nat.and_assoc]
  have h : NOT_TARGET_PAGE_MASK &&& RAM_SAVE_FLAG_COMPRESS_PAGE = RAM_SAVE_FLAG_COMPRESS_PAGE := by
    decide
  rw [h]

theorem ram_load_iter_forbidden (env : LoadEnv) (fuel : Nat) (s : LoadState) (w : Nat)
    (rest : List Nat) (hw : w < 2 ^ 64) (hbuf : s.f.buf = be64_bytes w ++ rest)
    (hflag : w &&& RAM_SAVE_FLAG_COMPRESS_PAGE ≠ 0) :
    ram_load_iter env RAM_SAVE_FLAG_COMPRESS_PAGE fuel s =
      some (w &&& NOT_TARGET_PAGE_MASK, -EINVAL,
        { s with f := { buf := rest, last_error := s.f.last_error } }) := by
  have hf : s.f = { buf := be64_bytes w ++ rest, last_error := s.f.last_error } := by
    rw [← hbuf]
  unfold ram_load_iter
  rw [hf, qemu_get_be64_append w rest _ hw]
  simp only [and_flags_compress, hflag, ne_eq, not_false_eq_true, if_true]

theorem host_from_unresolvable (s : LoadState) (flags addr : Nat)
    (h : frame_unresolvable s flags addr) :
    host_from_ram_block_offset (ram_block_from_stream s flags).2.ram_list
      (ram_block_from_stream s flags).1 addr = 0 := by
  have hk := (ram_block_from_stream_keeps s flags).1
  rw [hk]
  have key : offset_in_ramblock s.ram_list (ram_block_from_stream s flags).1 addr = false := by
    rcases h with h | h | h | h
    · have e : (ram_block_from_stream s flags).1 = none := by
        unfold ram_block_from_stream
        simp [h.1, h.2]
      rw [e]
      rfl
    · obtain ⟨hc, b, hb, hm⟩ := h
      have e : (ram_block_from_stream s flags).1 = none := by
        unfold ram_block_from_stream
        simp [hc, hb, hm]
      rw [e]
      rfl
    · have e : (ram_block_from_stream s flags).1 = none := by
        unfold ram_block_from_stream
        simp [h.1, h.2]
      rw [e]
      rfl
    · obtain ⟨i, b, hi, hb, hlen⟩ := h
      rw [hi]
      unfold offset_in_ramblock
      simp only [hb]
      simp
      intro _
      exact hlen
  unfold host_from_ram_block_offset
  simp [key]

theorem ram_load_iter_unresolvable (env : LoadEnv) (inv fuel : Nat) (s : LoadState) (w : Nat)
    (rest : List Nat) (hw : w < 2 ^ 64) (hbuf : s.f.buf = be64_bytes w ++ rest)
    (hdata : (w &&& NOT_TARGET_PAGE_MASK) &&& (RAM_SAVE_FLAG_ZERO ||| RAM_SAVE_FLAG_PAGE |||
      RAM_SAVE_FLAG_COMPRESS_PAGE ||| RAM_SAVE_FLAG_XBZRLE) ≠ 0)
    (hun : frame_unresolvable { s with f := { buf := rest, last_error := s.f.last_error } }
      (w &&& NOT_TARGET_PAGE_MASK) (w &&& TARGET_PAGE_MASK)) :
    ∃ s1, ram_load_iter env inv fuel s = some (w &&& NOT_TARGET_PAGE_MASK, -EINVAL, s1) ∧
      s1.ram_list = s.ram_list ∧ s1.mem = s.mem ∧
      (s1 = { s with f := { buf := rest, last_error := s.f.last_error } } ∨
       s1 = (ram_block_from_stream { s with f := { buf := rest, last_error := s.f.last_error } }
          (w &&& NOT_TARGET_PAGE_MASK)).2) := by
  have hf : s.f = { buf := be64_bytes w ++ rest, last_error := s.f.last_error } := by
    rw [← hbuf]
  have hh := host_from_unresolvable _ _ _ hun
  have hk := ram_block_from_stream_keeps
    { s with f := { buf := rest, last_error := s.f.last_error } } (w &&& NOT_TARGET_PAGE_MASK)
  unfold ram_load_iter
  rw [hf, qemu_get_be64_append w rest _ hw]
  simp only []
  by_cases hinv : (w &&& NOT_TARGET_PAGE_MASK) &&& inv ≠ 0
  · rw [if_pos hinv]
    exact ⟨_, rfl, rfl, rfl, Or.inl rfl⟩
  · rw [if_neg hinv]
    simp only [hdata, ne_eq, not_false_eq_true, decide_True, if_true, hh, beq_self_eq_true,
      Bool.and_self]
    exact ⟨_, rfl, hk.1, hk.2.2.2, Or.inr rfl⟩

theorem ram_block_from_stream_seq (t : LoadState) (n flags : Nat) :
    (ram_block_from_stream { t with seq_iter := n } flags).1 = (ram_block_from_stream t flags).1 ∧
    (ram_block_from_stream { t with seq_iter := n } flags).2.f =
      (ram_block_from_stream t flags).2.f := by
  unfold ram_block_from_stream
  simp only []
  split
  · split <;> exact ⟨rfl, rfl⟩
  · split
    · exact ⟨rfl, rfl⟩
    · split <;> exact ⟨rfl, rfl⟩

theorem frame_unresolvable_seq (t : LoadState) (n flags addr : Nat)
    (h : frame_unresolvable t flags addr) :
    frame_unresolvable { t with seq_iter := n } flags addr := by
  unfold frame_unresolvable at h ⊢
  rcases h with h | h | h | h
  · exact Or.inl h
  · exact Or.inr (Or.inl h)
  · exact Or.inr (Or.inr (Or.inl h))
  · obtain ⟨i, b, h1, h2, h3⟩ := h
    exact Or.inr (Or.inr (Or.inr ⟨i, b, by rw [(ram_block_from_stream_seq t n flags).1]; exact h1,
      h2, h3⟩))

/-- C27: when compression is not enabled, a frame whose flag bits include COMPRESS_PAGE
makes the pre-copy loop of `ram_load` stop with -EINVAL at that frame, wherever it
stands in the stream: only the 8 bytes of the frame header are consumed, no region id
is read, and the RAM list with its received bits, guest memory and the block
remembered for CONTINUE stay as they were; when it is the first frame, `ram_load`
returns -EINVAL in that state. -/
theorem forbidden_compress_flag (env : LoadEnv) (fuel : Nat) (s : LoadState) (flags0 w : Nat)
    (rest : List Nat) (hpre : env.postcopy_running = false)
    (hcomp : env.migrate_use_compression = false) (hw : w < 2 ^ 64)
    (hbuf : s.f.buf = be64_bytes w ++ rest)
    (hflag : w &&& RAM_SAVE_FLAG_COMPRESS_PAGE ≠ 0)
    (hflags0 : flags0 &&& RAM_SAVE_FLAG_EOS = 0) :
    ram_load_loop env RAM_SAVE_FLAG_COMPRESS_PAGE (fuel + 1) s flags0 0 =
      some (-EINVAL, { s with f := { buf := rest, last_error := s.f.last_error } }) ∧
    ram_load env (fuel + 1) s 4 =
      some (-EINVAL, { s with seq_iter := s.seq_iter + 1,
                              f := { buf := rest, last_error := s.f.last_error } }) := by
  refine ⟨?_, ?_⟩
  · exact ram_load_loop_refused env _ fuel s _ flags0 _ hflags0
      (ram_load_iter_forbidden env (fuel + 1) s w rest hw hbuf hflag)
  · unfold ram_load
    simp only [hpre, hcomp, ne_eq, not_true_eq_false, if_false, Bool.not_false, if_true,
      Bool.false_eq_true]
    rw [ram_load_loop_refused env _ fuel { s with seq_iter := s.seq_iter + 1 } _ 0 _ (by decide)
      (ram_load_iter_forbidden env (fuel + 1) { s with seq_iter := s.seq_iter + 1 } w rest hw
        hbuf hflag)]
    simp [wait_for_decompress_done, hcomp, int_or]

/-- Witness of C27: a COMPRESS_PAGE frame header at offset 0 as the first frame. -/
theorem forbidden_compress_flag_witness :
    ram_load plain_load_env 1
        (initial_load_state [pc_ram] (fun _ => 0) (be64_bytes 0x100 ++ [6])) 4 =
      some (-EINVAL,
        { initial_load_state [pc_ram] (fun _ => 0) (be64_bytes 0x100 ++ [6]) with
          seq_iter := (initial_load_state [pc_ram] (fun _ => 0)
            (be64_bytes 0x100 ++ [6])).seq_iter + 1,
          f := { buf := [6], last_error := 0 } }) :=
  (forbidden_compress_flag plain_load_env 0
    (initial_load_state [pc_ram] (fun _ => 0) (be64_bytes 0x100 ++ [6])) 0 0x100 [6] rfl rfl
    (by decide) rfl (by decide) (by decide)).2

theorem lor_einval_neg (e : Int) : Int.lor (-EINVAL) e < 0 := by
  have h : (-EINVAL : Int) = Int.negSucc 21 := by decide
  rw [h]
  cases e with
  | ofNat n =>
    show Int.negSucc (Nat.ldiff 21 n) < 0
    exact Int.negSucc_lt_zero _
  | negSucc n =>
    show Int.negSucc (21 &&& n) < 0
    exact Int.negSucc_lt_zero _

theorem int_or_einval_neg (e : Int) : int_or (-EINVAL) e < 0 := by
  unfold int_or
  split_ifs with h1 h2
  · decide
  · exact absurd h2 (by decide)
  · exact lor_einval_neg e

/-- C28, as stated, fails: with compression enabled, a PAGE frame whose region id is
cut short by the end of the stream (five bytes announced, one present) names no known
region and is refused, but reading the id has put the stream in error, and `ram_load`
returns the bitwise OR of -EINVAL and the stream's error code -EIO, which is -5 and not
-EINVAL. -/
theorem unresolvable_short_id_counterexample :
    short_id_state.f.last_error = 0 ∧
    frame_unresolvable
      { short_id_state with f := { buf := [5, 120], last_error := 0 } }
      (8 &&& NOT_TARGET_PAGE_MASK) (8 &&& TARGET_PAGE_MASK) ∧
    (ram_load compress_load_env 1 short_id_state 4).map (fun p => p.1) = some (-5) ∧
    (-5 : Int) ≠ -EINVAL := by
  refine ⟨rfl, Or.inl (by decide), by decide!, by decide⟩

/-- C28, amended: in the pre-copy loop of `ram_load`, a ZERO, PAGE, COMPRESS_PAGE or XBZRLE
frame that cannot be resolved (its region id names no known region or a region that is
not migratable, it carries CONTINUE while no region has been established, or its
offset is not below the used length of the region it resolves to) stops the loop with
-EINVAL, wherever the frame stands in the stream, and the RAM list with its received
bits and guest memory are as before the frame; when it is the first frame of the
stream, `ram_load` returns -EINVAL, or, with compression enabled, the bitwise OR of
-EINVAL and the error code the stream carries at that point (its own before the frame, or
the one that reading the region id has set); the result is -EINVAL when the stream
carries no error, it is negative in every case, and the RAM list and guest memory are
unchanged. -/
theorem unresolvable_data_frame (env : LoadEnv) (inv fuel : Nat) (s : LoadState)
    (flags0 w : Nat) (rest : List Nat) (hw : w < 2 ^ 64)
    (hbuf : s.f.buf = be64_bytes w ++ rest)
    (hdata : (w &&& NOT_TARGET_PAGE_MASK) &&& (RAM_SAVE_FLAG_ZERO ||| RAM_SAVE_FLAG_PAGE |||
      RAM_SAVE_FLAG_COMPRESS_PAGE ||| RAM_SAVE_FLAG_XBZRLE) ≠ 0)
    (hun : frame_unresolvable { s with f := { buf := rest, last_error := s.f.last_error } }
      (w &&& NOT_TARGET_PAGE_MASK) (w &&& TARGET_PAGE_MASK))
    (hflags0 : flags0 &&& RAM_SAVE_FLAG_EOS = 0) :
    (∃ s1, ram_load_loop env inv (fuel + 1) s flags0 0 = some (-EINVAL, s1) ∧
      s1.ram_list = s.ram_list ∧ s1.mem = s.mem) ∧
    (env.postcopy_running = false →
      ∃ s2, ram_load env (fuel + 1) s 4 =
          some (if env.migrate_use_compression then int_or (-EINVAL) s2.f.last_error
                else -EINVAL, s2) ∧
        s2.ram_list = s.ram_list ∧ s2.mem = s.mem ∧
        (s2.f.last_error = s.f.last_error ∨
          s2.f.last_error =
            (ram_block_from_stream { s with f := { buf := rest, last_error := s.f.last_error } }
              (w &&& NOT_TARGET_PAGE_MASK)).2.f.last_error) ∧
        (s2.f.last_error = 0 → ram_load env (fuel + 1) s 4 = some (-EINVAL, s2)) ∧
        (∀ r, ram_load env (fuel + 1) s 4 = some (r, s2) → r < 0)) := by
  refine ⟨?_, ?_⟩
  · obtain ⟨s1, h1, h2, h3, -⟩ := ram_load_iter_unresolvable env inv (fuel + 1) s w rest hw hbuf
      hdata hun
    exact ⟨s1, ram_load_loop_refused env inv fuel s s1 flags0 _ hflags0 h1, h2, h3⟩
  · intro hpre
    obtain ⟨s1, h1, h2, h3, h4⟩ := ram_load_iter_unresolvable env
      (if !env.migrate_use_compression then RAM_SAVE_FLAG_COMPRESS_PAGE else 0) (fuel + 1)
      { s with seq_iter := s.seq_iter + 1 } w rest hw hbuf hdata
      (frame_unresolvable_seq _ (s.seq_iter + 1) _ _ hun)
    have herr : s1.f.last_error = s.f.last_error ∨
        s1.f.last_error =
          (ram_block_from_stream { s with f := { buf := rest, last_error := s.f.last_error } }
            (w &&& NOT_TARGET_PAGE_MASK)).2.f.last_error := by
      rcases h4 with h4 | h4
      · left
        rw [h4]
      · right
        rw [h4]
        exact congrArg QEMUFile.last_error (ram_block_from_stream_seq
          { s with f := { buf := rest, last_error := s.f.last_error } } (s.seq_iter + 1)
          (w &&& NOT_TARGET_PAGE_MASK)).2
    have hload : ram_load env (fuel + 1) s 4 =
        some (int_or (-EINVAL) (wait_for_decompress_done env s1), s1) := by
      unfold ram_load
      simp only [hpre, ne_eq, not_true_eq_false, if_false, Bool.false_eq_true]
      rw [ram_load_loop_refused env _ fuel { s with seq_iter := s.seq_iter + 1 } s1 0 _
        (by decide) h1]
      rfl
    have hres : int_or (-EINVAL) (wait_for_decompress_done env s1) =
        (if env.migrate_use_compression then int_or (-EINVAL) s1.f.last_error
         else -EINVAL) := by
      unfold wait_for_decompress_done qemu_file_get_error
      cases env.migrate_use_compression
      · simp [int_or]
      · simp
    refine ⟨s1, ?_, h2, h3, herr, ?_, ?_⟩
    · rw [hload, hres]
    · intro he
      rw [hload, hres, he]
      cases env.migrate_use_compression <;> simp [int_or]
    · intro r hr
      rw [hload, hres] at hr
      have := (Prod.mk.inj (Option.some.inj hr)).1
      rw [← this]
      cases env.migrate_use_compression
      · simp only [Bool.false_eq_true, if_false]
        decide
      · simp only [if_true]
        exact int_or_einval_neg _

/-- Witness of the amended C28: a PAGE frame for the unknown region "x" as the first
frame, compression being off. -/
theorem unresolvable_data_frame_witness :
    ∃ s2, ram_load plain_load_env 1
        (initial_load_state [pc_ram] (fun _ => 0) (be64_bytes 8 ++ [1, 120])) 4 =
      some (-EINVAL, s2) ∧ s2.ram_list = [pc_ram] :=
  have h := (unresolvable_data_frame plain_load_env 0 0
    (initial_load_state [pc_ram] (fun _ => 0) (be64_bytes 8 ++ [1, 120])) 0 8 [1, 120]
    (by decide) rfl (by decide) (Or.inl (by decide)) (by decide)).2 rfl
  h.elim (fun s2 hs => ⟨s2, hs.1, hs.2.1⟩)

/-! ## The iteration step: how the loop is left -/

theorem ram_save_iterate_loop_limited (env : SaveEnv) (t0 : Int) (fuel : Nat) (s : SaveState)
    (i : Nat) (last : Option Int) (hlim : env.qemu_file_rate_limit s.rs.f ≠ 0)
    (hq : s.rs.src_page_requests = []) :
    ram_save_iterate_loop env t0 fuel s i last = some (s, 0, last) := by
  rw [ram_save_iterate_loop.eq_def]
  simp only []
  rw [if_neg (by simp [hlim, hq])]

theorem ram_save_iterate_out_fields (s : SaveState) (done : Int) :
    (ram_save_iterate_out s done).1.rs.f.buf = s.rs.f.buf ++ be64_bytes RAM_SAVE_FLAG_EOS ∧
    (ram_save_iterate_out s done).1.rs.f.last_error = s.rs.f.last_error ∧
    (ram_save_iterate_out s done).1.ram_counters.transferred = s.ram_counters.transferred + 8 ∧
    (ram_save_iterate_out s done).1.ram_counters.normal = s.ram_counters.normal ∧
    (ram_save_iterate_out s done).1.ram_counters.duplicate = s.ram_counters.duplicate ∧
    (ram_save_iterate_out s done).1.ram_list = s.ram_list ∧
    (s.rs.f.last_error < 0 → (ram_save_iterate_out s done).2 = s.rs.f.last_error) ∧
    (¬ s.rs.f.last_error < 0 → (ram_save_iterate_out s done).2 = done) := by
  by_cases h : s.rs.f.last_error < 0
  · have e : ram_save_iterate_out s done =
        ({ s with
            rs := { s.rs with f := qemu_put_be64 s.rs.f RAM_SAVE_FLAG_EOS },
            ram_counters := { s.ram_counters with
              transferred := s.ram_counters.transferred + 8 } }, s.rs.f.last_error) := by
      unfold ram_save_iterate_out qemu_file_get_error qemu_put_be64
      simp only []
      rw [if_pos h]
    rw [e]
    exact ⟨rfl, rfl, rfl, rfl, rfl, rfl, fun _ => rfl, fun hn => absurd h hn⟩
  · have e : ram_save_iterate_out s done =
        ({ s with
            rs := { s.rs with f := qemu_put_be64 s.rs.f RAM_SAVE_FLAG_EOS },
            ram_counters := { s.ram_counters with
              transferred := s.ram_counters.transferred + 8 } }, done) := by
      unfold ram_save_iterate_out qemu_file_get_error qemu_put_be64
      simp only []
      rw [if_neg h]
    rw [e]
    exact ⟨rfl, rfl, rfl, rfl, rfl, rfl, fun hn => absurd hn h, fun _ => rfl⟩

/-- C29, as stated, fails: with 16384-byte host pages and a transport that reports the
rate limit exceeded as soon as one byte is written, `ram_save_iterate` started with an
empty queue writes the ZERO frame of the first target page, after which the limit is
exceeded, and still sends the three further target pages of the host page before the
EOS word. -/
theorem rate_limit_host_page_counterexample :
    huge_dirty_state.rs.src_page_requests = [] ∧
    limited_env.qemu_file_rate_limit
      { buf := [0, 0, 0, 0, 0, 0, 0, 2, 6] ++ pc_ram_id ++ [0], last_error := 0 } ≠ 0 ∧
    (ram_save_iterate limited_env 1 huge_dirty_state).map (fun r => (r.1.rs.f.buf, r.2)) =
      some ([0, 0, 0, 0, 0, 0, 0, 2, 6] ++ pc_ram_id ++ [0] ++
        [0, 0, 0, 0, 0, 0, 0x10, 0x22, 0] ++ [0, 0, 0, 0, 0, 0, 0x20, 0x22, 0] ++
        [0, 0, 0, 0, 0, 0, 0x30, 0x22, 0] ++ be64_bytes RAM_SAVE_FLAG_EOS, 0) := by
  refine ⟨rfl, by decide, ?_⟩
  decide!

/-- C29, amended: in `ram_save_iterate` the rate limit is looked at before every
`ram_find_and_save_block` call: in a state where the transport reports the limit
exceeded and the request queue is empty, the loop is left at once, without a further
call, so that after the limit is exceeded only the call in progress (the target pages
of one host page) is completed.  In particular, if the limit is exceeded at entry with
an empty queue and no compressed output pending, the function returns after appending
only the 8-byte EOS word: `transferred` grows by 8 and no page is counted. -/
theorem rate_limit_respect (env : SaveEnv) (s : SaveState)
    (hlim : env.qemu_file_rate_limit s.rs.f ≠ 0) (hq : s.rs.src_page_requests = []) :
    (∀ (t0 : Int) (fuel i : Nat) (last : Option Int),
      ram_save_iterate_loop env t0 fuel s i last = some (s, 0, last)) ∧
    (s.comp_file = [] → ∀ fuel, ∃ r, ram_save_iterate env fuel s = some r ∧
      r.1.rs.f.buf = s.rs.f.buf ++ be64_bytes RAM_SAVE_FLAG_EOS ∧
      r.1.ram_counters.transferred = s.ram_counters.transferred + 8 ∧
      r.1.ram_counters.normal = s.ram_counters.normal ∧
      r.1.ram_counters.duplicate = s.ram_counters.duplicate ∧
      r.1.ram_list = s.ram_list) := by
  refine ⟨fun t0 fuel i last => ram_save_iterate_loop_limited env t0 fuel s i last hlim hq, ?_⟩
  intro hcf fuel
  have hfl : ∀ t : SaveState, t.comp_file = [] →
      (flush_compressed_data env t).rs.f.buf = t.rs.f.buf ∧
      (flush_compressed_data env t).ram_counters = t.ram_counters ∧
      (flush_compressed_data env t).ram_list = t.ram_list := by
    intro t ht
    unfold flush_compressed_data
    split_ifs
    · exact ⟨rfl, rfl, rfl⟩
    · simp [qemu_put_qemu_file, qemu_put_buffer, ht]
  have hbody : ∃ b, ram_save_iterate_body env fuel s = some b ∧
      b.1.rs.f.buf = s.rs.f.buf ∧ b.1.ram_counters = s.ram_counters ∧
      b.1.ram_list = s.ram_list := by
    unfold ram_save_iterate_body
    by_cases hbulk : env.blk_mig_bulk_active = true
    · rw [if_pos hbulk]
      exact ⟨_, rfl, rfl, rfl, rfl⟩
    · rw [if_neg hbulk]
      simp only []
      by_cases hv : s.ram_list_version ≠ s.rs.last_version
      · rw [if_pos hv]
        rw [ram_save_iterate_loop_limited env _ fuel (qemu_clock_get_ns env
          { s with rs := ram_state_reset s.rs s.ram_list_version }).2 0 none hlim hq]
        obtain ⟨f1, f2, f3⟩ := hfl (qemu_clock_get_ns env
          { s with rs := ram_state_reset s.rs s.ram_list_version }).2 hcf
        exact ⟨_, rfl, f1, f2, f3⟩
      · rw [if_neg hv]
        rw [ram_save_iterate_loop_limited env _ fuel (qemu_clock_get_ns env s).2 0 none hlim hq]
        obtain ⟨f1, f2, f3⟩ := hfl (qemu_clock_get_ns env s).2 hcf
        exact ⟨_, rfl, f1, f2, f3⟩
  obtain ⟨b, hb, b1, b2, b3⟩ := hbody
  obtain ⟨o1, -, o3, o4, o5, o6, -⟩ := ram_save_iterate_out_fields b.1 b.2.1
  refine ⟨ram_save_iterate_out b.1 b.2.1, ?_, ?_, ?_, ?_, ?_, ?_⟩
  · unfold ram_save_iterate
    rw [hb]
    rfl
  · rw [o1, b1]
  · rw [o3, b2]
  · rw [o4, b2]
  · rw [o5, b2]
  · rw [o6, b3]

/-- Witness of the amended C29: the rate-limited transport with one byte already
written. -/
theorem rate_limit_respect_witness :
    ∃ r, ram_save_iterate limited_env 0
        { huge_dirty_state with rs := { huge_dirty_state.rs with f := { buf := [7], last_error := 0 } } }
        = some r ∧ r.1.rs.f.buf = [7] ++ be64_bytes RAM_SAVE_FLAG_EOS :=
  have h := (rate_limit_respect limited_env
    { huge_dirty_state with rs := { huge_dirty_state.rs with f := { buf := [7], last_error := 0 } } }
    (by decide) rfl).2 rfl 0
  h.elim (fun r hr => ⟨r, hr.1, hr.2.1⟩)

/-! ## The scan when nothing is dirty -/

theorem used_pages_shift (l : List RAMBlock) (b : Nat)
    (hal : (ramblock l b).used_length % TARGET_PAGE_SIZE = 0 ∧ (ramblock l b).used_length < 2 ^ 64) :
    used_pages l b < 2 ^ 52 ∧
    ∀ q, q < 2 ^ 52 →
      ((q <<< TARGET_PAGE_BITS) % 2 ^ 64 ≥ (ramblock l b).used_length ↔ used_pages l b ≤ q) := by
  obtain ⟨h1, h2⟩ := hal
  have hT : TARGET_PAGE_SIZE = 4096 := rfl
  have hB : TARGET_PAGE_BITS = 12 := rfl
  have hP : (2:Nat)^64 = 18446744073709551616 := by norm_num
  have hQ : (2:Nat)^52 = 4503599627370496 := by norm_num
  have h12 : (2:Nat)^12 = 4096 := by norm_num
  unfold used_pages
  rw [hT] at h1
  rw [hP] at h2
  rw [hB, hQ, hP, Nat.shiftRight_eq_div_pow, h12]
  refine ⟨by omega, ?_⟩
  intro q hq
  rw [Nat.shiftLeft_eq, h12]
  have hm : q * 4096 % 18446744073709551616 = q * 4096 := Nat.mod_eq_of_lt (by omega)
  rw [hm]
  constructor <;> intro h <;> omega

theorem scan_clean_lengths (s : SaveState) (h : scan_clean s) (j : Nat) :
    ((ramblock s.ram_list j).used_length % TARGET_PAGE_SIZE = 0 ∧
      (ramblock s.ram_list j).used_length < 2 ^ 64) ∧
    used_pages s.ram_list j + 1 < 2 ^ 52 := by
  obtain ⟨h1, h2⟩ := h.2.2 j
  have hB : TARGET_PAGE_BITS = 12 := rfl
  have hP : (2:Nat)^64 = 18446744073709551616 := by norm_num
  have hR : (2:Nat)^63 = 9223372036854775808 := by norm_num
  have hQ : (2:Nat)^52 = 4503599627370496 := by norm_num
  have h12 : (2:Nat)^12 = 4096 := by norm_num
  unfold used_pages
  rw [hR] at h2
  rw [hB, hQ, hP, Nat.shiftRight_eq_div_pow, h12]
  refine ⟨⟨h1, by omega⟩, by omega⟩

theorem find_dirty_clean (s : SaveState) (b page : Nat)
    (hclean : ∀ i, (ramblock s.ram_list b).bmap i = false)
    (h : s.rs.ram_bulk_stage = false ∨ page = 0 ∨ (ramblock s.ram_list b).migratable = false) :
    migration_bitmap_find_dirty s b page = used_pages s.ram_list b := by
  unfold migration_bitmap_find_dirty used_pages
  simp only []
  by_cases hm : (ramblock s.ram_list b).migratable = true
  · have hcond : (s.rs.ram_bulk_stage && decide (page > 0)) = false := by
      rcases h with h | h | h
      · simp [h]
      · simp [h]
      · rw [hm] at h
        cases h
    rw [if_neg (by simp [hm]), if_neg (by simp [hcond])]
    obtain ⟨f1, f2⟩ := find_next_bit_spec (ramblock s.ram_list b).bmap
      ((ramblock s.ram_list b).used_length >>> TARGET_PAGE_BITS) page
    rcases Nat.le_total ((ramblock s.ram_list b).used_length >>> TARGET_PAGE_BITS) page with hp | hp
    · exact f1 hp
    · obtain ⟨g1, g2, g3, g4⟩ := f2 hp
      by_contra hne
      have hlt : find_next_bit (ramblock s.ram_list b).bmap
          ((ramblock s.ram_list b).used_length >>> TARGET_PAGE_BITS) page <
          (ramblock s.ram_list b).used_length >>> TARGET_PAGE_BITS := by omega
      have := g4 hlt
      rw [hclean] at this
      cases this
  · rw [if_pos (by simp [hm])]

theorem find_dirty_bulk (s : SaveState) (b page : Nat)
    (hm : (ramblock s.ram_list b).migratable = true) (hb : s.rs.ram_bulk_stage = true)
    (hp : 0 < page) (hlt : page + 1 < 2 ^ 64) :
    migration_bitmap_find_dirty s b page = page + 1 := by
  unfold migration_bitmap_find_dirty
  simp only []
  rw [if_neg (by simp [hm]), if_pos (by simp [hb, hp])]
  exact Nat.mod_eq_of_lt hlt

theorem scan_clean_wrap (env : SaveEnv) (s : SaveState) (h : scan_clean s) :
    scan_clean (wrap_state env s) := by
  obtain ⟨w1, -, -, -, w5, -⟩ := wrap_state_view env s
  unfold scan_clean
  rw [w1, w5]
  exact h

theorem find_dirty_block_exhausted (env : SaveEnv) (s : SaveState) (pss : PageSearchStatus)
    (b : Nat) (hb : pss.block = some b)
    (hstop : ¬ (pss.complete_round = true ∧ pss.block = s.rs.last_seen_block ∧
      migration_bitmap_find_dirty s b pss.page ≥ s.rs.last_page))
    (hex : (migration_bitmap_find_dirty s b pss.page <<< TARGET_PAGE_BITS) % 2 ^ 64 ≥
      (ramblock s.ram_list b).used_length) :
    (b + 1 < s.ram_list.length →
      find_dirty_block env s pss = (s, { pss with page := 0, block := some (b + 1) }, true, false)) ∧
    (s.ram_list.length ≤ b + 1 →
      find_dirty_block env s pss =
        (wrap_state env s,
         { pss with page := 0, block := QLIST_FIRST s.ram_list, complete_round := true,
                    wraps := pss.wraps + 1 }, true, false)) := by
  have hbi : block_index s.ram_list pss.block = b := by rw [hb]; rfl
  rcases find_dirty_block_cases env s pss with h | h | h
  · rw [hbi] at h
    exact absurd ⟨h.1, h.2.1, h.2.2.1⟩ hstop
  · rw [hbi] at h
    obtain ⟨-, -, h3⟩ := h
    rcases h3 with ⟨c2, hc2, hf⟩ | ⟨hn, hf⟩
    · obtain ⟨e1, e2⟩ := QLIST_NEXT_some _ _ _ hc2
      subst e1
      exact ⟨fun _ => hf, fun hle => by omega⟩
    · have := QLIST_NEXT_none _ _ hn
      exact ⟨fun hlt => by omega, fun _ => hf⟩
  · rw [hbi] at h
    obtain ⟨-, h2, -⟩ := h
    omega

theorem find_dirty_block_stop (env : SaveEnv) (s : SaveState) (pss : PageSearchStatus)
    (b : Nat) (hb : pss.block = some b)
    (hstop : pss.complete_round = true ∧ pss.block = s.rs.last_seen_block ∧
      migration_bitmap_find_dirty s b pss.page ≥ s.rs.last_page) :
    find_dirty_block env s pss =
      (s, { pss with page := migration_bitmap_find_dirty s b pss.page }, false, false) := by
  have hbi : block_index s.ram_list pss.block = b := by rw [hb]; rfl
  rcases find_dirty_block_cases env s pss with h | h | h
  · rw [hbi] at h
    exact h.2.2.2
  · rw [hbi] at h
    exact absurd hstop h.1
  · rw [hbi] at h
    exact absurd hstop h.1

theorem find_dirty_block_found (env : SaveEnv) (s : SaveState) (pss : PageSearchStatus)
    (b : Nat) (hb : pss.block = some b)
    (hstop : ¬ (pss.complete_round = true ∧ pss.block = s.rs.last_seen_block ∧
      migration_bitmap_find_dirty s b pss.page ≥ s.rs.last_page))
    (hin : (migration_bitmap_find_dirty s b pss.page <<< TARGET_PAGE_BITS) % 2 ^ 64 <
      (ramblock s.ram_list b).used_length) :
    find_dirty_block env s pss =
      (s, { pss with page := migration_bitmap_find_dirty s b pss.page }, true, true) := by
  have hbi : block_index s.ram_list pss.block = b := by rw [hb]; rfl
  rcases find_dirty_block_cases env s pss with h | h | h
  · rw [hbi] at h
    exact absurd ⟨h.1, h.2.1, h.2.2.1⟩ hstop
  · rw [hbi] at h
    obtain ⟨-, h2, -⟩ := h
    omega
  · rw [hbi] at h
    exact h.2.2

theorem scan_after_wrap (env : SaveEnv) (ls : Bool) (w : SaveState) (L : Nat)
    (hc : scan_clean w) (hbulk : w.rs.ram_bulk_stage = false)
    (hL : w.rs.last_seen_block = some L) (hLn : L < w.ram_list.length)
    (hlp : w.rs.last_page ≤ used_pages w.ram_list L) :
    ∀ (k b : Nat), b + k = L → ∀ (fuel : Nat), k + 1 ≤ fuel → ∀ (pss : PageSearchStatus),
      pss.block = some b → pss.complete_round = true →
      ram_find_and_save_block_loop env ls fuel w pss =
        some (w, { pss with block := some L, page := used_pages w.ram_list L }, 0) := by
  have hal := fun j => (scan_clean_lengths _ hc j).1
  have hsmall := fun j => (scan_clean_lengths _ hc j).2
  obtain ⟨hq, hclean, -⟩ := hc
  intro k
  induction k with
  | zero =>
    intro b hbk fuel hfuel pss hb hcr
    obtain ⟨f, rfl⟩ : ∃ f, fuel = f + 1 := ⟨fuel - 1, by omega⟩
    have hbL : b = L := by omega
    subst hbL
    have hfind := find_dirty_clean w b pss.page (hclean b) (Or.inl hbulk)
    rw [find_and_save_loop_step env ls f w pss hq,
      find_dirty_block_stop env w pss b hb ⟨hcr, by rw [hb, hL], by rw [hfind]; exact hlp⟩]
    simp only [Bool.false_eq_true, if_false]
    rw [hfind]
    cases pss
    simp only [] at hb
    subst hb
    rfl
  | succ k ih =>
    intro b hbk fuel hfuel pss hb hcr
    obtain ⟨f, rfl⟩ : ∃ f, fuel = f + 1 := ⟨fuel - 1, by omega⟩
    have hfind := find_dirty_clean w b pss.page (hclean b) (Or.inl hbulk)
    have hne : ¬ (pss.complete_round = true ∧ pss.block = w.rs.last_seen_block ∧
        migration_bitmap_find_dirty w b pss.page ≥ w.rs.last_page) := by
      intro h
      rw [hb, hL] at h
      have := Option.some.inj h.2.1
      omega
    obtain ⟨u1, u2⟩ := used_pages_shift w.ram_list b (hal b)
    have hex : (migration_bitmap_find_dirty w b pss.page <<< TARGET_PAGE_BITS) % 2 ^ 64 ≥
        (ramblock w.ram_list b).used_length := by
      rw [hfind]
      exact (u2 _ u1).2 (le_refl _)
    rw [find_and_save_loop_step env ls f w pss hq,
      (find_dirty_block_exhausted env w pss b hb hne hex).1 (by omega)]
    simp only [Bool.false_eq_true, if_false, if_true]
    exact ih (b + 1) (by omega) f (by omega) _ rfl hcr

theorem scan_to_wrap (env : SaveEnv) (ls : Bool) (s : SaveState) (L : Nat)
    (hc : scan_clean s) (hL : s.rs.last_seen_block = some L) (hLn : L < s.ram_list.length)
    (hlp : s.rs.last_page ≤ used_pages s.ram_list L) :
    ∀ (k b : Nat), b + k + 1 = s.ram_list.length → ∀ (fuel : Nat), k + 1 + (L + 1) ≤ fuel →
      ∀ (pss : PageSearchStatus), pss.block = some b → pss.complete_round = false →
      (migration_bitmap_find_dirty s b pss.page <<< TARGET_PAGE_BITS) % 2 ^ 64 ≥
        (ramblock s.ram_list b).used_length →
      ram_find_and_save_block_loop env ls fuel s pss =
        some (wrap_state env s,
          { pss with block := some L, page := used_pages s.ram_list L, complete_round := true,
                     wraps := pss.wraps + 1 }, 0) := by
  have hc2 := hc
  have hal := fun j => (scan_clean_lengths _ hc j).1
  have hsmall := fun j => (scan_clean_lengths _ hc j).2
  obtain ⟨hq, hclean, -⟩ := hc
  obtain ⟨w1, w2, w3, w4, -, -⟩ := wrap_state_view env s
  intro k
  induction k with
  | zero =>
    intro b hbk fuel hfuel pss hb hcr hex
    obtain ⟨f, rfl⟩ : ∃ f, fuel = f + 1 := ⟨fuel - 1, by omega⟩
    have hne : ¬ (pss.complete_round = true ∧ pss.block = s.rs.last_seen_block ∧
        migration_bitmap_find_dirty s b pss.page ≥ s.rs.last_page) := by
      intro h
      rw [hcr] at h
      cases h.1
    rw [find_and_save_loop_step env ls f s pss hq,
      (find_dirty_block_exhausted env s pss b hb hne hex).2 (by omega)]
    simp only [Bool.false_eq_true, if_false, if_true]
    rw [QLIST_FIRST_pos s.ram_list (by omega)]
    have ha := scan_after_wrap env ls (wrap_state env s) L (scan_clean_wrap env s hc2) w4
      (by rw [w2]; exact hL) (by rw [w1]; exact hLn) (by rw [w3, w1]; exact hlp) L 0 (by omega) f
      (by omega)
      { pss with page := 0, block := some 0, complete_round := true, wraps := pss.wraps + 1 }
      rfl rfl
    rw [ha, w1]
  | succ k ih =>
    intro b hbk fuel hfuel pss hb hcr hex
    obtain ⟨f, rfl⟩ : ∃ f, fuel = f + 1 := ⟨fuel - 1, by omega⟩
    have hne : ¬ (pss.complete_round = true ∧ pss.block = s.rs.last_seen_block ∧
        migration_bitmap_find_dirty s b pss.page ≥ s.rs.last_page) := by
      intro h
      rw [hcr] at h
      cases h.1
    rw [find_and_save_loop_step env ls f s pss hq,
      (find_dirty_block_exhausted env s pss b hb hne hex).1 (by omega)]
    simp only [Bool.false_eq_true, if_false, if_true]
    obtain ⟨u1, u2⟩ := used_pages_shift s.ram_list (b + 1) (hal (b + 1))
    have hfind := find_dirty_clean s (b + 1) 0 (hclean (b + 1)) (Or.inr (Or.inl rfl))
    exact ih (b + 1) (by omega) f (by omega)
      { pss with page := 0, block := some (b + 1) } rfl hcr
      (by
        show (migration_bitmap_find_dirty s (b + 1) 0 <<< TARGET_PAGE_BITS) % 2 ^ 64 ≥ _
        rw [hfind]
        exact (u2 _ u1).2 (le_refl _))

theorem offset_in_ramblock_lt (l : List RAMBlock) (b off : Nat)
    (h : offset_in_ramblock l (some b) off = true) : off < (ramblock l b).used_length := by
  unfold offset_in_ramblock at h
  unfold ramblock
  cases hb : l[b]? with
  | none => simp [hb] at h
  | some blk =>
    simp only [hb, Bool.and_eq_true, decide_eq_true_eq] at h
    exact h.2

theorem clear_dirty_clean (s : SaveState) (b page : Nat)
    (h : (ramblock s.ram_list b).bmap page = false) :
    migration_bitmap_clear_dirty s b page = (s, false) := by
  unfold migration_bitmap_clear_dirty
  simp only [h, Bool.false_eq_true, if_false]

theorem host_page_loop_clean (env : SaveEnv) (ls : Bool) (b : Nat) (s : SaveState)
    (hclean : ∀ i, (ramblock s.ram_list b).bmap i = false)
    (hal : (ramblock s.ram_list b).used_length % TARGET_PAGE_SIZE = 0 ∧
      (ramblock s.ram_list b).used_length < 2 ^ 64) :
    ∀ (k page : Nat), page + k = used_pages s.ram_list b → 1 ≤ k → ∀ (fuel : Nat), k ≤ fuel →
      ∀ (pages : Int), ∃ page2,
        ram_save_host_page_loop env ls b fuel s page pages = some (s, page2, pages) ∧
        page ≤ page2 ∧ page2 < used_pages s.ram_list b := by
  obtain ⟨u1, u2⟩ := used_pages_shift s.ram_list b hal
  intro k
  induction k with
  | zero =>
    intro page _ hk
    omega
  | succ k ih =>
    intro page hpk _ fuel hfuel pages
    obtain ⟨f, rfl⟩ : ∃ f, fuel = f + 1 := ⟨fuel - 1, by omega⟩
    rw [ram_save_host_page_loop, clear_dirty_clean s b page (hclean page)]
    simp only [Bool.not_false, if_true, Nat.add_sub_cancel]
    by_cases hcond : ((page + 1) &&& host_page_bits_mask (ramblock s.ram_list b).page_size ≠ 0 &&
        offset_in_ramblock s.ram_list (some b) (((page + 1) <<< TARGET_PAGE_BITS) % 2 ^ 64)) = true
    · rw [if_pos hcond]
      simp only [Bool.and_eq_true] at hcond
      have hlt := offset_in_ramblock_lt _ _ _ hcond.2
      have hp1 : page + 1 < used_pages s.ram_list b := by
        by_contra hge
        have := (u2 (page + 1) (by omega)).2 (by omega)
        omega
      obtain ⟨p2, e1, e2, e3⟩ := ih (page + 1) (by omega) (by omega) f (by omega) pages
      exact ⟨p2, e1, by omega, e3⟩
    · rw [if_neg hcond]
      exact ⟨page, rfl, le_refl _, by omega⟩

theorem ram_save_host_page_clean (env : SaveEnv) (ls : Bool) (s : SaveState)
    (pss : PageSearchStatus) (b : Nat) (hb : pss.block = some b)
    (hclean : ∀ i, (ramblock s.ram_list b).bmap i = false)
    (hal : (ramblock s.ram_list b).used_length % TARGET_PAGE_SIZE = 0 ∧
      (ramblock s.ram_list b).used_length < 2 ^ 64)
    (hm : (ramblock s.ram_list b).migratable = true)
    (hp : pss.page < used_pages s.ram_list b) :
    ∃ page2, ram_save_host_page env s pss ls = some (s, { pss with page := page2 }, 0) ∧
      pss.page ≤ page2 ∧ page2 < used_pages s.ram_list b := by
  have hbi : block_index s.ram_list pss.block = b := by rw [hb]; rfl
  unfold ram_save_host_page
  simp only [hbi, hm, Bool.not_true, Bool.false_eq_true, if_false]
  obtain ⟨p2, e1, e2, e3⟩ := host_page_loop_clean env ls b s hclean hal
    (used_pages s.ram_list b - pss.page) pss.page (by omega) (by omega)
    (((ramblock s.ram_list b).used_length >>> TARGET_PAGE_BITS) + 2)
    (by
      have hu : used_pages s.ram_list b =
        (ramblock s.ram_list b).used_length >>> TARGET_PAGE_BITS := rfl
      omega) 0
  rw [e1]
  exact ⟨p2, rfl, e2, e3⟩

theorem scan_from_cursor (env : SaveEnv) (ls : Bool) (s : SaveState) (L : Nat)
    (hc : scan_clean s) (hL : s.rs.last_seen_block = some L) (hLn : L < s.ram_list.length)
    (hlp : s.rs.last_page ≤ used_pages s.ram_list L) :
    ∀ (d b : Nat), b < s.ram_list.length → ∀ (pss : PageSearchStatus), pss.block = some b →
      pss.complete_round = false → used_pages s.ram_list b - pss.page ≤ d →
      pss.page ≤ used_pages s.ram_list b →
      ∀ (fuel : Nat), d + (s.ram_list.length - b) + (L + 1) + 1 ≤ fuel →
      ram_find_and_save_block_loop env ls fuel s pss =
        some (wrap_state env s,
          { pss with block := some L, page := used_pages s.ram_list L, complete_round := true,
                     wraps := pss.wraps + 1 }, 0) := by
  have hc2 := hc
  have hal := fun j => (scan_clean_lengths _ hc j).1
  have hsmall := fun j => (scan_clean_lengths _ hc j).2
  obtain ⟨hq, hclean, -⟩ := hc
  have hP : (2:Nat)^64 = 18446744073709551616 := by norm_num
  have hQ : (2:Nat)^52 = 4503599627370496 := by norm_num
  have key : ∀ (b : Nat) (pss : PageSearchStatus),
      ¬ ((migration_bitmap_find_dirty s b pss.page <<< TARGET_PAGE_BITS) % 2 ^ 64 ≥
        (ramblock s.ram_list b).used_length) →
      pss.page ≤ used_pages s.ram_list b →
      (ramblock s.ram_list b).migratable = true ∧
      migration_bitmap_find_dirty s b pss.page = pss.page + 1 ∧
      pss.page + 1 < used_pages s.ram_list b := by
    intro b pss hnex hple
    obtain ⟨u1, u2⟩ := used_pages_shift s.ram_list b (hal b)
    have hbulk : s.rs.ram_bulk_stage = true := by
      by_contra hb
      have hb2 : s.rs.ram_bulk_stage = false := by simpa using hb
      apply hnex
      rw [find_dirty_clean s b pss.page (hclean b) (Or.inl hb2)]
      exact (u2 _ u1).2 (le_refl _)
    have hp : 0 < pss.page := by
      by_contra hp0
      have hp1 : pss.page = 0 := by omega
      apply hnex
      rw [find_dirty_clean s b pss.page (hclean b) (Or.inr (Or.inl hp1))]
      exact (u2 _ u1).2 (le_refl _)
    have hm : (ramblock s.ram_list b).migratable = true := by
      by_contra hm
      have hm2 : (ramblock s.ram_list b).migratable = false := by simpa using hm
      apply hnex
      rw [find_dirty_clean s b pss.page (hclean b) (Or.inr (Or.inr hm2))]
      exact (u2 _ u1).2 (le_refl _)
    have hs := hsmall b
    rw [hQ] at u1 hs
    have hf := find_dirty_bulk s b pss.page hm hbulk hp (by rw [hP]; omega)
    refine ⟨hm, hf, ?_⟩
    by_contra hge
    apply hnex
    rw [hf]
    exact (u2 (pss.page + 1) (by rw [hQ]; omega)).2 (by omega)
  have hne : ∀ (b : Nat) (pss : PageSearchStatus), pss.complete_round = false →
      ¬ (pss.complete_round = true ∧ pss.block = s.rs.last_seen_block ∧
        migration_bitmap_find_dirty s b pss.page ≥ s.rs.last_page) := by
    intro b pss hcr h
    rw [hcr] at h
    cases h.1
  intro d
  induction d with
  | zero =>
    intro b hbn pss hb hcr hd hple fuel hfuel
    by_cases hex : (migration_bitmap_find_dirty s b pss.page <<< TARGET_PAGE_BITS) % 2 ^ 64 ≥
        (ramblock s.ram_list b).used_length
    · exact scan_to_wrap env ls s L hc2 hL hLn hlp (s.ram_list.length - b - 1) b (by omega) fuel
        (by omega) pss hb hcr hex
    · obtain ⟨-, -, k3⟩ := key b pss hex hple
      omega
  | succ d ih =>
    intro b hbn pss hb hcr hd hple fuel hfuel
    by_cases hex : (migration_bitmap_find_dirty s b pss.page <<< TARGET_PAGE_BITS) % 2 ^ 64 ≥
        (ramblock s.ram_list b).used_length
    · exact scan_to_wrap env ls s L hc2 hL hLn hlp (s.ram_list.length - b - 1) b (by omega) fuel
        (by omega) pss hb hcr hex
    · obtain ⟨k1, k2, k3⟩ := key b pss hex hple
      obtain ⟨f, rfl⟩ : ∃ f, fuel = f + 1 := ⟨fuel - 1, by omega⟩
      obtain ⟨p2, e1, e2, e3⟩ := ram_save_host_page_clean env ls s
        { pss with page := pss.page + 1 } b hb (hclean b) (hal b) k1 k3
      rw [find_and_save_loop_step env ls f s pss hq,
        find_dirty_block_found env s pss b hb (hne b pss hcr) (by omega), k2]
      simp only [if_true]
      rw [e1]
      simp only [Bool.and_true, decide_True, if_true]
      have e2b : pss.page + 1 ≤ p2 := e2
      exact ih b hbn { pss with page := p2 } hb hcr (by show used_pages s.ram_list b - p2 ≤ d; omega)
        (by show p2 ≤ used_pages s.ram_list b; omega) f (by omega)

theorem scan_never_ends (env : SaveEnv) (ls : Bool) :
    ∀ (fuel : Nat) (s : SaveState) (pss : PageSearchStatus) (b : Nat), scan_clean s →
      s.rs.ram_bulk_stage = false → s.rs.last_seen_block = none → pss.block = some b →
      b < s.ram_list.length →
      ram_find_and_save_block_loop env ls fuel s pss = none := by
  intro fuel
  induction fuel with
  | zero =>
    intro s pss b _ _ _ _ _
    rfl
  | succ f ih =>
    intro s pss b hc hbulk hnone hb hbn
    have hc2 := hc
    have hal := fun j => (scan_clean_lengths _ hc j).1
    obtain ⟨hq, hclean, -⟩ := hc
    obtain ⟨w1, w2, -, w4, -, -⟩ := wrap_state_view env s
    obtain ⟨u1, u2⟩ := used_pages_shift s.ram_list b (hal b)
    have hfind := find_dirty_clean s b pss.page (hclean b) (Or.inl hbulk)
    have hne : ¬ (pss.complete_round = true ∧ pss.block = s.rs.last_seen_block ∧
        migration_bitmap_find_dirty s b pss.page ≥ s.rs.last_page) := by
      intro h
      rw [hb, hnone] at h
      cases h.2.1
    have hex : (migration_bitmap_find_dirty s b pss.page <<< TARGET_PAGE_BITS) % 2 ^ 64 ≥
        (ramblock s.ram_list b).used_length := by
      rw [hfind]
      exact (u2 _ u1).2 (le_refl _)
    rw [find_and_save_loop_step env ls f s pss hq]
    by_cases hnext : b + 1 < s.ram_list.length
    · rw [(find_dirty_block_exhausted env s pss b hb hne hex).1 hnext]
      simp only [Bool.false_eq_true, if_false, if_true]
      exact ih s _ (b + 1) hc2 hbulk hnone rfl hnext
    · rw [(find_dirty_block_exhausted env s pss b hb hne hex).2 (by omega)]
      simp only [Bool.false_eq_true, if_false, if_true]
      rw [QLIST_FIRST_pos s.ram_list (by omega)]
      exact ih (wrap_state env s) _ 0 (scan_clean_wrap env s hc2) w4 (by rw [w2]; exact hnone) rfl
        (by rw [w1]; omega)

theorem wrap_state_counters (env : SaveEnv) (s : SaveState) (hcomp : s.comp_file = []) :
    (wrap_state env s).ram_counters = s.ram_counters ∧
    (wrap_state env s).xbzrle_counters = s.xbzrle_counters ∧
    (wrap_state env s).rs.f.buf = s.rs.f.buf ∧
    (wrap_state env s).rs.iterations = s.rs.iterations := by
  unfold wrap_state flush_compressed_data
  simp only []
  split_ifs
  · exact ⟨rfl, rfl, rfl, rfl⟩
  · simp [qemu_put_qemu_file, qemu_put_buffer, hcomp]
  · exact ⟨rfl, rfl, rfl, rfl⟩

theorem scan_clean_pc_ram (s : SaveState) (hl : s.ram_list = [pc_ram])
    (hq : s.rs.src_page_requests = []) : scan_clean s := by
  refine ⟨hq, ?_, ?_⟩
  · intro j i
    rw [hl]
    cases j <;> rfl
  · intro j
    rw [hl]
    have hn : ∀ n, ramblock [pc_ram] (n + 1) = RAMBlock.null := fun n => rfl
    cases j with
    | zero => exact ⟨by decide, by decide⟩
    | succ n =>
      rw [hn]
      exact ⟨by decide, by decide⟩

/-! ## C14: the scan ends when nothing is dirty -/

/-- C14, the failing input: a sender over "pc.ram" in the state `ram_state_reset` leaves
(`last_seen_block` unset, `last_page` 0, bulk stage), with no dirty bit and an empty
queue.  The scan wraps once and then never meets its seed again: however many steps it
is given, `ram_find_and_save_block` does not return. -/
theorem no_progress_after_reset :
    scan_clean reset_clean_state ∧
    reset_clean_state.rs.last_seen_block = none ∧
    reset_clean_state.rs.last_page = 0 ∧
    ∀ fuel : Nat,
      ram_find_and_save_block plain_save_env fuel reset_clean_state false = none := by
  have hc := scan_clean_pc_ram reset_clean_state rfl rfl
  refine ⟨hc, rfl, rfl, ?_⟩
  intro fuel
  unfold ram_find_and_save_block
  rw [if_neg (by decide)]
  cases fuel with
  | zero => rfl
  | succ fuel =>
    have hstep : ram_find_and_save_block_loop plain_save_env false (fuel + 1) reset_clean_state
        (pss_init reset_clean_state) =
        ram_find_and_save_block_loop plain_save_env false fuel
          { reset_clean_state with rs := { reset_clean_state.rs with ram_bulk_stage := false } }
          { block := some 0, page := 0, complete_round := true, wraps := 1 } := by
      rw [ram_find_and_save_block_loop]
      rfl
    rw [hstep]
    rw [scan_never_ends plain_save_env false fuel _ _ 0
      (scan_clean_pc_ram _ rfl rfl) rfl rfl rfl (by decide)]

/-- With a seed inside the RAM list the scan ends as it should: for every sender state
in which no dirty bit is set in any region and the request queue is empty, whose
`last_seen_block` is a region of the RAM list and whose `last_page` is at most that
region's page count (used lengths being multiples of the target page size, no compressed
output pending), `ram_find_and_save_block` returns 0 once it is given enough steps, after
exactly one wrap of the region list when the total RAM is not zero; it leaves every
bitmap and every counter as it was. -/
theorem no_progress_termination (env : SaveEnv) (ls : Bool) (s : SaveState) (L fuel : Nat)
    (hc : scan_clean s) (hL : s.rs.last_seen_block = some L) (hLn : L < s.ram_list.length)
    (hlp : s.rs.last_page ≤ used_pages s.ram_list L) (hcomp : s.comp_file = [])
    (hfuel : used_pages s.ram_list L + s.ram_list.length + 2 ≤ fuel) :
    (∃ s2, ram_find_and_save_block env fuel s ls = some (s2, 0) ∧
      s2.ram_list = s.ram_list ∧ s2.ram_counters = s.ram_counters ∧
      s2.xbzrle_counters = s.xbzrle_counters ∧
      s2.rs.migration_dirty_pages = s.rs.migration_dirty_pages ∧
      s2.rs.iterations = s.rs.iterations ∧ s2.rs.f.buf = s.rs.f.buf) ∧
    (ram_bytes_total s.ram_list ≠ 0 →
      ∃ pss2, ram_find_and_save_block_loop env ls fuel s (pss_init s) =
        some (wrap_state env s, pss2, 0) ∧ pss2.wraps = 1) := by
  have hinit : pss_init s =
      { block := some L, page := s.rs.last_page, complete_round := false, wraps := 0 } := by
    unfold pss_init
    simp only [hL]
  have hloop := scan_from_cursor env ls s L hc hL hLn hlp (used_pages s.ram_list L) L hLn
    (pss_init s) (by rw [hinit]) (by rw [hinit]) (by rw [hinit]; omega) (by rw [hinit]; exact hlp)
    fuel (by omega)
  obtain ⟨w1, -, -, -, -, w6⟩ := wrap_state_view env s
  obtain ⟨c1, c2, c3, c4⟩ := wrap_state_counters env s hcomp
  refine ⟨?_, fun _ => ⟨_, hloop, by rw [hinit]⟩⟩
  unfold ram_find_and_save_block
  by_cases ht : ram_bytes_total s.ram_list = 0
  · rw [if_pos ht]
    exact ⟨s, rfl, rfl, rfl, rfl, rfl, rfl, rfl⟩
  · rw [if_neg ht, hloop]
    exact ⟨_, rfl, w1, c1, c2, w6, c4, c3⟩

/-- An instance of `no_progress_termination`: a sender over "pc.ram" without dirty
pages, whose cursor is at page 0 of the region. -/
theorem no_progress_termination_witness :
    ∃ s2, ram_find_and_save_block plain_save_env 5 clean_scan_state false = some (s2, 0) ∧
      s2.ram_list = clean_scan_state.ram_list ∧
      s2.ram_counters = clean_scan_state.ram_counters :=
  have h := (no_progress_termination plain_save_env false clean_scan_state 0 5
    (scan_clean_pc_ram clean_scan_state rfl rfl) rfl (by decide) (by decide) rfl (by decide)).1
  h.elim (fun s2 hs => ⟨s2, hs.1, hs.2.1, hs.2.2.1⟩)

/-! ## C10: host-page canonicalisation of the bitmaps -/

theorem find_next_zero_bit_spec (bm : Nat → Bool) (size start : Nat) :
    (size ≤ start → find_next_zero_bit bm size start = size) ∧
    (start ≤ size → start ≤ find_next_zero_bit bm size start ∧
      find_next_zero_bit bm size start ≤ size ∧
      (∀ j, start ≤ j → j < find_next_zero_bit bm size start → bm j = true) ∧
      (find_next_zero_bit bm size start < size →
        bm (find_next_zero_bit bm size start) = false)) := by
  obtain ⟨h1, h2⟩ := find_next_from_spec (fun i => !bm i) size (size - start) start (by omega)
  refine ⟨h1, fun hs => ?_⟩
  obtain ⟨a, b, c, d⟩ := h2 hs
  refine ⟨a, b, fun j hj1 hj2 => ?_, fun hlt => ?_⟩
  · have := c j hj1 hj2
    simpa using this
  · have := d hlt
    simpa using this

theorem chunk_fixup_loop_maps :
    ∀ (n p : Nat) (c : ChunkState) (i : Nat),
      (chunk_fixup_loop n p c).unsentmap i =
        (if p ≤ i ∧ i < p + n then true else c.unsentmap i) ∧
      (chunk_fixup_loop n p c).bitmap i =
        (if p ≤ i ∧ i < p + n then true else c.bitmap i) := by
  intro n
  induction n with
  | zero =>
    intro p c i
    have hf : ¬ (p ≤ i ∧ i < p + 0) := by omega
    simp only [chunk_fixup_loop, hf, if_false, and_self]
  | succ n ih =>
    intro p c i
    rw [chunk_fixup_loop]
    obtain ⟨h1, h2⟩ := ih (p + 1)
      { c with
        unsentmap := set_bit p c.unsentmap,
        migration_dirty_pages := c.migration_dirty_pages + (if c.bitmap p then 0 else 1),
        bitmap := set_bit p c.bitmap } i
    rw [h1, h2]
    simp only [set_bit]
    by_cases hi : i = p
    · subst hi
      have e1 : ¬ (i + 1 ≤ i ∧ i < i + 1 + n) := by omega
      have e2 : i ≤ i ∧ i < i + (n + 1) := by omega
      simp only [e1, e2, if_false, if_true, and_self]
    · by_cases hr : p + 1 ≤ i ∧ i < p + 1 + n
      · have e2 : p ≤ i ∧ i < p + (n + 1) := by omega
        simp only [hr, e2, if_true, and_self]
      · have e2 : ¬ (p ≤ i ∧ i < p + (n + 1)) := by omega
        simp only [hr, e2, hi, if_false, and_self]

theorem window_uniform_set (m m2 : Nat → Bool) (r w0 : Nat)
    (h : ∀ i, m2 i = (if w0 * r ≤ i ∧ i < w0 * r + r then true else m i)) (w : Nat)
    (hu : w ≠ w0 → window_uniform m r w) : window_uniform m2 r w := by
  intro i j hi1 hi2 hj1 hj2
  by_cases hw : w = w0
  · subst hw
    have e : (w + 1) * r = w * r + r := by ring
    rw [e] at hi2 hj2
    rw [h i, h j, if_pos ⟨hi1, hi2⟩, if_pos ⟨hj1, hj2⟩]
  · have e : (w + 1) * r = w * r + r := by ring
    have e0 : (w0 + 1) * r = w0 * r + r := by ring
    have hdis : ∀ x, w * r ≤ x → x < (w + 1) * r → ¬ (w0 * r ≤ x ∧ x < w0 * r + r) := by
      intro x hx1 hx2 hx3
      rcases Nat.lt_or_gt_of_ne hw with hlt | hgt
      · have : (w + 1) * r ≤ w0 * r := Nat.mul_le_mul_right r hlt
        omega
      · have : (w0 + 1) * r ≤ w * r := Nat.mul_le_mul_right r hgt
        omega
    rw [h i, h j, if_neg (hdis i hi1 hi2), if_neg (hdis j hj1 hj2)]
    exact hu hw i j hi1 hi2 hj1 hj2

theorem sub_mod_eq_div_mul (a r : Nat) : a - a % r = a / r * r := by
  have := Nat.div_add_mod a r
  have e : r * (a / r) = a / r * r := Nat.mul_comm _ _
  omega

theorem chunk_fixup_window (r fs : Nat) (c c1 : ChunkState) (w0 : Nat) (hfs : fs = w0 * r)
    (h1 : c1.unsentmap = c.unsentmap) (h2 : c1.bitmap = c.bitmap) :
    window_fixed r w0 c (chunk_fixup_loop r fs c1) := by
  subst hfs
  constructor
  · intro i
    rw [(chunk_fixup_loop_maps r (w0 * r) c1 i).1, h1]
  · intro i
    rw [(chunk_fixup_loop_maps r (w0 * r) c1 i).2, h2]

theorem chunk_iter_cases (up : Bool) (r pages a : Nat) (c : ChunkState) (run_end : Nat)
    (hre : run_end = (if up then find_next_bit c.unsentmap pages (a + 1)
      else find_next_zero_bit c.bitmap pages (a + 1))) :
    ∃ (c2 : ChunkState) (b : Nat),
      chunk_hostpages_iter up r pages a c =
        (c2, if up then find_next_zero_bit c2.unsentmap pages b
             else find_next_bit c2.bitmap pages b) ∧
      ((a % r ≠ 0 ∧ b = a / r * r + r ∧ window_fixed r (a / r) c c2) ∨
       (a % r = 0 ∧ run_end % r ≠ 0 ∧ b = run_end / r * r + r ∧
          window_fixed r (run_end / r) c c2) ∨
       (a % r = 0 ∧ run_end % r = 0 ∧ b = run_end + 1 ∧ c2 = c)) := by
  unfold chunk_hostpages_iter
  simp only []
  rw [← hre]
  by_cases h1 : a % r ≠ 0
  · rw [if_pos h1]
    simp only [if_true]
    refine ⟨_, _, rfl, Or.inl ⟨h1, by rw [sub_mod_eq_div_mul], ?_⟩⟩
    apply chunk_fixup_window r _ c _ (a / r) (sub_mod_eq_div_mul a r)
    · split_ifs <;> rfl
    · split_ifs <;> rfl
  · rw [if_neg h1]
    have h1b : a % r = 0 := by omega
    by_cases h2 : run_end % r ≠ 0
    · rw [if_pos h2]
      simp only [if_true]
      refine ⟨_, _, rfl, Or.inr (Or.inl ⟨h1b, h2, by rw [sub_mod_eq_div_mul], ?_⟩)⟩
      apply chunk_fixup_window r _ c _ (run_end / r) (sub_mod_eq_div_mul run_end r)
      · split_ifs <;> rfl
      · split_ifs <;> rfl
    · rw [if_neg h2]
      have h2b : run_end % r = 0 := by omega
      simp only [Bool.false_eq_true, if_false]
      exact ⟨_, _, rfl, Or.inr (Or.inr ⟨h1b, h2b, rfl, rfl⟩)⟩

theorem find_run_start_spec (v : Bool) (m : Nat → Bool) (size start : Nat) :
    (size ≤ start → find_run_start v m size start = size) ∧
    (start ≤ size → start ≤ find_run_start v m size start ∧
      find_run_start v m size start ≤ size ∧
      (∀ j, start ≤ j → j < find_run_start v m size start → m j = v) ∧
      (find_run_start v m size start < size → m (find_run_start v m size start) = !v)) := by
  unfold find_run_start
  cases v
  · simp only [Bool.false_eq_true, if_false, Bool.not_false]
    exact find_next_bit_spec m size start
  · simp only [if_true, Bool.not_true]
    exact find_next_zero_bit_spec m size start

theorem find_run_end_spec (v : Bool) (m : Nat → Bool) (size start : Nat) :
    (size ≤ start → find_run_end v m size start = size) ∧
    (start ≤ size → start ≤ find_run_end v m size start ∧
      find_run_end v m size start ≤ size ∧
      (∀ j, start ≤ j → j < find_run_end v m size start → m j = !v) ∧
      (find_run_end v m size start < size → m (find_run_end v m size start) = v)) := by
  unfold find_run_end
  cases v
  · simp only [Bool.false_eq_true, if_false, Bool.not_false]
    exact find_next_zero_bit_spec m size start
  · simp only [if_true, Bool.not_true]
    exact find_next_bit_spec m size start

theorem chunk_iter_pass (v : Bool) (r pages a : Nat) (c : ChunkState) :
    ∃ (c2 : ChunkState) (b : Nat),
      chunk_hostpages_iter v r pages a c = (c2, find_run_start v (pass_map v c2) pages b) ∧
      ((a % r ≠ 0 ∧ b = a / r * r + r ∧ window_fixed r (a / r) c c2) ∨
       (a % r = 0 ∧ find_run_end v (pass_map v c) pages (a + 1) % r ≠ 0 ∧
          b = find_run_end v (pass_map v c) pages (a + 1) / r * r + r ∧
          window_fixed r (find_run_end v (pass_map v c) pages (a + 1) / r) c c2) ∨
       (a % r = 0 ∧ find_run_end v (pass_map v c) pages (a + 1) % r = 0 ∧
          b = find_run_end v (pass_map v c) pages (a + 1) + 1 ∧ c2 = c)) := by
  obtain ⟨c2, b, h1, h2⟩ := chunk_iter_cases v r pages a c
    (find_run_end v (pass_map v c) pages (a + 1)) (by
      unfold find_run_end pass_map
      cases v <;> rfl)
  refine ⟨c2, b, ?_, h2⟩
  rw [h1]
  unfold find_run_start pass_map
  cases v <;> rfl

theorem pass_map_fixed (v : Bool) (r w0 : Nat) (c c2 : ChunkState) (h : window_fixed r w0 c c2)
    (i : Nat) :
    pass_map v c2 i = (if w0 * r ≤ i ∧ i < w0 * r + r then true else pass_map v c i) := by
  unfold pass_map
  cases v
  · exact h.2 i
  · exact h.1 i

theorem windows_below (v : Bool) (r pages a e : Nat) (m : Nat → Bool) (hr : 0 < r)
    (hinv : chunk_inv v r pages a m) (hae : a % r = 0 ∨ e ≤ a)
    (hrun : ∀ i, a ≤ i → i < e → m i = !v) :
    ∀ w, (w + 1) * r ≤ e → window_uniform m r w := by
  intro w hw
  by_cases hwa : (w + 1) * r ≤ a
  · exact hinv.2.1 w hwa
  · have hal : a % r = 0 := by
      rcases hae with h | h
      · exact h
      · omega
    have hk : a = a / r * r := by
      have := Nat.div_add_mod a r
      have e2 : r * (a / r) = a / r * r := Nat.mul_comm _ _
      omega
    have hwk : a / r ≤ w := by
      by_contra hlt
      have : (w + 1) * r ≤ a / r * r := Nat.mul_le_mul_right r (by omega)
      omega
    have hwa2 : a ≤ w * r := by
      have : a / r * r ≤ w * r := Nat.mul_le_mul_right r hwk
      omega
    intro i j hi1 hi2 hj1 hj2
    rw [hrun i (by omega) (by omega), hrun j (by omega) (by omega)]

theorem chunk_inv_of_frontier (v : Bool) (r pages a2 e : Nat) (m : Nat → Bool) (hr : 0 < r)
    (he : e % r = 0) (ha2 : a2 ≤ pages)
    (hq : ∀ w, (w + 1) * r ≤ e → window_uniform m r w)
    (ht : ∀ i, e ≤ i → i < a2 → m i = v)
    (hc : a2 < pages → e ≤ a2 ∧ m a2 = !v) :
    chunk_inv v r pages a2 m := by
  have hk : e = e / r * r := by
    have := Nat.div_add_mod e r
    have e2 : r * (e / r) = e / r * r := Nat.mul_comm _ _
    omega
  refine ⟨ha2, ?_, ?_⟩
  · intro w hw
    by_cases hwe : (w + 1) * r ≤ e
    · exact hq w hwe
    · have hwk : e / r ≤ w := by
        by_contra hlt
        have : (w + 1) * r ≤ e / r * r := Nat.mul_le_mul_right r (by omega)
        omega
      have hwe2 : e ≤ w * r := by
        have : e / r * r ≤ w * r := Nat.mul_le_mul_right r hwk
        omega
      intro i j hi1 hi2 hj1 hj2
      rw [ht i (by omega) (by omega), ht j (by omega) (by omega)]
  · intro hlt
    obtain ⟨c1, c2⟩ := hc hlt
    refine ⟨?_, c2⟩
    intro i hi1 hi2
    have hle : e / r ≤ a2 / r := Nat.div_le_div_right c1
    have : e / r * r ≤ a2 / r * r := Nat.mul_le_mul_right r hle
    exact ht i (by omega) hi2

theorem chunk_step_fixed (v : Bool) (r pages a b w0 : Nat) (c c2 : ChunkState) (hr : 0 < r)
    (hfix : window_fixed r w0 c c2) (hb : b = w0 * r + r) (hab : a < b) (ha : a < pages)
    (hq0 : ∀ w, (w + 1) * r ≤ w0 * r → window_uniform (pass_map v c) r w) :
    chunk_inv v r pages (find_run_start v (pass_map v c2) pages b) (pass_map v c2) ∧
    a < find_run_start v (pass_map v c2) pages b := by
  obtain ⟨s1, s2⟩ := find_run_start_spec v (pass_map v c2) pages b
  have hle : find_run_start v (pass_map v c2) pages b ≤ pages := by
    by_cases hbp : b ≤ pages
    · exact (s2 hbp).2.1
    · exact Nat.le_of_eq (s1 (by omega))
  refine ⟨chunk_inv_of_frontier v r pages _ b (pass_map v c2) hr ?_ hle ?_ ?_ ?_, ?_⟩
  · rw [hb, Nat.add_mod_right, Nat.mul_mod_left]
  · intro w hw
    refine window_uniform_set (pass_map v c) (pass_map v c2) r w0
      (pass_map_fixed v r w0 c c2 hfix) w (fun hne => hq0 w ?_)
    have e0 : (w0 + 1) * r = w0 * r + r := by ring
    have hw0 : w ≤ w0 := by
      by_contra hgt
      have : (w0 + 1 + 1) * r ≤ (w + 1) * r := Nat.mul_le_mul_right r (by omega)
      have e1 : (w0 + 1 + 1) * r = w0 * r + r + r := by ring
      omega
    exact Nat.mul_le_mul_right r (by omega)
  · intro i hi1 hi2
    by_cases hbp : b ≤ pages
    · exact (s2 hbp).2.2.1 i hi1 hi2
    · have := s1 (by omega)
      omega
  · intro hlt
    by_cases hbp : b ≤ pages
    · exact ⟨(s2 hbp).1, (s2 hbp).2.2.2 hlt⟩
    · have := s1 (by omega)
      omega
  · by_cases hbp : b ≤ pages
    · have := (s2 hbp).1
      omega
    · have := s1 (by omega)
      omega

theorem chunk_step_clean (v : Bool) (r pages a : Nat) (c : ChunkState) (hr : 0 < r)
    (ha : a < pages) (hinv : chunk_inv v r pages a (pass_map v c)) (ha0 : a % r = 0)
    (hre : find_run_end v (pass_map v c) pages (a + 1) % r = 0) :
    chunk_inv v r pages
      (find_run_start v (pass_map v c) pages (find_run_end v (pass_map v c) pages (a + 1) + 1))
      (pass_map v c) ∧
    a < find_run_start v (pass_map v c) pages
      (find_run_end v (pass_map v c) pages (a + 1) + 1) := by
  obtain ⟨-, e2⟩ := find_run_end_spec v (pass_map v c) pages (a + 1)
  obtain ⟨e1, e3, e4, e5⟩ := e2 (by omega)
  generalize find_run_end v (pass_map v c) pages (a + 1) = re at hre e1 e3 e4 e5 ⊢
  obtain ⟨s1, s2⟩ := find_run_start_spec v (pass_map v c) pages (re + 1)
  have hle : find_run_start v (pass_map v c) pages (re + 1) ≤ pages := by
    by_cases hbp : re + 1 ≤ pages
    · exact (s2 hbp).2.1
    · exact Nat.le_of_eq (s1 (by omega))
  refine ⟨chunk_inv_of_frontier v r pages _ re (pass_map v c) hr hre hle ?_ ?_ ?_, ?_⟩
  · refine windows_below v r pages a re (pass_map v c) hr hinv (Or.inl ha0) ?_
    intro i hi1 hi2
    by_cases hia : i = a
    · rw [hia]
      exact (hinv.2.2 ha).2
    · exact e4 i (by omega) hi2
  · intro i hi1 hi2
    by_cases hie : i = re
    · rw [hie]
      exact e5 (by omega)
    · by_cases hbp : re + 1 ≤ pages
      · exact (s2 hbp).2.2.1 i (by omega) hi2
      · have := s1 (by omega)
        omega
  · intro hlt
    by_cases hbp : re + 1 ≤ pages
    · exact ⟨by have := (s2 hbp).1; omega, (s2 hbp).2.2.2 hlt⟩
    · have := s1 (by omega)
      omega
  · by_cases hbp : re + 1 ≤ pages
    · have := (s2 hbp).1
      omega
    · have := s1 (by omega)
      omega

theorem div_mul_le_self_r (a r : Nat) : a / r * r ≤ a := Nat.div_mul_le_self a r

theorem lt_div_mul_add_r (a r : Nat) (hr : 0 < r) : a < a / r * r + r := by
  have h1 := Nat.div_add_mod a r
  have h2 := Nat.mod_lt a hr
  have e2 : r * (a / r) = a / r * r := Nat.mul_comm _ _
  omega

theorem chunk_iter_step (v : Bool) (r pages a : Nat) (c : ChunkState) (hr : 0 < r)
    (ha : a < pages) (hinv : chunk_inv v r pages a (pass_map v c)) :
    chunk_inv v r pages (chunk_hostpages_iter v r pages a c).2
      (pass_map v (chunk_hostpages_iter v r pages a c).1) ∧
    a < (chunk_hostpages_iter v r pages a c).2 ∧
    (∀ w, window_uniform c.unsentmap r w →
      window_uniform (chunk_hostpages_iter v r pages a c).1.unsentmap r w) := by
  obtain ⟨c2, b, hit, hcs⟩ := chunk_iter_pass v r pages a c
  rw [hit]
  simp only []
  rcases hcs with ⟨h1, hb, hfix⟩ | ⟨h0, hre, hb, hfix⟩ | ⟨h0, hre, hb, hc⟩
  · have hab : a < b := by
      rw [hb]
      exact lt_div_mul_add_r a r hr
    obtain ⟨k1, k2⟩ := chunk_step_fixed v r pages a b (a / r) c c2 hr hfix hb hab ha
      (fun w hw => hinv.2.1 w (Nat.le_trans hw (div_mul_le_self_r a r)))
    exact ⟨k1, k2, fun w hu => window_uniform_set c.unsentmap c2.unsentmap r (a / r) hfix.1 w
      (fun _ => hu)⟩
  · obtain ⟨-, e2⟩ := find_run_end_spec v (pass_map v c) pages (a + 1)
    obtain ⟨e1, e3, e4, e5⟩ := e2 (by omega)
    generalize find_run_end v (pass_map v c) pages (a + 1) = re at hre hb hfix e1 e3 e4 e5
    have hab : a < b := by
      rw [hb]
      have := lt_div_mul_add_r re r hr
      omega
    obtain ⟨k1, k2⟩ := chunk_step_fixed v r pages a b (re / r) c c2 hr hfix hb hab ha
      (windows_below v r pages a (re / r * r) (pass_map v c) hr hinv (Or.inl h0) (by
        intro i hi1 hi2
        have := div_mul_le_self_r re r
        by_cases hia : i = a
        · rw [hia]
          exact (hinv.2.2 ha).2
        · exact e4 i (by omega) (by omega)))
    exact ⟨k1, k2, fun w hu => window_uniform_set c.unsentmap c2.unsentmap r (re / r) hfix.1 w
      (fun _ => hu)⟩
  · rw [hb, hc]
    obtain ⟨k1, k2⟩ := chunk_step_clean v r pages a c hr ha hinv h0 hre
    exact ⟨k1, k2, fun w hu => hu⟩

theorem chunk_hostpages_loop_spec (v : Bool) (r pages : Nat) (hr : 0 < r) :
    ∀ (fuel a : Nat) (c : ChunkState), chunk_inv v r pages a (pass_map v c) →
      pages - a < fuel →
      ∃ c2, chunk_hostpages_loop v r pages fuel a c = some c2 ∧
        (∀ w, (w + 1) * r ≤ pages → window_uniform (pass_map v c2) r w) ∧
        (∀ w, window_uniform c.unsentmap r w → window_uniform c2.unsentmap r w) := by
  intro fuel
  induction fuel with
  | zero =>
    intro a c _ hf
    omega
  | succ fuel ih =>
    intro a c hinv hf
    rw [chunk_hostpages_loop.eq_def]
    simp only []
    by_cases ha : a < pages
    · rw [if_pos ha]
      obtain ⟨k1, k2, k3⟩ := chunk_iter_step v r pages a c hr ha hinv
      obtain ⟨c2, h1, h2, h3⟩ := ih _ _ k1 (by omega)
      exact ⟨c2, h1, h2, fun w hu => h3 w (k3 w hu)⟩
    · rw [if_neg ha]
      refine ⟨c, rfl, fun w hw => hinv.2.1 w ?_, fun w hu => hu⟩
      have := hinv.1
      omega

theorem chunk_inv_start (v : Bool) (r pages : Nat) (m : Nat → Bool) :
    chunk_inv v r pages (find_run_start v m pages 0) m := by
  obtain ⟨-, s2⟩ := find_run_start_spec v m pages 0
  obtain ⟨-, s3, s4, s5⟩ := s2 (Nat.zero_le _)
  refine ⟨s3, ?_, fun hlt => ⟨fun i _ hi => s4 i (Nat.zero_le _) hi, s5 hlt⟩⟩
  intro w hw i j hi1 hi2 hj1 hj2
  rw [s4 i (Nat.zero_le _) (by omega), s4 j (Nat.zero_le _) (by omega)]

theorem chunk_hostpages_pass_spec (v : Bool) (page_size used_length r : Nat) (c : ChunkState)
    (hps : page_size = r * TARGET_PAGE_SIZE) (hr : 1 ≤ r) (hr32 : r < 2 ^ 32) :
    ∃ c2, ram_xbzrle_postcopy_chunk_hostpages_pass v page_size used_length c = some c2 ∧
      (∀ w, (w + 1) * r ≤ used_length >>> TARGET_PAGE_BITS →
        window_uniform (pass_map v c2) r w) ∧
      (∀ w, window_uniform c.unsentmap r w → window_uniform c2.unsentmap r w) := by
  unfold ram_xbzrle_postcopy_chunk_hostpages_pass
  simp only []
  by_cases h1 : page_size = TARGET_PAGE_SIZE
  · rw [if_pos h1]
    have hr1 : r = 1 := by
      rw [hps] at h1
      simp only [TARGET_PAGE_SIZE] at h1
      omega
    refine ⟨c, rfl, fun w _ => ?_, fun w hu => hu⟩
    intro i j hi1 hi2 hj1 hj2
    rw [hr1] at hi1 hi2 hj1 hj2
    have : i = j := by omega
    rw [this]
  · rw [if_neg h1]
    have hratio : (page_size / TARGET_PAGE_SIZE) % 2 ^ 32 = r := by
      rw [hps, Nat.mul_div_cancel r (by decide : 0 < TARGET_PAGE_SIZE), Nat.mod_eq_of_lt hr32]
    rw [hratio]
    have hstart : (if v = true then find_next_zero_bit c.unsentmap (used_length >>> TARGET_PAGE_BITS) 0
        else find_next_bit c.bitmap (used_length >>> TARGET_PAGE_BITS) 0) =
        find_run_start v (pass_map v c) (used_length >>> TARGET_PAGE_BITS) 0 := by
      unfold find_run_start pass_map
      cases v <;> rfl
    rw [hstart]
    exact chunk_hostpages_loop_spec v r (used_length >>> TARGET_PAGE_BITS) hr _ _ c
      (chunk_inv_start v r _ _) (by
        have := (chunk_inv_start v r (used_length >>> TARGET_PAGE_BITS) (pass_map v c)).1
        omega)

theorem window_uniform_all (m : Nat → Bool) (r w : Nat) (h : window_uniform m r w) :
    window_all m r w false ∨ window_all m r w true := by
  by_cases hr : 0 < r
  · have e : (w + 1) * r = w * r + r := by ring
    cases hb : m (w * r)
    · exact Or.inl (fun i hi1 hi2 => by
        rw [h i (w * r) hi1 hi2 (Nat.le_refl _) (by omega)]
        exact hb)
    · exact Or.inr (fun i hi1 hi2 => by
        rw [h i (w * r) hi1 hi2 (Nat.le_refl _) (by omega)]
        exact hb)
  · have e : (w + 1) * r = w * r + r := by ring
    exact Or.inl (fun i hi1 hi2 => by omega)

/-- C10: for a block whose `page_size` is `r` target pages (`1 ≤ r`, and `r` fits the
`unsigned int` that holds `host_ratio`), whatever its dirty bitmap and unsent map hold,
`ram_xbzrle_postcopy_chunk_hostpages_pass` with `unsent_pass = true` returns, the pass
with `unsent_pass = false` run on its result returns, and afterwards every host-page
window of `r` bits that lies within the used pages of the block is all zeros or all
ones in the unsent map, and all zeros or all ones in the dirty bitmap. -/
theorem host_page_canonicalisation (page_size used_length r : Nat) (c : ChunkState)
    (hps : page_size = r * TARGET_PAGE_SIZE) (hr : 1 ≤ r) (hr32 : r < 2 ^ 32) :
    ∃ c1 c2,
      ram_xbzrle_postcopy_chunk_hostpages_pass true page_size used_length c = some c1 ∧
      ram_xbzrle_postcopy_chunk_hostpages_pass false page_size used_length c1 = some c2 ∧
      ∀ w, (w + 1) * r ≤ used_length >>> TARGET_PAGE_BITS →
        (window_all c2.unsentmap r w false ∨ window_all c2.unsentmap r w true) ∧
        (window_all c2.bitmap r w false ∨ window_all c2.bitmap r w true) := by
  obtain ⟨c1, h1, u1, -⟩ := chunk_hostpages_pass_spec true page_size used_length r c hps hr hr32
  obtain ⟨c2, h2, u2, k2⟩ :=
    chunk_hostpages_pass_spec false page_size used_length r c1 hps hr hr32
  exact ⟨c1, c2, h1, h2, fun w hw =>
    ⟨window_uniform_all _ r w (k2 w (u1 w hw)), window_uniform_all _ r w (u2 w hw)⟩⟩

/-- Witness of C10: a block of two host pages of four target pages each, with ragged
maps. -/
theorem host_page_canonicalisation_witness :
    ∃ c1 c2,
      ram_xbzrle_postcopy_chunk_hostpages_pass true 16384 32768 ragged_chunk_state = some c1 ∧
      ram_xbzrle_postcopy_chunk_hostpages_pass false 16384 32768 c1 = some c2 ∧
      ∀ w, (w + 1) * 4 ≤ 32768 >>> TARGET_PAGE_BITS →
        (window_all c2.unsentmap 4 w false ∨ window_all c2.unsentmap 4 w true) ∧
        (window_all c2.bitmap 4 w false ∨ window_all c2.bitmap 4 w true) :=
  host_page_canonicalisation 16384 32768 4 ragged_chunk_state (by decide) (by decide)
    (by decide)

/-! ## C8: assembly of a host page in the temporary page -/

theorem postcopy_iter_frame (env : LoadEnv) (s : LoadState) (l : PostcopyLocals)
    (b : Nat) (blk : RAMBlock) (addr F n : Nat) (pl : Payload) (rest0 rest : List Nat)
    (hret : l.ret = 0)
    (hf : s.f = { buf := be64_bytes (addr + F) ++ rest0, last_error := 0 })
    (haddr : addr % 4096 = 0) (hF : F < 4096) (h64 : addr + F < 2 ^ 64)
    (hdata : F &&& (RAM_SAVE_FLAG_ZERO ||| RAM_SAVE_FLAG_PAGE) ≠ 0)
    (hsw : F &&& NOT_RAM_SAVE_FLAG_CONTINUE = pl.flag)
    (hblock : ram_block_from_stream { s with f := { buf := rest0, last_error := 0 } } F =
      (some b, { s with f := { buf := pl.wire ++ rest, last_error := 0 }, block := some b }))
    (hblk : s.ram_list[b]? = some blk) (hhost : blk.host ≠ 0) (hlt : addr < blk.used_length)
    (hP : blk.page_size = 2 ^ n) (hn : n < 64) (hk : 2 ^ n ≠ TARGET_PAGE_SIZE)
    (hwrap : blk.host + addr + TARGET_PAGE_SIZE < 2 ^ 64)
    (hseq : (blk.host + addr) % 2 ^ n = 0 ∨ blk.host + addr = l.last_host + TARGET_PAGE_SIZE)
    (hpl : pl.wf) :
    ram_load_postcopy_iter env s l =
      ({ s with
          f := { buf := rest, last_error := 0 }, block := some b,
          tmp_page := mem_write s.tmp_page ((blk.host + addr) % 2 ^ n) pl.fill,
          events := s.events ++ [LoadEvent.frame (some b) (blk.host + addr) F] ++
            (if (blk.host + addr + TARGET_PAGE_SIZE) % 2 ^ n = 0 then
              [placement_event
                ((if (blk.host + addr) % 2 ^ n = 0 then true else l.all_zero) && pl.is_zero)
                (blk.host + addr + TARGET_PAGE_SIZE - 2 ^ n) (2 ^ n)
                (mem_write s.tmp_page ((blk.host + addr) % 2 ^ n) pl.fill) b]
             else []) },
       { flags := F,
         ret := if (blk.host + addr + TARGET_PAGE_SIZE) % 2 ^ n = 0 then
             placement_ret env
               ((if (blk.host + addr) % 2 ^ n = 0 then true else l.all_zero) && pl.is_zero)
               (blk.host + addr + TARGET_PAGE_SIZE - 2 ^ n) (2 ^ n)
               (mem_write s.tmp_page ((blk.host + addr) % 2 ^ n) pl.fill) b
           else 0,
         place_needed := decide ((blk.host + addr + TARGET_PAGE_SIZE) % 2 ^ n = 0),
         matches_target_page_size := false,
         last_host := blk.host + addr,
         all_zero := (if (blk.host + addr) % 2 ^ n = 0 then true else l.all_zero) && pl.is_zero }) := by
  have hflags : (addr + F) &&& NOT_TARGET_PAGE_MASK = F := by rw [and_not_page_mask]; omega
  have haddr2 : (addr + F) &&& TARGET_PAGE_MASK = addr := by rw [and_page_mask _ h64]; omega
  have hh := host_from_ram_block_offset_some s.ram_list b blk addr hblk hhost hlt
  have hne : ¬ (blk.host + addr = 0) := by omega
  have hps : page_size_of s.ram_list (some b) = 2 ^ n := by simp [page_size_of, hblk, hP]
  have hmod1 : (blk.host + addr + TARGET_PAGE_SIZE) % 2 ^ 64 = blk.host + addr + TARGET_PAGE_SIZE :=
    Nat.mod_eq_of_lt hwrap
  have hpow : 2 ^ n < 2 ^ 64 := Nat.pow_lt_pow_right (by norm_num) hn
  have hpmod : 2 ^ n % 2 ^ 64 = 2 ^ n := Nat.mod_eq_of_lt hpow
  have hdest : ∀ (hz : (blk.host + addr + TARGET_PAGE_SIZE) % 2 ^ n = 0),
      (blk.host + addr + TARGET_PAGE_SIZE + 2 ^ 64 - 2 ^ n) % 2 ^ 64 =
        blk.host + addr + TARGET_PAGE_SIZE - 2 ^ n := by
    intro hz
    have hle : 2 ^ n ≤ blk.host + addr + TARGET_PAGE_SIZE := by
      have hpos : 0 < blk.host + addr + TARGET_PAGE_SIZE := by simp [TARGET_PAGE_SIZE]
      exact Nat.le_of_dvd hpos (Nat.dvd_of_mod_eq_zero hz)
    have : blk.host + addr + TARGET_PAGE_SIZE + 2 ^ 64 - 2 ^ n =
        (blk.host + addr + TARGET_PAGE_SIZE - 2 ^ n) + 2 ^ 64 := by omega
    rw [this, Nat.add_mod_right]
    exact Nat.mod_eq_of_lt (by omega)
  have h264 : (2 : Nat) ^ 64 = 18446744073709551616 := by norm_num
  rw [h264] at hmod1 hpmod hdest
  have hkb : (2 ^ n == TARGET_PAGE_SIZE) = false := by
    rw [beq_eq_false_iff_ne]
    exact hk
  have hsq : ¬ (blk.host + addr) % 2 ^ n = 0 →
      (blk.host + addr = (l.last_host + TARGET_PAGE_SIZE) % 18446744073709551616) = True := by
    intro hal
    rcases hseq with h1 | h1
    · exact absurd h1 hal
    · apply eq_true
      rw [← h1]
      exact (Nat.mod_eq_of_lt (by omega)).symm
  unfold ram_load_postcopy_iter
  cases pl with
  | zero ch =>
    have hflagZ : F &&& NOT_RAM_SAVE_FLAG_CONTINUE = RAM_SAVE_FLAG_ZERO := hsw
    simp only [Payload.wire, List.singleton_append] at hblock
    by_cases hal : (blk.host + addr) % 2 ^ n = 0
    · by_cases hpn : (blk.host + addr + TARGET_PAGE_SIZE) % 2 ^ n = 0 <;>
      by_cases hch : ch = 0 <;>
      by_cases haz : l.all_zero = true <;>
      simp [hf, qemu_get_be64_append _ rest0 0 h64, qemu_file_get_error, hflags, haddr2, hdata,
        hblock, hh, hne, hps, and_host_page_mask _ n hn, hmod1, hflagZ, hkb, hal, hpn, hch,
        haz, hret, qemu_get_byte_cons, Payload.fill, Payload.is_zero, memset,
        placement_event, placement_ret, hpmod, hdest]
    · have hsq2 := hsq hal
      by_cases hpn : (blk.host + addr + TARGET_PAGE_SIZE) % 2 ^ n = 0 <;>
      by_cases hch : ch = 0 <;>
      by_cases haz : l.all_zero = true <;>
      simp [hf, qemu_get_be64_append _ rest0 0 h64, qemu_file_get_error, hflags, haddr2, hdata,
        hblock, hh, hne, hps, and_host_page_mask _ n hn, hmod1, hflagZ, hkb, hal, hpn, hch,
        haz, hret, hsq2, qemu_get_byte_cons, Payload.fill, Payload.is_zero, memset,
        placement_event, placement_ret, hpmod, hdest]
  | page bytes =>
    have hflagP : F &&& NOT_RAM_SAVE_FLAG_CONTINUE = RAM_SAVE_FLAG_PAGE := hsw
    have hlen : bytes.length = TARGET_PAGE_SIZE := hpl
    have hpz : RAM_SAVE_FLAG_PAGE ≠ RAM_SAVE_FLAG_ZERO := by decide
    simp only [Payload.wire] at hblock
    by_cases hal : (blk.host + addr) % 2 ^ n = 0
    · by_cases hpn : (blk.host + addr + TARGET_PAGE_SIZE) % 2 ^ n = 0 <;>
      by_cases haz : l.all_zero = true <;>
      simp [hf, qemu_get_be64_append _ rest0 0 h64, qemu_file_get_error, hflags, haddr2, hdata,
        hblock, hh, hne, hps, and_host_page_mask _ n hn, hmod1, hflagP, hpz, hkb, hal, hpn,
        haz, hret, qemu_get_buffer_append bytes rest 0 _ hlen, Payload.fill,
        Payload.is_zero, placement_event, placement_ret, hpmod, hdest]
    · have hsq2 := hsq hal
      by_cases hpn : (blk.host + addr + TARGET_PAGE_SIZE) % 2 ^ n = 0 <;>
      by_cases haz : l.all_zero = true <;>
      simp [hf, qemu_get_be64_append _ rest0 0 h64, qemu_file_get_error, hflags, haddr2, hdata,
        hblock, hh, hne, hps, and_host_page_mask _ n hn, hmod1, hflagP, hpz, hkb, hal, hpn,
        haz, hret, hsq2, qemu_get_buffer_append bytes rest 0 _ hlen, Payload.fill,
        Payload.is_zero, placement_event, placement_ret, hpmod, hdest]

theorem postframe_flags_facts (fr : PostFrame) :
    fr.flags < 4096 ∧ fr.flags &&& (RAM_SAVE_FLAG_ZERO ||| RAM_SAVE_FLAG_PAGE) ≠ 0 ∧
    fr.flags &&& NOT_RAM_SAVE_FLAG_CONTINUE = fr.payload.flag ∧
    fr.flags &&& RAM_SAVE_FLAG_EOS = 0 ∧
    (fr.cont = true → fr.flags &&& RAM_SAVE_FLAG_CONTINUE ≠ 0) ∧
    (fr.cont = false → fr.flags &&& RAM_SAVE_FLAG_CONTINUE = 0) := by
  obtain ⟨cont, pl⟩ := fr
  cases cont <;> cases pl <;>
    simp only [PostFrame.flags, Payload.flag, Bool.false_eq_true, if_false, if_true] <;> decide

theorem load_state_block_eta (s : LoadState) (f : QEMUFile) (b : Nat) (hb : s.block = some b) :
    ({ s with f := f } : LoadState) = { s with f := f, block := some b } := by
  cases s
  simp only at hb
  subst hb
  rfl

theorem postcopy_iter_postframe (env : LoadEnv) (s : LoadState) (l : PostcopyLocals)
    (b : Nat) (blk : RAMBlock) (addr n : Nat) (fr : PostFrame) (rest : List Nat)
    (hret : l.ret = 0)
    (hf : s.f = { buf := fr.bytes blk addr ++ rest, last_error := 0 })
    (haddr : addr % 4096 = 0)
    (hblk : s.ram_list[b]? = some blk) (hids : ids_wf s.ram_list) (hm : blk.migratable = true)
    (hcont : fr.cont = true → s.block = some b)
    (hhost : blk.host ≠ 0) (hlt : addr < blk.used_length)
    (hP : blk.page_size = 2 ^ n) (hn : n < 64) (hk : 2 ^ n ≠ TARGET_PAGE_SIZE)
    (hwrap : blk.host + addr + TARGET_PAGE_SIZE < 2 ^ 64)
    (hseq : (blk.host + addr) % 2 ^ n = 0 ∨ blk.host + addr = l.last_host + TARGET_PAGE_SIZE)
    (hpl : fr.payload.wf) :
    ram_load_postcopy_iter env s l =
      ({ s with
          f := { buf := rest, last_error := 0 }, block := some b,
          tmp_page := mem_write s.tmp_page ((blk.host + addr) % 2 ^ n) fr.payload.fill,
          events := s.events ++ [LoadEvent.frame (some b) (blk.host + addr) fr.flags] ++
            (if (blk.host + addr + TARGET_PAGE_SIZE) % 2 ^ n = 0 then
              [placement_event
                ((if (blk.host + addr) % 2 ^ n = 0 then true else l.all_zero) &&
                  fr.payload.is_zero)
                (blk.host + addr + TARGET_PAGE_SIZE - 2 ^ n) (2 ^ n)
                (mem_write s.tmp_page ((blk.host + addr) % 2 ^ n) fr.payload.fill) b]
             else []) },
       { flags := fr.flags,
         ret := if (blk.host + addr + TARGET_PAGE_SIZE) % 2 ^ n = 0 then
             placement_ret env
               ((if (blk.host + addr) % 2 ^ n = 0 then true else l.all_zero) &&
                 fr.payload.is_zero)
               (blk.host + addr + TARGET_PAGE_SIZE - 2 ^ n) (2 ^ n)
               (mem_write s.tmp_page ((blk.host + addr) % 2 ^ n) fr.payload.fill) b
           else 0,
         place_needed := decide ((blk.host + addr + TARGET_PAGE_SIZE) % 2 ^ n = 0),
         matches_target_page_size := false,
         last_host := blk.host + addr,
         all_zero := (if (blk.host + addr) % 2 ^ n = 0 then true else l.all_zero) &&
           fr.payload.is_zero }) := by
  obtain ⟨h1, h2, h3, -, h5, h6⟩ := postframe_flags_facts fr
  have h64 : addr + fr.flags < 2 ^ 64 := by
    simp only [TARGET_PAGE_SIZE] at hwrap
    omega
  cases hc : fr.cont
  · refine postcopy_iter_frame env s l b blk addr fr.flags n fr.payload
      ([blk.idstr.length] ++ blk.idstr ++ fr.payload.wire ++ rest) rest hret ?_ haddr h1 h64 h2 h3
      ?_ hblk hhost hlt hP hn hk hwrap hseq hpl
    · rw [hf]
      simp only [PostFrame.bytes, hc, Bool.false_eq_true, if_false, List.append_assoc]
    · have := ram_block_from_stream_named
        ({ s with f := { buf := [blk.idstr.length] ++ blk.idstr ++ fr.payload.wire ++ rest,
                         last_error := 0 } } : LoadState) fr.flags b blk
        (fr.payload.wire ++ rest) 0 (h6 hc) (by simp only [List.append_assoc])
        (qemu_ram_block_by_name_index s.ram_list b blk hids hblk) hblk hm
      rw [this]
  · refine postcopy_iter_frame env s l b blk addr fr.flags n fr.payload
      (fr.payload.wire ++ rest) rest hret ?_ haddr h1 h64 h2 h3
      ?_ hblk hhost hlt hP hn hk hwrap hseq hpl
    · rw [hf]
      simp only [PostFrame.bytes, hc, if_true, List.append_nil, List.append_assoc]
    · rw [ram_block_from_stream_continue
        ({ s with f := { buf := fr.payload.wire ++ rest, last_error := 0 } } : LoadState)
        fr.flags b (h5 hc) (hcont hc)]
      rw [load_state_block_eta s _ b (hcont hc)]

theorem add_page_mod (x m : Nat) (h : x % m + 4096 < m) : (x + 4096) % m = x % m + 4096 := by
  rw [Nat.add_mod, Nat.mod_eq_of_lt (by omega : 4096 < m)]
  exact Nat.mod_eq_of_lt h

theorem postcopy_iters_succ (env : LoadEnv) (n : Nat) (s : LoadState) (l : PostcopyLocals) :
    postcopy_iters env (n + 1) (s, l) = postcopy_iters env n (ram_load_postcopy_iter env s l) :=
  rfl

theorem postcopy_frames_prefix (env : LoadEnv) (b : Nat) (blk : RAMBlock) (n : Nat)
    (hhost : blk.host ≠ 0) (hm : blk.migratable = true) (hP : blk.page_size = 2 ^ n)
    (hn : n < 64) (hk : 2 ^ n ≠ TARGET_PAGE_SIZE) :
    ∀ (frs : List PostFrame) (addr : Nat) (s : LoadState) (l : PostcopyLocals) (rest : List Nat),
      l.ret = 0 → l.flags &&& RAM_SAVE_FLAG_EOS = 0 →
      s.f = { buf := host_page_frames_bytes blk addr frs ++ rest, last_error := 0 } →
      addr % 4096 = 0 → s.ram_list[b]? = some blk → ids_wf s.ram_list →
      (∀ fr, frs.head? = some fr → fr.cont = true → s.block = some b) →
      addr + frs.length * 4096 ≤ blk.used_length →
      blk.host + addr + frs.length * 4096 < 2 ^ 64 →
      (blk.host + addr) % 2 ^ n + frs.length * 4096 < 2 ^ n →
      ((blk.host + addr) % 2 ^ n = 0 ∨ blk.host + addr = l.last_host + TARGET_PAGE_SIZE) →
      (∀ fr ∈ frs, fr.payload.wf) →
      (postcopy_iters env frs.length (s, l)).1.f = { buf := rest, last_error := 0 } ∧
      (postcopy_iters env frs.length (s, l)).1.ram_list = s.ram_list ∧
      (postcopy_iters env frs.length (s, l)).1.tmp_page =
        host_page_fill s.tmp_page ((blk.host + addr) % 2 ^ n) frs ∧
      (postcopy_iters env frs.length (s, l)).1.events =
        s.events ++ host_page_frame_events b (blk.host + addr) frs ∧
      (postcopy_iters env frs.length (s, l)).2.ret = 0 ∧
      (postcopy_iters env frs.length (s, l)).2.flags &&& RAM_SAVE_FLAG_EOS = 0 ∧
      (postcopy_iters env frs.length (s, l)).2.all_zero =
        frames_all_zero (2 ^ n) (blk.host + addr) l.all_zero frs ∧
      (frs ≠ [] → (postcopy_iters env frs.length (s, l)).1.block = some b ∧
        (postcopy_iters env frs.length (s, l)).2.last_host + 4096 =
          blk.host + addr + frs.length * 4096) ∧
      (∀ fuel, ram_load_postcopy_loop env (fuel + frs.length) s l =
        ram_load_postcopy_loop env fuel (postcopy_iters env frs.length (s, l)).1
          (postcopy_iters env frs.length (s, l)).2) := by
  intro frs
  induction frs with
  | nil =>
    intro addr s l rest hret heos hf _ _ _ _ _ _ _ _ _
    simp only [host_page_frames_bytes, List.nil_append] at hf
    exact ⟨hf, rfl, rfl, (List.append_nil _).symm, hret, heos, rfl, fun h => absurd rfl h,
      fun _ => rfl⟩
  | cons fr rs ih =>
    intro addr s l rest hret heos hf haddr hblk hids hcont hlen hwrap hin hseq hwf
    simp only [List.length_cons] at hlen hwrap hin ⊢
    have hpm := add_page_mod (blk.host + addr) (2 ^ n) (by omega)
    have hpn : ¬ (blk.host + addr + TARGET_PAGE_SIZE) % 2 ^ n = 0 := by
      rw [show TARGET_PAGE_SIZE = 4096 from rfl, hpm]
      omega
    have heq := postcopy_iter_postframe env s l b blk addr n fr
      (host_page_frames_bytes blk (addr + TARGET_PAGE_SIZE) rs ++ rest) hret
      (by rw [hf]; simp only [host_page_frames_bytes, List.append_assoc]) haddr hblk hids hm
      (fun hc => hcont fr rfl hc) hhost (by omega) hP hn hk
      (by rw [show TARGET_PAGE_SIZE = 4096 from rfl]; omega) hseq (hwf fr (List.mem_cons_self _ _))
    simp only [hpn, if_false, List.append_nil, decide_False] at heq
    have ih2 := ih (addr + TARGET_PAGE_SIZE) (ram_load_postcopy_iter env s l).1
      (ram_load_postcopy_iter env s l).2 rest
    rw [postcopy_iters_succ]
    rw [heq] at ih2 ⊢
    dsimp only at ih2
    obtain ⟨k1, k2, k3, k4, k5, k6, k7, k8, k9⟩ := ih2 rfl
      (postframe_flags_facts fr).2.2.2.1 rfl
      (by rw [show TARGET_PAGE_SIZE = 4096 from rfl]; omega) hblk hids (fun _ _ _ => rfl)
      (by rw [show TARGET_PAGE_SIZE = 4096 from rfl]; omega)
      (by rw [show TARGET_PAGE_SIZE = 4096 from rfl]; omega)
      (by rw [show TARGET_PAGE_SIZE = 4096 from rfl, ← Nat.add_assoc, hpm]; omega)
      (Or.inr (Nat.add_assoc _ _ _).symm)
      (fun x hx => hwf x (List.mem_cons_of_mem _ hx))
    have hadd : blk.host + (addr + TARGET_PAGE_SIZE) = blk.host + addr + TARGET_PAGE_SIZE :=
      (Nat.add_assoc _ _ _).symm
    have hpm2 : (blk.host + addr + TARGET_PAGE_SIZE) % 2 ^ n =
        (blk.host + addr) % 2 ^ n + TARGET_PAGE_SIZE := hpm
    rw [hadd] at k3 k4 k7 k8
    rw [hpm2] at k3
    refine ⟨k1, k2, k3, ?_, k5, k6, k7, ?_, ?_⟩
    · rw [k4]
      simp only [host_page_frame_events, List.append_assoc, List.singleton_append]
    · intro _
      by_cases hrs : rs = []
      · subst hrs
        refine ⟨rfl, ?_⟩
        simp only [List.length_nil, postcopy_iters]
      · obtain ⟨q1, q2⟩ := k8 hrs
        refine ⟨q1, ?_⟩
        rw [q2, show TARGET_PAGE_SIZE = 4096 from rfl]
        omega
    · intro fuel
      have hstep := postcopy_loop_step env (fuel + rs.length) s l hret heos
      rw [heq] at hstep
      rw [← k9 fuel]
      exact hstep

theorem host_page_frames_bytes_append (blk : RAMBlock) :
    ∀ (a : List PostFrame) (o : Nat) (c : List PostFrame),
      host_page_frames_bytes blk o (a ++ c) =
        host_page_frames_bytes blk o a ++
          host_page_frames_bytes blk (o + a.length * TARGET_PAGE_SIZE) c := by
  intro a
  induction a with
  | nil =>
    intro o c
    simp only [List.nil_append, host_page_frames_bytes, List.length_nil, Nat.zero_mul,
      Nat.add_zero]
  | cons fr rs ih =>
    intro o c
    rw [List.cons_append, host_page_frames_bytes, host_page_frames_bytes, ih, List.length_cons,
      List.append_assoc,
      show o + (rs.length + 1) * TARGET_PAGE_SIZE =
        o + TARGET_PAGE_SIZE + rs.length * TARGET_PAGE_SIZE by ring]

theorem host_page_frame_events_append (b : Nat) :
    ∀ (a : List PostFrame) (h : Nat) (c : List PostFrame),
      host_page_frame_events b h (a ++ c) =
        host_page_frame_events b h a ++
          host_page_frame_events b (h + a.length * TARGET_PAGE_SIZE) c := by
  intro a
  induction a with
  | nil =>
    intro h c
    simp only [List.nil_append, host_page_frame_events, List.length_nil, Nat.zero_mul,
      Nat.add_zero]
  | cons fr rs ih =>
    intro h c
    rw [List.cons_append, host_page_frame_events, host_page_frame_events, ih, List.length_cons,
      List.cons_append,
      show h + (rs.length + 1) * TARGET_PAGE_SIZE =
        h + TARGET_PAGE_SIZE + rs.length * TARGET_PAGE_SIZE by ring]

theorem host_page_fill_append :
    ∀ (a : List PostFrame) (tmp : Nat → Nat) (p : Nat) (c : List PostFrame),
      host_page_fill tmp p (a ++ c) =
        host_page_fill (host_page_fill tmp p a) (p + a.length * TARGET_PAGE_SIZE) c := by
  intro a
  induction a with
  | nil =>
    intro tmp p c
    simp only [List.nil_append, host_page_fill, List.length_nil, Nat.zero_mul, Nat.add_zero]
  | cons fr rs ih =>
    intro tmp p c
    rw [List.cons_append, host_page_fill, host_page_fill, ih, List.length_cons,
      show p + (rs.length + 1) * TARGET_PAGE_SIZE =
        p + TARGET_PAGE_SIZE + rs.length * TARGET_PAGE_SIZE by ring]

theorem postcopy_iters_last (env : LoadEnv) :
    ∀ (n : Nat) (r : LoadState × PostcopyLocals),
      postcopy_iters env (n + 1) r =
        ram_load_postcopy_iter env (postcopy_iters env n r).1 (postcopy_iters env n r).2 := by
  intro n
  induction n with
  | zero =>
    intro r
    rfl
  | succ n ih =>
    intro r
    rw [postcopy_iters, ih]
    rfl

theorem host_page_fill_outside :
    ∀ (frs : List PostFrame) (tmp : Nat → Nat) (p a : Nat), a < p →
      host_page_fill tmp p frs a = tmp a := by
  intro frs
  induction frs with
  | nil =>
    intro tmp p a _
    rfl
  | cons fr rs ih =>
    intro tmp p a ha
    rw [host_page_fill, ih _ _ a (by omega)]
    unfold mem_write
    rw [if_neg (by omega)]

theorem payload_fill_length (pl : Payload) (h : pl.wf) : pl.fill.length = TARGET_PAGE_SIZE := by
  cases pl with
  | zero ch => simp only [Payload.fill, List.length_replicate]
  | page bytes => exact h

theorem host_page_fill_slot :
    ∀ (frs : List PostFrame) (tmp : Nat → Nat) (p i x : Nat) (fr : PostFrame),
      (∀ f ∈ frs, f.payload.wf) → frs[i]? = some fr → x < TARGET_PAGE_SIZE →
      host_page_fill tmp p frs (p + i * TARGET_PAGE_SIZE + x) = fr.payload.fill.getD x 0 := by
  intro frs
  induction frs with
  | nil =>
    intro tmp p i x fr _ hi _
    simp only [List.getElem?_nil] at hi
    exact Option.noConfusion hi
  | cons f rs ih =>
    intro tmp p i x fr hwf hi hx
    cases i with
    | zero =>
      simp only [List.getElem?_cons_zero, Option.some.injEq] at hi
      subst hi
      rw [host_page_fill, Nat.zero_mul, Nat.add_zero,
        host_page_fill_outside rs _ _ _ (by omega)]
      unfold mem_write
      rw [if_pos ⟨by omega, by
        rw [payload_fill_length _ (hwf f (List.mem_cons_self _ _))]
        omega⟩, Nat.add_sub_cancel_left]
    | succ i =>
      simp only [List.getElem?_cons_succ] at hi
      rw [host_page_fill]
      have := ih (mem_write tmp p f.payload.fill) (p + TARGET_PAGE_SIZE) i x fr
        (fun g hg => hwf g (List.mem_cons_of_mem _ hg)) hi hx
      rw [← this]
      congr 1
      ring

theorem frames_all_zero_unaligned (P : Nat) :
    ∀ (frs : List PostFrame) (h : Nat) (az : Bool), 0 < h % P →
      h % P + frs.length * 4096 ≤ P →
      frames_all_zero P h az frs = (az && frs.all (fun fr => fr.payload.is_zero)) := by
  intro frs
  induction frs with
  | nil =>
    intro h az _ _
    simp only [frames_all_zero, List.all_nil, Bool.and_true]
  | cons fr rs ih =>
    intro h az h0 hle
    simp only [List.length_cons] at hle
    rw [frames_all_zero, if_neg (by omega)]
    by_cases hrs : rs = []
    · subst hrs
      simp only [frames_all_zero, List.all_cons, List.all_nil, Bool.and_true]
    · have hlen : 0 < rs.length := List.length_pos.mpr hrs
      have hpm := add_page_mod h P (by omega)
      rw [show TARGET_PAGE_SIZE = 4096 from rfl, ih (h + 4096) _ (by omega) (by omega)]
      simp only [List.all_cons, Bool.and_assoc]

theorem frames_all_zero_aligned (P : Nat) (frs : List PostFrame) (h : Nat) (az : Bool)
    (hal : h % P = 0) (hne : frs ≠ []) (hle : frs.length * 4096 ≤ P) :
    frames_all_zero P h az frs = frs.all (fun fr => fr.payload.is_zero) := by
  cases frs with
  | nil => exact absurd rfl hne
  | cons fr rs =>
    simp only [List.length_cons] at hle
    rw [frames_all_zero, if_pos hal]
    by_cases hrs : rs = []
    · subst hrs
      simp only [frames_all_zero, List.all_cons, List.all_nil, Bool.and_true, Bool.true_and]
    · have hlen : 0 < rs.length := List.length_pos.mpr hrs
      have hpm := add_page_mod h P (by omega)
      rw [show TARGET_PAGE_SIZE = 4096 from rfl,
        frames_all_zero_unaligned P rs (h + 4096) _ (by omega) (by omega)]
      simp only [List.all_cons, Bool.true_and]

theorem add_mod_of_aligned (x m c : Nat) (hx : x % m = 0) (hc : c < m) : (x + c) % m = c := by
  rw [Nat.add_mod, hx, Nat.zero_add, Nat.mod_mod, Nat.mod_eq_of_lt hc]

theorem postcopy_host_page_run (env : LoadEnv) (b : Nat) (blk : RAMBlock) (n : Nat)
    (hhost : blk.host ≠ 0) (hm : blk.migratable = true) (hP : blk.page_size = 2 ^ n)
    (hn : n < 64) (init : List PostFrame) (last : PostFrame) (off : Nat) (s : LoadState)
    (l : PostcopyLocals) (rest : List Nat)
    (hret : l.ret = 0) (heos : l.flags &&& RAM_SAVE_FLAG_EOS = 0)
    (hf : s.f = { buf := host_page_frames_bytes blk off (init ++ [last]) ++ rest,
                  last_error := 0 })
    (hoff : off % 4096 = 0) (hblk : s.ram_list[b]? = some blk) (hids : ids_wf s.ram_list)
    (hcont : ∀ fr, (init ++ [last]).head? = some fr → fr.cont = true → s.block = some b)
    (hlen : off + 2 ^ n ≤ blk.used_length) (hwrap : blk.host + off + 2 ^ n < 2 ^ 64)
    (hal : (blk.host + off) % 2 ^ n = 0) (hk : (init.length + 1) * 4096 = 2 ^ n)
    (hinit : init ≠ []) (hwf : ∀ fr ∈ init ++ [last], fr.payload.wf) :
    (postcopy_iters env (init.length + 1) (s, l)).1.events =
      s.events ++ host_page_frame_events b (blk.host + off) (init ++ [last]) ++
        [placement_event ((init ++ [last]).all (fun fr => fr.payload.is_zero)) (blk.host + off)
          (2 ^ n) (host_page_fill s.tmp_page 0 (init ++ [last])) b] ∧
    (postcopy_iters env (init.length + 1) (s, l)).1.tmp_page =
      host_page_fill s.tmp_page 0 (init ++ [last]) ∧
    (postcopy_iters env (init.length + 1) (s, l)).1.f = { buf := rest, last_error := 0 } ∧
    (postcopy_iters env (init.length + 1) (s, l)).2.ret =
      placement_ret env ((init ++ [last]).all (fun fr => fr.payload.is_zero)) (blk.host + off)
        (2 ^ n) (host_page_fill s.tmp_page 0 (init ++ [last])) b ∧
    (∀ fuel, ram_load_postcopy_loop env (fuel + (init.length + 1)) s l =
      ram_load_postcopy_loop env fuel (postcopy_iters env (init.length + 1) (s, l)).1
        (postcopy_iters env (init.length + 1) (s, l)).2) := by
  have hlen1 : 0 < init.length := List.length_pos.mpr hinit
  have hT : TARGET_PAGE_SIZE = 4096 := rfl
  have hk2 : 2 ^ n ≠ TARGET_PAGE_SIZE := by
    rw [hT]
    omega
  have hbytes : host_page_frames_bytes blk off (init ++ [last]) ++ rest =
      host_page_frames_bytes blk off init ++
        (last.bytes blk (off + init.length * 4096) ++ rest) := by
    rw [host_page_frames_bytes_append, host_page_frames_bytes, host_page_frames_bytes,
      List.append_nil, List.append_assoc, hT]
  obtain ⟨k1, k2, k3, k4, k5, k6, k7, k8, k9⟩ :=
    postcopy_frames_prefix env b blk n hhost hm hP hn hk2 init off s l
      (last.bytes blk (off + init.length * 4096) ++ rest) hret heos (by rw [hf, hbytes]) hoff
      hblk hids
      (fun fr hfr hc => hcont fr (by rw [List.head?_append_of_ne_nil _ hinit]; exact hfr) hc)
      (by omega) (by omega) (by rw [hal]; omega) (Or.inl hal)
      (fun fr hfr => hwf fr (List.mem_append_left _ hfr))
  obtain ⟨q1, q2⟩ := k8 hinit
  have hadd : blk.host + (off + init.length * 4096) = blk.host + off + init.length * 4096 :=
    (Nat.add_assoc _ _ _).symm
  have hnal : (blk.host + (off + init.length * 4096)) % 2 ^ n = init.length * 4096 := by
    rw [hadd]
    exact add_mod_of_aligned _ _ _ hal (by omega)
  have hpn : (blk.host + (off + init.length * 4096) + TARGET_PAGE_SIZE) % 2 ^ n = 0 := by
    rw [show blk.host + (off + init.length * 4096) + TARGET_PAGE_SIZE =
      blk.host + off + 2 ^ n by rw [hT]; omega, Nat.add_mod_right]
    exact hal
  have hdest : blk.host + (off + init.length * 4096) + TARGET_PAGE_SIZE - 2 ^ n =
      blk.host + off := by
    rw [hT]
    omega
  have heq := postcopy_iter_postframe env (postcopy_iters env init.length (s, l)).1
    (postcopy_iters env init.length (s, l)).2 b blk (off + init.length * 4096) n last rest k5 k1
    (by omega) (by rw [k2]; exact hblk) (by rw [k2]; exact hids) hm (fun _ => q1) hhost
    (by omega) hP hn hk2 (by rw [hT]; omega) (Or.inr (by rw [hT]; omega))
    (hwf last (List.mem_append_right _ (List.mem_singleton_self _)))
  have hz : ¬ (init.length * 4096 = 0) := by omega
  have hfill : mem_write (host_page_fill s.tmp_page 0 init) (init.length * 4096)
      last.payload.fill = host_page_fill s.tmp_page 0 (init ++ [last]) := by
    rw [host_page_fill_append, host_page_fill, host_page_fill, Nat.zero_add, hT]
  have haz : (frames_all_zero (2 ^ n) (blk.host + off) l.all_zero init &&
      last.payload.is_zero) = (init ++ [last]).all (fun fr => fr.payload.is_zero) := by
    rw [frames_all_zero_aligned (2 ^ n) init (blk.host + off) _ hal hinit (by omega),
      List.all_append]
    simp only [List.all_cons, List.all_nil, Bool.and_true]
  have hev : host_page_frame_events b (blk.host + off) init ++
      [LoadEvent.frame (some b) (blk.host + (off + init.length * 4096)) last.flags] =
      host_page_frame_events b (blk.host + off) (init ++ [last]) := by
    rw [host_page_frame_events_append, host_page_frame_events, host_page_frame_events, hadd, hT]
  rw [hpn, hnal, hdest, k3, k4, k7, hal] at heq
  simp only [if_true, if_neg hz, hfill, haz, List.append_assoc] at heq
  rw [← List.append_assoc (host_page_frame_events b (blk.host + off) init), hev] at heq
  rw [postcopy_iters_last, heq]
  refine ⟨?_, rfl, rfl, rfl, ?_⟩
  · simp only [List.append_assoc]
  · intro fuel
    have hstep := postcopy_loop_step env fuel (postcopy_iters env init.length (s, l)).1
      (postcopy_iters env init.length (s, l)).2 k5 k6
    rw [heq] at hstep
    rw [← hstep, show fuel + (init.length + 1) = fuel + 1 + init.length by omega]
    exact k9 (fuel + 1)

theorem host_page_frame_events_placements (b : Nat) :
    ∀ (frs : List PostFrame) (h : Nat),
      (host_page_frame_events b h frs).filter LoadEvent.is_placement = [] := by
  intro frs
  induction frs with
  | nil =>
    intro h
    rfl
  | cons fr rs ih =>
    intro h
    rw [host_page_frame_events, List.filter_cons_of_neg (by simp [LoadEvent.is_placement])]
    exact ih _

theorem placement_event_is_placement (az : Bool) (dest page_size : Nat) (tmp : Nat → Nat)
    (b : Nat) : (placement_event az dest page_size tmp b).is_placement = true := by
  unfold placement_event
  cases az <;> rfl

theorem head_take (frs : List PostFrame) (j : Nat) (fr : PostFrame)
    (h : (frs.take j).head? = some fr) : frs.head? = some fr := by
  cases j with
  | zero =>
    simp only [List.take_zero, List.head?_nil] at h
    exact Option.noConfusion h
  | succ j =>
    cases frs with
    | nil =>
      simp only [List.take_nil, List.head?_nil] at h
      exact Option.noConfusion h
    | cons f rs =>
      exact h

/-- C8: let the block `b` have a `page_size` of `k > 1` target pages (a power of two),
and let the stream hold `k` consecutive ZERO or PAGE frames for the target pages from
`off` on, where the host address of `off` is host-page aligned and the host page lies
within the used length. Then the first `k - 1` executions of the body of the loop of
`ram_load_postcopy` record their frames and place nothing; the `k`-th records its frame and
then the one placement, whose destination is the base address `host + off` of the host
page; the temporary page then holds the payload of the `i`-th frame in its `i`-th
target-page slot, and the loop has performed exactly these `k` executions. -/
theorem host_page_assembly (env : LoadEnv) (s : LoadState) (l : PostcopyLocals) (b : Nat)
    (blk : RAMBlock) (n off : Nat) (frames : List PostFrame) (rest : List Nat)
    (hblk : s.ram_list[b]? = some blk) (hids : ids_wf s.ram_list)
    (hm : blk.migratable = true) (hhost : blk.host ≠ 0)
    (hP : blk.page_size = 2 ^ n) (hn : n < 64)
    (hk : blk.page_size = frames.length * TARGET_PAGE_SIZE) (hk1 : 1 < frames.length)
    (hoff : off % TARGET_PAGE_SIZE = 0) (hal : (blk.host + off) % blk.page_size = 0)
    (hlen : off + blk.page_size ≤ blk.used_length)
    (hwrap : blk.host + off + blk.page_size < 2 ^ 64)
    (hwf : ∀ fr ∈ frames, fr.payload.wf)
    (hcont : ∀ fr, frames.head? = some fr → fr.cont = true → s.block = some b)
    (hf : s.f = { buf := host_page_frames_bytes blk off frames ++ rest, last_error := 0 })
    (hret : l.ret = 0) (heos : l.flags &&& RAM_SAVE_FLAG_EOS = 0) :
    (∀ j, j < frames.length →
      (postcopy_iters env j (s, l)).1.events =
        s.events ++ host_page_frame_events b (blk.host + off) (frames.take j)) ∧
    (postcopy_iters env frames.length (s, l)).1.events =
      s.events ++ host_page_frame_events b (blk.host + off) frames ++
        [placement_event (frames.all (fun fr => fr.payload.is_zero)) (blk.host + off)
          blk.page_size (postcopy_iters env frames.length (s, l)).1.tmp_page b] ∧
    ((postcopy_iters env frames.length (s, l)).1.events.drop s.events.length).filter
        LoadEvent.is_placement =
      [placement_event (frames.all (fun fr => fr.payload.is_zero)) (blk.host + off)
        blk.page_size (postcopy_iters env frames.length (s, l)).1.tmp_page b] ∧
    (∀ i fr x, frames[i]? = some fr → x < TARGET_PAGE_SIZE →
      (postcopy_iters env frames.length (s, l)).1.tmp_page (i * TARGET_PAGE_SIZE + x) =
        fr.payload.fill.getD x 0) ∧
    (∀ fuel, ram_load_postcopy_loop env (fuel + frames.length) s l =
      ram_load_postcopy_loop env fuel (postcopy_iters env frames.length (s, l)).1
        (postcopy_iters env frames.length (s, l)).2) := by
  have hT : TARGET_PAGE_SIZE = 4096 := rfl
  rw [hP] at hk hal hlen hwrap ⊢
  rw [hT] at hk hoff
  have hk2 : 2 ^ n ≠ TARGET_PAGE_SIZE := by
    rw [hT]
    omega
  refine ⟨?_, ?_⟩
  · intro j hj
    have hsplit : host_page_frames_bytes blk off frames ++ rest =
        host_page_frames_bytes blk off (frames.take j) ++
          (host_page_frames_bytes blk (off + (frames.take j).length * TARGET_PAGE_SIZE)
            (frames.drop j) ++ rest) := by
      rw [← List.append_assoc, ← host_page_frames_bytes_append, List.take_append_drop]
    have hlj : (frames.take j).length = j := by
      rw [List.length_take]
      omega
    have := postcopy_frames_prefix env b blk n hhost hm hP hn hk2 (frames.take j) off s l _
      hret heos (by rw [hf, hsplit]) hoff hblk hids
      (fun fr hfr hc => hcont fr (head_take frames j fr hfr) hc)
      (by rw [hlj]; omega) (by rw [hlj]; omega) (by rw [hlj, hal]; omega) (Or.inl hal)
      (fun fr hfr => hwf fr (List.mem_of_mem_take hfr))
    rw [hlj] at this
    exact this.2.2.2.1
  · rcases List.eq_nil_or_concat frames with hnil | ⟨init, last, hfr⟩
    · rw [hnil] at hk1
      exact absurd hk1 (by decide)
    · rw [List.concat_eq_append] at hfr
      subst hfr
      simp only [List.length_append, List.length_singleton] at hk hk1 ⊢
      have hinit : init ≠ [] := by
        intro h0
        rw [h0] at hk1
        exact absurd hk1 (by decide)
      obtain ⟨r1, r2, -, -, r5⟩ := postcopy_host_page_run env b blk n hhost hm hP hn init last off
        s l rest hret heos hf hoff hblk hids hcont hlen hwrap hal hk.symm hinit hwf
      refine ⟨?_, ?_, ?_, r5⟩
      · rw [r1, r2]
      · rw [r1, r2, List.append_assoc, List.drop_left, List.filter_append,
          host_page_frame_events_placements, List.nil_append,
          List.filter_cons_of_pos (placement_event_is_placement _ _ _ _ _), List.filter_nil]
      · intro i fr x hi hx
        rw [r2]
        have := host_page_fill_slot (init ++ [last]) s.tmp_page 0 i x fr hwf hi hx
        rw [Nat.zero_add] at this
        exact this

theorem ids_wf_huge_ram : ids_wf [huge_ram] := by
  unfold ids_wf
  refine ⟨by simp, ?_⟩
  intro b hb
  rw [List.mem_singleton] at hb
  subst hb
  exact ⟨by decide, by decide⟩

theorem s4_frames_wf : ∀ fr ∈ s4_frames, fr.payload.wf := by
  intro fr h
  simp only [s4_frames, List.mem_cons, List.mem_singleton, List.not_mem_nil, or_false] at h
  rcases h with h | h | h | h <;> subst h <;>
    simp only [Payload.wf, List.length_replicate, TARGET_PAGE_SIZE]

/-- Witness of C8 on scenario S4: the frames for offsets 0, 4096, 8192 and 12288 of a
16384-byte host page of the block at host address 0x10000. -/
theorem host_page_assembly_witness :
    (∀ j, j < s4_frames.length →
      (postcopy_iters postcopy_load_env j (s4_load_state, PostcopyLocals.init)).1.events =
        s4_load_state.events ++
          host_page_frame_events 0 (huge_ram.host + 0) (s4_frames.take j)) ∧
    (postcopy_iters postcopy_load_env s4_frames.length
        (s4_load_state, PostcopyLocals.init)).1.events =
      s4_load_state.events ++ host_page_frame_events 0 (huge_ram.host + 0) s4_frames ++
        [placement_event (s4_frames.all (fun fr => fr.payload.is_zero)) (huge_ram.host + 0)
          huge_ram.page_size
          (postcopy_iters postcopy_load_env s4_frames.length
            (s4_load_state, PostcopyLocals.init)).1.tmp_page 0] ∧
    ((postcopy_iters postcopy_load_env s4_frames.length
        (s4_load_state, PostcopyLocals.init)).1.events.drop s4_load_state.events.length).filter
        LoadEvent.is_placement =
      [placement_event (s4_frames.all (fun fr => fr.payload.is_zero)) (huge_ram.host + 0)
        huge_ram.page_size
        (postcopy_iters postcopy_load_env s4_frames.length
          (s4_load_state, PostcopyLocals.init)).1.tmp_page 0] ∧
    (∀ i fr x, s4_frames[i]? = some fr → x < TARGET_PAGE_SIZE →
      (postcopy_iters postcopy_load_env s4_frames.length
        (s4_load_state, PostcopyLocals.init)).1.tmp_page (i * TARGET_PAGE_SIZE + x) =
        fr.payload.fill.getD x 0) ∧
    (∀ fuel, ram_load_postcopy_loop postcopy_load_env (fuel + s4_frames.length) s4_load_state
        PostcopyLocals.init =
      ram_load_postcopy_loop postcopy_load_env fuel
        (postcopy_iters postcopy_load_env s4_frames.length
          (s4_load_state, PostcopyLocals.init)).1
        (postcopy_iters postcopy_load_env s4_frames.length
          (s4_load_state, PostcopyLocals.init)).2) :=
  host_page_assembly postcopy_load_env s4_load_state PostcopyLocals.init 0 huge_ram 14 0
    s4_frames (be64_bytes 16) rfl ids_wf_huge_ram rfl (by decide) rfl (by decide) rfl
    (by decide) rfl (by decide) (by decide) (by decide) s4_frames_wf
    (fun fr h hc => by
      simp only [s4_frames, List.head?_cons, Option.some.injEq] at h
      subst h
      exact absurd hc (by decide))
    rfl rfl rfl

/-! ## C7: placements follow the frames of the whole host page -/

theorem ram_load_postcopy_iter_stages (env : LoadEnv) (s : LoadState) (l : PostcopyLocals) :
    ram_load_postcopy_iter env s l =
      (let r := qemu_get_be64 s.f
       let s := { s with f := r.2 }
       let ret := qemu_file_get_error s.f
       if ret ≠ 0 then (s, { l with ret := ret })
       else
         let flags := r.1 &&& NOT_TARGET_PAGE_MASK
         let addr := r.1 &&& TARGET_PAGE_MASK
         let l := { l with flags := flags, place_needed := false }
         let data := decide (flags &&& (RAM_SAVE_FLAG_ZERO ||| RAM_SAVE_FLAG_PAGE) ≠ 0)
         let rb := ram_block_from_stream s flags
         let s := if data then rb.2 else s
         let block := if data then rb.1 else none
         let host := if data then host_from_ram_block_offset s.ram_list block addr else 0
         if data && host == 0 then (s, { l with ret := -EINVAL })
         else
           let page_size := page_size_of s.ram_list block
           let page_buffer := host &&& host_page_mask page_size
           let l := if data then
               { l with matches_target_page_size := page_size == TARGET_PAGE_SIZE }
             else l
           let l := if data && page_buffer == 0 then { l with all_zero := true } else l
           if data && page_buffer != 0 && host != (l.last_host + TARGET_PAGE_SIZE) % 2 ^ 64 then
             (s, { l with ret := -EINVAL })
           else postcopy_frame_body env s l data flags host page_size block) := by
  rfl

theorem postcopy_switch_facts (s : LoadState) (l : PostcopyLocals) (pb sw : Nat) :
    (postcopy_switch s l pb sw).1.events = s.events ∧
    (postcopy_switch s l pb sw).1.ram_list = s.ram_list ∧
    (postcopy_switch s l pb sw).2.1.last_host = l.last_host ∧
    (postcopy_switch s l pb sw).2.1.flags = l.flags ∧
    (postcopy_switch s l pb sw).2.1.place_needed = l.place_needed ∧
    ((postcopy_switch s l pb sw).2.1.ret = 0 → l.ret = 0 ∧
      (sw = RAM_SAVE_FLAG_ZERO ∨ sw = RAM_SAVE_FLAG_PAGE ∨ sw = RAM_SAVE_FLAG_EOS)) := by
  unfold postcopy_switch
  simp only []
  by_cases h1 : sw = RAM_SAVE_FLAG_ZERO
  · rw [if_pos h1]
    by_cases hc : (qemu_get_byte s.f).1 ≠ 0
    · rw [if_pos hc]
      exact ⟨rfl, rfl, rfl, rfl, rfl, fun h => ⟨h, Or.inl h1⟩⟩
    · rw [if_neg hc]
      exact ⟨rfl, rfl, rfl, rfl, rfl, fun h => ⟨h, Or.inl h1⟩⟩
  · rw [if_neg h1]
    by_cases h2 : sw = RAM_SAVE_FLAG_PAGE
    · rw [if_pos h2]
      cases l.matches_target_page_size <;>
        exact ⟨rfl, rfl, rfl, rfl, rfl, fun h => ⟨h, Or.inr (Or.inl h2)⟩⟩
    · rw [if_neg h2]
      by_cases h3 : sw = RAM_SAVE_FLAG_EOS
      · rw [if_pos h3]
        exact ⟨rfl, rfl, rfl, rfl, rfl, fun h => ⟨h, Or.inr (Or.inr h3)⟩⟩
      · rw [if_neg h3]
        exact ⟨rfl, rfl, rfl, rfl, rfl, fun h => absurd h (show ¬ ((-EINVAL : Int) = 0) by decide)⟩

theorem postcopy_place_facts (env : LoadEnv) (s : LoadState) (l : PostcopyLocals)
    (src : Option (List Nat)) (host page_size : Nat) (block : Option Nat) :
    (postcopy_place env s l src host page_size block).1.ram_list = s.ram_list ∧
    (postcopy_place env s l src host page_size block).2.last_host = l.last_host ∧
    (postcopy_place env s l src host page_size block).2.flags = l.flags ∧
    (((postcopy_place env s l src host page_size block).1.events = s.events ∧
        ((postcopy_place env s l src host page_size block).2.ret = 0 →
          l.ret = 0 ∧ l.place_needed = false)) ∨
      (l.ret = 0 ∧ l.place_needed = true ∧
        ∃ e, (postcopy_place env s l src host page_size block).1.events = s.events ++ [e] ∧
          e.placement = some ((host + TARGET_PAGE_SIZE + 2 ^ 64 - page_size % 2 ^ 64) % 2 ^ 64,
            block))) := by
  unfold postcopy_place
  simp only []
  by_cases he : l.ret = 0 ∧ qemu_file_get_error s.f ≠ 0
  · rw [if_pos he]
    rw [if_neg (fun h => he.2 h.1)]
    exact ⟨rfl, rfl, rfl, Or.inl ⟨rfl, fun h => absurd h he.2⟩⟩
  · rw [if_neg he]
    by_cases hp : l.ret = 0 ∧ l.place_needed = true
    · rw [if_pos hp]
      cases l.all_zero
      · exact ⟨rfl, rfl, rfl, Or.inr ⟨hp.1, hp.2, _, rfl, rfl⟩⟩
      · exact ⟨rfl, rfl, rfl, Or.inr ⟨hp.1, hp.2, _, rfl, rfl⟩⟩
    · rw [if_neg hp]
      refine ⟨rfl, rfl, rfl, Or.inl ⟨rfl, fun h => ⟨h, ?_⟩⟩⟩
      cases hpn : l.place_needed
      · rfl
      · exact absurd ⟨h, hpn⟩ hp

theorem postcopy_frame_body_facts (env : LoadEnv) (s : LoadState) (l : PostcopyLocals)
    (data : Bool) (flags host page_size : Nat) (block : Option Nat) :
    (postcopy_frame_body env s l data flags host page_size block).1.ram_list = s.ram_list ∧
    (postcopy_frame_body env s l data flags host page_size block).2.last_host = host ∧
    (postcopy_frame_body env s l data flags host page_size block).2.flags = l.flags ∧
    (((postcopy_frame_body env s l data flags host page_size block).1.events =
          s.events ++ [LoadEvent.frame block host flags] ∧
        ((postcopy_frame_body env s l data flags host page_size block).2.ret = 0 →
          (flags &&& NOT_RAM_SAVE_FLAG_CONTINUE = RAM_SAVE_FLAG_ZERO ∨
            flags &&& NOT_RAM_SAVE_FLAG_CONTINUE = RAM_SAVE_FLAG_PAGE ∨
            flags &&& NOT_RAM_SAVE_FLAG_CONTINUE = RAM_SAVE_FLAG_EOS) ∧
          (data = true →
            (((host + TARGET_PAGE_SIZE) % 2 ^ 64) &&& host_page_mask page_size == 0) = false))) ∨
      ((flags &&& NOT_RAM_SAVE_FLAG_CONTINUE = RAM_SAVE_FLAG_ZERO ∨
          flags &&& NOT_RAM_SAVE_FLAG_CONTINUE = RAM_SAVE_FLAG_PAGE ∨
          flags &&& NOT_RAM_SAVE_FLAG_CONTINUE = RAM_SAVE_FLAG_EOS) ∧
        (data = true →
          (((host + TARGET_PAGE_SIZE) % 2 ^ 64) &&& host_page_mask page_size == 0) = true) ∧
        (data = false → l.place_needed = true) ∧
        ∃ e, (postcopy_frame_body env s l data flags host page_size block).1.events =
            s.events ++ [LoadEvent.frame block host flags, e] ∧
          e.placement = some ((host + TARGET_PAGE_SIZE + 2 ^ 64 - page_size % 2 ^ 64) % 2 ^ 64,
            block))) := by
  unfold postcopy_frame_body
  simp only []
  generalize hl1 : ({ (if data = true then
      { l with place_needed :=
          ((host + TARGET_PAGE_SIZE) % 2 ^ 64) &&& host_page_mask page_size == 0 }
    else l) with last_host := host } : PostcopyLocals) = l1
  generalize hs1 : ({ s with events := s.events ++ [LoadEvent.frame block host flags] } :
    LoadState) = s1
  have hl1a : l1.last_host = host := by rw [← hl1]
  have hl1b : l1.flags = l.flags := by
    rw [← hl1]
    cases data <;> rfl
  have hl1c : l1.place_needed = (if data = true then
      (((host + TARGET_PAGE_SIZE) % 2 ^ 64) &&& host_page_mask page_size == 0)
      else l.place_needed) := by
    rw [← hl1]
    cases data <;> rfl
  have hs1a : s1.events = s.events ++ [LoadEvent.frame block host flags] := by rw [← hs1]
  have hs1b : s1.ram_list = s.ram_list := by rw [← hs1]
  obtain ⟨w1, w2, w3, w4, w5, w6⟩ := postcopy_switch_facts s1 l1
    (host &&& host_page_mask page_size) (flags &&& NOT_RAM_SAVE_FLAG_CONTINUE)
  obtain ⟨p1, p2, p3, p4⟩ := postcopy_place_facts env
    (postcopy_switch s1 l1 (host &&& host_page_mask page_size)
      (flags &&& NOT_RAM_SAVE_FLAG_CONTINUE)).1
    (postcopy_switch s1 l1 (host &&& host_page_mask page_size)
      (flags &&& NOT_RAM_SAVE_FLAG_CONTINUE)).2.1
    (postcopy_switch s1 l1 (host &&& host_page_mask page_size)
      (flags &&& NOT_RAM_SAVE_FLAG_CONTINUE)).2.2 host page_size block
  refine ⟨by rw [p1, w2, hs1b], by rw [p2, w3, hl1a], by rw [p3, w4, hl1b], ?_⟩
  rcases p4 with ⟨q1, q2⟩ | ⟨q1, q2, e, q3, q4⟩
  · refine Or.inl ⟨by rw [q1, w1, hs1a], fun h => ?_⟩
    obtain ⟨r1, r2⟩ := q2 h
    refine ⟨(w6 r1).2, fun hd => ?_⟩
    rw [w5, hl1c, if_pos hd] at r2
    exact r2
  · refine Or.inr ⟨(w6 q1).2, fun hd => ?_, fun hd => ?_, e, ?_, q4⟩
    · rw [w5, hl1c, if_pos hd] at q2
      exact q2
    · rw [w5, hl1c, hd] at q2
      exact q2
    · rw [q3, w1, hs1a, List.append_assoc]
      rfl

theorem host_from_ram_block_offset_ne_zero (rl : List RAMBlock) (block : Option Nat)
    (off : Nat) (h : host_from_ram_block_offset rl block off ≠ 0) :
    ∃ b blk, block = some b ∧ rl[b]? = some blk ∧ blk.host ≠ 0 ∧ off < blk.used_length ∧
      host_from_ram_block_offset rl block off = blk.host + off := by
  unfold host_from_ram_block_offset at h ⊢
  cases block with
  | none =>
    simp [offset_in_ramblock] at h
  | some b =>
    cases hb : rl[b]? with
    | none =>
      simp [offset_in_ramblock, hb] at h
    | some blk =>
      by_cases hh : blk.host = 0
      · simp [offset_in_ramblock, hb, hh] at h
      · by_cases hlt : off < blk.used_length
        · refine ⟨b, blk, rfl, hb, hh, hlt, ?_⟩
          simp [offset_in_ramblock, hb, hh, hlt, host_of]
        · simp [offset_in_ramblock, hb, hh, hlt] at h

theorem mod_page_of_mod_pow (x n : Nat) (hn : 12 ≤ n) (h : x % 2 ^ n = 0) : x % 4096 = 0 :=
  Nat.mod_eq_zero_of_dvd
    (Nat.dvd_trans (Nat.pow_dvd_pow 2 hn : 2 ^ 12 ∣ 2 ^ n) (Nat.dvd_of_mod_eq_zero h))

theorem and_page_mask_mod (w : Nat) : (w &&& TARGET_PAGE_MASK) % 4096 = 0 := by
  have h := Nat.and_pow_two_sub_one_eq_mod (w &&& TARGET_PAGE_MASK) 12
  have e : TARGET_PAGE_MASK &&& (2 ^ 12 - 1) = 0 := by decide
  rw [Nat.land_assoc, e, Nat.and_zero] at h
  exact h.symm

theorem and_page_mask_lt (w : Nat) : w &&& TARGET_PAGE_MASK < 2 ^ 64 :=
  Nat.lt_of_le_of_lt Nat.and_le_right (by decide)

theorem sw_and_const (F c v : Nat) (h : F &&& NOT_RAM_SAVE_FLAG_CONTINUE = v) :
    F &&& (NOT_RAM_SAVE_FLAG_CONTINUE &&& c) = v &&& c := by
  rw [← Nat.land_assoc, h]

theorem sw_data_flags (F : Nat)
    (hd : F &&& (RAM_SAVE_FLAG_ZERO ||| RAM_SAVE_FLAG_PAGE) ≠ 0)
    (h : F &&& NOT_RAM_SAVE_FLAG_CONTINUE = RAM_SAVE_FLAG_ZERO ∨
      F &&& NOT_RAM_SAVE_FLAG_CONTINUE = RAM_SAVE_FLAG_PAGE ∨
      F &&& NOT_RAM_SAVE_FLAG_CONTINUE = RAM_SAVE_FLAG_EOS) : data_frame_flags F := by
  rcases h with h | h | h
  · exact Or.inl h
  · exact Or.inr h
  · exfalso
    apply hd
    have := sw_and_const F (RAM_SAVE_FLAG_ZERO ||| RAM_SAVE_FLAG_PAGE) _ h
    have e1 : NOT_RAM_SAVE_FLAG_CONTINUE &&& (RAM_SAVE_FLAG_ZERO ||| RAM_SAVE_FLAG_PAGE) =
        RAM_SAVE_FLAG_ZERO ||| RAM_SAVE_FLAG_PAGE := by decide
    have e2 : RAM_SAVE_FLAG_EOS &&& (RAM_SAVE_FLAG_ZERO ||| RAM_SAVE_FLAG_PAGE) = 0 := by decide
    rw [e1, e2] at this
    exact this

theorem sw_control_flags (F : Nat)
    (hd : F &&& (RAM_SAVE_FLAG_ZERO ||| RAM_SAVE_FLAG_PAGE) = 0)
    (h : F &&& NOT_RAM_SAVE_FLAG_CONTINUE = RAM_SAVE_FLAG_ZERO ∨
      F &&& NOT_RAM_SAVE_FLAG_CONTINUE = RAM_SAVE_FLAG_PAGE ∨
      F &&& NOT_RAM_SAVE_FLAG_CONTINUE = RAM_SAVE_FLAG_EOS) :
    F &&& RAM_SAVE_FLAG_EOS ≠ 0 := by
  have e1 : NOT_RAM_SAVE_FLAG_CONTINUE &&& (RAM_SAVE_FLAG_ZERO ||| RAM_SAVE_FLAG_PAGE) =
      RAM_SAVE_FLAG_ZERO ||| RAM_SAVE_FLAG_PAGE := by decide
  rcases h with h | h | h
  · exfalso
    have := sw_and_const F (RAM_SAVE_FLAG_ZERO ||| RAM_SAVE_FLAG_PAGE) _ h
    rw [e1, hd] at this
    exact absurd this (by decide)
  · exfalso
    have := sw_and_const F (RAM_SAVE_FLAG_ZERO ||| RAM_SAVE_FLAG_PAGE) _ h
    rw [e1, hd] at this
    exact absurd this (by decide)
  · have := sw_and_const F RAM_SAVE_FLAG_EOS _ h
    have e3 : NOT_RAM_SAVE_FLAG_CONTINUE &&& RAM_SAVE_FLAG_EOS = RAM_SAVE_FLAG_EOS := by decide
    rw [e3] at this
    rw [this]
    decide

theorem postcopy_iter_cases (env : LoadEnv) (s : LoadState) (l : PostcopyLocals)
    (hwf : hosts_wf s.ram_list) :
    (ram_load_postcopy_iter env s l).1.ram_list = s.ram_list ∧
    (((ram_load_postcopy_iter env s l).1.events = s.events ∧
        (ram_load_postcopy_iter env s l).2.ret ≠ 0) ∨
      (∃ F, (ram_load_postcopy_iter env s l).1.events = s.events ++ [LoadEvent.frame none 0 F] ∧
        ((ram_load_postcopy_iter env s l).2.ret ≠ 0 ∨
          (ram_load_postcopy_iter env s l).2.flags &&& RAM_SAVE_FLAG_EOS ≠ 0)) ∨
      (∃ b blk h F, s.ram_list[b]? = some blk ∧ blk.host ≠ 0 ∧ blk.host ≤ h ∧
        h < blk.host + blk.used_length ∧ h % 4096 = 0 ∧
        (h % blk.page_size = 0 ∨ h = (l.last_host + 4096) % 2 ^ 64) ∧
        (ram_load_postcopy_iter env s l).2.last_host = h ∧
        (((ram_load_postcopy_iter env s l).1.events =
              s.events ++ [LoadEvent.frame (some b) h F] ∧
            ((ram_load_postcopy_iter env s l).2.ret = 0 →
              data_frame_flags F ∧ (h + 4096) % blk.page_size ≠ 0)) ∨
          (data_frame_flags F ∧ (h + 4096) % blk.page_size = 0 ∧
            ∃ e, (ram_load_postcopy_iter env s l).1.events =
                s.events ++ [LoadEvent.frame (some b) h F, e] ∧
              e.placement = some (h + 4096 - blk.page_size, some b))))) := by
  rw [ram_load_postcopy_iter_stages]
  simp only []
  generalize qemu_get_be64 s.f = r
  by_cases hfe : qemu_file_get_error r.2 ≠ 0
  · rw [if_pos hfe]
    exact ⟨rfl, Or.inl ⟨rfl, hfe⟩⟩
  · rw [if_neg hfe]
    generalize hF : r.1 &&& NOT_TARGET_PAGE_MASK = F
    generalize haddr : r.1 &&& TARGET_PAGE_MASK = addr
    have haddr0 : addr % 4096 = 0 := by rw [← haddr]; exact and_page_mask_mod _
    by_cases hd : F &&& (RAM_SAVE_FLAG_ZERO ||| RAM_SAVE_FLAG_PAGE) ≠ 0
    · have hdf : decide (F &&& (RAM_SAVE_FLAG_ZERO ||| RAM_SAVE_FLAG_PAGE) ≠ 0) = true :=
        decide_eq_true hd
      rw [hdf]
      simp only [if_true, Bool.true_and]
      obtain ⟨k1, k2, -, -⟩ := ram_block_from_stream_keeps ({ s with f := r.2 } : LoadState) F
      generalize ram_block_from_stream ({ s with f := r.2 } : LoadState) F = rb at k1 k2 ⊢
      replace k1 : rb.2.ram_list = s.ram_list := k1
      replace k2 : rb.2.events = s.events := k2
      rw [k1]
      generalize hhost : host_from_ram_block_offset s.ram_list rb.1 addr = host
      generalize hl2 : (if (host &&& host_page_mask (page_size_of s.ram_list rb.1) == 0) = true
        then ({ flags := F, ret := l.ret, place_needed := false,
                matches_target_page_size := page_size_of s.ram_list rb.1 == TARGET_PAGE_SIZE,
                last_host := l.last_host, all_zero := true } : PostcopyLocals)
        else { flags := F, ret := l.ret, place_needed := false,
               matches_target_page_size := page_size_of s.ram_list rb.1 == TARGET_PAGE_SIZE,
               last_host := l.last_host, all_zero := l.all_zero }) = l2
      have hl2a : l2.last_host = l.last_host := by
        rw [← hl2]
        split <;> rfl
      have hl2b : l2.flags = F := by
        rw [← hl2]
        split <;> rfl
      by_cases h0 : host = 0
      · have : (host == 0) = true := by rw [h0]; rfl
        rw [if_pos this]
        exact ⟨k1, Or.inl ⟨k2, show ¬ ((-EINVAL : Int) = 0) by decide⟩⟩
      · have : ¬ (host == 0) = true := by
          rw [beq_iff_eq]
          exact h0
        rw [if_neg this]
        obtain ⟨b, blk, hb1, hb2, hb3, hb4, hb5⟩ :=
          host_from_ram_block_offset_ne_zero s.ram_list rb.1 addr (by rw [hhost]; exact h0)
        rw [hhost] at hb5
        obtain ⟨n, hn1, hn2, hn3, hn4, hn5, hn6⟩ :=
          hwf.1 blk (List.getElem?_mem hb2) hb3
        have hps : page_size_of s.ram_list rb.1 = 2 ^ n := by
          rw [hb1]
          simp only [page_size_of, hb2, hn3]
        rw [hps, and_host_page_mask _ n hn2]
        have hT : TARGET_PAGE_SIZE = 4096 := rfl
        rw [hT] at hn5
        have hh64 : host + 4096 < 2 ^ 64 := by omega
        have hbh : blk.host % 4096 = 0 := mod_page_of_mod_pow _ n hn1 (by rw [← hn3]; exact hn4)
        by_cases hseq : (host % 2 ^ n != 0 && host != (l2.last_host + TARGET_PAGE_SIZE) % 2 ^ 64) =
            true
        · rw [if_pos hseq]
          exact ⟨k1, Or.inl ⟨k2, show ¬ ((-EINVAL : Int) = 0) by decide⟩⟩
        · rw [if_neg hseq]
          have hseq2 : host % 2 ^ n = 0 ∨ host = (l.last_host + 4096) % 2 ^ 64 := by
            rw [hl2a, hT] at hseq
            by_cases ha : host % 2 ^ n = 0
            · exact Or.inl ha
            · refine Or.inr ?_
              by_contra hne
              apply hseq
              rw [Bool.and_eq_true, bne_iff_ne, bne_iff_ne]
              exact ⟨ha, hne⟩
          obtain ⟨f1, f2, -, f4⟩ := postcopy_frame_body_facts env rb.2 l2 true F host (2 ^ n) rb.1
          rw [and_host_page_mask _ n hn2, hT, Nat.mod_eq_of_lt hh64] at f4
          refine ⟨by rw [f1, k1], Or.inr (Or.inr ⟨b, blk, host, F, hb2, hb3, by omega, by omega,
            by omega, ?_, f2, ?_⟩)⟩
          · rw [hn3]
            exact hseq2
          · rw [hn3]
            rcases f4 with ⟨g1, g2⟩ | ⟨g1, g2, -, e, g3, g4⟩
            · refine Or.inl ⟨by rw [g1, k2, hb1], fun hr => ?_⟩
              obtain ⟨q1, q2⟩ := g2 hr
              refine ⟨sw_data_flags F hd q1, ?_⟩
              have := q2 rfl
              rw [beq_eq_false_iff_ne] at this
              exact this
            · have hz : (host + 4096) % 2 ^ n = 0 := by
                have := g2 rfl
                rw [beq_iff_eq] at this
                exact this
              refine Or.inr ⟨sw_data_flags F hd g1, hz, e, by rw [g3, k2, hb1], ?_⟩
              rw [g4, hb1]
              have hpow : 2 ^ n < 2 ^ 64 := Nat.pow_lt_pow_right (by norm_num) hn2
              have hle : 2 ^ n ≤ host + 4096 :=
                Nat.le_of_dvd (by omega) (Nat.dvd_of_mod_eq_zero hz)
              rw [Nat.mod_eq_of_lt hpow,
                show host + 4096 + 2 ^ 64 - 2 ^ n = (host + 4096 - 2 ^ n) + 2 ^ 64 by omega,
                Nat.add_mod_right, Nat.mod_eq_of_lt (by omega)]
    · have hdf : decide (F &&& (RAM_SAVE_FLAG_ZERO ||| RAM_SAVE_FLAG_PAGE) ≠ 0) = false := by
        simp only [hd, decide_False]
      rw [hdf]
      simp only [Bool.false_eq_true, if_false, Bool.false_and]
      obtain ⟨f1, -, f3, f4⟩ := postcopy_frame_body_facts env
        ({ s with f := r.2 } : LoadState)
        ({ l with flags := F, place_needed := false } : PostcopyLocals) false F 0
        (page_size_of s.ram_list none) none
      refine ⟨f1, Or.inr (Or.inl ⟨F, ?_⟩)⟩
      rcases f4 with ⟨g1, g2⟩ | ⟨-, -, g3, -⟩
      · refine ⟨g1, ?_⟩
        by_cases hr : (postcopy_frame_body env ({ s with f := r.2 } : LoadState)
            ({ l with flags := F, place_needed := false } : PostcopyLocals) false F 0
            (page_size_of s.ram_list none) none).2.ret = 0
        · refine Or.inr ?_
          rw [f3]
          exact sw_control_flags F (not_not.mp hd) (g2 hr).1
        · exact Or.inl hr
      · exact absurd (g3 rfl) Bool.false_ne_true

theorem frame_run_append (b : Nat) :
    ∀ (fl : List Nat) (h F : Nat),
      frame_run b h (fl ++ [F]) =
        frame_run b h fl ++ [LoadEvent.frame (some b) (h + fl.length * 4096) F] := by
  intro fl
  induction fl with
  | nil =>
    intro h F
    rfl
  | cons G rs ih =>
    intro h F
    rw [List.cons_append, frame_run, frame_run, ih, List.length_cons, List.cons_append,
      show h + TARGET_PAGE_SIZE + rs.length * 4096 = h + (rs.length + 1) * 4096 by
        rw [show TARGET_PAGE_SIZE = 4096 from rfl]; ring]

theorem placements_complete_snoc (rl : List RAMBlock) (ev : List LoadEvent) (e : LoadEvent)
    (hlog : placements_complete rl ev)
    (he : ∀ dest block, e.placement = some (dest, block) →
      ∃ (b : Nat) (blk : RAMBlock) (pre0 : List LoadEvent) (fl : List Nat),
        block = some b ∧ rl[b]? = some blk ∧
        fl.length * TARGET_PAGE_SIZE = blk.page_size ∧ dest % blk.page_size = 0 ∧
        (∀ F ∈ fl, data_frame_flags F) ∧ ev = pre0 ++ frame_run b dest fl) :
    placements_complete rl (ev ++ [e]) := by
  intro pre e2 post dest block heq hp
  rcases List.eq_nil_or_concat post with hnil | ⟨post2, x, hpost⟩
  · subst hnil
    have h1 := List.append_inj' heq rfl
    have h2 : e = e2 := by
      have := h1.2
      simp only [List.cons.injEq, and_true] at this
      exact this
    rw [← h1.1]
    exact he dest block (by rw [h2]; exact hp)
  · rw [List.concat_eq_append] at hpost
    subst hpost
    rw [← List.cons_append, ← List.append_assoc] at heq
    have h1 := List.append_inj' heq rfl
    exact hlog pre e2 post2 dest block h1.1 hp

theorem pow_mod_page (n : Nat) (hn : 12 ≤ n) : 2 ^ n % 4096 = 0 :=
  Nat.mod_eq_zero_of_dvd (Nat.pow_dvd_pow 2 hn : 2 ^ 12 ∣ 2 ^ n)

theorem aligned_add_mod (x m c : Nat) (hx : x % m = 0) : (x + c) % m = c % m := by
  rw [Nat.add_mod, hx, Nat.zero_add, Nat.mod_mod]

theorem next_aligned_init (rl : List RAMBlock) (hwf : hosts_wf rl) : next_aligned rl 0 := by
  intro j blk hj hh h1 _
  obtain ⟨n, hn1, hn2, hn3, hn4, -, -⟩ := hwf.1 blk (List.getElem?_mem hj) hh
  rw [hn3] at hn4 ⊢
  have hp := pow_mod_page n hn1
  have hpos : 0 < 2 ^ n := Nat.two_pow_pos n
  have hle : 2 ^ n ≤ blk.host := Nat.le_of_dvd (by omega) (Nat.dvd_of_mod_eq_zero hn4)
  have : 2 ^ n = 4096 := by omega
  rw [this]

theorem next_aligned_after (rl : List RAMBlock) (hwf : hosts_wf rl) (b : Nat) (blk : RAMBlock)
    (h : Nat) (hb : rl[b]? = some blk) (hh : blk.host ≠ 0) (h1 : blk.host ≤ h)
    (h2 : h < blk.host + blk.used_length) (h3 : h % 4096 = 0)
    (h4 : (h + 4096) % blk.page_size = 0) : next_aligned rl h := by
  intro j blk2 hj hh2 g1 g2
  by_cases hin : blk2.host ≤ h
  · have := hwf.2 j b blk2 blk h hj hb hh2 hh hin (by omega) h1 h2
    subst this
    rw [hb] at hj
    injection hj with hj
    rw [← hj]
    exact h4
  · obtain ⟨n, hn1, hn2, hn3, hn4, -, -⟩ := hwf.1 blk2 (List.getElem?_mem hj) hh2
    have hbh := mod_page_of_mod_pow blk2.host n hn1 (by rw [← hn3]; exact hn4)
    have : h + 4096 = blk2.host := by omega
    rw [this]
    exact hn4

theorem frame_extends (rl : List RAMBlock) (hwf : hosts_wf rl) (ev : List LoadEvent)
    (last_host b : Nat) (blk : RAMBlock) (h F : Nat)
    (hb : rl[b]? = some blk) (hh : blk.host ≠ 0) (h1 : blk.host ≤ h)
    (h2 : h < blk.host + blk.used_length) (h3 : h % 4096 = 0)
    (hseq : h % blk.page_size = 0 ∨ h = (last_host + 4096) % 2 ^ 64)
    (hpend : pending_frames rl ev last_host ∨
      (next_aligned rl last_host ∧ last_host + 4096 < 2 ^ 64))
    (hF : data_frame_flags F) :
    ∃ (pre0 : List LoadEvent) (h0 : Nat) (fl : List Nat),
      fl ≠ [] ∧ ev ++ [LoadEvent.frame (some b) h F] = pre0 ++ frame_run b h0 fl ∧
      h0 % blk.page_size = 0 ∧ blk.host ≤ h0 ∧ fl.length * 4096 ≤ blk.page_size ∧
      h + 4096 = h0 + fl.length * 4096 ∧ ∀ G ∈ fl, data_frame_flags G := by
  obtain ⟨n, hn1, hn2, hn3, hn4, hn5, hn6⟩ := hwf.1 blk (List.getElem?_mem hb) hh
  have hP4 := pow_mod_page n hn1
  have hpos : 0 < 2 ^ n := Nat.two_pow_pos n
  rw [hn3] at hn4 hseq ⊢
  by_cases ha : h % 2 ^ n = 0
  · refine ⟨ev, h, [F], List.cons_ne_nil _ _, rfl, ha, h1, ?_, ?_, ?_⟩
    · simp only [List.length_singleton]
      omega
    · simp only [List.length_singleton]
    · intro G hG
      rw [List.mem_singleton] at hG
      rw [hG]
      exact hF
  · have hs := hseq.resolve_left ha
    rcases hpend with ⟨pre0, b0, blk0, h0, fl, p1, p2, p3, p4, p5, p6, p7, p8, p9, p10⟩ | ⟨q1, q2⟩
    · obtain ⟨n0, -, -, -, -, -, m6⟩ := hwf.1 blk0 (List.getElem?_mem p3) p4
      have hlen : 0 < fl.length := List.length_pos.mpr p1
      rw [Nat.mod_eq_of_lt (by omega)] at hs
      have hbh := mod_page_of_mod_pow blk.host n hn1 hn4
      have hne : blk.host ≠ h := by
        intro hc
        rw [hc] at hn4
        exact ha hn4
      have hb0 : b = b0 := hwf.2 b b0 blk blk0 last_host hb p3 hh p4 (by omega) (by omega)
        (by omega) (by omega)
      subst hb0
      rw [hb] at p3
      injection p3 with p3
      subst p3
      rw [hn3] at p7 p8
      refine ⟨pre0, h0, fl ++ [F], ?_, ?_, p7, p5, ?_, ?_, ?_⟩
      · intro hc
        have := congrArg List.length hc
        simp only [List.length_append, List.length_singleton, List.length_nil] at this
        omega
      · rw [p2, frame_run_append, List.append_assoc, show h0 + fl.length * 4096 = h by omega]
      · simp only [List.length_append, List.length_singleton]
        omega
      · simp only [List.length_append, List.length_singleton]
        omega
      · intro G hG
        rw [List.mem_append, List.mem_singleton] at hG
        rcases hG with hG | hG
        · exact p10 G hG
        · rw [hG]
          exact hF
    · rw [Nat.mod_eq_of_lt q2] at hs
      have := q1 b blk hb hh (by omega) (by omega)
      rw [hn3, ← hs] at this
      exact absurd this ha

theorem postcopy_inv_step (env : LoadEnv) (rl : List RAMBlock) (hwf : hosts_wf rl)
    (s : LoadState) (l : PostcopyLocals) (hinv : postcopy_inv rl (s, l)) (hret : l.ret = 0)
    (heos : l.flags &&& RAM_SAVE_FLAG_EOS = 0) :
    postcopy_inv rl (ram_load_postcopy_iter env s l) := by
  obtain ⟨hrl, hlog, hp⟩ := hinv
  replace hrl : s.ram_list = rl := hrl
  replace hlog : placements_complete rl s.events := hlog
  have hpend : pending_frames rl s.events l.last_host ∨
      (next_aligned rl l.last_host ∧ l.last_host + 4096 < 2 ^ 64) := hp hret heos
  obtain ⟨c1, c2⟩ := postcopy_iter_cases env s l (by rw [hrl]; exact hwf)
  rw [hrl] at c1
  rcases c2 with ⟨e1, e2⟩ | ⟨F, e1, e2⟩ | ⟨b, blk, h, F, a1, a2, a3, a4, a5, a6, a7, a8⟩
  · exact ⟨c1, by rw [e1]; exact hlog, fun hr => absurd hr e2⟩
  · refine ⟨c1, ?_, fun hr he => e2.elim (fun x => absurd hr x) (fun x => absurd he x)⟩
    rw [e1]
    exact placements_complete_snoc rl _ _ hlog (fun dest block hpl => Option.noConfusion hpl)
  · rw [hrl] at a1
    obtain ⟨n, hn1, hn2, hn3, hn4, hn5, hn6⟩ := hwf.1 blk (List.getElem?_mem a1) a2
    have hP4 := pow_mod_page n hn1
    have hpos : 0 < 2 ^ n := Nat.two_pow_pos n
    have hbh := mod_page_of_mod_pow blk.host n hn1 (by rw [← hn3]; exact hn4)
    have hT : TARGET_PAGE_SIZE = 4096 := rfl
    rw [hT] at hn5
    have hlogf : placements_complete rl (s.events ++ [LoadEvent.frame (some b) h F]) :=
      placements_complete_snoc rl _ _ hlog (fun dest block hpl => Option.noConfusion hpl)
    rcases a8 with ⟨g1, g2⟩ | ⟨g1, g2, e, g3, g4⟩
    · refine ⟨c1, by rw [g1]; exact hlogf, fun hr _ => ?_⟩
      obtain ⟨d1, d2⟩ := g2 hr
      obtain ⟨pre0, h0, fl, x1, x2, x3, x4, x5, x6, x7⟩ :=
        frame_extends rl hwf s.events l.last_host b blk h F a1 a2 a3 a4 a5 a6 hpend d1
      refine Or.inl ⟨pre0, b, blk, h0, fl, x1, by rw [g1, x2], a1, a2, x4, ?_, x3, ?_, ?_, x7⟩
      · rw [a7]
        omega
      · rw [hn3] at x5 x3 d2 ⊢
        by_contra hc
        have hL : fl.length * 4096 = 2 ^ n := by omega
        apply d2
        rw [x6, hL, Nat.add_mod_right]
        exact x3
      · rw [a7]
        exact x6
    · obtain ⟨pre0, h0, fl, x1, x2, x3, x4, x5, x6, x7⟩ :=
        frame_extends rl hwf s.events l.last_host b blk h F a1 a2 a3 a4 a5 a6 hpend g1
      have hlen : 0 < fl.length := List.length_pos.mpr x1
      have hL : fl.length * 4096 = blk.page_size := by
        rw [hn3] at x5 x3 g2 ⊢
        rw [x6, aligned_add_mod _ _ _ x3] at g2
        by_contra hc
        rw [Nat.mod_eq_of_lt (by omega)] at g2
        omega
      refine ⟨c1, ?_, fun _ _ => Or.inr ⟨?_, ?_⟩⟩
      · rw [g3, List.append_cons]
        refine placements_complete_snoc rl _ e hlogf (fun dest block hpl => ?_)
        rw [g4] at hpl
        injection hpl with hpl
        injection hpl with hd hblock
        refine ⟨b, blk, pre0, fl, hblock.symm, a1, by rw [hT]; exact hL, ?_, x7, ?_⟩
        · rw [← hd, show h + 4096 - blk.page_size = h0 by omega]
          exact x3
        · rw [x2, ← hd, show h + 4096 - blk.page_size = h0 by omega]
      · rw [a7]
        exact next_aligned_after rl hwf b blk h a1 a2 a3 a4 a5 g2
      · rw [a7]
        omega

theorem postcopy_inv_run (env : LoadEnv) (rl : List RAMBlock) (hwf : hosts_wf rl) :
    ∀ (n : Nat) (r : LoadState × PostcopyLocals), postcopy_inv rl r →
      postcopy_inv rl (postcopy_run env n r) := by
  intro n
  induction n with
  | zero =>
    intro r hr
    exact hr
  | succ n ih =>
    intro r hr
    rw [postcopy_run]
    by_cases hc : r.2.ret ≠ 0 ∨ r.2.flags &&& RAM_SAVE_FLAG_EOS ≠ 0
    · rw [if_pos hc]
      exact hr
    · rw [if_neg hc]
      have h1 : r.2.ret = 0 := by
        by_contra h
        exact hc (Or.inl h)
      have h2 : r.2.flags &&& RAM_SAVE_FLAG_EOS = 0 := by
        by_contra h
        exact hc (Or.inr h)
      exact ih _ (postcopy_inv_step env rl hwf r.1 r.2 hr h1 h2)

theorem postcopy_loop_run (env : LoadEnv) :
    ∀ (fuel : Nat) (s : LoadState) (l : PostcopyLocals) (ret : Int) (s2 : LoadState),
      ram_load_postcopy_loop env fuel s l = some (ret, s2) →
      (postcopy_run env fuel (s, l)).1 = s2 ∧ (postcopy_run env fuel (s, l)).2.ret = ret := by
  intro fuel
  induction fuel with
  | zero =>
    intro s l ret s2 h
    rw [ram_load_postcopy_loop.eq_def] at h
    simp only [] at h
    by_cases hc : l.ret ≠ 0 ∨ l.flags &&& RAM_SAVE_FLAG_EOS ≠ 0
    · rw [if_pos hc] at h
      injection h with h
      injection h with h1 h2
      exact ⟨h2, h1⟩
    · rw [if_neg hc] at h
      exact Option.noConfusion h
  | succ fuel ih =>
    intro s l ret s2 h
    rw [ram_load_postcopy_loop.eq_def] at h
    simp only [] at h
    rw [postcopy_run]
    by_cases hc : l.ret ≠ 0 ∨ l.flags &&& RAM_SAVE_FLAG_EOS ≠ 0
    · rw [if_pos hc] at h
      rw [if_pos hc]
      injection h with h
      injection h with h1 h2
      exact ⟨h2, h1⟩
    · rw [if_neg hc] at h
      rw [if_neg hc]
      exact ih _ _ ret s2 h

theorem placements_complete_nil (rl : List RAMBlock) : placements_complete rl [] := by
  intro pre e post dest block heq _
  have := congrArg List.length heq
  simp only [List.length_nil, List.length_append, List.length_cons] at this
  omega

theorem postcopy_inv_init (rl : List RAMBlock) (hwf : hosts_wf rl) (s : LoadState)
    (hrl : s.ram_list = rl) (hev : s.events = []) :
    postcopy_inv rl (s, PostcopyLocals.init) := by
  refine ⟨hrl, ?_, fun _ _ => Or.inr ⟨next_aligned_init rl hwf, show (0 : Nat) + 4096 < 2 ^ 64 by decide⟩⟩
  rw [show (s, PostcopyLocals.init).1.events = [] from hev]
  exact placements_complete_nil rl

theorem hosts_wf_huge_ram : hosts_wf [huge_ram] := by
  refine ⟨?_, ?_⟩
  · intro b hb _
    rw [List.mem_singleton] at hb
    subst hb
    exact ⟨14, by decide, by decide, by decide, by decide, by decide, by decide⟩
  · intro i j bi bj x hi hj _ _ _ _ _ _
    have h1 : i = 0 := by
      cases i with
      | zero => rfl
      | succ i =>
        simp only [List.getElem?_cons_succ, List.getElem?_nil] at hi
        exact Option.noConfusion hi
    have h2 : j = 0 := by
      cases j with
      | zero => rfl
      | succ j =>
        simp only [List.getElem?_cons_succ, List.getElem?_nil] at hj
        exact Option.noConfusion hj
    rw [h1, h2]

/-- C7: let the RAM blocks be mapped as the memory subsystem maps them (page sizes that
are powers of two, blocks aligned to their page size, no host address in two blocks),
and let `ram_load_postcopy` start with an empty record of calls. Then after any number
of executions of its loop, and so in the state it returns, every recorded call of
`postcopy_place_page` or `postcopy_place_page_zero` is for a block whose `page_size` is
`k` target pages, has a host-page-aligned destination, and is directly preceded by `k`
ZERO or PAGE frames of that block for the host addresses `dest`, `dest + 4096`, ... of
the `k` target pages of that host page, in increasing order. -/
theorem postcopy_atomicity (env : LoadEnv) (s : LoadState) (hwf : hosts_wf s.ram_list)
    (hev : s.events = []) :
    (∀ n, placements_complete s.ram_list
      (postcopy_run env n (s, PostcopyLocals.init)).1.events) ∧
    (∀ fuel ret s2, ram_load_postcopy env fuel s = some (ret, s2) →
      placements_complete s.ram_list s2.events) := by
  have hrun : ∀ n, placements_complete s.ram_list
      (postcopy_run env n (s, PostcopyLocals.init)).1.events := fun n =>
    (postcopy_inv_run env s.ram_list hwf n _ (postcopy_inv_init s.ram_list hwf s rfl hev)).2.1
  refine ⟨hrun, fun fuel ret s2 h => ?_⟩
  have := (postcopy_loop_run env fuel s PostcopyLocals.init ret s2 h).1
  rw [← this]
  exact hrun fuel

/-- Witness of C7 on scenario S4: the receiver with the block of 16384-byte host pages
and the frames for offsets 0, 4096, 8192 and 12288. -/
theorem postcopy_atomicity_witness :
    (∀ n, placements_complete s4_load_state.ram_list
      (postcopy_run postcopy_load_env n (s4_load_state, PostcopyLocals.init)).1.events) ∧
    (∀ fuel ret s2, ram_load_postcopy postcopy_load_env fuel s4_load_state = some (ret, s2) →
      placements_complete s4_load_state.ram_list s2.events) :=
  postcopy_atomicity postcopy_load_env s4_load_state hosts_wf_huge_ram rfl

/-! ## C39: the block remembered by `ram_block_from_stream` -/

theorem ram_block_from_stream_named_migratable (s : LoadState) (flags b : Nat)
    (hc : flags &&& RAM_SAVE_FLAG_CONTINUE = 0)
    (h : (ram_block_from_stream s flags).1 = some b) : is_migratable s.ram_list b = true := by
  unfold ram_block_from_stream at h
  rw [if_neg (by rw [hc]; exact fun h => h rfl)] at h
  simp only [] at h
  split at h
  · exact Option.noConfusion h
  · rename_i b2 _
    by_cases hm : is_migratable s.ram_list b2 = true
    · rw [hm] at h
      simp only [Bool.not_true, Bool.false_eq_true, if_false, Option.some.injEq] at h
      rw [← h]
      exact hm
    · rw [Bool.not_eq_true] at hm
      rw [hm] at h
      simp only [Bool.not_false, if_true] at h
      exact Option.noConfusion h

/-- C39, at the failing input: a frame that names the region "rom", which is not
migratable, makes `ram_block_from_stream` return NULL but leaves "rom" in its static
`block`; a later frame with CONTINUE is then resolved to "rom".  At the level of
`ram_load`: the first section is refused with an error code, and a second section
that starts with a CONTINUE frame for offset 0 is accepted and fills the first page
of "rom". -/
theorem continue_resolves_unmigratable :
    is_migratable rom_named_state.ram_list 1 = false ∧
    (ram_block_from_stream
      { rom_named_state with f := { buf := [3, 114, 111, 109], last_error := 0 } }
      RAM_SAVE_FLAG_ZERO).1 = none ∧
    (ram_block_from_stream
      (ram_block_from_stream
        { rom_named_state with f := { buf := [3, 114, 111, 109], last_error := 0 } }
        RAM_SAVE_FLAG_ZERO).2
      (RAM_SAVE_FLAG_ZERO ||| RAM_SAVE_FLAG_CONTINUE)).1 = some 1 ∧
    (ram_load plain_load_env 2 rom_named_state 4).map (fun r => (r.1, r.2.block)) =
      some (-EINVAL, some 1) ∧
    ((ram_load plain_load_env 2 rom_named_state 4).bind (fun r =>
      ram_load plain_load_env 2
        { r.2 with f := { buf := continue_stream, last_error := 0 } } 4)).map
      (fun r => (r.1, r.2.mem 0x20000, r.2.mem (0x20000 + 4095))) = some (0, 0xAA, 0xAA) := by
  refine ⟨by decide, by decide, by decide, by decide!, by decide!⟩

/-! ## C31: the unsent ranges of a block -/

theorem postcopy_send_discard_loop_runs (m : Nat → Bool) (size : Nat) (hsize : size < 2 ^ 63) :
    ∀ (fuel c : Nat) (acc : List (Nat × Nat)), size - c < fuel → c ≤ size →
      (c = 0 ∨ c = size ∨ m c = false) →
      ∃ rs, postcopy_send_discard_loop m size fuel c acc = some (acc ++ rs) ∧
        runs_from m c size rs := by
  intro fuel
  induction fuel with
  | zero =>
    intro c acc h _ _
    omega
  | succ fuel ih =>
    intro c acc hf hc hpre
    rw [postcopy_send_discard_loop.eq_def]
    simp only []
    by_cases hlt : c < size
    · rw [if_pos hlt]
      obtain ⟨-, o2⟩ := find_next_bit_spec m size c
      obtain ⟨o3, o4, o5, o6⟩ := o2 hc
      generalize find_next_bit m size c = one at o3 o4 o5 o6 ⊢
      rw [if_pos o4, show (one + 1) % 2 ^ 64 = one + 1 from Nat.mod_eq_of_lt (by omega)]
      obtain ⟨z1, z2⟩ := find_next_zero_bit_spec m size (one + 1)
      by_cases hone : one = size
      · have hz : find_next_zero_bit m size (one + 1) = size := z1 (by omega)
        rw [hz, if_pos (Nat.le_refl _), hone, Nat.sub_self]
        simp only [ne_eq, not_true_eq_false, if_false, Nat.add_zero]
        rw [Nat.mod_eq_of_lt (by omega)]
        obtain ⟨rs, h1, h2⟩ := ih size acc (by omega) (Nat.le_refl _) (Or.inr (Or.inl rfl))
        refine ⟨rs, h1, ?_, h2.2.1, ?_⟩
        · intro r hr
          obtain ⟨q1, q2, q3, q4⟩ := h2.1 r hr
          omega
        · intro i hi1 hi2 hi3
          have := o5 i hi1 (by omega)
          rw [this] at hi3
          exact Bool.noConfusion hi3
      · have hol : one < size := by omega
        obtain ⟨z3, z4, z5, z6⟩ := z2 (by omega)
        generalize find_next_zero_bit m size (one + 1) = zer at z3 z4 z5 z6 ⊢
        have hlen : (if zer ≥ size then size - one else zer - one) = zer - one := by
          by_cases hz : zer ≥ size
          · rw [if_pos hz]
            have : zer = size := by omega
            rw [this]
          · rw [if_neg hz]
        rw [hlen, if_pos (by omega), show one + (zer - one) = zer by omega,
          Nat.mod_eq_of_lt (by omega)]
        have hpre2 : zer = 0 ∨ zer = size ∨ m zer = false := by
          by_cases hz : zer < size
          · exact Or.inr (Or.inr (z6 hz))
          · exact Or.inr (Or.inl (by omega))
        obtain ⟨rs, h1, h2, h3, h4⟩ := ih zer (acc ++ [(one, zer - one)]) (by omega) z4 hpre2
        have hmone : m one = true := o6 hol
        refine ⟨(one, zer - one) :: rs, ?_, ?_, ?_, ?_⟩
        · rw [h1, List.append_assoc, List.singleton_append]
        · intro r hr
          rw [List.mem_cons] at hr
          rcases hr with hr | hr
          · rw [hr]
            refine ⟨o3, by simp only []; omega, by simp only []; omega, ?_, ?_, ?_⟩
            · intro i hi1 hi2
              simp only [] at hi1 hi2
              by_cases hio : i = one
              · rw [hio]
                exact hmone
              · exact z5 i (by omega) (by omega)
            · simp only []
              by_cases hco : one = c
              · rcases hpre with hp | hp | hp
                · exact Or.inl (by omega)
                · omega
                · rw [← hco, hmone] at hp
                  exact Bool.noConfusion hp
              · exact Or.inr (o5 (one - 1) (by omega) (by omega))
            · simp only []
              rw [show one + (zer - one) = zer by omega]
              by_cases hz : zer < size
              · exact Or.inr (z6 hz)
              · exact Or.inl (by omega)
          · obtain ⟨q1, q2, q3, q4⟩ := h2 r hr
            exact ⟨by omega, q2, q3, q4⟩
        · rw [List.pairwise_cons]
          refine ⟨fun r hr => ?_, h3⟩
          obtain ⟨q1, q2, q3, q4, -, -⟩ := h2 r hr
          simp only []
          have hr1 : m r.1 = true := q4 r.1 (Nat.le_refl _) (by omega)
          have hne : r.1 ≠ zer := by
            intro he
            have hz : zer < size := by omega
            rw [he, z6 hz] at hr1
            exact Bool.noConfusion hr1
          omega
        · intro i hi1 hi2 hi3
          by_cases hiz : i < zer
          · refine ⟨(one, zer - one), List.mem_cons_self _ _, ?_, ?_⟩
            · simp only []
              by_contra hc2
              have := o5 i hi1 (by omega)
              rw [this] at hi3
              exact Bool.noConfusion hi3
            · simp only []
              omega
          · obtain ⟨r, hr, q1, q2⟩ := h4 i (by omega) hi2 hi3
            exact ⟨r, List.mem_cons_of_mem _ hr, q1, q2⟩
    · rw [if_neg hlt]
      refine ⟨[], by rw [List.append_nil], ?_, List.Pairwise.nil, ?_⟩
      · intro r hr
        exact absurd hr (List.not_mem_nil _)
      · intro i hi1 hi2
        omega

/-- C31: for a block with an unsent map and a used length that is a 64-bit word, the
loop of `postcopy_send_discard_bm_ram` terminates, the function returns 0, and the ranges
it passes to `postcopy_discard_send_range` are exactly the maximal runs of set bits of
the unsent map among the used pages, in increasing order: every range is non-empty and
made of set bits, bounded by clear bits or the ends, the ranges are disjoint with a gap
between them, and every set bit below the page count is in one of them. -/
theorem unsent_ranges (block : RAMBlock) (unsentmap : Nat → Bool)
    (hmap : block.unsentmap = some unsentmap) (hlen : block.used_length < 2 ^ 64) :
    ∃ ranges, postcopy_send_discard_bm_ram block = some (0, ranges) ∧
      maximal_runs unsentmap (block.used_length >>> TARGET_PAGE_BITS) ranges := by
  unfold postcopy_send_discard_bm_ram maximal_runs
  simp only [hmap]
  rw [Nat.mod_eq_of_lt hlen]
  have hsize : block.used_length >>> TARGET_PAGE_BITS < 2 ^ 63 := by
    rw [shiftRight_page_bits]
    simp only [TARGET_PAGE_SIZE]
    omega
  generalize block.used_length >>> TARGET_PAGE_BITS = size at hsize ⊢
  obtain ⟨rs, h1, h2⟩ := postcopy_send_discard_loop_runs unsentmap size hsize
    (size + 1) 0 [] (by omega) (Nat.zero_le _) (Or.inl rfl)
  rw [h1]
  exact ⟨rs, rfl, h2⟩

/-- Witness of C31: eight pages of which pages 0, 1 and 5 are unsent. -/
theorem unsent_ranges_witness :
    ∃ ranges, postcopy_send_discard_bm_ram ragged_unsent_block = some (0, ranges) ∧
      maximal_runs (fun i => decide (i = 0 ∨ i = 1 ∨ i = 5))
        (ragged_unsent_block.used_length >>> TARGET_PAGE_BITS) ranges :=
  unsent_ranges ragged_unsent_block (fun i => decide (i = 0 ∨ i = 1 ∨ i = 5)) rfl (by decide)

theorem unsent_ranges_ragged :
    postcopy_send_discard_bm_ram ragged_unsent_block = some (0, [(0, 2), (5, 1)]) := by
  decide

/-! ## C32: preparing the state for a resumed migration -/

theorem count_set_le (bm : Nat → Bool) (n : Nat) : count_set bm n ≤ n := by
  induction n with
  | zero => exact Nat.le_refl 0
  | succ n ih =>
    rw [count_set]
    split <;> omega

theorem block_dirty_count_le (b : RAMBlock) :
    block_dirty_count b ≤ (if b.migratable then b.used_length else 0) := by
  unfold block_dirty_count
  split
  · have h1 := count_set_le b.bmap (b.used_length >>> TARGET_PAGE_BITS)
    have h2 : b.used_length >>> TARGET_PAGE_BITS ≤ b.used_length := by
      rw [Nat.shiftRight_eq_div_pow]
      exact Nat.div_le_self _ _
    omega
  · exact Nat.le_refl 0

theorem dirty_count_le (l : List RAMBlock) : dirty_count l ≤ used_length_sum l := by
  induction l with
  | nil => exact Nat.le_refl 0
  | cons b rest ih =>
    rw [dirty_count, used_length_sum]
    have := block_dirty_count_le b
    omega

theorem resume_count_pages_eq :
    ∀ (l : List RAMBlock) (pages : Nat), pages + dirty_count l < 2 ^ 64 →
      resume_count_pages l pages = pages + dirty_count l := by
  intro l
  induction l with
  | nil =>
    intro pages _
    rfl
  | cons b rest ih =>
    intro pages h
    rw [dirty_count] at h
    rw [resume_count_pages, dirty_count]
    by_cases hm : b.migratable = true
    · rw [if_pos hm]
      have e : block_dirty_count b = count_set b.bmap (b.used_length >>> TARGET_PAGE_BITS) := by
        unfold block_dirty_count
        rw [if_pos hm]
      rw [e] at h ⊢
      unfold bitmap_count_one
      rw [Nat.mod_eq_of_lt (by omega), ih _ (by omega)]
      omega
    · rw [if_neg hm]
      have e : block_dirty_count b = 0 := by
        unfold block_dirty_count
        rw [if_neg hm]
      rw [e] at h ⊢
      rw [ih _ (by omega)]
      omega

/-- C32: when the used lengths of the migratable blocks sum to less than 2^64,
`ram_state_resume_prepare` sets `migration_dirty_pages` to the number of set dirty bits
within the used lengths of the migratable blocks, clears `ram_bulk_stage`, unsets
`last_seen_block` and `last_sent_block`, sets `last_page` to 0 and the output file to
the one passed in, and leaves the RAM list with its bitmaps as it was. -/
theorem resume_prepare_state (s : SaveState) (out : QEMUFile)
    (hsum : used_length_sum s.ram_list < 2 ^ 64) :
    (ram_state_resume_prepare s out).rs.migration_dirty_pages = dirty_count s.ram_list ∧
    (ram_state_resume_prepare s out).rs.ram_bulk_stage = false ∧
    (ram_state_resume_prepare s out).rs.last_seen_block = none ∧
    (ram_state_resume_prepare s out).rs.last_sent_block = none ∧
    (ram_state_resume_prepare s out).rs.last_page = 0 ∧
    (ram_state_resume_prepare s out).rs.f = out ∧
    (ram_state_resume_prepare s out).ram_list = s.ram_list := by
  refine ⟨?_, rfl, rfl, rfl, rfl, rfl, rfl⟩
  have h := dirty_count_le s.ram_list
  have := resume_count_pages_eq s.ram_list 0 (by omega)
  rw [Nat.zero_add] at this
  exact this

/-- Witness of C32 on the sender with both pages of "pc.ram" dirty. -/
theorem resume_prepare_state_witness :
    (ram_state_resume_prepare dirty_state empty_file).rs.migration_dirty_pages =
      dirty_count dirty_state.ram_list ∧
    (ram_state_resume_prepare dirty_state empty_file).rs.ram_bulk_stage = false ∧
    (ram_state_resume_prepare dirty_state empty_file).rs.last_seen_block = none ∧
    (ram_state_resume_prepare dirty_state empty_file).rs.last_sent_block = none ∧
    (ram_state_resume_prepare dirty_state empty_file).rs.last_page = 0 ∧
    (ram_state_resume_prepare dirty_state empty_file).rs.f = empty_file ∧
    (ram_state_resume_prepare dirty_state empty_file).ram_list = dirty_state.ram_list :=
  resume_prepare_state dirty_state empty_file (by decide)

/-! ## C36: the pending amount -/

/-- C36: `ram_save_pending` syncs the bitmap first exactly when the migration is not
in post-copy and the amount before the sync, `migration_dirty_pages * TARGET_PAGE_SIZE`
as a 64-bit word, is strictly below `max_size`; it then adds the amount read after
that, in 64-bit arithmetic, to `res_compatible` when post-copy RAM is enabled and to
`res_precopy_only` otherwise, and leaves the other two outputs as they were. -/
theorem ram_save_pending_outputs (env : SaveEnv) (s : SaveState)
    (max_size a b c : Nat) :
    (ram_save_pending env s max_size a b c).1 =
      (if env.migration_in_postcopy = false ∧
          (s.rs.migration_dirty_pages * TARGET_PAGE_SIZE) % 2 ^ 64 < max_size
        then migration_bitmap_sync env s else s) ∧
    (env.migrate_postcopy_ram = true →
      (ram_save_pending env s max_size a b c).2 =
        (a, (b + ((ram_save_pending env s max_size a b c).1.rs.migration_dirty_pages *
          TARGET_PAGE_SIZE) % 2 ^ 64) % 2 ^ 64, c)) ∧
    (env.migrate_postcopy_ram = false →
      (ram_save_pending env s max_size a b c).2 =
        ((a + ((ram_save_pending env s max_size a b c).1.rs.migration_dirty_pages *
          TARGET_PAGE_SIZE) % 2 ^ 64) % 2 ^ 64, b, c)) := by
  unfold ram_save_pending
  simp only []
  by_cases hc : env.migration_in_postcopy = false ∧
      (s.rs.migration_dirty_pages * TARGET_PAGE_SIZE) % 2 ^ 64 < max_size
  · have hb : (!env.migration_in_postcopy &&
        decide ((s.rs.migration_dirty_pages * TARGET_PAGE_SIZE) % 2 ^ 64 < max_size)) = true := by
      rw [hc.1, decide_eq_true hc.2]
      rfl
    rw [if_pos hb, if_pos hc]
    cases env.migrate_postcopy_ram
    · exact ⟨rfl, fun h => Bool.noConfusion h, fun _ => rfl⟩
    · exact ⟨rfl, fun _ => rfl, fun h => Bool.noConfusion h⟩
  · have hb : ¬ (!env.migration_in_postcopy &&
        decide ((s.rs.migration_dirty_pages * TARGET_PAGE_SIZE) % 2 ^ 64 < max_size)) = true := by
      intro h
      rw [Bool.and_eq_true, Bool.not_eq_true', decide_eq_true_eq] at h
      exact hc h
    rw [if_neg hb, if_neg hc]
    cases env.migrate_postcopy_ram
    · exact ⟨rfl, fun h => Bool.noConfusion h, fun _ => rfl⟩
    · exact ⟨rfl, fun _ => rfl, fun h => Bool.noConfusion h⟩

/-! ## C33: resizing the delta cache -/

theorem size_t_truncates_narrow (w : Nat) (x : Int) (hw : w < 64) :
    size_t_truncates w x = true ↔ ¬ size_representable w x := by
  unfold size_t_truncates size_representable
  rw [if_pos hw, decide_eq_true_eq]
  have hpos : (0 : Int) < 2 ^ w := by positivity
  constructor
  · intro h hr
    apply h
    exact (Int.emod_eq_of_lt hr.1 hr.2).symm
  · intro h heq
    apply h
    rw [heq]
    exact ⟨Int.emod_nonneg _ (by omega), Int.emod_lt_of_pos _ hpos⟩

theorem size_t_truncates_wide (x : Int) : size_t_truncates 64 x = false := by
  unfold size_t_truncates
  rw [if_neg (by decide), decide_eq_false_iff_not, not_not, Int.emod_emod_of_dvd _ (dvd_refl _)]

/-- C33, as stated, fails: on a host with 64-bit `size_t` the test for truncation never
fires, so the size -1, which is not representable as a size, is not refused: with no
cache installed `xbzrle_cache_resize` returns 0.  (Were only sizes that are too large
meant, the claim would fail on a host with 32-bit `size_t`, where the size -1, which is
below 2^32, is refused with -1 although no cache is installed.) -/
theorem resize_negative_counterexample :
    ¬ size_representable lp64_resize_env.size_bits (-1) ∧
    xbzrle_cache_resize lp64_resize_env none (-1) = (0, none) ∧
    (-1 : Int) < 2 ^ ilp32_resize_env.size_bits ∧
    xbzrle_cache_resize ilp32_resize_env none (-1) = (-1, none) := by
  refine ⟨?_, ?_, by decide, rfl⟩
  · intro h
    exact absurd h.1 (by decide)
  · unfold xbzrle_cache_resize
    rw [show lp64_resize_env.size_bits = 64 from rfl, size_t_truncates_wide]
    rfl

/-- C33, amended: `xbzrle_cache_resize` returns -1 and leaves the installed cache as it
is when the conversion of `new_size` to `size_t` truncates it, which on a host whose
`size_t` has fewer than 64 bits is the case exactly when `new_size` is not representable
as a size and on a host with 64-bit `size_t` never; otherwise it returns 0 and leaves the
cache as it is when `new_size` equals the configured size or no cache is installed;
otherwise it returns -1 and leaves the cache as it is when `cache_init` fails; and in
every other case it returns 0 and the installed cache is a fresh, empty cache of
`new_size` bytes. -/
theorem xbzrle_cache_resize_cases (env : ResizeEnv) (cache : Option InstalledCache)
    (new_size : Int) (hw : env.size_bits ≤ 64) :
    (size_t_truncates env.size_bits new_size = true ↔
      (env.size_bits < 64 ∧ ¬ size_representable env.size_bits new_size)) ∧
    (size_t_truncates env.size_bits new_size = true →
      xbzrle_cache_resize env cache new_size = (-1, cache)) ∧
    (size_t_truncates env.size_bits new_size = false →
      (new_size = env.migrate_xbzrle_cache_size ∨ cache = none) →
      xbzrle_cache_resize env cache new_size = (0, cache)) ∧
    (size_t_truncates env.size_bits new_size = false →
      new_size ≠ env.migrate_xbzrle_cache_size → cache ≠ none →
      env.cache_init_fails new_size = true →
      xbzrle_cache_resize env cache new_size = (-1, cache)) ∧
    (size_t_truncates env.size_bits new_size = false →
      new_size ≠ env.migrate_xbzrle_cache_size → cache ≠ none →
      env.cache_init_fails new_size = false →
      xbzrle_cache_resize env cache new_size =
        (0, some { cache := { entries := fun _ => none }, num_bytes := new_size })) := by
  refine ⟨?_, ?_, ?_, ?_, ?_⟩
  · by_cases h64 : env.size_bits < 64
    · rw [size_t_truncates_narrow _ _ h64]
      exact ⟨fun h => ⟨h64, h⟩, fun h => h.2⟩
    · have e : env.size_bits = 64 := by omega
      rw [e, size_t_truncates_wide]
      exact ⟨fun h => Bool.noConfusion h, fun h => absurd h.1 (by decide)⟩
  · intro ht
    unfold xbzrle_cache_resize
    rw [if_pos ht]
  · intro ht hc
    unfold xbzrle_cache_resize
    rw [if_neg (by rw [ht]; exact Bool.false_ne_true)]
    by_cases he : new_size = env.migrate_xbzrle_cache_size
    · rw [if_pos he]
    · rw [if_neg he]
      have hn := hc.resolve_left he
      rw [hn]
  · intro ht he hc hf
    unfold xbzrle_cache_resize cache_init
    rw [if_neg (by rw [ht]; exact Bool.false_ne_true), if_neg he]
    cases cache with
    | none => exact absurd rfl hc
    | some c =>
      simp only []
      rw [if_pos hf]
  · intro ht he hc hf
    unfold xbzrle_cache_resize cache_init
    rw [if_neg (by rw [ht]; exact Bool.false_ne_true), if_neg he]
    cases cache with
    | none => exact absurd rfl hc
    | some c =>
      simp only []
      rw [if_neg (by rw [hf]; exact Bool.false_ne_true)]

/-- Witness of the amended C33: a host with 32-bit `size_t` and an installed cache. -/
theorem xbzrle_cache_resize_cases_witness :
    (size_t_truncates ilp32_resize_env.size_bits 8388608 = true ↔
      (ilp32_resize_env.size_bits < 64 ∧
        ¬ size_representable ilp32_resize_env.size_bits 8388608)) ∧
    (size_t_truncates ilp32_resize_env.size_bits 8388608 = true →
      xbzrle_cache_resize ilp32_resize_env (some used_cache) 8388608 =
        (-1, some used_cache)) ∧
    (size_t_truncates ilp32_resize_env.size_bits 8388608 = false →
      (8388608 = ilp32_resize_env.migrate_xbzrle_cache_size ∨ some used_cache = none) →
      xbzrle_cache_resize ilp32_resize_env (some used_cache) 8388608 =
        (0, some used_cache)) ∧
    (size_t_truncates ilp32_resize_env.size_bits 8388608 = false →
      8388608 ≠ ilp32_resize_env.migrate_xbzrle_cache_size → some used_cache ≠ none →
      ilp32_resize_env.cache_init_fails 8388608 = true →
      xbzrle_cache_resize ilp32_resize_env (some used_cache) 8388608 =
        (-1, some used_cache)) ∧
    (size_t_truncates ilp32_resize_env.size_bits 8388608 = false →
      8388608 ≠ ilp32_resize_env.migrate_xbzrle_cache_size → some used_cache ≠ none →
      ilp32_resize_env.cache_init_fails 8388608 = false →
      xbzrle_cache_resize ilp32_resize_env (some used_cache) 8388608 =
        (0, some { cache := { entries := fun _ => none }, num_bytes := 8388608 })) :=
  xbzrle_cache_resize_cases ilp32_resize_env (some used_cache) 8388608 (by decide)

/-! ## C40: notifying the plugins -/

theorem notify_exception_calls :
    ∀ (plugins : List PluginInstance) (exception : Int) (calls : List PluginCall),
      notify_exception plugins exception calls =
        calls ++ (plugins.filter (fun p => p.cb.on_exception)).map
          (fun p => PluginCall.on_exception p exception) := by
  intro plugins
  induction plugins with
  | nil =>
    intro exception calls
    simp only [notify_exception, List.filter_nil, List.map_nil, List.append_nil]
  | cons p rest ih =>
    intro exception calls
    rw [notify_exception]
    by_cases h : p.cb.on_exception = true
    · rw [if_pos h, ih, List.filter_cons, if_pos h, List.map_cons, List.append_assoc,
        List.singleton_append]
    · rw [if_neg h, ih, List.filter_cons, if_neg h]

theorem notify_exec_instruction_loop_calls :
    ∀ (plugins : List PluginInstance) (vaddr code : Nat) (calls : List PluginCall),
      notify_exec_instruction_loop plugins vaddr code calls =
        calls ++ (plugins.filter (fun p => p.cb.on_execute_instruction)).map
          (fun p => PluginCall.on_execute_instruction p vaddr code) := by
  intro plugins
  induction plugins with
  | nil =>
    intro vaddr code calls
    simp only [notify_exec_instruction_loop, List.filter_nil, List.map_nil, List.append_nil]
  | cons p rest ih =>
    intro vaddr code calls
    rw [notify_exec_instruction_loop]
    by_cases h : p.cb.on_execute_instruction = true
    · rw [if_pos h, ih, List.filter_cons, if_pos h, List.map_cons, List.append_assoc,
        List.singleton_append]
    · rw [if_neg h, ih, List.filter_cons, if_neg h]

theorem count_map_filter_call (plugins : List PluginInstance) (q : PluginInstance)
    (f : PluginInstance → PluginCall) (sel : PluginInstance → Bool)
    (hf : ∀ p, f p = f q → p = q) :
    ((plugins.filter sel).map f).count (f q) = if sel q then plugins.count q else 0 := by
  induction plugins with
  | nil =>
    simp only [List.filter_nil, List.map_nil, List.count_nil, ite_self]
  | cons p rest ih =>
    by_cases hs : sel p = true
    · rw [List.filter_cons, if_pos hs, List.map_cons, List.count_cons, List.count_cons, ih]
      by_cases hpq : p = q
      · subst hpq
        simp only [hs, if_true, beq_self_eq_true]
      · have h1 : (f p == f q) = false := by
          rw [beq_eq_false_iff_ne]
          exact fun h => hpq (hf p h)
        have h2 : (p == q) = false := by
          rw [beq_eq_false_iff_ne]
          exact hpq
        rw [h1, h2]
        split <;> simp
    · rw [List.filter_cons, if_neg hs, ih, List.count_cons]
      by_cases hpq : p = q
      · subst hpq
        simp only [hs, Bool.false_eq_true, if_false]
      · have h2 : (p == q) = false := by
          rw [beq_eq_false_iff_ne]
          exact hpq
        rw [h2]
        split <;> simp

/-- C40: for every plugin list and argument, `notify_exception` appends to the record
of calls exactly the calls `on_exception(instance, exception)` for the listed plugins
whose `on_exception` pointer is set, in list order and with the argument as given, so
that each such plugin is called as often as it is listed (once for a plugin listed
once) and a plugin whose pointer is null is not called.  `notify_exec_instruction` does
the same with `on_execute_instruction(instance, vaddr, code)` when the address is
translated and backed by host memory, and makes no call at all when the translation
fails or there is no host memory for the code address. -/
theorem plugin_fan_out (env : PluginEnv) (plugins : List PluginInstance)
    (exception : Int) (vaddr : Nat) (calls : List PluginCall) :
    notify_exception plugins exception calls =
      calls ++ (plugins.filter (fun p => p.cb.on_exception)).map
        (fun p => PluginCall.on_exception p exception) ∧
    (∀ q : PluginInstance,
      ((notify_exception plugins exception calls).drop calls.length).count
          (PluginCall.on_exception q exception) =
        if q.cb.on_exception then plugins.count q else 0) ∧
    ((env.cpu_get_phys_page_debug vaddr = 2 ^ 64 - 1 ∨
        env.qemu_map_ram_ptr_nofault
          ((env.cpu_get_phys_page_debug vaddr + (NOT_TARGET_PAGE_MASK &&& vaddr)) % 2 ^ 64) = 0) →
      notify_exec_instruction env plugins vaddr calls = calls) ∧
    (env.cpu_get_phys_page_debug vaddr ≠ 2 ^ 64 - 1 →
      env.qemu_map_ram_ptr_nofault
        ((env.cpu_get_phys_page_debug vaddr + (NOT_TARGET_PAGE_MASK &&& vaddr)) % 2 ^ 64) ≠ 0 →
      notify_exec_instruction env plugins vaddr calls =
        calls ++ (plugins.filter (fun p => p.cb.on_execute_instruction)).map
          (fun p => PluginCall.on_execute_instruction p vaddr
            (env.qemu_map_ram_ptr_nofault
              ((env.cpu_get_phys_page_debug vaddr + (NOT_TARGET_PAGE_MASK &&& vaddr)) %
                2 ^ 64)))) := by
  refine ⟨notify_exception_calls plugins exception calls, ?_, ?_, ?_⟩
  · intro q
    rw [notify_exception_calls, List.drop_left]
    exact count_map_filter_call plugins q (fun p => PluginCall.on_exception p exception)
      (fun p => p.cb.on_exception) (fun p h => by injection h)
  · intro h
    unfold notify_exec_instruction
    simp only []
    by_cases h1 : env.cpu_get_phys_page_debug vaddr = 2 ^ 64 - 1
    · rw [if_pos h1]
    · rw [if_neg h1, if_pos (h.resolve_left h1)]
  · intro h1 h2
    unfold notify_exec_instruction
    simp only []
    rw [if_neg h1, if_neg h2]
    exact notify_exec_instruction_loop_calls plugins vaddr _ calls

/-! ## C34: the throttle trigger -/

theorem sync_fold_rel (env : SaveEnv) (R : SaveState → SaveState → Prop)
    (hrefl : ∀ s, R s s) (htrans : ∀ a b c, R a b → R b c → R a c)
    (hstep : ∀ s i start length, R s (migration_bitmap_sync_range env s i start length))
    (l : List Nat) :
    ∀ s : SaveState,
      R s (l.foldl (fun s i =>
        match s.ram_list[i]? with
        | some block =>
          if block.migratable then migration_bitmap_sync_range env s i 0 block.used_length else s
        | none => s) s) := by
  induction l with
  | nil =>
    intro s
    exact hrefl s
  | cons i rest ih =>
    intro s
    rw [List.foldl_cons]
    refine htrans _ _ _ ?_ (ih _)
    cases h : s.ram_list[i]? with
    | none => exact hrefl s
    | some b =>
      by_cases hm : b.migratable = true
      · simp only [hm, if_true]
        exact hstep s i 0 _
      · simp only [hm, Bool.false_eq_true, if_false]
        exact hrefl s

theorem migration_bitmap_sync_range_throttle (env : SaveEnv) (s : SaveState)
    (i start length : Nat) :
    (migration_bitmap_sync_range env s i start length).throttle_calls = s.throttle_calls ∧
    (migration_bitmap_sync_range env s i start length).rs.dirty_rate_high_cnt =
      s.rs.dirty_rate_high_cnt := by
  unfold migration_bitmap_sync_range
  split <;> exact ⟨rfl, rfl⟩

theorem sync_window_throttle (env : SaveEnv) (s : SaveState) :
    (sync_window env s).1.throttle_calls = s.throttle_calls ∧
    (sync_window env s).1.rs.dirty_rate_high_cnt = s.rs.dirty_rate_high_cnt := by
  unfold sync_window
  simp only [qemu_clock_get_ms, migration_bitmap_sync_blocks]
  have h := fun t => sync_fold_rel env
    (fun a b => b.throttle_calls = a.throttle_calls ∧
      b.rs.dirty_rate_high_cnt = a.rs.dirty_rate_high_cnt)
    (fun _ => ⟨rfl, rfl⟩) (fun a b c h1 h2 => ⟨h2.1.trans h1.1, h2.2.trans h1.2⟩)
    (fun s i st len => migration_bitmap_sync_range_throttle env s i st len)
    (List.range (SaveState.ram_list t).length) t
  split_ifs
  · exact h _
  · exact h _

theorem migration_bitmap_sync_window (env : SaveEnv) (s : SaveState) :
    (migration_bitmap_sync env s).throttle_calls =
      (migration_bitmap_sync_period env (sync_window env s).1 (sync_window env s).2).throttle_calls ∧
    (migration_bitmap_sync env s).rs.dirty_rate_high_cnt =
      (migration_bitmap_sync_period env (sync_window env s).1
        (sync_window env s).2).rs.dirty_rate_high_cnt := by
  have e : migration_bitmap_sync env s =
      (if env.migrate_use_events = true then
        { migration_bitmap_sync_period env (sync_window env s).1 (sync_window env s).2 with
          pass_events :=
            (migration_bitmap_sync_period env (sync_window env s).1
              (sync_window env s).2).pass_events ++
            [(migration_bitmap_sync_period env (sync_window env s).1
              (sync_window env s).2).ram_counters.dirty_sync_count] }
      else migration_bitmap_sync_period env (sync_window env s).1 (sync_window env s).2) := rfl
  rw [e]
  split <;> exact ⟨rfl, rfl⟩

theorem migration_update_rates_throttle (env : SaveEnv) (s : SaveState) (t : Int) :
    (migration_update_rates env s t).throttle_calls = s.throttle_calls ∧
    (migration_update_rates env s t).rs.dirty_rate_high_cnt = s.rs.dirty_rate_high_cnt := by
  unfold migration_update_rates
  simp only []
  split_ifs <;> exact ⟨rfl, rfl⟩

theorem migration_bitmap_sync_period_throttle (env : SaveEnv) (s : SaveState) (t : Int)
    (hac : env.migrate_auto_converge = true) (hblk : env.blk_mig_bulk_active = false)
    (hcnt : s.rs.dirty_rate_high_cnt = 0 ∨ s.rs.dirty_rate_high_cnt = 1) :
    (migration_bitmap_sync_period env s t).throttle_calls =
      s.throttle_calls +
        (if t > s.rs.time_last_bitmap_sync + 1000 ∧
            (s.rs.num_dirty_pages_period * TARGET_PAGE_SIZE) % 2 ^ 64 >
              ((s.ram_counters.transferred % 2 ^ 64 + 2 ^ 64 -
                s.rs.bytes_xfer_prev % 2 ^ 64) % 2 ^ 64) / 2 ∧
            s.rs.dirty_rate_high_cnt = 1 then 1 else 0) ∧
    (migration_bitmap_sync_period env s t).rs.dirty_rate_high_cnt =
      (if t > s.rs.time_last_bitmap_sync + 1000 ∧
          (s.rs.num_dirty_pages_period * TARGET_PAGE_SIZE) % 2 ^ 64 >
            ((s.ram_counters.transferred % 2 ^ 64 + 2 ^ 64 -
              s.rs.bytes_xfer_prev % 2 ^ 64) % 2 ^ 64) / 2 then
        (if s.rs.dirty_rate_high_cnt = 1 then 0 else 1)
      else s.rs.dirty_rate_high_cnt) := by
  unfold migration_bitmap_sync_period
  simp only []
  by_cases hev : t > s.rs.time_last_bitmap_sync + 1000
  · rw [if_pos hev]
    obtain ⟨u1, u2⟩ := migration_update_rates_throttle env
      (migration_bitmap_sync_throttle env s s.ram_counters.transferred) t
    simp only [u1, u2]
    unfold migration_bitmap_sync_throttle
    simp only [hac, hblk, Bool.not_false, Bool.and_self, if_true]
    by_cases hh : (s.rs.num_dirty_pages_period * TARGET_PAGE_SIZE) % 2 ^ 64 >
        ((s.ram_counters.transferred % 2 ^ 64 + 2 ^ 64 -
          s.rs.bytes_xfer_prev % 2 ^ 64) % 2 ^ 64) / 2
    · rw [if_pos hh]
      rcases hcnt with h0 | h1
      · simp only [h0, hev, hh, true_and, and_true]
        refine ⟨?_, ?_⟩ <;> simp
      · simp only [h1, hev, hh, true_and, and_true]
        refine ⟨?_, ?_⟩ <;> simp
    · rw [if_neg hh]
      simp only [hev, hh, true_and, false_and, and_false, if_false, Nat.add_zero, and_self]
  · rw [if_neg hev]
    simp only [hev, false_and, if_false, Nat.add_zero, and_self]

/-- C34, as stated, fails: the two windows need not be consecutive.  Of three evaluated
windows, the first and the third dirty 4096 bytes while nothing is transferred, and the
second dirties 4096 bytes while 100000 are transferred; the condition of the claim holds
in the first and third window and not in the second (nor does the test of the code),
nothing is triggered at the end of the second, and `migrate_throttle_guest_down` is
called at the end of the third.  The last part records a slip of the test against its
own comment: two consecutive windows in each of which 4096 bytes are dirtied and 4096
transferred, so that the bytes dirtied do not exceed the bytes transferred by 50%, pass
the test and trigger the call. -/
theorem throttle_not_consecutive_counterexample :
    (window_evaluated converge_env window_states.1 ∧
      dirtied_exceeds_by_half converge_env window_states.1) ∧
    (window_evaluated converge_env window_states.2.1 ∧
      ¬ dirtied_exceeds_by_half converge_env window_states.2.1 ∧
      ¬ dirty_rate_test converge_env window_states.2.1 ∧
      (migration_bitmap_sync converge_env window_states.2.1).throttle_calls =
        window_states.2.1.throttle_calls) ∧
    (window_evaluated converge_env window_states.2.2 ∧
      dirtied_exceeds_by_half converge_env window_states.2.2 ∧
      (migration_bitmap_sync converge_env window_states.2.2).throttle_calls =
        window_states.2.2.throttle_calls + 1) ∧
    (window_evaluated converge_env even_window_states.1 ∧
      ¬ dirtied_exceeds_by_half converge_env even_window_states.1 ∧
      window_evaluated converge_env even_window_states.2 ∧
      ¬ dirtied_exceeds_by_half converge_env even_window_states.2 ∧
      (migration_bitmap_sync converge_env even_window_states.2).throttle_calls =
        even_window_states.2.throttle_calls + 1) := by
  unfold window_evaluated dirtied_exceeds_by_half dirty_rate_test window_dirtied
    window_transferred
  decide!

/-- C34, amended: with auto-converge enabled and block migration outside its bulk
phase, `migration_bitmap_sync` calls `migrate_throttle_guest_down` (once) exactly when
the call evaluates a sync window, the window passes the dirty-rate test, and one earlier
window that passed it has been counted since the last call of the throttle
(`dirty_rate_high_cnt` is 1).  A passing window that is the first one counted sets the
count to 1, the triggering window resets it to 0, and every other call leaves the count
as it is, so that a window that does not pass the test does not prevent the trigger.
Every window in which the bytes dirtied exceed the bytes transferred by more than 50%
passes the test. -/
theorem throttle_trigger (env : SaveEnv) (s : SaveState)
    (hac : env.migrate_auto_converge = true) (hblk : env.blk_mig_bulk_active = false)
    (hcnt : s.rs.dirty_rate_high_cnt = 0 ∨ s.rs.dirty_rate_high_cnt = 1) :
    ((migration_bitmap_sync env s).throttle_calls = s.throttle_calls + 1 ↔
      (window_evaluated env s ∧ dirty_rate_test env s ∧ s.rs.dirty_rate_high_cnt = 1)) ∧
    ((migration_bitmap_sync env s).throttle_calls = s.throttle_calls ∨
      (migration_bitmap_sync env s).throttle_calls = s.throttle_calls + 1) ∧
    (window_evaluated env s ∧ dirty_rate_test env s →
      (migration_bitmap_sync env s).rs.dirty_rate_high_cnt =
        if s.rs.dirty_rate_high_cnt = 1 then 0 else 1) ∧
    (¬ (window_evaluated env s ∧ dirty_rate_test env s) →
      (migration_bitmap_sync env s).rs.dirty_rate_high_cnt = s.rs.dirty_rate_high_cnt) ∧
    (dirtied_exceeds_by_half env s → dirty_rate_test env s) := by
  obtain ⟨w1, w2⟩ := migration_bitmap_sync_window env s
  obtain ⟨k1, k2⟩ := sync_window_throttle env s
  obtain ⟨p1, p2⟩ := migration_bitmap_sync_period_throttle env (sync_window env s).1
    (sync_window env s).2 hac hblk (by rw [k2]; exact hcnt)
  rw [w1, w2, p1, p2, k1, k2]
  have himp : ∀ d t : Nat, 2 * d > 3 * t → d > t / 2 := by
    intro d t h
    omega
  unfold dirtied_exceeds_by_half window_evaluated dirty_rate_test window_dirtied
    window_transferred
  refine ⟨?_, ?_, ?_, ?_, ?_⟩
  · constructor
    · intro h
      by_contra hc
      rw [if_neg hc] at h
      omega
    · intro h
      rw [if_pos h]
  · split
    · exact Or.inr rfl
    · exact Or.inl rfl
  · intro h
    rw [if_pos h]
  · intro h
    rw [if_neg h]
  · exact himp _ _

/-- Witness of the amended C34: the third of the three windows, with the count at 1. -/
theorem throttle_trigger_witness :
    ((migration_bitmap_sync converge_env window_states.2.2).throttle_calls =
        window_states.2.2.throttle_calls + 1 ↔
      (window_evaluated converge_env window_states.2.2 ∧
        dirty_rate_test converge_env window_states.2.2 ∧
        window_states.2.2.rs.dirty_rate_high_cnt = 1)) ∧
    ((migration_bitmap_sync converge_env window_states.2.2).throttle_calls =
        window_states.2.2.throttle_calls ∨
      (migration_bitmap_sync converge_env window_states.2.2).throttle_calls =
        window_states.2.2.throttle_calls + 1) ∧
    (window_evaluated converge_env window_states.2.2 ∧
        dirty_rate_test converge_env window_states.2.2 →
      (migration_bitmap_sync converge_env window_states.2.2).rs.dirty_rate_high_cnt =
        if window_states.2.2.rs.dirty_rate_high_cnt = 1 then 0 else 1) ∧
    (¬ (window_evaluated converge_env window_states.2.2 ∧
        dirty_rate_test converge_env window_states.2.2) →
      (migration_bitmap_sync converge_env window_states.2.2).rs.dirty_rate_high_cnt =
        window_states.2.2.rs.dirty_rate_high_cnt) ∧
    (dirtied_exceeds_by_half converge_env window_states.2.2 →
      dirty_rate_test converge_env window_states.2.2) :=
  throttle_trigger converge_env window_states.2.2 rfl rfl (Or.inr (by decide!))

/-! ## C38: the choice between the two placement calls -/

theorem range_map_getD (bytes : List Nat) :
    (List.range bytes.length).map (fun i => bytes.getD i 0) = bytes := by
  apply List.ext_getElem
  · simp
  · intro i h1 h2
    simp [List.getD_eq_getElem?_getD, List.getElem?_eq_getElem h2]

theorem range_map_mem_write (tmp : Nat → Nat) (bytes : List Nat) :
    (List.range bytes.length).map (mem_write tmp 0 bytes) = bytes := by
  apply List.ext_getElem
  · simp
  · intro i h1 h2
    simp [mem_write, h2]

theorem postcopy_iter_frame_target (env : LoadEnv) (s : LoadState) (l : PostcopyLocals)
    (b : Nat) (blk : RAMBlock) (addr F : Nat) (pl : Payload) (rest0 rest : List Nat)
    (hret : l.ret = 0)
    (hf : s.f = { buf := be64_bytes (addr + F) ++ rest0, last_error := 0 })
    (haddr : addr % 4096 = 0) (hF : F < 4096) (h64 : addr + F < 2 ^ 64)
    (hdata : F &&& (RAM_SAVE_FLAG_ZERO ||| RAM_SAVE_FLAG_PAGE) ≠ 0)
    (hsw : F &&& NOT_RAM_SAVE_FLAG_CONTINUE = pl.flag)
    (hblock : ram_block_from_stream { s with f := { buf := rest0, last_error := 0 } } F =
      (some b, { s with f := { buf := pl.wire ++ rest, last_error := 0 }, block := some b }))
    (hblk : s.ram_list[b]? = some blk) (hhost : blk.host ≠ 0) (hlt : addr < blk.used_length)
    (hP : blk.page_size = 2 ^ 12)
    (hwrap : blk.host + addr + TARGET_PAGE_SIZE < 2 ^ 64)
    (hal : (blk.host + addr) % 2 ^ 12 = 0)
    (hpl : pl.wf) :
    (ram_load_postcopy_iter env s l).1.events =
        s.events ++ [LoadEvent.frame (some b) (blk.host + addr) F] ++
          [if pl.is_zero then LoadEvent.place_zero (blk.host + addr) (some b)
           else LoadEvent.place (blk.host + addr) pl.fill (some b)] ∧
    (ram_load_postcopy_iter env s l).2.ret =
        (if pl.is_zero then env.postcopy_place_page_zero (blk.host + addr) b
         else env.postcopy_place_page (blk.host + addr) pl.fill b) ∧
    (ram_load_postcopy_iter env s l).1.f = { buf := rest, last_error := 0 } := by
  have hflags : (addr + F) &&& NOT_TARGET_PAGE_MASK = F := by rw [and_not_page_mask]; omega
  have haddr2 : (addr + F) &&& TARGET_PAGE_MASK = addr := by rw [and_page_mask _ h64]; omega
  have hh := host_from_ram_block_offset_some s.ram_list b blk addr hblk hhost hlt
  have hne : ¬ (blk.host + addr = 0) := by omega
  have hps : page_size_of s.ram_list (some b) = 4096 := by simp [page_size_of, hblk, hP]
  have hmod1 : (blk.host + addr + TARGET_PAGE_SIZE) % 18446744073709551616 =
      blk.host + addr + TARGET_PAGE_SIZE := by
    simp only [TARGET_PAGE_SIZE] at hwrap ⊢
    omega
  have hpn : (blk.host + addr + TARGET_PAGE_SIZE) % 2 ^ 12 = 0 := by
    simp only [TARGET_PAGE_SIZE]
    omega
  have hdest : (blk.host + addr + TARGET_PAGE_SIZE + 18446744073709547520) %
      18446744073709551616 = blk.host + addr := by
    simp only [TARGET_PAGE_SIZE] at hwrap ⊢
    omega
  have hkb : ((4096 : Nat) == TARGET_PAGE_SIZE) = true := by decide
  have hm1 : (blk.host + addr) &&& host_page_mask 4096 = 0 := by
    have := and_host_page_mask (blk.host + addr) 12 (by norm_num)
    rw [hal] at this
    exact this
  have hm2 : (blk.host + addr + TARGET_PAGE_SIZE) &&& host_page_mask 4096 = 0 := by
    have := and_host_page_mask (blk.host + addr + TARGET_PAGE_SIZE) 12 (by norm_num)
    rw [hpn] at this
    exact this
  unfold ram_load_postcopy_iter
  cases pl with
  | zero ch =>
    have hflagZ : F &&& NOT_RAM_SAVE_FLAG_CONTINUE = RAM_SAVE_FLAG_ZERO := hsw
    simp only [Payload.wire, List.singleton_append] at hblock
    have hfill : (List.range 4096).map
        (memset s.tmp_page 0 ch TARGET_PAGE_SIZE) =
        List.replicate TARGET_PAGE_SIZE (ch % 256) := by
      have := range_map_mem_write s.tmp_page (List.replicate TARGET_PAGE_SIZE (ch % 256))
      rw [List.length_replicate] at this
      exact this
    by_cases hch : ch = 0 <;>
    by_cases haz : l.all_zero = true <;>
    simp [hf, qemu_get_be64_append _ rest0 0 h64, qemu_file_get_error, hflags, haddr2, hdata,
      hblock, hh, hne, hps, hm1, hm2, hmod1, hflagZ, hkb, hch,
      haz, hret, qemu_get_byte_cons, Payload.fill, Payload.is_zero, hdest, hfill]
  | page bytes =>
    have hflagP : F &&& NOT_RAM_SAVE_FLAG_CONTINUE = RAM_SAVE_FLAG_PAGE := hsw
    have hlen : bytes.length = TARGET_PAGE_SIZE := hpl
    have hpz : RAM_SAVE_FLAG_PAGE ≠ RAM_SAVE_FLAG_ZERO := by decide
    simp only [Payload.wire] at hblock
    by_cases haz : l.all_zero = true <;>
    simp [hf, qemu_get_be64_append _ rest0 0 h64, qemu_file_get_error, hflags, haddr2, hdata,
      hblock, hh, hne, hps, hm1, hm2, hmod1, hflagP, hpz, hkb,
      haz, hret, qemu_get_buffer_append bytes rest 0 _ hlen, Payload.fill,
      Payload.is_zero, hdest]

theorem postcopy_iter_postframe_target (env : LoadEnv) (s : LoadState) (l : PostcopyLocals)
    (b : Nat) (blk : RAMBlock) (addr : Nat) (fr : PostFrame) (rest : List Nat)
    (hret : l.ret = 0)
    (hf : s.f = { buf := fr.bytes blk addr ++ rest, last_error := 0 })
    (haddr : addr % 4096 = 0)
    (hblk : s.ram_list[b]? = some blk) (hids : ids_wf s.ram_list) (hm : blk.migratable = true)
    (hcont : fr.cont = true → s.block = some b)
    (hhost : blk.host ≠ 0) (hlt : addr < blk.used_length)
    (hP : blk.page_size = 2 ^ 12)
    (hwrap : blk.host + addr + TARGET_PAGE_SIZE < 2 ^ 64)
    (hal : (blk.host + addr) % 2 ^ 12 = 0)
    (hpl : fr.payload.wf) :
    (ram_load_postcopy_iter env s l).1.events =
        s.events ++ [LoadEvent.frame (some b) (blk.host + addr) fr.flags] ++
          [if fr.payload.is_zero then LoadEvent.place_zero (blk.host + addr) (some b)
           else LoadEvent.place (blk.host + addr) fr.payload.fill (some b)] ∧
    (ram_load_postcopy_iter env s l).2.ret =
        (if fr.payload.is_zero then env.postcopy_place_page_zero (blk.host + addr) b
         else env.postcopy_place_page (blk.host + addr) fr.payload.fill b) ∧
    (ram_load_postcopy_iter env s l).1.f = { buf := rest, last_error := 0 } := by
  obtain ⟨h1, h2, h3, -, h5, h6⟩ := postframe_flags_facts fr
  have h64 : addr + fr.flags < 2 ^ 64 := by
    simp only [TARGET_PAGE_SIZE] at hwrap
    omega
  cases hc : fr.cont
  · refine postcopy_iter_frame_target env s l b blk addr fr.flags fr.payload
      ([blk.idstr.length] ++ blk.idstr ++ fr.payload.wire ++ rest) rest hret ?_ haddr h1 h64 h2 h3
      ?_ hblk hhost hlt hP hwrap hal hpl
    · rw [hf]
      simp only [PostFrame.bytes, hc, Bool.false_eq_true, if_false, List.append_assoc]
    · have := ram_block_from_stream_named
        ({ s with f := { buf := [blk.idstr.length] ++ blk.idstr ++ fr.payload.wire ++ rest,
                         last_error := 0 } } : LoadState) fr.flags b blk
        (fr.payload.wire ++ rest) 0 (h6 hc) (by simp only [List.append_assoc])
        (qemu_ram_block_by_name_index s.ram_list b blk hids hblk) hblk hm
      rw [this]
  · refine postcopy_iter_frame_target env s l b blk addr fr.flags fr.payload
      (fr.payload.wire ++ rest) rest hret ?_ haddr h1 h64 h2 h3
      ?_ hblk hhost hlt hP hwrap hal hpl
    · rw [hf]
      simp only [PostFrame.bytes, hc, if_true, List.append_nil, List.append_assoc]
    · rw [ram_block_from_stream_continue
        ({ s with f := { buf := fr.payload.wire ++ rest, last_error := 0 } } : LoadState)
        fr.flags b (h5 hc) (hcont hc)]
      rw [load_state_block_eta s _ b (hcont hc)]

theorem payload_fill_length_wf (pl : Payload) (h : pl.wf) :
    pl.fill.length = TARGET_PAGE_SIZE := by
  cases pl with
  | zero ch => exact List.length_replicate _ _
  | page bytes => exact h

theorem host_page_fill_flatMap :
    ∀ (frs : List PostFrame) (tmp : Nat → Nat) (p : Nat),
      (∀ f ∈ frs, f.payload.wf) →
      (List.range (frs.length * TARGET_PAGE_SIZE)).map
          (fun i => host_page_fill tmp p frs (p + i)) =
        frs.flatMap (fun fr => fr.payload.fill) := by
  intro frs
  induction frs with
  | nil =>
    intro tmp p _
    rfl
  | cons f rs ih =>
    intro tmp p hwf
    have hlen := payload_fill_length_wf f.payload (hwf f (List.mem_cons_self _ _))
    have hrs : ∀ g ∈ rs, g.payload.wf := fun g hg => hwf g (List.mem_cons_of_mem _ hg)
    have hsz : (f :: rs).length * TARGET_PAGE_SIZE =
        TARGET_PAGE_SIZE + rs.length * TARGET_PAGE_SIZE := by
      rw [List.length_cons, Nat.succ_mul, Nat.add_comm]
    have hA : List.map (fun i => host_page_fill tmp p (f :: rs) (p + i))
        (List.range TARGET_PAGE_SIZE) = f.payload.fill := by
      have h1 : ∀ i ∈ List.range TARGET_PAGE_SIZE,
          host_page_fill tmp p (f :: rs) (p + i) = f.payload.fill.getD i 0 := by
        intro i hi
        have := host_page_fill_slot (f :: rs) tmp p 0 i f hwf (List.getElem?_cons_zero) (List.mem_range.mp hi)
        rw [Nat.zero_mul, Nat.add_zero] at this
        exact this
      rw [List.map_congr_left h1, ← hlen]
      exact range_map_getD _
    have hB : List.map (fun i => host_page_fill tmp p (f :: rs) (p + i))
        (List.map (fun x => TARGET_PAGE_SIZE + x) (List.range (rs.length * TARGET_PAGE_SIZE))) =
        rs.flatMap (fun fr => fr.payload.fill) := by
      rw [List.map_map, ← ih (mem_write tmp p f.payload.fill) (p + TARGET_PAGE_SIZE) hrs]
      apply List.map_congr_left
      intro i _
      simp only [Function.comp, host_page_fill]
      rw [Nat.add_assoc]
    rw [hsz, List.range_add, List.map_append, List.flatMap_cons, hA, hB]

theorem all_is_zero_iff (frames : List PostFrame) :
    frames.all (fun fr => fr.payload.is_zero) = true ↔
      ∀ fr ∈ frames, fr.payload = Payload.zero 0 := by
  rw [List.all_eq_true]
  constructor
  · intro h fr hfr
    have h1 := h fr hfr
    cases hp : fr.payload with
    | zero ch =>
      rw [hp] at h1
      simp only [Payload.is_zero, beq_iff_eq] at h1
      rw [h1]
    | page bytes =>
      rw [hp] at h1
      exact absurd h1 (by simp [Payload.is_zero])
  · intro h fr hfr
    rw [h fr hfr]
    rfl

theorem postcopy_host_page_place (env : LoadEnv) (s : LoadState) (l : PostcopyLocals) (b : Nat)
    (blk : RAMBlock) (n off : Nat) (frames : List PostFrame) (rest : List Nat)
    (hblk : s.ram_list[b]? = some blk) (hids : ids_wf s.ram_list)
    (hm : blk.migratable = true) (hhost : blk.host ≠ 0)
    (hP : blk.page_size = 2 ^ n) (hn : n < 64)
    (hk : blk.page_size = frames.length * TARGET_PAGE_SIZE)
    (hoff : off % TARGET_PAGE_SIZE = 0) (hal : (blk.host + off) % blk.page_size = 0)
    (hlen : off + blk.page_size ≤ blk.used_length)
    (hwrap : blk.host + off + blk.page_size < 2 ^ 64)
    (hwf : ∀ fr ∈ frames, fr.payload.wf)
    (hcont : ∀ fr, frames.head? = some fr → fr.cont = true → s.block = some b)
    (hf : s.f = { buf := host_page_frames_bytes blk off frames ++ rest, last_error := 0 })
    (hret : l.ret = 0) (heos : l.flags &&& RAM_SAVE_FLAG_EOS = 0) :
    (postcopy_iters env frames.length (s, l)).1.events =
      s.events ++ host_page_frame_events b (blk.host + off) frames ++
        [if frames.all (fun fr => fr.payload.is_zero) then
            LoadEvent.place_zero (blk.host + off) (some b)
          else
            LoadEvent.place (blk.host + off) (frames.flatMap (fun fr => fr.payload.fill))
              (some b)] ∧
    (postcopy_iters env frames.length (s, l)).2.ret =
      (if frames.all (fun fr => fr.payload.is_zero) then
          env.postcopy_place_page_zero (blk.host + off) b
        else
          env.postcopy_place_page (blk.host + off) (frames.flatMap (fun fr => fr.payload.fill))
            b) ∧
    (∀ fuel, ram_load_postcopy_loop env (fuel + frames.length) s l =
      ram_load_postcopy_loop env fuel (postcopy_iters env frames.length (s, l)).1
        (postcopy_iters env frames.length (s, l)).2) := by
  have hT : TARGET_PAGE_SIZE = 4096 := rfl
  rw [hP] at hk hal hlen hwrap
  rw [hT] at hk hoff
  have hpos : 0 < 2 ^ n := Nat.pow_pos (by norm_num)
  rcases List.eq_nil_or_concat frames with hnil | ⟨init, last, hfr⟩
  · rw [hnil] at hk
    simp only [List.length_nil, Nat.zero_mul] at hk
    omega
  · rw [List.concat_eq_append] at hfr
    subst hfr
    by_cases hinit : init = []
    · subst hinit
      simp only [List.nil_append, List.length_singleton, Nat.one_mul] at hk hwf hcont hf ⊢
      have hn12 : n = 12 := Nat.pow_right_injective (le_refl 2) (show 2 ^ n = 2 ^ 12 by rw [hk])
      subst hn12
      have hf2 : s.f = { buf := last.bytes blk off ++ rest, last_error := 0 } := by
        rw [hf, host_page_frames_bytes, host_page_frames_bytes, List.append_nil]
      obtain ⟨e1, e2, e3⟩ := postcopy_iter_postframe_target env s l b blk off last rest hret hf2
        hoff hblk hids hm (hcont last rfl) hhost (by omega) hP (by rw [hT]; omega) hal
        (hwf last (List.mem_singleton_self _))
      have hit : postcopy_iters env 1 (s, l) = ram_load_postcopy_iter env s l := rfl
      rw [hit]
      refine ⟨?_, ?_, ?_⟩
      · rw [e1]
        simp only [host_page_frame_events, List.all_cons, List.all_nil, Bool.and_true,
          List.flatMap_cons, List.flatMap_nil, List.append_nil]
      · rw [e2]
        simp only [List.all_cons, List.all_nil, Bool.and_true,
          List.flatMap_cons, List.flatMap_nil, List.append_nil]
      · intro fuel
        exact postcopy_loop_step env fuel s l hret heos
    · simp only [List.length_append, List.length_singleton] at hk ⊢
      obtain ⟨r1, -, -, r4, r5⟩ := postcopy_host_page_run env b blk n hhost hm hP hn init last off
        s l rest hret heos hf hoff hblk hids hcont hlen hwrap hal hk.symm hinit hwf
      have hmap : (List.range (2 ^ n)).map (host_page_fill s.tmp_page 0 (init ++ [last])) =
          (init ++ [last]).flatMap (fun fr => fr.payload.fill) := by
        have := host_page_fill_flatMap (init ++ [last]) s.tmp_page 0 hwf
        simp only [Nat.zero_add, List.length_append, List.length_singleton, hT] at this
        rw [← hk] at this
        exact this
      refine ⟨?_, ?_, r5⟩
      · rw [r1, placement_event, hmap]
      · rw [r4, placement_ret, hmap]

/-- C38 (zero fast path choice): let the block `b` have a `page_size` of `k ≥ 1` target
pages (a power of two), and let the stream hold the `k` ZERO or PAGE frames for the target
pages of the host page at `off`, in order. Then the `k` executions of the body of the loop of
`ram_load_postcopy` make exactly one placement call, for the base address of the host page:
`postcopy_place_page_zero` when every frame is a ZERO frame with fill byte 0, and otherwise
(some frame is a PAGE frame or a ZERO frame with a non-zero fill byte)
`postcopy_place_page` with the payloads of the `k` frames in order as the source buffer;
the return code of the loop body is that of the call made. -/
theorem zero_fast_path_choice (env : LoadEnv) (s : LoadState) (l : PostcopyLocals) (b : Nat)
    (blk : RAMBlock) (n off : Nat) (frames : List PostFrame) (rest : List Nat)
    (hblk : s.ram_list[b]? = some blk) (hids : ids_wf s.ram_list)
    (hm : blk.migratable = true) (hhost : blk.host ≠ 0)
    (hP : blk.page_size = 2 ^ n) (hn : n < 64)
    (hk : blk.page_size = frames.length * TARGET_PAGE_SIZE)
    (hoff : off % TARGET_PAGE_SIZE = 0) (hal : (blk.host + off) % blk.page_size = 0)
    (hlen : off + blk.page_size ≤ blk.used_length)
    (hwrap : blk.host + off + blk.page_size < 2 ^ 64)
    (hwf : ∀ fr ∈ frames, fr.payload.wf)
    (hcont : ∀ fr, frames.head? = some fr → fr.cont = true → s.block = some b)
    (hf : s.f = { buf := host_page_frames_bytes blk off frames ++ rest, last_error := 0 })
    (hret : l.ret = 0) (heos : l.flags &&& RAM_SAVE_FLAG_EOS = 0) :
    ((postcopy_iters env frames.length (s, l)).1.events.drop s.events.length).filter
        LoadEvent.is_placement =
      [if frames.all (fun fr => fr.payload.is_zero) then
          LoadEvent.place_zero (blk.host + off) (some b)
        else
          LoadEvent.place (blk.host + off) (frames.flatMap (fun fr => fr.payload.fill))
            (some b)] ∧
    (postcopy_iters env frames.length (s, l)).2.ret =
      (if frames.all (fun fr => fr.payload.is_zero) then
          env.postcopy_place_page_zero (blk.host + off) b
        else
          env.postcopy_place_page (blk.host + off) (frames.flatMap (fun fr => fr.payload.fill))
            b) ∧
    (frames.all (fun fr => fr.payload.is_zero) = true ↔
      ∀ fr ∈ frames, fr.payload = Payload.zero 0) ∧
    (frames.all (fun fr => fr.payload.is_zero) = false ↔
      ∃ fr ∈ frames, (∃ bytes, fr.payload = Payload.page bytes) ∨
        (∃ ch, ch ≠ 0 ∧ fr.payload = Payload.zero ch)) ∧
    (∀ fuel, ram_load_postcopy_loop env (fuel + frames.length) s l =
      ram_load_postcopy_loop env fuel (postcopy_iters env frames.length (s, l)).1
        (postcopy_iters env frames.length (s, l)).2) := by
  have hT : TARGET_PAGE_SIZE = 4096 := rfl
  have hex : frames.all (fun fr => fr.payload.is_zero) = false ↔
      ∃ fr ∈ frames, (∃ bytes, fr.payload = Payload.page bytes) ∨
        (∃ ch, ch ≠ 0 ∧ fr.payload = Payload.zero ch) := by
    rw [← Bool.not_eq_true, all_is_zero_iff]
    constructor
    · intro h
      by_contra hno
      apply h
      intro fr hfr
      cases hp : fr.payload with
      | zero ch =>
        by_cases hch : ch = 0
        · rw [hch]
        · exact absurd ⟨fr, hfr, Or.inr ⟨ch, hch, hp⟩⟩ hno
      | page bytes => exact absurd ⟨fr, hfr, Or.inl ⟨bytes, hp⟩⟩ hno
    · rintro ⟨fr, hfr, h | ⟨ch, hch, h⟩⟩ hall
      · obtain ⟨bytes, hb⟩ := h
        rw [hall fr hfr] at hb
        exact Payload.noConfusion hb
      · rw [hall fr hfr] at h
        injection h with h
        exact hch h.symm
  refine ⟨?_, ?_, all_is_zero_iff frames, hex, ?_⟩
  all_goals
    obtain ⟨p1, p2, p3⟩ := postcopy_host_page_place env s l b blk n off frames rest hblk hids hm
      hhost hP hn hk hoff hal hlen hwrap hwf hcont hf hret heos
  · rw [p1, List.append_assoc, List.drop_left, List.filter_append,
      host_page_frame_events_placements]
    by_cases haz : frames.all (fun fr => fr.payload.is_zero) = true
    · simp only [haz, if_true, List.nil_append]
      rfl
    · simp only [haz, Bool.false_eq_true, if_false, List.nil_append]
      rfl
  · exact p2
  · exact p3

/-- Witness of C38 on scenario S4: the four frames of the host page at offset 0 hold a
page of sevens and a fill with fives, so the one placement is `postcopy_place_page`. -/
theorem zero_fast_path_choice_witness :
    ((postcopy_iters postcopy_load_env s4_frames.length
        (s4_load_state, PostcopyLocals.init)).1.events.drop s4_load_state.events.length).filter
        LoadEvent.is_placement =
      [if s4_frames.all (fun fr => fr.payload.is_zero) then
          LoadEvent.place_zero (huge_ram.host + 0) (some 0)
        else
          LoadEvent.place (huge_ram.host + 0) (s4_frames.flatMap (fun fr => fr.payload.fill))
            (some 0)] ∧
    (postcopy_iters postcopy_load_env s4_frames.length
        (s4_load_state, PostcopyLocals.init)).2.ret =
      (if s4_frames.all (fun fr => fr.payload.is_zero) then
          postcopy_load_env.postcopy_place_page_zero (huge_ram.host + 0) 0
        else
          postcopy_load_env.postcopy_place_page (huge_ram.host + 0)
            (s4_frames.flatMap (fun fr => fr.payload.fill)) 0) ∧
    (s4_frames.all (fun fr => fr.payload.is_zero) = true ↔
      ∀ fr ∈ s4_frames, fr.payload = Payload.zero 0) ∧
    (s4_frames.all (fun fr => fr.payload.is_zero) = false ↔
      ∃ fr ∈ s4_frames, (∃ bytes, fr.payload = Payload.page bytes) ∨
        (∃ ch, ch ≠ 0 ∧ fr.payload = Payload.zero ch)) ∧
    (∀ fuel, ram_load_postcopy_loop postcopy_load_env (fuel + s4_frames.length) s4_load_state
        PostcopyLocals.init =
      ram_load_postcopy_loop postcopy_load_env fuel
        (postcopy_iters postcopy_load_env s4_frames.length
          (s4_load_state, PostcopyLocals.init)).1
        (postcopy_iters postcopy_load_env s4_frames.length
          (s4_load_state, PostcopyLocals.init)).2) :=
  zero_fast_path_choice postcopy_load_env s4_load_state PostcopyLocals.init 0 huge_ram 14 0
    s4_frames (be64_bytes 16) rfl ids_wf_huge_ram rfl (by decide) rfl (by decide) rfl
    rfl (by decide) (by decide) (by decide) s4_frames_wf
    (fun fr h hc => by
      simp only [s4_frames, List.head?_cons, Option.some.injEq] at h
      subst h
      exact absurd hc (by decide))
    rfl rfl rfl

/-! ## C35: the counters that only grow -/

theorem counters_le_refl (s : SaveState) : counters_le s s :=
  ⟨le_refl _, le_refl _, le_refl _, le_refl _, le_refl _, le_refl _, le_refl _⟩

theorem counters_le_trans (a b c : SaveState) (h1 : counters_le a b) (h2 : counters_le b c) :
    counters_le a c :=
  ⟨le_trans h1.1 h2.1, le_trans h1.2.1 h2.2.1, le_trans h1.2.2.1 h2.2.2.1,
    le_trans h1.2.2.2.1 h2.2.2.2.1, le_trans h1.2.2.2.2.1 h2.2.2.2.2.1,
    le_trans h1.2.2.2.2.2.1 h2.2.2.2.2.2.1, le_trans h1.2.2.2.2.2.2 h2.2.2.2.2.2.2⟩

theorem counters_le_of_eq (s t : SaveState) (h1 : t.ram_counters = s.ram_counters)
    (h2 : t.xbzrle_counters = s.xbzrle_counters) : counters_le s t := by
  unfold counters_le
  rw [h1, h2]
  exact counters_le_refl s

theorem save_zero_page_counters (s : SaveState) (block offset : Nat) :
    counters_le s (save_zero_page s block offset).1 := by
  unfold save_zero_page counters_le
  try dsimp only
  split_ifs <;> (try dsimp only) <;> omega

theorem save_normal_page_counters (s : SaveState) (block offset : Nat) (buf : List Nat)
    (async : Bool) : counters_le s (save_normal_page s block offset buf async).1 := by
  unfold save_normal_page counters_le
  try dsimp only
  omega

theorem xbzrle_cache_zero_page_counters (env : SaveEnv) (s : SaveState) (a : Nat) :
    counters_le s (xbzrle_cache_zero_page env s a) := by
  unfold xbzrle_cache_zero_page
  try dsimp only
  split_ifs
  · exact counters_le_refl s
  · exact counters_le_of_eq _ _ rfl rfl

theorem save_xbzrle_page_counters (env : SaveEnv) (s : SaveState) (current_data : List Nat)
    (current_addr block offset : Nat) (last_stage : Bool) :
    counters_le s
      (save_xbzrle_page env s current_data current_addr block offset last_stage).1 := by
  unfold save_xbzrle_page counters_le
  try dsimp only
  split_ifs <;> (try dsimp only) <;> omega

theorem migration_bitmap_clear_dirty_counters (s : SaveState) (rb page : Nat) :
    counters_le s (migration_bitmap_clear_dirty s rb page).1 := by
  unfold migration_bitmap_clear_dirty
  try dsimp only
  split_ifs
  · exact counters_le_of_eq _ _ rfl rfl
  · exact counters_le_refl s

theorem ram_release_pages_counters (env : SaveEnv) (s : SaveState) (rbname : List Nat)
    (offset : Nat) (pages : Int) :
    counters_le s (ram_release_pages env s rbname offset pages) := by
  unfold ram_release_pages
  try dsimp only
  split_ifs
  · exact counters_le_refl s
  · exact counters_le_of_eq _ _ rfl rfl

theorem control_save_page_counters (env : SaveEnv) (s : SaveState) (block offset : Nat) :
    counters_le s (control_save_page env s block offset).1 := by
  unfold control_save_page counters_le
  try dsimp only
  split_ifs <;> (try dsimp only) <;> omega

theorem ram_save_page_counters (env : SaveEnv) (s : SaveState) (block page : Nat)
    (last_stage : Bool) : counters_le s (ram_save_page env s block page last_stage).1 := by
  unfold ram_save_page
  simp only
  split_ifs
  · refine counters_le_trans _ _ _ ?_ (save_normal_page_counters _ _ _ _ _)
    exact save_xbzrle_page_counters env s _ _ _ _ _
  · exact save_xbzrle_page_counters env s _ _ _ _ _
  · exact save_normal_page_counters _ _ _ _ _
  · exact counters_le_refl s

theorem ram_save_multifd_page_counters (s : SaveState) (block offset : Nat) :
    counters_le s (ram_save_multifd_page s block offset).1 := by
  unfold ram_save_multifd_page counters_le
  try dsimp only
  omega

theorem do_compress_ram_page_counters (env : SaveEnv) (s : SaveState) (block offset : Nat) :
    counters_le s (do_compress_ram_page env s block offset).1 := by
  unfold do_compress_ram_page
  simp only
  split_ifs
  · exact counters_le_of_eq _ _ rfl rfl
  · refine counters_le_trans _ _ _ ?_ (ram_release_pages_counters env _ _ _ _)
    exact counters_le_of_eq _ _ rfl rfl

theorem flush_compressed_data_counters (env : SaveEnv) (s : SaveState) :
    counters_le s (flush_compressed_data env s) := by
  unfold flush_compressed_data counters_le
  try dsimp only
  split_ifs <;> (try dsimp only) <;> omega

theorem compress_page_with_multi_thread_counters (env : SaveEnv) (s : SaveState)
    (block offset : Nat) :
    counters_le s (compress_page_with_multi_thread env s block offset).1 := by
  unfold compress_page_with_multi_thread
  simp only
  refine counters_le_trans _ _ _ ?_ (do_compress_ram_page_counters env _ _ _)
  unfold counters_le
  try dsimp only
  omega

theorem ram_save_target_page_counters (env : SaveEnv) (s : SaveState) (block page : Nat)
    (last_stage : Bool) :
    counters_le s (ram_save_target_page env s block page last_stage).1 := by
  have hc := control_save_page_counters env s block ((page <<< TARGET_PAGE_BITS) % 2 ^ 64)
  unfold ram_save_target_page
  dsimp only
  generalize (page <<< TARGET_PAGE_BITS) % 2 ^ 64 = offset at hc ⊢
  generalize control_save_page env s block offset = c at hc ⊢
  by_cases h1 : c.2.1 = true
  · rw [if_pos h1]
    exact hc
  · rw [if_neg h1]
    refine counters_le_trans _ _ _ hc ?_
    have h2 : counters_le c.1
        (if (decide (some block ≠ c.1.rs.last_sent_block) &&
            save_page_use_compression env c.1) = true then
          flush_compressed_data env c.1 else c.1) := by
      split_ifs
      · exact flush_compressed_data_counters env _
      · exact counters_le_refl _
    refine counters_le_trans _ _ _ h2 ?_
    generalize (if (decide (some block ≠ c.1.rs.last_sent_block) &&
            save_page_use_compression env c.1) = true then
          flush_compressed_data env c.1 else c.1) = s2
    refine counters_le_trans _ _ _ (save_zero_page_counters s2 block offset) ?_
    generalize save_zero_page s2 block offset = z
    split_ifs
    · exact counters_le_trans _ _ _ (xbzrle_cache_zero_page_counters env _ _)
        (ram_release_pages_counters env _ _ _ _)
    · exact ram_release_pages_counters env _ _ _ _
    · exact compress_page_with_multi_thread_counters env _ _ _
    · exact ram_save_multifd_page_counters _ _ _
    · exact ram_save_page_counters env _ _ _ _

theorem find_dirty_block_counters (env : SaveEnv) (s : SaveState) (pss : PageSearchStatus) :
    counters_le s (find_dirty_block env s pss).1 := by
  unfold find_dirty_block
  dsimp only
  by_cases h1 : (pss.complete_round && pss.block == s.rs.last_seen_block &&
      decide (migration_bitmap_find_dirty s (block_index s.ram_list pss.block) pss.page ≥
        s.rs.last_page)) = true
  · rw [if_pos h1]
    exact counters_le_refl s
  · rw [if_neg h1]
    by_cases h2 : (migration_bitmap_find_dirty s (block_index s.ram_list pss.block) pss.page <<<
        TARGET_PAGE_BITS) % 2 ^ 64 ≥ (ramblock s.ram_list (block_index s.ram_list pss.block)).used_length
    · rw [if_pos h2]
      split
      · dsimp only
        by_cases h3 : env.migrate_use_xbzrle = true
        · rw [if_pos h3]
          refine counters_le_trans _ _ _ ?_ (flush_compressed_data_counters env _)
          exact counters_le_of_eq _ _ rfl rfl
        · rw [if_neg h3]
          exact counters_le_of_eq _ _ rfl rfl
      · exact counters_le_refl s
    · rw [if_neg h2]
      exact counters_le_refl s

theorem unqueue_page_counters (s : SaveState) (offset : Nat) :
    counters_le s (unqueue_page s offset).2.2 := by
  unfold unqueue_page
  split
  · exact counters_le_refl s
  · split_ifs
    · exact counters_le_of_eq _ _ rfl rfl
    · exact counters_le_of_eq _ _ rfl rfl

theorem get_queued_page_loop_counters :
    ∀ (fuel : Nat) (s : SaveState) (offset : Nat) (r : Option Nat × Nat × SaveState),
      get_queued_page_loop fuel s offset = some r → counters_le s r.2.2 := by
  intro fuel
  induction fuel with
  | zero =>
    intro s offset r h
    rw [get_queued_page_loop] at h
    exact Option.noConfusion h
  | succ fuel ih =>
    intro s offset r h
    rw [get_queued_page_loop] at h
    dsimp only at h
    have hu := unqueue_page_counters s offset
    split at h
    · injection h with h
      subst h
      exact hu
    · split_ifs at h
      · exact counters_le_trans _ _ _ hu (ih _ _ _ h)
      · injection h with h
        subst h
        exact hu

theorem get_queued_page_counters (s : SaveState) (pss : PageSearchStatus)
    (r : SaveState × PageSearchStatus × Bool) (h : get_queued_page s pss = some r) :
    counters_le s r.1 := by
  unfold get_queued_page at h
  split at h
  · exact Option.noConfusion h
  · rename_i hq
    injection h with h
    subst h
    exact get_queued_page_loop_counters _ _ _ _ hq
  · rename_i hq
    injection h with h
    subst h
    exact counters_le_trans _ _ _ (get_queued_page_loop_counters _ _ _ _ hq)
      (counters_le_of_eq _ _ rfl rfl)

theorem ram_xbzrle_save_queue_pages_counters (s : SaveState) (rbname : Option (List Nat))
    (start len : Nat) :
    counters_le s (ram_xbzrle_save_queue_pages s rbname start len).1 := by
  unfold ram_xbzrle_save_queue_pages
  dsimp only
  cases rbname with
  | none =>
    dsimp only
    split <;> (try split_ifs) <;> (unfold counters_le; dsimp only; omega)
  | some name =>
    dsimp only
    cases hq : qemu_ram_block_by_name s.ram_list name <;> dsimp only <;> (try split_ifs) <;>
      (unfold counters_le; dsimp only; omega)

theorem unsent_clear_counters (s : SaveState) (block page : Nat) :
    counters_le s
      (match (ramblock s.ram_list block).unsentmap with
        | some m =>
          { s with ram_list :=
              (s.ram_list.set block
                { ramblock s.ram_list block with unsentmap := some (clear_bit page m) }) }
        | none => s) := by
  split
  · exact counters_le_of_eq _ _ rfl rfl
  · exact counters_le_refl s

theorem ram_save_host_page_loop_counters (env : SaveEnv) (last_stage : Bool) (block : Nat) :
    ∀ (fuel : Nat) (s : SaveState) (page : Nat) (pages : Int) (r : SaveState × Nat × Int),
      ram_save_host_page_loop env last_stage block fuel s page pages = some r →
      counters_le s r.1 := by
  intro fuel
  induction fuel with
  | zero =>
    intro s page pages r h
    rw [ram_save_host_page_loop] at h
    exact Option.noConfusion h
  | succ fuel ih =>
    intro s page pages r h
    rw [ram_save_host_page_loop] at h
    dsimp only at h
    have hc := migration_bitmap_clear_dirty_counters s block page
    have ht := ram_save_target_page_counters env (migration_bitmap_clear_dirty s block page).1
      block page last_stage
    have hu := unsent_clear_counters
      (ram_save_target_page env (migration_bitmap_clear_dirty s block page).1 block page
        last_stage).1 block page
    by_cases h1 : (!(migration_bitmap_clear_dirty s block page).2) = true
    · rw [if_pos h1] at h
      split_ifs at h
      · exact counters_le_trans _ _ _ hc (ih _ _ _ _ h)
      · injection h with h
        subst h
        exact hc
    · rw [if_neg h1] at h
      by_cases h2 : (ram_save_target_page env (migration_bitmap_clear_dirty s block page).1
          block page last_stage).2 < 0
      · rw [if_pos h2] at h
        injection h with h
        subst h
        exact counters_le_trans _ _ _ hc ht
      · rw [if_neg h2] at h
        split_ifs at h
        · exact counters_le_trans _ _ _ hc
            (counters_le_trans _ _ _ ht (counters_le_trans _ _ _ hu (ih _ _ _ _ h)))
        · injection h with h
          subst h
          exact counters_le_trans _ _ _ hc (counters_le_trans _ _ _ ht hu)

theorem ram_save_host_page_counters (env : SaveEnv) (s : SaveState) (pss : PageSearchStatus)
    (last_stage : Bool) (r : SaveState × PageSearchStatus × Int)
    (h : ram_save_host_page env s pss last_stage = some r) : counters_le s r.1 := by
  unfold ram_save_host_page at h
  dsimp only at h
  split_ifs at h
  · injection h with h
    subst h
    exact counters_le_refl s
  · split at h
    · exact Option.noConfusion h
    · rename_i hl
      injection h with h
      subst h
      exact ram_save_host_page_loop_counters env last_stage _ _ _ _ _ _ hl

theorem ram_find_and_save_block_loop_counters (env : SaveEnv) (last_stage : Bool) :
    ∀ (fuel : Nat) (s : SaveState) (pss : PageSearchStatus)
      (r : SaveState × PageSearchStatus × Int),
      ram_find_and_save_block_loop env last_stage fuel s pss = some r → counters_le s r.1 := by
  intro fuel
  induction fuel with
  | zero =>
    intro s pss r h
    rw [ram_find_and_save_block_loop] at h
    exact Option.noConfusion h
  | succ fuel ih =>
    intro s pss r h
    rw [ram_find_and_save_block_loop] at h
    cases hq : get_queued_page s pss with
    | none =>
      rw [hq] at h
      exact Option.noConfusion h
    | some q =>
      rw [hq] at h
      dsimp only at h
      have hq1 := get_queued_page_counters s pss q hq
      refine counters_le_trans _ _ _ hq1 ?_
      have hr : counters_le q.1
          (if (!q.2.2) = true then find_dirty_block env q.1 q.2.1
            else (q.1, q.2.1, true, true)).1 := by
        split_ifs
        · exact find_dirty_block_counters env _ _
        · exact counters_le_refl _
      generalize (if (!q.2.2) = true then find_dirty_block env q.1 q.2.1
            else (q.1, q.2.1, true, true)) = x at h hr
      refine counters_le_trans _ _ _ hr ?_
      by_cases h1 : x.2.2.2 = true
      · rw [if_pos h1] at h
        cases hh : ram_save_host_page env x.1 x.2.1 last_stage with
        | none =>
          rw [hh] at h
          exact Option.noConfusion h
        | some hp =>
          rw [hh] at h
          dsimp only at h
          have hh1 := ram_save_host_page_counters env _ _ _ _ hh
          split_ifs at h
          · exact counters_le_trans _ _ _ hh1 (ih _ _ _ h)
          · injection h with h
            subst h
            exact hh1
      · rw [if_neg h1] at h
        split_ifs at h
        · exact ih _ _ _ h
        · injection h with h
          subst h
          exact counters_le_refl _

theorem ram_find_and_save_block_counters (env : SaveEnv) (fuel : Nat) (s : SaveState)
    (last_stage : Bool) (r : SaveState × Int)
    (h : ram_find_and_save_block env fuel s last_stage = some r) : counters_le s r.1 := by
  unfold ram_find_and_save_block at h
  split_ifs at h
  · injection h with h
    subst h
    exact counters_le_refl s
  · cases hl : ram_find_and_save_block_loop env last_stage fuel s (pss_init s) with
    | none =>
      rw [hl] at h
      exact Option.noConfusion h
    | some x =>
      rw [hl] at h
      dsimp only at h
      injection h with h
      subst h
      exact counters_le_trans _ _ _ (ram_find_and_save_block_loop_counters env _ _ _ _ _ hl)
        (counters_le_of_eq _ _ rfl rfl)

theorem ram_save_iterate_loop_counters (env : SaveEnv) (t0 : Int) :
    ∀ (fuel : Nat) (s : SaveState) (i : Nat) (last : Option Int)
      (r : SaveState × Int × Option Int),
      ram_save_iterate_loop env t0 fuel s i last = some r → counters_le s r.1 := by
  intro fuel
  induction fuel with
  | zero =>
    intro s i last r h
    rw [ram_save_iterate_loop] at h
    split_ifs at h <;>
      first
        | exact Option.noConfusion h
        | (injection h with h
           subst h
           exact counters_le_refl s)
  | succ fuel ih =>
    intro s i last r h
    rw [ram_save_iterate_loop] at h
    by_cases h1 : env.qemu_file_rate_limit s.rs.f = 0 ∨ s.rs.src_page_requests.isEmpty = false
    · rw [if_pos h1] at h
      by_cases h2 : qemu_file_get_error s.rs.f ≠ 0
      · rw [if_pos h2] at h
        injection h with h
        subst h
        exact counters_le_refl s
      · rw [if_neg h2] at h
        dsimp only at h
        cases hf : ram_find_and_save_block env (fuel + 1) s false with
        | none =>
          rw [hf] at h
          exact Option.noConfusion h
        | some x =>
          rw [hf] at h
          dsimp only at h
          have hx := ram_find_and_save_block_counters env _ _ _ _ hf
          refine counters_le_trans _ _ _ hx ?_
          by_cases h3 : x.2 = 0
          · rw [if_pos h3] at h
            injection h with h
            subst h
            exact counters_le_refl _
          · rw [if_neg h3] at h
            by_cases h4 : i &&& 63 = 0
            · rw [if_pos h4] at h
              split_ifs at h
              · injection h with h
                subst h
                exact counters_le_of_eq _ _ rfl rfl
              · refine counters_le_trans _ _ _ ?_ (ih _ _ _ _ h)
                exact counters_le_of_eq _ _ rfl rfl
            · rw [if_neg h4] at h
              refine counters_le_trans _ _ _ ?_ (ih _ _ _ _ h)
              exact counters_le_of_eq _ _ rfl rfl
    · rw [if_neg h1] at h
      injection h with h
      subst h
      exact counters_le_refl s

theorem ram_save_iterate_body_counters (env : SaveEnv) (fuel : Nat) (s : SaveState)
    (r : SaveState × Int × Option Int) (h : ram_save_iterate_body env fuel s = some r) :
    counters_le s r.1 := by
  unfold ram_save_iterate_body at h
  by_cases h1 : env.blk_mig_bulk_active = true
  · rw [if_pos h1] at h
    injection h with h
    subst h
    exact counters_le_refl s
  · rw [if_neg h1] at h
    dsimp only at h
    have h0 : counters_le s
        (if s.ram_list_version ≠ s.rs.last_version then
          { s with rs := ram_state_reset s.rs s.ram_list_version } else s) := by
      split_ifs
      · exact counters_le_of_eq _ _ rfl rfl
      · exact counters_le_refl s
    generalize (if s.ram_list_version ≠ s.rs.last_version then
          { s with rs := ram_state_reset s.rs s.ram_list_version } else s) = s1 at h h0
    refine counters_le_trans _ _ _ h0 ?_
    split at h
    · exact Option.noConfusion h
    · rename_i x hl
      injection h with h
      subst h
      refine counters_le_trans _ _ _ ?_
        (counters_le_trans _ _ _ (ram_save_iterate_loop_counters env _ _ _ _ _ _ hl)
          (flush_compressed_data_counters env _))
      exact counters_le_of_eq _ _ rfl rfl

theorem ram_save_iterate_out_counters (s : SaveState) (done : Int) :
    counters_le s (ram_save_iterate_out s done).1 := by
  unfold ram_save_iterate_out
  dsimp only
  split_ifs <;> (unfold counters_le; dsimp only; omega)

theorem ram_save_iterate_counters (env : SaveEnv) (fuel : Nat) (s : SaveState)
    (r : SaveState × Int) (h : ram_save_iterate env fuel s = some r) : counters_le s r.1 := by
  unfold ram_save_iterate at h
  cases hb : ram_save_iterate_body env fuel s with
  | none =>
    rw [hb] at h
    exact Option.noConfusion h
  | some x =>
    rw [hb] at h
    simp only [Option.map_some'] at h
    injection h with h
    subst h
    exact counters_le_trans _ _ _ (ram_save_iterate_body_counters env fuel s x hb)
      (ram_save_iterate_out_counters _ _)

theorem migration_bitmap_sync_range_counters (env : SaveEnv) (s : SaveState)
    (rb start length : Nat) :
    counters_le s (migration_bitmap_sync_range env s rb start length) := by
  unfold migration_bitmap_sync_range
  split
  · exact counters_le_refl s
  · exact counters_le_of_eq _ _ rfl rfl

theorem migration_bitmap_sync_throttle_counters (env : SaveEnv) (s : SaveState) (x : Nat) :
    counters_le s (migration_bitmap_sync_throttle env s x) := by
  unfold migration_bitmap_sync_throttle
  dsimp only
  split_ifs <;> exact counters_le_refl s

theorem migration_update_rates_counters (env : SaveEnv) (s : SaveState) (t : Int) :
    counters_le s (migration_update_rates env s t) := by
  unfold migration_update_rates
  dsimp only
  split_ifs <;> (unfold counters_le; dsimp only; omega)

theorem migration_bitmap_sync_period_counters (env : SaveEnv) (s : SaveState) (t : Int) :
    counters_le s (migration_bitmap_sync_period env s t) := by
  unfold migration_bitmap_sync_period
  dsimp only
  split_ifs
  · refine counters_le_trans _ _ _
      (migration_bitmap_sync_throttle_counters env s s.ram_counters.transferred) ?_
    refine counters_le_trans _ _ _ (migration_update_rates_counters env _ t) ?_
    exact counters_le_of_eq _ _ rfl rfl
  · exact counters_le_refl s

theorem migration_bitmap_sync_counters (env : SaveEnv) (s : SaveState) :
    counters_le s (migration_bitmap_sync env s) := by
  have h01 : counters_le s { s with ram_counters :=
      { s.ram_counters with dirty_sync_count := s.ram_counters.dirty_sync_count + 1 } } := by
    unfold counters_le
    dsimp only
    omega
  have h12 : ∀ s1 : SaveState, counters_le s1
      (if s1.rs.time_last_bitmap_sync = 0 then
        { (qemu_clock_get_ms env s1).2 with rs :=
            { (qemu_clock_get_ms env s1).2.rs with
                time_last_bitmap_sync := (qemu_clock_get_ms env s1).1 } }
      else s1) := by
    intro s1
    split_ifs
    · exact counters_le_of_eq _ _ rfl rfl
    · exact counters_le_refl s1
  have h23 : ∀ s2 : SaveState, counters_le s2 (migration_bitmap_sync_blocks env s2) :=
    fun s2 => sync_fold_rel env counters_le counters_le_refl counters_le_trans
      (migration_bitmap_sync_range_counters env) _ s2
  have h34 : ∀ s3 : SaveState, counters_le s3 { s3 with ram_counters :=
      { s3.ram_counters with remaining := s3.rs.migration_dirty_pages * TARGET_PAGE_SIZE } } := by
    intro s3
    unfold counters_le
    dsimp only
    omega
  have h45 : ∀ s4 : SaveState, counters_le s4
      (migration_bitmap_sync_period env (qemu_clock_get_ms env s4).2
        (qemu_clock_get_ms env s4).1) := by
    intro s4
    refine counters_le_trans _ (qemu_clock_get_ms env s4).2 _ ?_
      (migration_bitmap_sync_period_counters env _ _)
    exact counters_le_of_eq _ _ rfl rfl
  have h56 : ∀ s5 : SaveState, counters_le s5
      (if env.migrate_use_events then
        { s5 with pass_events := s5.pass_events ++ [s5.ram_counters.dirty_sync_count] }
      else s5) := by
    intro s5
    split_ifs
    · exact counters_le_of_eq _ _ rfl rfl
    · exact counters_le_refl s5
  exact counters_le_trans _ _ _ h01
    (counters_le_trans _ _ _ (h12 _)
      (counters_le_trans _ _ _ (h23 _)
        (counters_le_trans _ _ _ (h34 _)
          (counters_le_trans _ _ _ (h45 _) (h56 _)))))

/-- C35 (counter monotonicity): each of `save_zero_page`, `save_normal_page`,
`save_xbzrle_page`, `control_save_page`, `compress_page_with_multi_thread`,
`flush_compressed_data`, `migration_bitmap_sync`, `ram_xbzrle_save_queue_pages`, and
`ram_save_iterate` whenever it returns, leaves each of `transferred`, `dirty_sync_count`,
`postcopy_requests` and the delta-encoder counters `cache_miss`, `overflow`, `pages` and
`bytes` at least as large as it was before the call, whatever the arguments, the state
and the collaborators (the transport's byte count among them) are.  The counters are
natural numbers here, so that the 64-bit wrap-around is left aside. -/
theorem counter_monotonicity (env : SaveEnv) (s : SaveState) :
    (∀ block offset, counters_le s (save_zero_page s block offset).1) ∧
    (∀ block offset buf async, counters_le s (save_normal_page s block offset buf async).1) ∧
    (∀ current_data current_addr block offset last_stage, counters_le s
      (save_xbzrle_page env s current_data current_addr block offset last_stage).1) ∧
    (∀ block offset, counters_le s (control_save_page env s block offset).1) ∧
    (∀ block offset, counters_le s (compress_page_with_multi_thread env s block offset).1) ∧
    counters_le s (flush_compressed_data env s) ∧
    counters_le s (migration_bitmap_sync env s) ∧
    (∀ rbname start len, counters_le s (ram_xbzrle_save_queue_pages s rbname start len).1) ∧
    (∀ fuel r, ram_save_iterate env fuel s = some r → counters_le s r.1) :=
  ⟨save_zero_page_counters s, save_normal_page_counters s,
    save_xbzrle_page_counters env s, control_save_page_counters env s,
    compress_page_with_multi_thread_counters env s, flush_compressed_data_counters env s,
    migration_bitmap_sync_counters env s, ram_xbzrle_save_queue_pages_counters s,
    fun fuel r h => ram_save_iterate_counters env fuel s r h⟩

/-- Witness of C35: the sender with one dirty 16384-byte host page, whose
`ram_save_iterate` returns after sending the four target pages and the EOS word, with
`transferred` grown from 0 to 51. -/
theorem counter_monotonicity_witness :
    huge_dirty_state.ram_counters.transferred = 0 ∧
    (ram_save_iterate limited_env 1 huge_dirty_state).map
      (fun r => r.1.ram_counters.transferred) = some 51 ∧
    ∃ r, ram_save_iterate limited_env 1 huge_dirty_state = some r ∧
      counters_le huge_dirty_state r.1 ∧
      counters_le huge_dirty_state (migration_bitmap_sync limited_env huge_dirty_state) :=
  have hs : (ram_save_iterate limited_env 1 huge_dirty_state).isSome = true := by decide!
  ⟨rfl, by decide!, (ram_save_iterate limited_env 1 huge_dirty_state).get hs,
    (Option.some_get hs).symm,
    (counter_monotonicity limited_env huge_dirty_state).2.2.2.2.2.2.2.2 1 _
      (Option.some_get hs).symm,
    (counter_monotonicity limited_env huge_dirty_state).2.2.2.2.2.2.1⟩

/-! ## C37: the postcondition of ram_save_host_page -/

theorem succ_mod_ne_zero_iff (page r : Nat) (hr : 0 < r) :
    (page + 1) % r ≠ 0 ↔ page + 1 < (page / r + 1) * r := by
  have h1 := Nat.div_add_mod page r
  have h2 := Nat.mod_lt page hr
  have h3 : (page / r + 1) * r = r * (page / r) + r := by
    rw [Nat.add_mul, Nat.one_mul, Nat.mul_comm]
  by_cases hm : page % r + 1 < r
  · have h4 : (page + 1) % r = page % r + 1 := by
      have : page + 1 = r * (page / r) + (page % r + 1) := by omega
      rw [this, Nat.mul_add_mod]
      exact Nat.mod_eq_of_lt hm
    rw [h4, h3]
    constructor
    · intro _
      omega
    · intro _
      omega
  · have h5 : page % r + 1 = r := by omega
    have h4 : (page + 1) % r = 0 := by
      have : page + 1 = r * (page / r) + r := by omega
      rw [this, Nat.mul_add_mod, Nat.mod_self]
    rw [h4, h3]
    constructor
    · intro h
      exact absurd rfl h
    · intro h
      omega

theorem host_page_end_succ (r used page : Nat)
    (h : page + 1 < host_page_end r used page) :
    host_page_end r used (page + 1) = host_page_end r used page := by
  unfold host_page_end at h ⊢
  have h1 := Nat.div_add_mod page r
  have h3 : (page / r + 1) * r = r * (page / r) + r := by
    rw [Nat.add_mul, Nat.one_mul, Nat.mul_comm]
  have hlt : page + 1 < (page / r + 1) * r := lt_of_lt_of_le h (Nat.min_le_left _ _)
  have hdiv : (page + 1) / r = page / r := by
    apply Nat.div_eq_of_lt_le
    · rw [Nat.mul_comm]
      omega
    · exact hlt
  rw [hdiv]

theorem host_page_end_gt (r used page : Nat) (hr : 0 < r) (hp : page < used) :
    page < host_page_end r used page := by
  unfold host_page_end
  have h1 := Nat.div_add_mod page r
  have h2 := Nat.mod_lt page hr
  have h3 : (page / r + 1) * r = r * (page / r) + r := by
    rw [Nat.add_mul, Nat.one_mul, Nat.mul_comm]
  rw [h3]
  exact lt_min (by omega) hp

theorem host_page_end_le (r used page : Nat) : host_page_end r used page ≤ used :=
  Nat.min_le_right _ _

theorem host_page_bits_mask_pow (n : Nat) (h12 : 12 ≤ n) (hn : n < 64) :
    host_page_bits_mask (2 ^ n) = 2 ^ (n - 12) - 1 := by
  unfold host_page_bits_mask
  have hT : TARGET_PAGE_BITS = 12 := rfl
  rw [hT, Nat.shiftRight_eq_div_pow, Nat.pow_div h12 (by norm_num)]
  have hlt : 2 ^ (n - 12) < 2 ^ 64 := Nat.pow_lt_pow_right (by norm_num) (by omega)
  have hpos : 0 < 2 ^ (n - 12) := Nat.pow_pos (by norm_num)
  unfold dec64
  rw [Nat.mod_eq_of_lt hlt, if_neg (by omega)]

theorem shift_lt_used_iff (used q : Nat) (hu : used % 4096 = 0) (h64 : used < 2 ^ 64)
    (hq : q ≤ used >>> TARGET_PAGE_BITS) :
    (q <<< TARGET_PAGE_BITS) % 2 ^ 64 < used ↔ q < used >>> TARGET_PAGE_BITS := by
  have hT : TARGET_PAGE_BITS = 12 := rfl
  rw [hT] at hq ⊢
  rw [Nat.shiftRight_eq_div_pow] at hq ⊢
  rw [Nat.shiftLeft_eq]
  have h2 : (2 : Nat) ^ 12 = 4096 := by norm_num
  have h264 : (2 : Nat) ^ 64 = 18446744073709551616 := by norm_num
  rw [h2] at hq ⊢
  rw [h264] at h64 ⊢
  omega

theorem ramblock_of_getElem (l : List RAMBlock) (i : Nat) (b : RAMBlock)
    (h : l[i]? = some b) : ramblock l i = b ∧ i < l.length := by
  refine ⟨?_, ?_⟩
  · unfold ramblock
    rw [h]
  · by_contra hlt
    rw [List.getElem?_eq_none (Nat.not_lt.mp hlt)] at h
    exact Option.noConfusion h

theorem getElem_set_self (l : List RAMBlock) (i : Nat) (x : RAMBlock) (h : i < l.length) :
    (l.set i x)[i]? = some x := by
  rw [List.getElem?_set_self h]

theorem set_same (l : List RAMBlock) (i : Nat) (b : RAMBlock) (h : l[i]? = some b) :
    l.set i b = l := by
  apply List.ext_getElem?
  intro j
  by_cases hj : i = j
  · subst hj
    rw [h]
    exact getElem_set_self l i b (ramblock_of_getElem l i b h).2
  · rw [List.getElem?_set_ne hj]

theorem clear_unsent_list (u : SaveState) (block page : Nat) (b : RAMBlock)
    (hblk : u.ram_list[block]? = some b) :
    (clear_unsent u block page).ram_list =
      u.ram_list.set block { b with unsentmap := b.unsentmap.map (clear_bit page) } ∧
    (clear_unsent u block page).rs = u.rs := by
  obtain ⟨hb, hlen⟩ := ramblock_of_getElem u.ram_list block b hblk
  unfold clear_unsent
  rw [hb]
  cases hu : b.unsentmap with
  | none =>
    refine ⟨?_, rfl⟩
    simp only [Option.map_none']
    have : ({ b with unsentmap := none } : RAMBlock) = b := by
      cases b
      simp only at hu
      subst hu
      rfl
    rw [this, set_same _ _ _ hblk]
  | some m => exact ⟨rfl, rfl⟩

theorem host_page_send_fields (env : SaveEnv) (ls : Bool) (block : Nat) (s : SaveState)
    (page : Nat) (b : RAMBlock) (hblk : s.ram_list[block]? = some b)
    (hbit : b.bmap page = true) :
    (host_page_send env ls block s page).1.ram_list =
      s.ram_list.set block
        { b with bmap := clear_bit page b.bmap,
                 unsentmap := b.unsentmap.map (clear_bit page) } ∧
    (host_page_send env ls block s page).1.rs.migration_dirty_pages =
      dec64 s.rs.migration_dirty_pages := by
  obtain ⟨hb, hlen⟩ := ramblock_of_getElem s.ram_list block b hblk
  have hc1 : (migration_bitmap_clear_dirty s block page).1.ram_list =
      s.ram_list.set block { b with bmap := clear_bit page b.bmap } := by
    unfold migration_bitmap_clear_dirty
    simp only [hb, hbit, if_true]
  have hc2 : (migration_bitmap_clear_dirty s block page).1.rs.migration_dirty_pages =
      dec64 s.rs.migration_dirty_pages := by
    unfold migration_bitmap_clear_dirty
    simp only [hb, hbit, if_true]
  obtain ⟨v1, -, -, -, -, v6⟩ := scan_view_fields _ _
    (ram_save_target_page_view env (migration_bitmap_clear_dirty s block page).1 block page ls)
  have ht1 := v1.trans hc1
  have ht2 := v6.trans hc2
  unfold host_page_send
  simp only
  generalize ram_save_target_page env (migration_bitmap_clear_dirty s block page).1 block page
    ls = t at ht1 ht2 ⊢
  have hblk2 : t.1.ram_list[block]? = some { b with bmap := clear_bit page b.bmap } := by
    rw [ht1]
    exact getElem_set_self _ _ _ hlen
  obtain ⟨u1, u2⟩ := clear_unsent_list t.1 block page _ hblk2
  rw [u1, u2, ht1, ht2, List.set_set]
  exact ⟨rfl, rfl⟩

theorem ram_save_host_page_loop_step (env : SaveEnv) (ls : Bool) (block fuel : Nat)
    (s : SaveState) (page : Nat) (pages : Int) :
    ram_save_host_page_loop env ls block (fuel + 1) s page pages =
      if (migration_bitmap_clear_dirty s block page).2 = false then
        if (decide ((page + 1) &&&
              host_page_bits_mask (ramblock s.ram_list block).page_size ≠ 0) &&
            offset_in_ramblock (migration_bitmap_clear_dirty s block page).1.ram_list
              (some block) (((page + 1) <<< TARGET_PAGE_BITS) % 2 ^ 64)) = true then
          ram_save_host_page_loop env ls block fuel (migration_bitmap_clear_dirty s block page).1
            (page + 1) pages
        else some ((migration_bitmap_clear_dirty s block page).1, page, pages)
      else if (host_page_send env ls block s page).2 < 0 then
        some ((ram_save_target_page env (migration_bitmap_clear_dirty s block page).1 block page
          ls).1, page, (host_page_send env ls block s page).2)
      else
        if (decide ((page + 1) &&&
              host_page_bits_mask (ramblock s.ram_list block).page_size ≠ 0) &&
            offset_in_ramblock (host_page_send env ls block s page).1.ram_list
              (some block) (((page + 1) <<< TARGET_PAGE_BITS) % 2 ^ 64)) = true then
          ram_save_host_page_loop env ls block fuel (host_page_send env ls block s page).1
            (page + 1) (pages + (host_page_send env ls block s page).2)
        else some ((host_page_send env ls block s page).1, page,
          pages + (host_page_send env ls block s page).2) := by
  rw [ram_save_host_page_loop]
  simp only [Nat.add_sub_cancel]
  by_cases hc : (migration_bitmap_clear_dirty s block page).2 = true
  · have hc3 : ¬ (migration_bitmap_clear_dirty s block page).2 = false := by simp [hc]
    rw [if_neg hc3]
    simp only [hc, Bool.not_true, Bool.false_eq_true, if_false]
    have hs2 : (host_page_send env ls block s page).2 =
        (ram_save_target_page env (migration_bitmap_clear_dirty s block page).1 block page
          ls).2 := rfl
    have hs1 : (host_page_send env ls block s page).1 =
        clear_unsent (ram_save_target_page env (migration_bitmap_clear_dirty s block page).1
          block page ls).1 block page := rfl
    rw [hs2, hs1]
    by_cases ht : (ram_save_target_page env (migration_bitmap_clear_dirty s block page).1 block
        page ls).2 < 0
    · rw [if_pos ht, if_pos ht]
    · rw [if_neg ht, if_neg ht]
      unfold clear_unsent
      cases (ramblock (ram_save_target_page env (migration_bitmap_clear_dirty s block page).1
          block page ls).1.ram_list block).unsentmap <;> rfl
  · have hc2 : (migration_bitmap_clear_dirty s block page).2 = false := by simpa using hc
    rw [if_pos hc2]
    simp only [hc2, Bool.not_false, if_true]

theorem host_page_cond (l : List RAMBlock) (block n page mask : Nat) (b : RAMBlock)
    (hblk : l[block]? = some b) (hmask : mask = 2 ^ (n - 12) - 1) (hhost : b.host ≠ 0)
    (hu : b.used_length % 4096 = 0) (h64 : b.used_length < 2 ^ 64)
    (hp : page < b.used_length >>> TARGET_PAGE_BITS) :
    (decide ((page + 1) &&& mask ≠ 0) &&
        offset_in_ramblock l (some block) (((page + 1) <<< TARGET_PAGE_BITS) % 2 ^ 64)) = true ↔
      page + 1 < host_page_end (2 ^ (n - 12)) (b.used_length >>> TARGET_PAGE_BITS) page := by
  have hoff : offset_in_ramblock l (some block) (((page + 1) <<< TARGET_PAGE_BITS) % 2 ^ 64) =
      (b.host != 0 && decide (((page + 1) <<< TARGET_PAGE_BITS) % 2 ^ 64 < b.used_length)) := by
    unfold offset_in_ramblock
    simp only [hblk]
  have hh : (b.host != 0) = true := by
    rw [bne_iff_ne]
    exact hhost
  have hand : (page + 1) &&& mask = (page + 1) % 2 ^ (n - 12) := by
    rw [hmask]
    exact Nat.and_pow_two_sub_one_eq_mod _ _
  have hpos : 0 < 2 ^ (n - 12) := Nat.pow_pos (by norm_num)
  rw [hoff, hh, Bool.true_and, Bool.and_eq_true, decide_eq_true_iff, decide_eq_true_iff, hand,
    succ_mod_ne_zero_iff _ _ hpos, shift_lt_used_iff _ _ hu h64 hp]
  unfold host_page_end
  exact (lt_min_iff).symm

theorem dirty_pages_in_cons (bm : Nat → Bool) (page k : Nat) :
    dirty_pages_in bm page (page + k + 1) =
      if bm page then page :: dirty_pages_in bm (page + 1) (page + k + 1)
      else dirty_pages_in bm (page + 1) (page + k + 1) := by
  unfold dirty_pages_in
  have h1 : page + k + 1 - page = (k + 1) := by omega
  have h2 : page + k + 1 - (page + 1) = k := by omega
  rw [h1, h2, List.range'_succ, List.filter_cons]

theorem dirty_pages_in_self (bm : Nat → Bool) (page : Nat) :
    dirty_pages_in bm page page = [] := by
  unfold dirty_pages_in
  rw [Nat.sub_self]
  rfl

theorem dirty_pages_in_clear (bm : Nat → Bool) (page p e : Nat) (h : page < p) :
    dirty_pages_in (clear_bit page bm) p e = dirty_pages_in bm p e := by
  unfold dirty_pages_in
  apply List.filter_congr
  intro x hx
  rw [List.mem_range'_1] at hx
  unfold clear_bit
  rw [if_neg (by omega)]

theorem mem_dirty_pages_in (bm : Nat → Bool) (p e i : Nat) :
    i ∈ dirty_pages_in bm p e ↔ (p ≤ i ∧ i < e) ∧ bm i = true := by
  unfold dirty_pages_in
  rw [List.mem_filter, List.mem_range'_1]
  constructor
  · rintro ⟨⟨h1, h2⟩, h3⟩
    exact ⟨⟨h1, by omega⟩, h3⟩
  · rintro ⟨⟨h1, h2⟩, h3⟩
    exact ⟨⟨h1, by omega⟩, h3⟩

theorem dirty_pages_in_nodup (bm : Nat → Bool) (p e : Nat) :
    (dirty_pages_in bm p e).Nodup := by
  unfold dirty_pages_in
  exact (List.nodup_range' p (e - p)).filter _

theorem host_page_step_clean (env : SaveEnv) (ls : Bool) (block n fuel : Nat) (s : SaveState)
    (page : Nat) (pages : Int) (b : RAMBlock) (h12 : 12 ≤ n) (hn : n < 64)
    (hblk : s.ram_list[block]? = some b) (hP : b.page_size = 2 ^ n) (hhost : b.host ≠ 0)
    (hu : b.used_length % 4096 = 0) (h64 : b.used_length < 2 ^ 64)
    (hp : page < b.used_length >>> TARGET_PAGE_BITS) (hbit : b.bmap page = false) :
    ram_save_host_page_loop env ls block (fuel + 1) s page pages =
      if page + 1 < host_page_end (2 ^ (n - 12)) (b.used_length >>> TARGET_PAGE_BITS) page then
        ram_save_host_page_loop env ls block fuel s (page + 1) pages
      else some (s, page, pages) := by
  obtain ⟨hb, -⟩ := ramblock_of_getElem s.ram_list block b hblk
  have hcd := clear_dirty_clean s block page (by rw [hb]; exact hbit)
  have hcond := host_page_cond s.ram_list block n page
    (host_page_bits_mask (ramblock s.ram_list block).page_size) b hblk
    (by rw [hb, hP]; exact host_page_bits_mask_pow n h12 hn) hhost hu h64 hp
  rw [ram_save_host_page_loop_step, hcd]
  simp only [if_true]
  by_cases hlt : page + 1 < host_page_end (2 ^ (n - 12)) (b.used_length >>> TARGET_PAGE_BITS) page
  · rw [if_pos hlt, if_pos (hcond.mpr hlt)]
  · rw [if_neg hlt, if_neg (fun h => hlt (hcond.mp h))]

theorem host_page_step_dirty (env : SaveEnv) (ls : Bool) (block n fuel : Nat) (s : SaveState)
    (page : Nat) (pages : Int) (b : RAMBlock) (h12 : 12 ≤ n) (hn : n < 64)
    (hblk : s.ram_list[block]? = some b) (hP : b.page_size = 2 ^ n) (hhost : b.host ≠ 0)
    (hu : b.used_length % 4096 = 0) (h64 : b.used_length < 2 ^ 64)
    (hp : page < b.used_length >>> TARGET_PAGE_BITS) (hbit : b.bmap page = true)
    (hok : 0 ≤ (host_page_send env ls block s page).2) :
    ram_save_host_page_loop env ls block (fuel + 1) s page pages =
      (if page + 1 < host_page_end (2 ^ (n - 12)) (b.used_length >>> TARGET_PAGE_BITS) page then
        ram_save_host_page_loop env ls block fuel (host_page_send env ls block s page).1
          (page + 1) (pages + (host_page_send env ls block s page).2)
      else some ((host_page_send env ls block s page).1, page,
        pages + (host_page_send env ls block s page).2)) ∧
    (host_page_send env ls block s page).1.ram_list[block]? =
      some { b with bmap := clear_bit page b.bmap,
                    unsentmap := b.unsentmap.map (clear_bit page) } := by
  obtain ⟨hb, hlen⟩ := ramblock_of_getElem s.ram_list block b hblk
  obtain ⟨f1, -⟩ := host_page_send_fields env ls block s page b hblk hbit
  have hblk2 : (host_page_send env ls block s page).1.ram_list[block]? =
      some { b with bmap := clear_bit page b.bmap,
                    unsentmap := b.unsentmap.map (clear_bit page) } := by
    rw [f1]
    exact getElem_set_self _ _ _ hlen
  refine ⟨?_, hblk2⟩
  have hcd : (migration_bitmap_clear_dirty s block page).2 = true := by
    unfold migration_bitmap_clear_dirty
    simp only [hb, hbit, if_true]
  have hcond := host_page_cond (host_page_send env ls block s page).1.ram_list block n page
    (host_page_bits_mask (ramblock s.ram_list block).page_size) _ hblk2
    (by rw [hb, hP]; exact host_page_bits_mask_pow n h12 hn) hhost hu h64 hp
  rw [ram_save_host_page_loop_step, if_neg (by rw [hcd]; exact Bool.noConfusion),
    if_neg (not_lt.mpr hok)]
  by_cases hlt : page + 1 < host_page_end (2 ^ (n - 12)) (b.used_length >>> TARGET_PAGE_BITS) page
  · rw [if_pos hlt, if_pos (hcond.mpr hlt)]
  · rw [if_neg hlt, if_neg (fun h => hlt (hcond.mp h))]

theorem ram_save_host_page_loop_spec (env : SaveEnv) (ls : Bool) (block n U : Nat)
    (h12 : 12 ≤ n) (hn : n < 64) (hU : U % 4096 = 0) (hU64 : U < 2 ^ 64) :
    ∀ (k fuel : Nat) (s : SaveState) (page : Nat) (pages : Int) (b : RAMBlock),
      s.ram_list[block]? = some b → b.page_size = 2 ^ n → b.host ≠ 0 → b.used_length = U →
      page + k + 1 = host_page_end (2 ^ (n - 12)) (U >>> TARGET_PAGE_BITS) page →
      k + 1 ≤ fuel →
      (∀ x ∈ (host_page_sends env ls block (dirty_pages_in b.bmap page (page + k + 1)) s).2,
        0 ≤ x) →
      ram_save_host_page_loop env ls block fuel s page pages =
        some ((host_page_sends env ls block (dirty_pages_in b.bmap page (page + k + 1)) s).1,
          page + k,
          pages + (host_page_sends env ls block
            (dirty_pages_in b.bmap page (page + k + 1)) s).2.sum) := by
  intro k
  induction k with
  | zero =>
    intro fuel s page pages b hblk hP hhost hlenU he hfuel hok
    obtain ⟨fuel, rfl⟩ : ∃ f, fuel = f + 1 := ⟨fuel - 1, by omega⟩
    have hp : page < U >>> TARGET_PAGE_BITS := by
      have := host_page_end_le (2 ^ (n - 12)) (U >>> TARGET_PAGE_BITS) page
      omega
    have hnlt : ¬ page + 1 < host_page_end (2 ^ (n - 12)) (U >>> TARGET_PAGE_BITS) page := by
      omega
    subst hlenU
    have hcons := dirty_pages_in_cons b.bmap page 0
    rw [Nat.add_zero] at hcons he ⊢
    rw [Nat.add_zero] at hok
    rw [hcons] at hok ⊢
    rw [dirty_pages_in_self] at hok ⊢
    by_cases hbit : b.bmap page = true
    · rw [if_pos hbit] at hok ⊢
      have h0 : 0 ≤ (host_page_send env ls block s page).2 :=
        hok _ (List.mem_cons_self _ _)
      obtain ⟨e1, -⟩ := host_page_step_dirty env ls block n fuel s page pages b h12 hn hblk hP
        hhost hU hU64 hp hbit h0
      rw [e1, if_neg hnlt]
      simp only [host_page_sends, List.sum_cons, List.sum_nil, Int.add_zero, Nat.add_zero]
    · have hbit2 : b.bmap page = false := by simpa using hbit
      rw [if_neg hbit]
      rw [host_page_step_clean env ls block n fuel s page pages b h12 hn hblk hP hhost hU hU64
        hp hbit2, if_neg hnlt]
      simp only [host_page_sends, List.sum_nil, Int.add_zero, Nat.add_zero]
  | succ k ih =>
    intro fuel s page pages b hblk hP hhost hlenU he hfuel hok
    obtain ⟨fuel, rfl⟩ : ∃ f, fuel = f + 1 := ⟨fuel - 1, by omega⟩
    have hp : page < U >>> TARGET_PAGE_BITS := by
      have := host_page_end_le (2 ^ (n - 12)) (U >>> TARGET_PAGE_BITS) page
      omega
    have hlt : page + 1 < host_page_end (2 ^ (n - 12)) (U >>> TARGET_PAGE_BITS) page := by
      omega
    have he2 : page + 1 + k + 1 =
        host_page_end (2 ^ (n - 12)) (U >>> TARGET_PAGE_BITS) (page + 1) := by
      rw [host_page_end_succ _ _ _ hlt]
      omega
    have hidx : page + (k + 1) + 1 = page + 1 + k + 1 := by omega
    have hidx2 : page + (k + 1) = page + 1 + k := by omega
    subst hlenU
    rw [dirty_pages_in_cons b.bmap page (k + 1)] at hok ⊢
    rw [hidx] at hok ⊢
    rw [hidx2]
    by_cases hbit : b.bmap page = true
    · rw [if_pos hbit] at hok ⊢
      have h0 : 0 ≤ (host_page_send env ls block s page).2 :=
        hok _ (List.mem_cons_self _ _)
      obtain ⟨e1, e2⟩ := host_page_step_dirty env ls block n fuel s page pages b h12 hn hblk hP
        hhost hU hU64 hp hbit h0
      rw [e1, if_pos hlt]
      have hd : dirty_pages_in b.bmap (page + 1) (page + 1 + k + 1) =
          dirty_pages_in (clear_bit page b.bmap) (page + 1) (page + 1 + k + 1) :=
        (dirty_pages_in_clear b.bmap page _ _ (Nat.lt_succ_self _)).symm
      rw [hd] at hok ⊢
      have := ih fuel (host_page_send env ls block s page).1 (page + 1)
        (pages + (host_page_send env ls block s page).2) _ e2 hP hhost rfl he2 (by omega)
        (fun x hx => hok x (List.mem_cons_of_mem _ hx))
      rw [this]
      simp only [host_page_sends, List.sum_cons, Int.add_assoc]
    · have hbit2 : b.bmap page = false := by simpa using hbit
      rw [if_neg hbit] at hok ⊢
      rw [host_page_step_clean env ls block n fuel s page pages b h12 hn hblk hP hhost hU hU64
        hp hbit2, if_pos hlt]
      exact ih fuel s (page + 1) pages b hblk hP hhost rfl he2 (by omega) hok

theorem dec64_times_sub : ∀ (k x : Nat), k ≤ x → x < 2 ^ 64 → dec64_times k x = x - k := by
  intro k
  induction k with
  | zero =>
    intro x _ _
    rfl
  | succ k ih =>
    intro x hk hx
    have h264 : (2 : Nat) ^ 64 = 18446744073709551616 := by norm_num
    have hd : dec64 x = x - 1 := by
      unfold dec64
      rw [Nat.mod_eq_of_lt hx, if_neg (by omega)]
    rw [dec64_times, hd, ih (x - 1) (by omega) (by omega)]
    omega

theorem host_page_sends_fields (env : SaveEnv) (ls : Bool) (block : Nat) :
    ∀ (L : List Nat) (s : SaveState) (b : RAMBlock),
      s.ram_list[block]? = some b → L.Nodup → (∀ x ∈ L, b.bmap x = true) →
      ∃ b2, (host_page_sends env ls block L s).1.ram_list[block]? = some b2 ∧
        b2.layout = b.layout ∧
        (∀ i, b2.bmap i = (b.bmap i && !decide (i ∈ L))) ∧
        (b.unsentmap = none → b2.unsentmap = none) ∧
        (∀ m, b.unsentmap = some m →
          ∃ m2, b2.unsentmap = some m2 ∧ ∀ i, m2 i = (m i && !decide (i ∈ L))) ∧
        (∀ j, j ≠ block →
          (host_page_sends env ls block L s).1.ram_list[j]? = s.ram_list[j]?) ∧
        (host_page_sends env ls block L s).1.rs.migration_dirty_pages =
          dec64_times L.length s.rs.migration_dirty_pages := by
  intro L
  induction L with
  | nil =>
    intro s b hblk _ _
    refine ⟨b, hblk, rfl, ?_, fun h => h, ?_, fun _ _ => rfl, rfl⟩
    · intro i
      simp
    · intro m hm
      exact ⟨m, hm, fun i => by simp⟩
  | cons x L ih =>
    intro s b hblk hnd hall
    obtain ⟨hb, hlen⟩ := ramblock_of_getElem s.ram_list block b hblk
    have hx : b.bmap x = true := hall x (List.mem_cons_self _ _)
    obtain ⟨f1, f2⟩ := host_page_send_fields env ls block s x b hblk hx
    have hblk1 : (host_page_send env ls block s x).1.ram_list[block]? =
        some { b with bmap := clear_bit x b.bmap,
                      unsentmap := b.unsentmap.map (clear_bit x) } := by
      rw [f1]
      exact getElem_set_self _ _ _ hlen
    have hxL : x ∉ L := (List.nodup_cons.mp hnd).1
    obtain ⟨b2, g1, g2, g3, g4, g5, g6, g7⟩ := ih (host_page_send env ls block s x).1 _ hblk1
      (List.nodup_cons.mp hnd).2
      (by
        intro y hy
        show clear_bit x b.bmap y = true
        unfold clear_bit
        have hyx : ¬ y = x := by
          intro h
          rw [h] at hy
          exact hxL hy
        rw [if_neg hyx]
        exact hall y (List.mem_cons_of_mem _ hy))
    refine ⟨b2, g1, g2, ?_, ?_, ?_, ?_, ?_⟩
    · intro i
      rw [g3 i]
      show (clear_bit x b.bmap i && !decide (i ∈ L)) = (b.bmap i && !decide (i ∈ x :: L))
      unfold clear_bit
      by_cases hi : i = x
      · subst hi
        simp
      · simp [hi]
    · intro hnone
      apply g4
      show b.unsentmap.map (clear_bit x) = none
      rw [hnone]
      rfl
    · intro m hm
      obtain ⟨m2, k1, k2⟩ := g5 (clear_bit x m) (by
        show b.unsentmap.map (clear_bit x) = some (clear_bit x m)
        rw [hm]
        rfl)
      refine ⟨m2, k1, ?_⟩
      intro i
      rw [k2 i]
      unfold clear_bit
      by_cases hi : i = x
      · subst hi
        simp
      · simp [hi]
    · intro j hj
      show (host_page_sends env ls block L (host_page_send env ls block s x).1).1.ram_list[j]? = _
      rw [g6 j hj, f1, List.getElem?_set_ne (Ne.symm hj)]
    · show (host_page_sends env ls block L
        (host_page_send env ls block s x).1).1.rs.migration_dirty_pages = _
      rw [g7, f2]
      rfl

/-- C37 (postcondition of `ram_save_host_page`): let the cursor point to the page `p` of
a migratable block with host memory whose host page is `2 ^ n` bytes (`12 ≤ n < 64`) and
whose used length is a whole number of target pages, `p` being inside the used length.
Let `e` be the lesser of the next host-page boundary above `p` and the number of used
pages, and let every `ram_save_target_page` call made for the dirty pages of `[p, e)`, in
ascending order and each on the state the previous one left, return a value that is not
negative.  Then `ram_save_host_page` returns, having made exactly these sends; the dirty
bits of `[p, e)` are cleared and every other dirty bit of the block is as before; the
unsent bits of the pages sent are cleared when the block has an unsent map, and every
other unsent bit is as before; the other blocks are untouched;
`migration_dirty_pages` has been decremented once per dirty page of `[p, e)`; the result
is the sum of the per-page results, and the cursor is left at `e - 1`. -/
theorem ram_save_host_page_post (env : SaveEnv) (s : SaveState) (pss : PageSearchStatus)
    (ls : Bool) (block n e : Nat) (b : RAMBlock) (L : List Nat)
    (hpb : pss.block = some block) (hblk : s.ram_list[block]? = some b)
    (hm : b.migratable = true) (hhost : b.host ≠ 0)
    (hP : b.page_size = 2 ^ n) (h12 : 12 ≤ n) (hn : n < 64)
    (hu : b.used_length % TARGET_PAGE_SIZE = 0) (h64 : b.used_length < 2 ^ 64)
    (hp : pss.page < b.used_length >>> TARGET_PAGE_BITS)
    (he : e = host_page_end (b.page_size >>> TARGET_PAGE_BITS)
      (b.used_length >>> TARGET_PAGE_BITS) pss.page)
    (hL : L = dirty_pages_in b.bmap pss.page e)
    (hok : ∀ x ∈ (host_page_sends env ls block L s).2, 0 ≤ x) :
    ram_save_host_page env s pss ls =
      some ((host_page_sends env ls block L s).1, { pss with page := e - 1 },
        (host_page_sends env ls block L s).2.sum) ∧
    (∀ i, i ∈ L ↔ (pss.page ≤ i ∧ i < e) ∧ b.bmap i = true) ∧
    (∃ b2, (host_page_sends env ls block L s).1.ram_list[block]? = some b2 ∧
      b2.layout = b.layout ∧
      (∀ i, b2.bmap i = (b.bmap i && !decide (pss.page ≤ i ∧ i < e))) ∧
      (b.unsentmap = none → b2.unsentmap = none) ∧
      (∀ m, b.unsentmap = some m →
        ∃ m2, b2.unsentmap = some m2 ∧
          ∀ i, m2 i = (m i && !decide ((pss.page ≤ i ∧ i < e) ∧ b.bmap i = true)))) ∧
    (∀ j, j ≠ block → (host_page_sends env ls block L s).1.ram_list[j]? = s.ram_list[j]?) ∧
    (host_page_sends env ls block L s).1.rs.migration_dirty_pages =
      dec64_times L.length s.rs.migration_dirty_pages ∧
    (L.length ≤ s.rs.migration_dirty_pages → s.rs.migration_dirty_pages < 2 ^ 64 →
      (host_page_sends env ls block L s).1.rs.migration_dirty_pages =
        s.rs.migration_dirty_pages - L.length) := by
  have hT : TARGET_PAGE_SIZE = 4096 := rfl
  have hTB : TARGET_PAGE_BITS = 12 := rfl
  rw [hT] at hu
  obtain ⟨hb, hlen⟩ := ramblock_of_getElem s.ram_list block b hblk
  have hr : b.page_size >>> TARGET_PAGE_BITS = 2 ^ (n - 12) := by
    rw [hP, hTB, Nat.shiftRight_eq_div_pow, Nat.pow_div h12 (by norm_num)]
  rw [hr] at he
  have hgt := host_page_end_gt (2 ^ (n - 12)) (b.used_length >>> TARGET_PAGE_BITS) pss.page
    (Nat.pow_pos (by norm_num)) hp
  have hle := host_page_end_le (2 ^ (n - 12)) (b.used_length >>> TARGET_PAGE_BITS) pss.page
  rw [← he] at hgt hle
  have hmem : ∀ i, i ∈ L ↔ (pss.page ≤ i ∧ i < e) ∧ b.bmap i = true := by
    intro i
    rw [hL]
    exact mem_dirty_pages_in _ _ _ _
  have hek : pss.page + (e - pss.page - 1) + 1 = e := by omega
  have hloop := ram_save_host_page_loop_spec env ls block n b.used_length h12 hn hu h64
    (e - pss.page - 1) ((b.used_length >>> TARGET_PAGE_BITS) + 2) s pss.page 0 b hblk hP hhost
    rfl (by rw [hek]; exact he) (by omega) (by rw [hek, ← hL]; exact hok)
  rw [hek, ← hL, Int.zero_add] at hloop
  have hpm : pss.page + (e - pss.page - 1) = e - 1 := by omega
  rw [hpm] at hloop
  obtain ⟨b2, g1, g2, g3, g4, g5, g6, g7⟩ := host_page_sends_fields env ls block L s b hblk
    (by rw [hL]; exact dirty_pages_in_nodup _ _ _)
    (fun x hx => ((hmem x).mp hx).2)
  refine ⟨?_, hmem, ⟨b2, g1, g2, ?_, g4, ?_⟩, g6, g7, ?_⟩
  · unfold ram_save_host_page
    simp only [hpb, block_index, hb, hm, Bool.not_true, Bool.false_eq_true, if_false, hloop]
  · intro i
    rw [g3 i]
    by_cases hi : pss.page ≤ i ∧ i < e
    · by_cases hbi : b.bmap i = true
      · have : i ∈ L := (hmem i).mpr ⟨hi, hbi⟩
        simp [this, hi]
      · have hbi2 : b.bmap i = false := by simpa using hbi
        simp [hbi2]
    · have : i ∉ L := fun h => hi ((hmem i).mp h).1
      simp [this, hi]
  · intro m hm2
    obtain ⟨m2, k1, k2⟩ := g5 m hm2
    refine ⟨m2, k1, ?_⟩
    intro i
    rw [k2 i]
    congr 2
    exact decide_eq_decide.mpr (hmem i)
  · intro h1 h2
    rw [g7]
    exact dec64_times_sub _ _ h1 h2

/-- Witness of C37: with 16384-byte host pages, the pages 1, 2 and 6 dirty and the cursor
on page 1, `ram_save_host_page` sends the pages 1 and 2, returns 2 and leaves the cursor
on page 3, the last page of the first host page; `migration_dirty_pages` goes from 3
to 1. -/
theorem ram_save_host_page_post_witness :
    ram_save_host_page plain_save_env partial_dirty_state cursor_page_one false =
      some ((host_page_sends plain_save_env false 0 [1, 2] partial_dirty_state).1,
        { cursor_page_one with page := 3 },
        (host_page_sends plain_save_env false 0 [1, 2] partial_dirty_state).2.sum) ∧
    (host_page_sends plain_save_env false 0 [1, 2] partial_dirty_state).2 = [1, 1] ∧
    (host_page_sends plain_save_env false 0 [1, 2]
      partial_dirty_state).1.rs.migration_dirty_pages = 1 :=
  have h := ram_save_host_page_post plain_save_env partial_dirty_state cursor_page_one false
    0 14 4
    { huge_ram with
        bmap := fun i => decide (i = 1 ∨ i = 2 ∨ i = 6),
        unsentmap := some (fun i => decide (i < 8)) }
    [1, 2] rfl rfl rfl (by decide) rfl (by decide) (by decide) (by decide) (by decide)
    (by decide) (by decide) (by decide) (by decide!)
  ⟨h.1, by decide!, h.2.2.2.2.2 (by decide) (by decide)⟩

/-! ## C6: CONTINUE frames on the wire -/

/-- When the bulk stage ends while the compression worker holds a page of region A, the
frame of that page reaches the stream after a frame that names region B: the stream
holds a frame naming A, a frame naming B and then a frame with CONTINUE sent for A. -/
theorem held_back_frame_order :
    (trace_calls squeeze_env (SenderTrace.start bulk_ab_state) held_back_calls).sent.map
        (fun x => (named x, continues x)) =
      [(some 0, none), (some 1, none), (none, some 0)] ∧
    (trace_calls squeeze_env (SenderTrace.start bulk_ab_state) held_back_calls).pending = [] := by
  decide!

end Migration
